import Mathlib

/-!
KDecoration2 button groups: a shallow embedding of `decorationbuttongroup.cpp`.

The embedding follows `src/src/decorationbuttongroup.cpp` function by function.

* A `qreal` (a C++ `double`) is kept as the rational number it denotes, and every
  addition the code performs is rounded to the nearest double (`fadd`); NaN and the
  infinities are outside the model.  The conversion of a `qreal` to the 32-bit `int`
  performed by `QPoint(position, pos.y())` is `qrealToInt`: truncation toward zero
  in the range of `int`.  The results that give sizes and positions by exact sums
  are stated for the values on which the additions do not round and the conversions
  stay in range (`ExactLayout`).
  Equality of `QRectF` / `QPointF` values is exact equality of their coordinates.
* Objects live in a heap (`World.heap`); a `QPointer<DecorationButton>` is an
  address into it, and it is null exactly when the object at that address has been
  destroyed (or never existed).  Dereferencing a null pointer is the fault
  `Fault.nullDeref`.
* Signal/slot connections made by `addButton` are stored in the sender.  An
  emission runs the connected slots synchronously, in connection order.  The only
  slot this file connects is `updateLayout`, and the mutual recursion
  `updateLayout → setGeometry → emit → updateLayout` is bounded by a fuel counting
  the nesting depth of slot invocations (`Fault.outOfFuel`).
* Every signal emission is recorded in `World.emitted`; so are the calls of the
  pure virtual `DecorationButton::paint` and the requests a button sends to the
  client.
* The implementation of `DecorationButton` is not part of the sources at hand (its
  test `autotests/decorationbuttontest.cpp` is).  Its setters and its event handling
  are modelled from the specification; each such definition says so.
* The client (the object that represents the managed window) is external as well:
  its state, the way it serves a request and the notifications that reach a button
  are modelled from the specification.
-/

namespace KDecoration2

/-- The C++ type `qreal` (a `double`).  A finite double is a rational number: the
model keeps the value as that rational, and rounds the result of every addition the
code performs to the nearest double (`fadd`).  NaN and the infinities have no
counterpart in the model; the results on sizes and positions are stated for values
that keep every sum far below the overflow threshold of a double. -/
abbrev qreal := ℚ

/-- The power `2 ^ k` for an integer exponent. -/
def twoPow (k : Int) : ℚ :=
  if 0 ≤ k then ((2 ^ k.toNat : Nat) : ℚ) else 1 / ((2 ^ (-k).toNat : Nat) : ℚ)

/-- The integer nearest to `q`, the even one of the two if `q` is half-way between
two integers (the IEEE 754 default rounding). -/
def roundHalfEven (q : ℚ) : Int :=
  if q - (Rat.floor q : ℚ) < 1 / 2 then Rat.floor q
  else if 1 / 2 < q - (Rat.floor q : ℚ) then Rat.floor q + 1
  else if Rat.floor q % 2 = 0 then Rat.floor q else Rat.floor q + 1

/-- The position of the highest set bit of `n` (0 for `n < 2`), found in at most
`fuel` halvings. -/
def bitLog : Nat → Nat → Nat
  | 0, _ => 0
  | fuel + 1, n => if n < 2 then 0 else bitLog fuel (n / 2) + 1

/-- The binary exponent of `q ≠ 0`: the `e` with `2 ^ e ≤ |q| < 2 ^ (e + 1)`.  The
2200 halvings suffice for every sum of two doubles (numerator and denominator
below `2 ^ 2200`). -/
def binaryExponent (q : ℚ) : Int :=
  if |q| < twoPow ((bitLog 2200 q.num.natAbs : Int) - (bitLog 2200 q.den : Int))
  then (bitLog 2200 q.num.natAbs : Int) - (bitLog 2200 q.den : Int) - 1
  else (bitLog 2200 q.num.natAbs : Int) - (bitLog 2200 q.den : Int)

/-- Rounding of an exact value to the nearest `double` (binary64: 53 significant
bits, least exponent -1022, subnormal numbers below it), ties to even.  A value
beyond the largest double, which the machine rounds to an infinity, is outside the
model (see `qreal`). -/
def roundToDouble (q : ℚ) : ℚ :=
  if q = 0 then 0
  else (roundHalfEven (q / twoPow (max (binaryExponent q) (-1022) - 52)) : ℚ)
    * twoPow (max (binaryExponent q) (-1022) - 52)

/-- The C++ addition of two `double`s: the exact sum, rounded to the nearest double. -/
def fadd (a b : qreal) : qreal := roundToDouble (a + b)

/-- Truncation toward zero. -/
def truncate (q : ℚ) : Int := Int.tdiv q.num q.den

/-- The implicit conversion `double → int` (a 32-bit `int`) performed by
`QPoint(position, pos.y())`: truncation toward zero when the truncated value is in
the range of `int`.  For a value out of that range C++ leaves the conversion
undefined; the conversion instruction of x86-64 then yields the least `int`,
-2147483648, and so does the model. -/
def qrealToInt (q : qreal) : Int :=
  if -2147483648 ≤ truncate q ∧ truncate q ≤ 2147483647 then truncate q else -2147483648

/-- The enum `DecorationButtonType` (the members named in the specification). -/
inductive DecorationButtonType where
  | Menu
  | ApplicationMenu
  | OnAllDesktops
  | Minimize
  | Maximize
  | Close
  | ContextHelp
  | QuickHelp
  | Shade
  | KeepBelow
  | KeepAbove
  | Spacer
  | Custom
  deriving DecidableEq, Repr

/-- The type `QSize`: width and height of type `int`.  An `int` has 32 bits; the
model does not bound the fields, and a state of the program has every one of them in
the range of `int`. -/
structure QSize where
  width : Int
  height : Int
  deriving DecidableEq, Repr

/-- The type `QRect`, kept as top-left corner and size (all of type `int`, see
`QSize`).  The layout stores in it only coordinates obtained by `qrealToInt`, which
are in the range of `int`, and sizes that buttons reported. -/
structure QRect where
  x : Int
  y : Int
  width : Int
  height : Int
  deriving DecidableEq, Repr

/-- The type `QPointF`. -/
structure QPointF where
  x : qreal
  y : qreal
  deriving DecidableEq

/-- The type `QRectF`: top-left corner and size, all of type `qreal`. -/
structure QRectF where
  x : qreal
  y : qreal
  width : qreal
  height : qreal
  deriving DecidableEq

/-- The accessor `QRect::size()`. -/
def QRect.size (r : QRect) : QSize := { width := r.width, height := r.height }

/-- The accessor `QRectF::topLeft()`. -/
def QRectF.topLeft (r : QRectF) : QPointF := { x := r.x, y := r.y }

/-- The enum `Qt::MouseButton`: the pointer-button identifiers. -/
inductive MouseButton where
  | LeftButton
  | RightButton
  | MiddleButton
  | BackButton
  | ForwardButton
  deriving DecidableEq, Repr

/-- The type `QPoint`: coordinates of type `int`. -/
structure QPoint where
  x : Int
  y : Int
  deriving DecidableEq, Repr

/-- Modelled from the spec: the state of a `DecorationButton` (declared in
`decorationbutton.h`, implemented outside `src/`): its semantic type, the boolean
flags, its geometry, the set of pointer buttons it reacts to, and the slots that
`addButton` connected to its `visibilityChanged` and `geometryChanged` signals
(group ids, in connection order).  The flag `pressed` of the specification is
`isPressed` below: the button keeps the pointer buttons that are currently held on
it, because `testMaximize` (lines 712-745 of the test) requires a button on which
two pointer buttons were pressed to stay pressed until the second one is released.
The defaults are those `testButton` checks for a `Custom` button. -/
structure DecorationButton where
  type : DecorationButtonType
  visible : Bool := true
  geometry : QRect := { x := 0, y := 0, width := 0, height := 0 }
  visibilityChangedSlots : List Nat := []
  geometryChangedSlots : List Nat := []
  enabled : Bool := true
  checkable : Bool := false
  checked : Bool := false
  hovered : Bool := false
  pressedButtons : List MouseButton := []
  acceptedButtons : List MouseButton := [MouseButton.LeftButton]
  deriving DecidableEq

/-- Modelled from the spec: `DecorationButton::isPressed()`, the flag `pressed`. -/
def DecorationButton.isPressed (b : DecorationButton) : Bool := !b.pressedButtons.isEmpty

/-- Modelled from the spec: `DecorationButton::size()`, the size of the geometry. -/
def DecorationButton.size (b : DecorationButton) : QSize := b.geometry.size

/-- The class `DecorationButtonGroup::Private` (the `decoration` and `q` back
pointers are the group's index in `World.groups`). -/
structure DecorationButtonGroup.Private where
  geometry : QRectF := { x := 0, y := 0, width := 0, height := 0 }
  spacing : qreal := 0
  buttons : List Nat := []
  deriving DecidableEq

/-- The enum `DecorationButtonGroup::Position`. -/
inductive DecorationButtonGroup.Position where
  | Left
  | Right
  deriving DecidableEq, Repr

/-- Modelled from the spec: the settings provider, which exposes per side an
ordered sequence of button types. -/
structure DecorationSettings where
  decorationButtonsLeft : List DecorationButtonType := []
  decorationButtonsRight : List DecorationButtonType := []
  deriving DecidableEq

/-- Modelled from the spec: the requests a button can send to the client. -/
inductive ClientRequest where
  | close
  | minimize
  | contextHelp
  | toggleKeepAbove
  | toggleKeepBelow
  | toggleShade
  | toggleMaximize
  | toggleMaximizeVertical
  | toggleMaximizeHorizontal
  deriving DecidableEq, Repr

/-- The signals whose emission is recorded, together with the two kinds of outgoing
calls that are recorded in the same way: a `paint` call on a button (with the
identities of the painter and of the repaint region) and a request to the client. -/
inductive Signal where
  | geometryChanged (group : Nat) (geo : QRectF)
  | spacingChanged (group : Nat) (spacing : qreal)
  | buttonGeometryChanged (button : Nat) (geo : QRect)
  | buttonVisibilityChanged (button : Nat) (visible : Bool)
  | enabledChanged (button : Nat) (enabled : Bool)
  | checkableChanged (button : Nat) (checkable : Bool)
  | checkedChanged (button : Nat) (checked : Bool)
  | hoveredChanged (button : Nat) (hovered : Bool)
  | pressedChanged (button : Nat) (pressed : Bool)
  | acceptedButtonsChanged (button : Nat) (buttons : List MouseButton)
  | clicked (button : Nat) (mouseButton : MouseButton)
  | paintCall (button : Nat) (painter : Nat) (repaintRegion : Nat)
  | clientRequest (button : Nat) (request : ClientRequest)
  deriving DecidableEq

/-- What can go wrong while running the code. -/
inductive Fault where
  | nullDeref
  | assertFailed
  | noSuchGroup
  | outOfFuel
  deriving DecidableEq, Repr

/-- Decidable equality of results, so that closed instances can be evaluated. -/
instance instDecidableEqResult {ε α : Type} [DecidableEq ε] [DecidableEq α] :
    DecidableEq (Except ε α)
  | .ok a, .ok b =>
    if h : a = b then isTrue (congrArg Except.ok h)
    else isFalse (fun h1 => h (Except.ok.inj h1))
  | .error a, .error b =>
    if h : a = b then isTrue (congrArg Except.error h)
    else isFalse (fun h1 => h (Except.error.inj h1))
  | .ok _, .error _ => isFalse (fun h => Except.noConfusion h)
  | .error _, .ok _ => isFalse (fun h => Except.noConfusion h)

/-- The program state: the heap of buttons (`none` marks a destroyed button), the
groups, the settings, the file-level flag `s_layoutRecursion` shared by all
groups, and the record of emitted signals. -/
structure World where
  heap : List (Option DecorationButton) := []
  groups : List DecorationButtonGroup.Private := []
  settings : DecorationSettings := {}
  s_layoutRecursion : Bool := false
  emitted : List Signal := []
  deriving DecidableEq

/-- The operation `QPointer::data()`: the live object a pointer refers to, if any. -/
def World.data (w : World) (p : Nat) : Option DecorationButton :=
  match w.heap[p]? with
  | some (some b) => some b
  | _ => none

/-- The operation `QPointer::isNull()`. -/
def World.isNull (w : World) (p : Nat) : Bool := (w.data p).isNone

/-- Equality of two `QPointer`s: both null, or both referring to the same live object. -/
def World.ptrEq (w : World) (p q : Nat) : Bool :=
  match w.data p, w.data q with
  | none, none => true
  | some _, some _ => decide (p = q)
  | _, _ => false

/-- Overwrite the button stored at address `p`. -/
def World.store (w : World) (p : Nat) (b : DecorationButton) : World :=
  { w with heap := w.heap.set p (some b) }

/-- Record an emitted signal. -/
def World.record (w : World) (s : Signal) : World :=
  { w with emitted := w.emitted ++ [s] }

/-- Run the slots connected to a signal, synchronously and in connection order.
Each slot is a group's `updateLayout`, passed as `slot`. -/
def emit (slot : Nat → World → Except Fault World) : List Nat → World → Except Fault World
  | [], w => .ok w
  | g :: gs, w =>
    match slot g w with
    | .ok w1 => emit slot gs w1
    | .error e => .error e

/-- Modelled from the spec: `DecorationButton::setGeometry`, which replaces the
geometry, is a no-op without notification if it is unchanged, and otherwise
notifies (`geometryChanged`). -/
def DecorationButton.setGeometry (slot : Nat → World → Except Fault World)
    (p : Nat) (geo : QRect) (w : World) : Except Fault World :=
  match w.data p with
  | none => .error .nullDeref
  | some b =>
    if b.geometry = geo then .ok w
    else
      emit slot b.geometryChangedSlots
        ((w.store p { b with geometry := geo }).record (.buttonGeometryChanged p geo))

/-- Modelled from the spec: the reset of `pressed` ("it resets to false on release
or on `enabled`/`visible` transitioning to false"): every held pointer button is
forgotten, with a `pressedChanged(false)` notification if the button was pressed. -/
def DecorationButton.resetPressed (p : Nat) (w : World) : Except Fault World :=
  match w.data p with
  | none => .error .nullDeref
  | some b =>
    if b.pressedButtons = [] then .ok w
    else .ok ((w.store p { b with pressedButtons := [] }).record (.pressedChanged p false))

/-- Modelled from the spec: `DecorationButton::setVisible`, a no-op without
notification when the value is unchanged, otherwise the flag is updated and
`visibilityChanged` is emitted; a button that becomes invisible stops being
pressed. -/
def DecorationButton.setVisible (slot : Nat → World → Except Fault World)
    (p : Nat) (visible : Bool) (w : World) : Except Fault World :=
  match w.data p with
  | none => .error .nullDeref
  | some b =>
    if b.visible = visible then .ok w
    else
      match emit slot b.visibilityChangedSlots
          ((w.store p { b with visible := visible }).record
            (.buttonVisibilityChanged p visible)) with
      | .error e => .error e
      | .ok w1 => if visible then .ok w1 else DecorationButton.resetPressed p w1

/-- Modelled from the spec: the setter of the flag `hovered` (used by the event
handlers and by `setEnabled`): a no-op without notification when the value is
unchanged, otherwise the flag is updated and `hoveredChanged` is emitted. -/
def DecorationButton.setHovered (p : Nat) (hovered : Bool) (w : World) : Except Fault World :=
  match w.data p with
  | none => .error .nullDeref
  | some b =>
    if b.hovered = hovered then .ok w
    else .ok ((w.store p { b with hovered := hovered }).record (.hoveredChanged p hovered))

/-- Modelled from the spec: the setter of `pressed` for one pointer button (used by
the event handlers).  Pressing adds the pointer button to the held ones, releasing
removes it; `pressedChanged` is emitted when the flag `pressed` (some pointer button
is held) changes, and nothing happens when the held buttons stay the same. -/
def DecorationButton.setPressed (p : Nat) (button : MouseButton) (pressed : Bool) (w : World) :
    Except Fault World :=
  match w.data p with
  | none => .error .nullDeref
  | some b =>
    if (if pressed then
          (if button ∈ b.pressedButtons then b.pressedButtons else b.pressedButtons ++ [button])
        else b.pressedButtons.filter (fun m => decide (m ≠ button))) = b.pressedButtons then .ok w
    else if pressed then
      (if b.pressedButtons = [] then
        .ok ((w.store p { b with pressedButtons := [button] }).record (.pressedChanged p true))
      else .ok (w.store p { b with pressedButtons := b.pressedButtons ++ [button] }))
    else
      (if b.pressedButtons.filter (fun m => decide (m ≠ button)) = [] then
        .ok ((w.store p { b with pressedButtons := [] }).record (.pressedChanged p false))
      else
        .ok (w.store p
          { b with pressedButtons := b.pressedButtons.filter (fun m => decide (m ≠ button)) }))

/-- Modelled from the spec: `DecorationButton::setEnabled`, a no-op without
notification when the value is unchanged; otherwise the flag is updated and
`enabledChanged` is emitted, and a button that becomes disabled stops being hovered
(with notification) and stops being pressed. -/
def DecorationButton.setEnabled (p : Nat) (enabled : Bool) (w : World) : Except Fault World :=
  match w.data p with
  | none => .error .nullDeref
  | some b =>
    if b.enabled = enabled then .ok w
    else if enabled then
      .ok ((w.store p { b with enabled := enabled }).record (.enabledChanged p enabled))
    else
      match DecorationButton.setHovered p false
          ((w.store p { b with enabled := enabled }).record (.enabledChanged p enabled)) with
      | .error e => .error e
      | .ok w1 => DecorationButton.resetPressed p w1

/-- Modelled from the spec: `DecorationButton::setCheckable`, a no-op without
notification when the value is unchanged; otherwise the flag is updated and
`checkableChanged` is emitted, and if the button is checked while `checkable`
becomes false, `checked` is forced to false and `checkedChanged` is emitted next. -/
def DecorationButton.setCheckable (p : Nat) (checkable : Bool) (w : World) : Except Fault World :=
  match w.data p with
  | none => .error .nullDeref
  | some b =>
    if b.checkable = checkable then .ok w
    else if !checkable && b.checked then
      .ok (((w.store p { b with checkable := checkable, checked := false }).record
        (.checkableChanged p checkable)).record (.checkedChanged p false))
    else
      .ok ((w.store p { b with checkable := checkable }).record (.checkableChanged p checkable))

/-- Modelled from the spec: `DecorationButton::setChecked`.  `checked` can only be
true while `checkable` is true, so the call does nothing on a button that is not
checkable (as `testChecked` checks); otherwise it is a no-op without notification
when the value is unchanged, and else updates the flag and emits `checkedChanged`. -/
def DecorationButton.setChecked (p : Nat) (checked : Bool) (w : World) : Except Fault World :=
  match w.data p with
  | none => .error .nullDeref
  | some b =>
    if !b.checkable || b.checked = checked then .ok w
    else .ok ((w.store p { b with checked := checked }).record (.checkedChanged p checked))

/-- Modelled from the spec: `DecorationButton::setAcceptedButtons`, a no-op without
notification when the value is unchanged. -/
def DecorationButton.setAcceptedButtons (p : Nat) (buttons : List MouseButton) (w : World) :
    Except Fault World :=
  match w.data p with
  | none => .error .nullDeref
  | some b =>
    if b.acceptedButtons = buttons then .ok w
    else
      .ok ((w.store p { b with acceptedButtons := buttons }).record
        (.acceptedButtonsChanged p buttons))

/-- Modelled from the spec: whether a position "lies within" a geometry. -/
def QRect.contains (r : QRect) (pos : QPoint) : Bool :=
  decide (r.x ≤ pos.x) && decide (pos.x < r.x + r.width) &&
    decide (r.y ≤ pos.y) && decide (pos.y < r.y + r.height)

/-- Modelled from the spec: the pointer events a button consumes
(`kind`, `position`, `pointer-button identifier`). -/
inductive ButtonEvent where
  | HoverEnter
  | HoverLeave
  | ButtonPress (pos : QPoint) (button : MouseButton)
  | ButtonRelease (pos : QPoint) (button : MouseButton)
  deriving DecidableEq

/-- Modelled from the spec: the type-specific request sent to the client when a
button of type `type` is clicked with the pointer button `button`, if any. -/
def clickRequest (type : DecorationButtonType) (button : MouseButton) : Option ClientRequest :=
  match type with
  | .Close => some .close
  | .Minimize => some .minimize
  | .QuickHelp => some .contextHelp
  | .KeepAbove => some .toggleKeepAbove
  | .KeepBelow => some .toggleKeepBelow
  | .Shade => some .toggleShade
  | .Maximize =>
    match button with
    | .LeftButton => some .toggleMaximize
    | .RightButton => some .toggleMaximizeVertical
    | .MiddleButton => some .toggleMaximizeHorizontal
    | _ => none
  | _ => none

/-- Modelled from the spec: the event handling of a button (`handleEvent`).  The
result is the new state together with the `accepted` flag of the event, which the
handler is given as `accepted` and only ever sets.
* Hover enter/leave: accepted, and `hovered` set, only if the button is enabled.
* Press: accepted, and the pointer button held, only if the button is visible and
  enabled, the position lies within the geometry and the pointer button is among
  the accepted ones.
* Release: if the pointer button is held on the button, it is released (`pressed`
  becomes false when it was the last one), `clicked` is emitted, the type-specific
  request is sent to the client, and the event is accepted. -/
def DecorationButton.event (p : Nat) (e : ButtonEvent) (accepted : Bool) (w : World) :
    Except Fault (World × Bool) :=
  match w.data p with
  | none => .error .nullDeref
  | some b =>
    match e with
    | .HoverEnter =>
      if !b.enabled then .ok (w, accepted)
      else
        match DecorationButton.setHovered p true w with
        | .error err => .error err
        | .ok w1 => .ok (w1, true)
    | .HoverLeave =>
      if !b.enabled then .ok (w, accepted)
      else
        match DecorationButton.setHovered p false w with
        | .error err => .error err
        | .ok w1 => .ok (w1, true)
    | .ButtonPress pos button =>
      if !(b.visible && b.enabled && b.geometry.contains pos
            && decide (button ∈ b.acceptedButtons)) then .ok (w, accepted)
      else
        match DecorationButton.setPressed p button true w with
        | .error err => .error err
        | .ok w1 => .ok (w1, true)
    | .ButtonRelease _ button =>
      if !decide (button ∈ b.pressedButtons) then .ok (w, accepted)
      else
        match DecorationButton.setPressed p button false w with
        | .error err => .error err
        | .ok w1 =>
          match clickRequest b.type button with
          | none => .ok (w1.record (.clicked p button), true)
          | some r => .ok ((w1.record (.clicked p button)).record (.clientRequest p r), true)

/-- Modelled from the spec: the state of a newly constructed button of type `type`.
`Custom`, `Close`, `Minimize` and `QuickHelp` buttons are not checkable,
`KeepAbove`, `KeepBelow`, `Shade` and `Maximize` buttons are; a `Maximize` button
accepts the primary, middle and secondary pointer buttons, every other one the
primary button only; no button is checked, hovered or pressed.  The button is
enabled and visible; the bindings of `enabled`, `visible` and `checked` to the client
change that through `DecorationButton.clientChanged`. -/
def DecorationButton.create (type : DecorationButtonType) : DecorationButton :=
  { type := type
    checkable := decide (type = .KeepAbove ∨ type = .KeepBelow ∨ type = .Shade ∨ type = .Maximize)
    acceptedButtons :=
      if type = .Maximize then [.LeftButton, .MiddleButton, .RightButton] else [.LeftButton] }

/-- Modelled from the spec: the state of the client, the external object that
represents the managed window (section 6 of the specification), as far as buttons
depend on it: its capabilities and its window states.  The client is not part of the
sources at hand; the tests drive a mock of it. -/
structure Client where
  closeable : Bool := false
  minimizable : Bool := false
  maximizable : Bool := false
  shadeable : Bool := false
  providesContextHelp : Bool := false
  maximizedHorizontally : Bool := false
  maximizedVertically : Bool := false
  keepAbove : Bool := false
  keepBelow : Bool := false
  shaded : Bool := false
  deriving DecidableEq

/-- Modelled from the spec: the client is maximized when it is maximized in both
dimensions. -/
def Client.isMaximized (c : Client) : Bool :=
  c.maximizedHorizontally && c.maximizedVertically

/-- Modelled from the spec: the state of the client after it has serviced a request.
Close, minimize and context help change none of the states above; the toggles flip
their flag; "toggle maximize" restores a fully maximized client and fully maximizes
any other; the vertical and the horizontal toggle flip one dimension only. -/
def Client.serve (c : Client) : ClientRequest → Client
  | .close => c
  | .minimize => c
  | .contextHelp => c
  | .toggleKeepAbove => { c with keepAbove := !c.keepAbove }
  | .toggleKeepBelow => { c with keepBelow := !c.keepBelow }
  | .toggleShade => { c with shaded := !c.shaded }
  | .toggleMaximize =>
    if c.isMaximized then { c with maximizedHorizontally := false, maximizedVertically := false }
    else { c with maximizedHorizontally := true, maximizedVertically := true }
  | .toggleMaximizeVertical => { c with maximizedVertically := !c.maximizedVertically }
  | .toggleMaximizeHorizontal => { c with maximizedHorizontally := !c.maximizedHorizontally }

/-- Modelled from the spec: the change notifications of the client, each carrying the
new value. -/
inductive ClientSignal where
  | closeableChanged (v : Bool)
  | minimizableChanged (v : Bool)
  | maximizableChanged (v : Bool)
  | shadeableChanged (v : Bool)
  | providesContextHelpChanged (v : Bool)
  | maximizedChanged (v : Bool)
  | maximizedHorizontallyChanged (v : Bool)
  | maximizedVerticallyChanged (v : Bool)
  | keepAboveChanged (v : Bool)
  | keepBelowChanged (v : Bool)
  | shadedChanged (v : Bool)
  deriving DecidableEq

/-- Modelled from the spec: the notifications the client emits when its state goes
from `c` to `c1`: one for each property whose value has changed. -/
def Client.changes (c c1 : Client) : List ClientSignal :=
  (if c1.closeable = c.closeable then [] else [.closeableChanged c1.closeable]) ++
  (if c1.minimizable = c.minimizable then [] else [.minimizableChanged c1.minimizable]) ++
  (if c1.maximizable = c.maximizable then [] else [.maximizableChanged c1.maximizable]) ++
  (if c1.shadeable = c.shadeable then [] else [.shadeableChanged c1.shadeable]) ++
  (if c1.providesContextHelp = c.providesContextHelp then []
   else [.providesContextHelpChanged c1.providesContextHelp]) ++
  (if c1.maximizedHorizontally = c.maximizedHorizontally then []
   else [.maximizedHorizontallyChanged c1.maximizedHorizontally]) ++
  (if c1.maximizedVertically = c.maximizedVertically then []
   else [.maximizedVerticallyChanged c1.maximizedVertically]) ++
  (if c1.isMaximized = c.isMaximized then [] else [.maximizedChanged c1.isMaximized]) ++
  (if c1.keepAbove = c.keepAbove then [] else [.keepAboveChanged c1.keepAbove]) ++
  (if c1.keepBelow = c.keepBelow then [] else [.keepBelowChanged c1.keepBelow]) ++
  (if c1.shaded = c.shaded then [] else [.shadedChanged c1.shaded])

/-- Modelled from the spec: the bindings of a typed button to the client ("derived
enable/visibility binding per type"): what the button does when a notification of
the client is delivered to it.  `enabled` tracks the capability that belongs to the
type, the `visible` flag of a `QuickHelp` button tracks "provides context help",
and `checked` tracks the window state that belongs to the type. -/
def DecorationButton.clientChanged (slot : Nat → World → Except Fault World) (p : Nat)
    (s : ClientSignal) (w : World) : Except Fault World :=
  match w.data p with
  | none => .error .nullDeref
  | some b =>
    match b.type, s with
    | .Close, .closeableChanged v => DecorationButton.setEnabled p v w
    | .Minimize, .minimizableChanged v => DecorationButton.setEnabled p v w
    | .Maximize, .maximizableChanged v => DecorationButton.setEnabled p v w
    | .Maximize, .maximizedChanged v => DecorationButton.setChecked p v w
    | .Shade, .shadeableChanged v => DecorationButton.setEnabled p v w
    | .Shade, .shadedChanged v => DecorationButton.setChecked p v w
    | .KeepAbove, .keepAboveChanged v => DecorationButton.setChecked p v w
    | .KeepBelow, .keepBelowChanged v => DecorationButton.setChecked p v w
    | .QuickHelp, .providesContextHelpChanged v => DecorationButton.setVisible slot p v w
    | _, _ => .ok w

/-- Delivery of several notifications of the client to a button, in order. -/
def DecorationButton.clientChangedAll (slot : Nat → World → Except Fault World) (p : Nat) :
    List ClientSignal → World → Except Fault World
  | [], w => .ok w
  | s :: rest, w =>
    match DecorationButton.clientChanged slot p s w with
    | .error e => .error e
    | .ok w1 => DecorationButton.clientChangedAll slot p rest w1

/-- The method `DecorationButtonGroup::Private::setGeometry` (lines 39-46). -/
def DecorationButtonGroup.Private.setGeometry (gid : Nat) (geo : QRectF) (w : World) :
    Except Fault World :=
  match w.groups[gid]? with
  | none => .error .noSuchGroup
  | some d =>
    if d.geometry = geo then .ok w
    else
      .ok ({ w with groups := w.groups.set gid { d with geometry := geo } }.record
        (.geometryChanged gid geo))

/-- The first loop of `updateLayout` (lines 58-69): the accumulator is
`(width, height)`; `rest` being non-empty is the test `it + 1 != buttons.constEnd()`. -/
def sizeLoop (w : World) (spacing : qreal) : List Nat → qreal × qreal → Except Fault (qreal × qreal)
  | [], acc => .ok acc
  | p :: rest, (width, height) =>
    match w.data p with
    | none => .error .nullDeref
    | some b =>
      if !b.visible then sizeLoop w spacing rest (width, height)
      else
        let height1 := max height (b.size.height : qreal)
        let width1 := fadd width (b.size.width : qreal)
        let width2 := if rest ≠ [] then fadd width1 spacing else width1
        sizeLoop w spacing rest (width2, height1)

/-- The second loop of `updateLayout` (lines 73-83): `position` is the running
x coordinate, `pos` the origin of the group. -/
def positionLoop (slot : Nat → World → Except Fault World) (pos : QPointF) (spacing : qreal) :
    List Nat → qreal → World → Except Fault World
  | [], _, w => .ok w
  | p :: rest, position, w =>
    match w.data p with
    | none => .error .nullDeref
    | some b =>
      if !b.visible then positionLoop slot pos spacing rest position w
      else
        let size := b.size
        match DecorationButton.setGeometry slot p
            { x := qrealToInt position, y := qrealToInt pos.y,
              width := size.width, height := size.height } w with
        | .error e => .error e
        | .ok w1 =>
          positionLoop slot pos spacing rest (fadd position (fadd (size.width : qreal) spacing)) w1

/-- The method `DecorationButtonGroup::Private::updateLayout` (lines 50-85).  The
first argument bounds the nesting depth of slot invocations. -/
def DecorationButtonGroup.Private.updateLayout : Nat → Nat → World → Except Fault World
  | 0, _, _ => .error .outOfFuel
  | fuel + 1, gid, w =>
    if w.s_layoutRecursion then .ok w
    else
      match w.groups[gid]? with
      | none => .error .noSuchGroup
      | some d =>
        let w0 := { w with s_layoutRecursion := true }
        let pos := d.geometry.topLeft
        match sizeLoop w0 d.spacing d.buttons (0, 0) with
        | .error e => .error e
        | .ok (width, height) =>
          match DecorationButtonGroup.Private.setGeometry gid
              { x := pos.x, y := pos.y, width := width, height := height } w0 with
          | .error e => .error e
          | .ok w1 =>
            match positionLoop (DecorationButtonGroup.Private.updateLayout fuel) pos d.spacing
                d.buttons pos.x w1 with
            | .error e => .error e
            | .ok w2 => .ok { w2 with s_layoutRecursion := false }

/-- The state in which the member list `d->buttons` of group `gid` has become `l`
(nothing else changes). -/
def World.withButtons (w : World) (gid : Nat) (d : DecorationButtonGroup.Private)
    (l : List Nat) : World :=
  { w with groups := w.groups.set gid { d with buttons := l } }

/-- The group with index `gid`, or the fault of using a group that does not exist. -/
def World.group (w : World) (gid : Nat) : Except Fault DecorationButtonGroup.Private :=
  match w.groups[gid]? with
  | none => .error .noSuchGroup
  | some d => .ok d

/-- The constructor `DecorationButtonGroup(Decoration *parent)` (lines 87-91, with
`Private::Private`, lines 30-35): a fresh group with spacing 0, default geometry
and no members.  Returns the new state and the index of the new group. -/
def DecorationButtonGroup.create (w : World) : World × Nat :=
  ({ w with groups := w.groups ++ [{ geometry := { x := 0, y := 0, width := 0, height := 0 },
                                      spacing := 0, buttons := [] }] },
   w.groups.length)

/-- The accessor `DecorationButtonGroup::geometry()` (lines 126-129). -/
def DecorationButtonGroup.geometry (gid : Nat) (w : World) : Except Fault QRectF :=
  match w.group gid with
  | .error e => .error e
  | .ok d => .ok d.geometry

/-- The search of `hasButton` (`std::find_if`, lines 134-138): each visited entry
is dereferenced, and the search stops at the first match. -/
def hasButtonLoop (w : World) (type : DecorationButtonType) : List Nat → Except Fault Bool
  | [] => .ok false
  | p :: rest =>
    match w.data p with
    | none => .error .nullDeref
    | some b => if b.type = type then .ok true else hasButtonLoop w type rest

/-- The method `DecorationButtonGroup::hasButton` (lines 131-140). -/
def DecorationButtonGroup.hasButton (gid : Nat) (type : DecorationButtonType) (w : World) :
    Except Fault Bool :=
  match w.group gid with
  | .error e => .error e
  | .ok d => hasButtonLoop w type d.buttons

/-- The accessor `DecorationButtonGroup::spacing()` (lines 142-145). -/
def DecorationButtonGroup.spacing (gid : Nat) (w : World) : Except Fault qreal :=
  match w.group gid with
  | .error e => .error e
  | .ok d => .ok d.spacing

/-- The accessor `DecorationButtonGroup::pos()` (lines 147-150). -/
def DecorationButtonGroup.pos (gid : Nat) (w : World) : Except Fault QPointF :=
  match w.group gid with
  | .error e => .error e
  | .ok d => .ok d.geometry.topLeft

/-- The method `DecorationButtonGroup::setPos` (lines 152-159). -/
def DecorationButtonGroup.setPos (fuel gid : Nat) (pos : QPointF) (w : World) :
    Except Fault World :=
  match w.group gid with
  | .error e => .error e
  | .ok d =>
    if d.geometry.topLeft = pos then .ok w
    else
      match DecorationButtonGroup.Private.setGeometry gid
          { x := pos.x, y := pos.y, width := d.geometry.width, height := d.geometry.height } w with
      | .error e => .error e
      | .ok w1 => DecorationButtonGroup.Private.updateLayout fuel gid w1

/-- The method `DecorationButtonGroup::setSpacing` (lines 161-169). -/
def DecorationButtonGroup.setSpacing (fuel gid : Nat) (spacing : qreal) (w : World) :
    Except Fault World :=
  match w.group gid with
  | .error e => .error e
  | .ok d =>
    if d.spacing = spacing then .ok w
    else
      DecorationButtonGroup.Private.updateLayout fuel gid
        ({ w with groups := w.groups.set gid { d with spacing := spacing } }.record
          (.spacingChanged gid spacing))

/-- The method `DecorationButtonGroup::addButton` (lines 171-178): the assertion,
the two connections, the append and the layout pass. -/
def DecorationButtonGroup.addButton (fuel gid : Nat) (button : Nat) (w : World) :
    Except Fault World :=
  match w.group gid with
  | .error e => .error e
  | .ok d =>
    match w.data button with
    | none => .error .assertFailed
    | some b =>
      DecorationButtonGroup.Private.updateLayout fuel gid
        ((w.store button
          { b with visibilityChangedSlots := b.visibilityChangedSlots ++ [gid],
                   geometryChangedSlots := b.geometryChangedSlots ++ [gid] }).withButtons gid d
          (d.buttons ++ [button]))

/-- The accessor `DecorationButtonGroup::buttons()` (lines 180-183). -/
def DecorationButtonGroup.buttons (gid : Nat) (w : World) : Except Fault (List Nat) :=
  match w.group gid with
  | .error e => .error e
  | .ok d => .ok d.buttons

/-- The erase loop of `removeButton(DecorationButtonType)` (lines 188-196): `kept`
is the part of the list before the iterator, the list argument the part from the
iterator on; the result is the final list together with `needUpdate`. -/
def removeTypeLoop (w : World) (type : DecorationButtonType) :
    List Nat → List Nat → Bool → Except Fault (List Nat × Bool)
  | [], kept, needUpdate => .ok (kept, needUpdate)
  | p :: rest, kept, needUpdate =>
    match w.data p with
    | none => .error .nullDeref
    | some b =>
      if b.type = type then removeTypeLoop w type rest kept true
      else removeTypeLoop w type rest (kept ++ [p]) needUpdate

/-- The method `DecorationButtonGroup::removeButton(DecorationButtonType)` (lines 185-200). -/
def DecorationButtonGroup.removeButton (fuel gid : Nat) (type : DecorationButtonType)
    (w : World) : Except Fault World :=
  match w.group gid with
  | .error e => .error e
  | .ok d =>
    match removeTypeLoop w type d.buttons [] false with
    | .error e => .error e
    | .ok (remaining, needUpdate) =>
      if needUpdate then
        DecorationButtonGroup.Private.updateLayout fuel gid (w.withButtons gid d remaining)
      else .ok (w.withButtons gid d remaining)

/-- The erase loop of `removeButton(const QPointer<DecorationButton>&)` (lines
205-213); the pointers are compared, not dereferenced. -/
def removePtrLoop (w : World) (button : Nat) :
    List Nat → List Nat → Bool → List Nat × Bool
  | [], kept, needUpdate => (kept, needUpdate)
  | p :: rest, kept, needUpdate =>
    if w.ptrEq p button then removePtrLoop w button rest kept true
    else removePtrLoop w button rest (kept ++ [p]) needUpdate

/-- The method `DecorationButtonGroup::removeButton(const QPointer<DecorationButton>&)`
(lines 202-217). -/
def DecorationButtonGroup.removeButtonPtr (fuel gid : Nat) (button : Nat) (w : World) :
    Except Fault World :=
  match w.group gid with
  | .error e => .error e
  | .ok d =>
    match removePtrLoop w button d.buttons [] false with
    | (remaining, needUpdate) =>
      if needUpdate then
        DecorationButtonGroup.Private.updateLayout fuel gid (w.withButtons gid d remaining)
      else .ok (w.withButtons gid d remaining)

/-- The loop of `paint` (lines 222-227).  `DecorationButton::paint` is pure virtual;
the call is recorded with the painter and the region it is given. -/
def paintLoop (painter repaintRegion : Nat) : List Nat → World → Except Fault World
  | [], w => .ok w
  | p :: rest, w =>
    match w.data p with
    | none => .error .nullDeref
    | some b =>
      if !b.visible then paintLoop painter repaintRegion rest w
      else paintLoop painter repaintRegion rest (w.record (.paintCall p painter repaintRegion))

/-- The method `DecorationButtonGroup::paint` (lines 219-228). -/
def DecorationButtonGroup.paint (gid : Nat) (painter repaintRegion : Nat) (w : World) :
    Except Fault World :=
  match w.group gid with
  | .error e => .error e
  | .ok d => paintLoop painter repaintRegion d.buttons w

/-- Allocation of a new button object; returns the new state and the address. -/
def World.alloc (w : World) (b : DecorationButton) : World × Nat :=
  ({ w with heap := w.heap ++ [some b] }, w.heap.length)

/-- The loop of the lambda `createButtons` (lines 102-106).  `buttonCreator`
yields the initial state of the button it creates, or `none` for a null result. -/
def createButtonsLoop (fuel gid : Nat) (buttonCreator : DecorationButtonType → Option DecorationButton) :
    List DecorationButtonType → World → Except Fault World
  | [], w => .ok w
  | type :: rest, w =>
    match buttonCreator type with
    | none => createButtonsLoop fuel gid buttonCreator rest w
    | some b =>
      match DecorationButtonGroup.addButton fuel gid (w.alloc b).2 (w.alloc b).1 with
      | .error e => .error e
      | .ok w1 => createButtonsLoop fuel gid buttonCreator rest w1

/-- The lambda `createButtons` (lines 98-107). -/
def createButtons (fuel gid : Nat) (type : DecorationButtonGroup.Position)
    (buttonCreator : DecorationButtonType → Option DecorationButton) (w : World) :
    Except Fault World :=
  let buttons := if type = .Left then w.settings.decorationButtonsLeft
                 else w.settings.decorationButtonsRight
  createButtonsLoop fuel gid buttonCreator buttons w

/-- The constructor `DecorationButtonGroup(Position, Decoration*, buttonCreator)`
(lines 93-117); the connection to the settings signal is the slot
`DecorationButtonGroup.decorationButtonsChanged` below. -/
def DecorationButtonGroup.createFor (fuel : Nat) (type : DecorationButtonGroup.Position)
    (buttonCreator : DecorationButtonType → Option DecorationButton) (w : World) :
    Except Fault (World × Nat) :=
  match createButtons fuel (DecorationButtonGroup.create w).2 type buttonCreator
      (DecorationButtonGroup.create w).1 with
  | .error e => .error e
  | .ok w1 => .ok (w1, (DecorationButtonGroup.create w).2)

/-- The call `qDeleteAll(d->buttons)` (line 112): every object a member pointer
refers to is destroyed; deleting through a null pointer does nothing. -/
def qDeleteAll : List Nat → World → World
  | [], w => w
  | p :: rest, w => qDeleteAll rest { w with heap := w.heap.set p none }

/-- The slot connected to `decorationButtonsLeftChanged` /
`decorationButtonsRightChanged` (lines 111-115). -/
def DecorationButtonGroup.decorationButtonsChanged (fuel gid : Nat)
    (type : DecorationButtonGroup.Position)
    (buttonCreator : DecorationButtonType → Option DecorationButton) (w : World) :
    Except Fault World :=
  match w.group gid with
  | .error e => .error e
  | .ok d =>
    createButtons fuel gid type buttonCreator ((qDeleteAll d.buttons w).withButtons gid d [])

/-- The layout pass in which every nested layout trigger does nothing: one sizing
traversal followed by one positioning traversal.  It is the reference against
which the reentrancy behaviour of `updateLayout` is compared. -/
def singlePass (gid : Nat) (w : World) : Except Fault World :=
  match w.groups[gid]? with
  | none => .error .noSuchGroup
  | some d =>
    let w0 := { w with s_layoutRecursion := true }
    match sizeLoop w0 d.spacing d.buttons (0, 0) with
    | .error e => .error e
    | .ok (width, height) =>
      match DecorationButtonGroup.Private.setGeometry gid
          { x := d.geometry.x, y := d.geometry.y, width := width, height := height } w0 with
      | .error e => .error e
      | .ok w1 =>
        match positionLoop (fun _ v => .ok v) d.geometry.topLeft d.spacing d.buttons
            d.geometry.x w1 with
        | .error e => .error e
        | .ok w2 => .ok { w2 with s_layoutRecursion := false }

/-! ## Auxiliary notions used to state the results -/

open DecorationButtonGroup


/-- Whether the entry `p` refers to a live, visible button. -/
def World.isVisible (w : World) (p : Nat) : Bool :=
  match w.data p with
  | some b => b.visible
  | none => false

/-- The size reported by the button `p` refers to (zero for a null pointer). -/
def World.sizeOf (w : World) (p : Nat) : QSize :=
  match w.data p with
  | some b => b.size
  | none => { width := 0, height := 0 }

/-- The exact sum of `width + spacing` over the visible entries of `l` that come
before (the first occurrence of) `p`. -/
def offsetBefore (w : World) (spacing : qreal) (l : List Nat) (p : Nat) : qreal :=
  (((l.takeWhile (fun q => decide (q ≠ p))).filter w.isVisible).map
    (fun q => ((w.sizeOf q).width : qreal) + spacing)).sum

/-- The button `b` moved to the origin `(x, y)`, keeping its size. -/
def DecorationButton.placed (b : DecorationButton) (x y : Int) : DecorationButton :=
  { b with geometry := { x := x, y := y, width := b.size.width, height := b.size.height } }

/-- Two states agree on everything but the heap contents and the signal record. -/
def SameEnv (w w1 : World) : Prop :=
  w1.groups = w.groups ∧ w1.settings = w.settings ∧
    w1.s_layoutRecursion = w.s_layoutRecursion ∧ w1.heap.length = w.heap.length

/-- Two states hold the same buttons up to the origin of each button's geometry. -/
def SameButtons (w w1 : World) : Prop :=
  ∀ q, (w1.data q).map (fun b => b.placed 0 0) = (w.data q).map (fun b => b.placed 0 0)

/-- The width the sizing loop computes when no addition rounds, as an exact sum:
every visible entry adds its width, and adds the spacing unless it is the last entry
of the list. -/
def layoutWidth (w : World) (spacing : qreal) : List Nat → qreal
  | [] => 0
  | p :: rest =>
    if w.isVisible p then
      (((w.sizeOf p).width : qreal) + (if rest ≠ [] then spacing else 0))
        + layoutWidth w spacing rest
    else layoutWidth w spacing rest

/-- The height computed by the sizing loop: the largest height among the visible
entries, and at least 0. -/
def layoutHeight (w : World) : List Nat → qreal
  | [] => 0
  | p :: rest =>
    if w.isVisible p then max ((w.sizeOf p).height : qreal) (layoutHeight w rest)
    else layoutHeight w rest

/-- Whether `q` is a multiple of `2 ^ (-20)` (1048576 is `2 ^ 20`): every integer
is, and so is every value with at most 20 binary digits after the point. -/
def OnGrid (q : qreal) : Prop := (q * 1048576).den = 1

instance instDecidableOnGrid (q : qreal) : Decidable (OnGrid q) :=
  inferInstanceAs (Decidable ((q * 1048576).den = 1))

/-- The sum of `|width| + |spacing|` over the visible entries of `l`: a bound on the
increments of the running sums of the two loops of `updateLayout`. -/
def layoutBudget (w : World) (spacing : qreal) (l : List Nat) : qreal :=
  ((l.filter w.isVisible).map (fun q => |((w.sizeOf q).width : qreal)| + |spacing|)).sum

/-- The layouts whose arithmetic is exact and stays in the range of `int`: the x
origin and the spacing are multiples of `2 ^ (-20)`, and `|x|` plus the sum of
`|width| + |spacing|` over the visible members is at most 2147483647 (the greatest
`int`).  Then every sum `updateLayout` computes is a double (no addition rounds) and
every conversion of a running position to `int` is in range. -/
structure ExactLayout (w : World) (x s : qreal) (l : List Nat) : Prop where
  gridX : OnGrid x
  gridS : OnGrid s
  rangeX : |x| + layoutBudget w s l ≤ 2147483647

/-- Whether the entry `p` refers to a live button of type `type`. -/
def World.typeIs (w : World) (type : DecorationButtonType) (p : Nat) : Bool :=
  match w.data p with
  | some b => decide (b.type = type)
  | none => false

/-- A sample state: one group at origin (0, 0) with spacing 2 holding, in this order,
three visible buttons of sizes 10x5, 20x8 and 15x6, each connected to the group. -/
def threeButtons : World :=
  { heap := [some { type := .Close, geometry := { x := 0, y := 0, width := 10, height := 5 },
                    visibilityChangedSlots := [0], geometryChangedSlots := [0] },
             some { type := .Maximize, geometry := { x := 0, y := 0, width := 20, height := 8 },
                    visibilityChangedSlots := [0], geometryChangedSlots := [0] },
             some { type := .Minimize, geometry := { x := 0, y := 0, width := 15, height := 6 },
                    visibilityChangedSlots := [0], geometryChangedSlots := [0] }],
    groups := [{ spacing := 2, buttons := [0, 1, 2] }] }

/-- The group of `threeButtons`. -/
def threeButtonsGroup : DecorationButtonGroup.Private :=
  { spacing := 2, buttons := [0, 1, 2] }

/-- A sample state: `threeButtons` with a fourth, unconnected 7x7 button that belongs
to no group, and one more address (4) whose button has been destroyed. -/
def threeButtonsAndSpare : World :=
  { threeButtons with
      heap := threeButtons.heap ++
        [some { type := .Shade, geometry := { x := 0, y := 0, width := 7, height := 7 } }, none] }

/-- A sample state: one group whose member list `[0, 1, 2]` has a dangling entry, the
button at address 1 having been destroyed; the buttons at 0 and 2 are live. -/
def danglingEntry : World :=
  { heap := [some { type := .Close, geometry := { x := 0, y := 0, width := 10, height := 5 },
                    visibilityChangedSlots := [0], geometryChangedSlots := [0] },
             none,
             some { type := .Minimize, geometry := { x := 0, y := 0, width := 15, height := 6 },
                    visibilityChangedSlots := [0], geometryChangedSlots := [0] }],
    groups := [{ spacing := 2, buttons := [0, 1, 2] }] }

/-- The width the specification prescribes for a member list: the sum of the widths
of the visible members plus the spacing once for every pair of consecutive visible
members. -/
def specWidth (w : World) (spacing : qreal) (l : List Nat) : qreal :=
  ((l.filter w.isVisible).map (fun p => ((w.sizeOf p).width : qreal))).sum
    + spacing * (((l.filter w.isVisible).length - 1 : Nat) : qreal)

/-- The height the specification prescribes for a member list: the maximum height of
the visible members, 0 when none is visible. -/
def specHeight (w : World) (l : List Nat) : qreal :=
  match (l.filter w.isVisible).map (fun p => ((w.sizeOf p).height : qreal)) with
  | [] => 0
  | h :: hs => hs.foldl max h

/-- A sample state: one group at origin (0, 0) with spacing 2 whose member list is a
visible 10x5 button followed by an invisible 20x8 button. -/
def trailingInvisible : World :=
  { heap := [some { type := .Close, geometry := { x := 0, y := 0, width := 10, height := 5 },
                    visibilityChangedSlots := [0], geometryChangedSlots := [0] },
             some { type := .Maximize, visible := false,
                    geometry := { x := 0, y := 0, width := 20, height := 8 },
                    visibilityChangedSlots := [0], geometryChangedSlots := [0] }],
    groups := [{ spacing := 2, buttons := [0, 1] }] }

/-- A button creator that yields a visible 10x5 button of the requested type. -/
def tenByFive (type : DecorationButtonType) : Option DecorationButton :=
  some { type := type, geometry := { x := 0, y := 0, width := 10, height := 5 } }

/-- A sample state without groups or buttons whose settings list one button,
`Close`, for the left side. -/
def leftCloseOnly : World :=
  { settings := { decorationButtonsLeft := [.Close] } }

/-- The scenario of a left-side group built by the factory constructor from
`leftCloseOnly`, after which the settings' left list becomes empty and the connected
slot runs. -/
def repopulatedWithEmptyList : Except Fault World :=
  match DecorationButtonGroup.createFor 2 .Left tenByFive leftCloseOnly with
  | .error e => .error e
  | .ok (w1, gid) =>
    DecorationButtonGroup.decorationButtonsChanged 2 gid .Left tenByFive
      { w1 with settings := { decorationButtonsLeft := [], decorationButtonsRight := [] } }

/-- The placement C2 describes, for a pass leading from `w` to `w1` over the member
list `l` of a group at the integer origin `(X, Y)` with integer spacing `S`: the
`k`-th visible member has x = `X` plus the sum of `width + S` over the visible
members before it, y = `Y`, and the size it had in `w`. -/
def PlacedInOrder (w w1 : World) (l : List Nat) (X Y S : Int) : Prop :=
  ∀ (k p : Nat), (l.filter w.isVisible)[k]? = some p →
    (w1.data p).map (fun b => b.geometry)
      = some { x := X + (((l.filter w.isVisible).take k).map
                          (fun q => (w.sizeOf q).width + S)).sum,
               y := Y,
               width := (w.sizeOf p).width,
               height := (w.sizeOf p).height }

/-- A sample state: one group at origin (0, 0) with spacing 2 to which the same
visible 10x5 button has been added twice. -/
def duplicateEntry : World :=
  { heap := [some { type := .Close, geometry := { x := 0, y := 0, width := 10, height := 5 },
                    visibilityChangedSlots := [0, 0], geometryChangedSlots := [0, 0] }],
    groups := [{ spacing := 2, buttons := [0, 0] }] }

/-- The state a run ended in, or `w` if it ended in a fault. -/
def stateOr (r : Except Fault World) (w : World) : World :=
  match r with
  | .ok w1 => w1
  | .error _ => w

/-- The effect C4 describes of hiding a member, between the laid-out state `w1` and
the state `w2` after the change: the width of group `gid` drops by `shift`, the x
origin of every visible member in `later` drops by `shift`, and the origins of the
members in `earlier` stay as they are. -/
def ShiftedByHiding (w1 w2 : World) (gid : Nat) (earlier later : List Nat) (shift : qreal) :
    Prop :=
  (∃ g1 g2, DecorationButtonGroup.geometry gid w1 = .ok g1 ∧
      DecorationButtonGroup.geometry gid w2 = .ok g2 ∧ g2.width = g1.width - shift) ∧
  (∀ p ∈ later, w1.isVisible p = true →
    ∃ x1 x2 : Int, (w1.data p).map (fun b => b.geometry.x) = some x1 ∧
      (w2.data p).map (fun b => b.geometry.x) = some x2 ∧ (x2 : qreal) = (x1 : qreal) - shift) ∧
  (∀ p ∈ earlier, (w2.data p).map (fun b => (b.geometry.x, b.geometry.y))
      = (w1.data p).map (fun b => (b.geometry.x, b.geometry.y)))

/-- A sample state: one group at origin (0, 0) with spacing 1/2 holding three visible
10x5 buttons, each connected to the group. -/
def halfSpacing : World :=
  { heap := [some { type := .Close, geometry := { x := 0, y := 0, width := 10, height := 5 },
                    visibilityChangedSlots := [0], geometryChangedSlots := [0] },
             some { type := .Maximize, geometry := { x := 0, y := 0, width := 10, height := 5 },
                    visibilityChangedSlots := [0], geometryChangedSlots := [0] },
             some { type := .Minimize, geometry := { x := 0, y := 0, width := 10, height := 5 },
                    visibilityChangedSlots := [0], geometryChangedSlots := [0] }],
    groups := [{ spacing := 1 / 2, buttons := [0, 1, 2] }] }

/-- The state `halfSpacing` after a layout pass. -/
def halfSpacingLaidOut : World :=
  stateOr (DecorationButtonGroup.Private.updateLayout 2 0 halfSpacing) halfSpacing

/-- The state `halfSpacingLaidOut` after the middle button has been hidden. -/
def halfSpacingHidden : World :=
  stateOr (DecorationButton.setVisible (DecorationButtonGroup.Private.updateLayout 2) 1 false
    halfSpacingLaidOut) halfSpacing

/-- The signals a layout pass can emit. -/
def Signal.isLayoutSignal : Signal → Bool
  | .geometryChanged _ _ => true
  | .buttonGeometryChanged _ _ => true
  | _ => false

/-- What a layout pass leaves alone in a group: its origin, its spacing and its
member list. -/
def DecorationButtonGroup.Private.frame (d : DecorationButtonGroup.Private) :
    qreal × qreal × qreal × List Nat :=
  (d.geometry.x, d.geometry.y, d.spacing, d.buttons)

/-- The state `w1` differs from `w` at most by what layout passes change: the sizes of
groups, the origins of buttons, and layout signals appended to the record. -/
def LayoutOnly (w w1 : World) : Prop :=
  w1.settings = w.settings ∧ w1.s_layoutRecursion = w.s_layoutRecursion ∧
    w1.heap.length = w.heap.length ∧ SameButtons w w1 ∧
    w1.groups.map DecorationButtonGroup.Private.frame
      = w.groups.map DecorationButtonGroup.Private.frame ∧
    ∃ ext, w1.emitted = w.emitted ++ ext ∧ ∀ s ∈ ext, s.isLayoutSignal = true

/-- A sample state: a single `Custom` button with geometry (0, 0, 10, 10), as the tests
of the button set it up; it belongs to no group. -/
def customButton : World :=
  { heap := [some { DecorationButton.create .Custom with
                      geometry := { x := 0, y := 0, width := 10, height := 10 } }] }

/-- A sample state: a single checkable and checked `KeepAbove` button with geometry
(0, 0, 10, 10). -/
def checkedButton : World :=
  { heap := [some { DecorationButton.create .KeepAbove with
                      geometry := { x := 0, y := 0, width := 10, height := 10 },
                      checked := true }] }

/-- The boolean flags of a button. -/
inductive Flag where
  | enabled
  | checkable
  | checked
  | visible
  | hovered
  | pressed
  deriving DecidableEq, Repr

/-- The value of a flag in a button state. -/
def Flag.get : Flag → DecorationButton → Bool
  | .enabled, b => b.enabled
  | .checkable, b => b.checkable
  | .checked, b => b.checked
  | .visible, b => b.visible
  | .hovered, b => b.hovered
  | .pressed, b => b.isPressed

/-- The change notification of a flag, carrying the new value. -/
def Flag.changed : Flag → Nat → Bool → Signal
  | .enabled, p, v => .enabledChanged p v
  | .checkable, p, v => .checkableChanged p v
  | .checked, p, v => .checkedChanged p v
  | .visible, p, v => .buttonVisibilityChanged p v
  | .hovered, p, v => .hoveredChanged p v
  | .pressed, p, v => .pressedChanged p v

/-- Whether a recorded signal is a change notification of the flag `f` of button `p`
(with whatever value). -/
def Flag.isChanged (f : Flag) (p : Nat) (s : Signal) : Bool :=
  decide (s = f.changed p true) || decide (s = f.changed p false)

/-- The setter of a flag: the public setters for `enabled`, `checkable`, `checked` and
`visible`, and for the event-driven flags the setters the event handlers use
(`pressed` is set for the pointer button `m`). -/
def setFlag (slot : Nat → World → Except Fault World) (m : MouseButton) :
    Flag → Nat → Bool → World → Except Fault World
  | .enabled, p, v, w => DecorationButton.setEnabled p v w
  | .checkable, p, v, w => DecorationButton.setCheckable p v w
  | .checked, p, v, w => DecorationButton.setChecked p v w
  | .visible, p, v, w => DecorationButton.setVisible slot p v w
  | .hovered, p, v, w => DecorationButton.setHovered p v w
  | .pressed, p, v, w => DecorationButton.setPressed p m v w

/-- The law C17 states for the flag `f` of the live button `p` in state `w`: setting
`f` to its current value returns the state as it was, and setting it to the negation
succeeds, changes the flag, and appends to the record signals among which the
`f`-changed notifications of `p` are exactly one, carrying the new value. -/
def FlagSetterLaw (slot : Nat → World → Except Fault World) (m : MouseButton) (f : Flag)
    (p : Nat) (w : World) : Prop :=
  ∀ b, w.data p = some b →
    setFlag slot m f p (f.get b) w = .ok w ∧
    ∃ w1, setFlag slot m f p (!f.get b) w = .ok w1 ∧
      (w1.data p).map f.get = some (!f.get b) ∧
      ∃ ext, w1.emitted = w.emitted ++ ext ∧
        ext.filter (f.isChanged p) = [f.changed p (!f.get b)]

/-- The state in which the button at address `p` has become `b` and the signals `ext`
have been appended to the record. -/
def World.update (w : World) (p : Nat) (b : DecorationButton) (ext : List Signal) : World :=
  { w with heap := w.heap.set p (some b), emitted := w.emitted ++ ext }

/-- The pointer buttons held on a button after the pointer button `m` has been pressed
(`pressed = true`) or released (`pressed = false`) on it. -/
def heldAfter (held : List MouseButton) (m : MouseButton) (pressed : Bool) : List MouseButton :=
  if pressed then (if m ∈ held then held else held ++ [m])
  else held.filter (fun x => decide (x ≠ m))

/-- The button state after `setEnabled(v)`. -/
def DecorationButton.afterSetEnabled (b : DecorationButton) (v : Bool) : DecorationButton :=
  if b.enabled = v then b
  else if v then { b with enabled := true }
  else { b with enabled := false, hovered := false, pressedButtons := [] }

/-- The notifications of `setEnabled(v)` on button `p` in state `b`, in order. -/
def signalsSetEnabled (p : Nat) (b : DecorationButton) (v : Bool) : List Signal :=
  if b.enabled = v then []
  else if v then [.enabledChanged p true]
  else [.enabledChanged p false] ++ (if b.hovered = false then [] else [.hoveredChanged p false])
    ++ (if b.pressedButtons = [] then [] else [.pressedChanged p false])

/-- The button state after `setCheckable(v)`. -/
def DecorationButton.afterSetCheckable (b : DecorationButton) (v : Bool) : DecorationButton :=
  if b.checkable = v then b
  else if !v && b.checked then { b with checkable := v, checked := false }
  else { b with checkable := v }

/-- The notifications of `setCheckable(v)` on button `p` in state `b`, in order. -/
def signalsSetCheckable (p : Nat) (b : DecorationButton) (v : Bool) : List Signal :=
  if b.checkable = v then []
  else if !v && b.checked then [.checkableChanged p v, .checkedChanged p false]
  else [.checkableChanged p v]

/-- The button state after `setChecked(v)`. -/
def DecorationButton.afterSetChecked (b : DecorationButton) (v : Bool) : DecorationButton :=
  if !b.checkable || b.checked = v then b else { b with checked := v }

/-- The notifications of `setChecked(v)` on button `p` in state `b`. -/
def signalsSetChecked (p : Nat) (b : DecorationButton) (v : Bool) : List Signal :=
  if !b.checkable || b.checked = v then [] else [.checkedChanged p v]

/-- Whether the button in state `b` handles (and so accepts) the event `e`. -/
def DecorationButton.handles (b : DecorationButton) : ButtonEvent → Bool
  | .HoverEnter => b.enabled
  | .HoverLeave => b.enabled
  | .ButtonPress pos m =>
    b.visible && b.enabled && b.geometry.contains pos && decide (m ∈ b.acceptedButtons)
  | .ButtonRelease _ m => decide (m ∈ b.pressedButtons)

/-- The button state after the event `e`. -/
def DecorationButton.afterEvent (b : DecorationButton) (e : ButtonEvent) : DecorationButton :=
  if b.handles e then
    match e with
    | .HoverEnter => { b with hovered := true }
    | .HoverLeave => { b with hovered := false }
    | .ButtonPress _ m => { b with pressedButtons := heldAfter b.pressedButtons m true }
    | .ButtonRelease _ m => { b with pressedButtons := heldAfter b.pressedButtons m false }
  else b

/-- The notifications and requests the event `e` causes on button `p` in state `b`,
in order. -/
def signalsEvent (p : Nat) (b : DecorationButton) (e : ButtonEvent) : List Signal :=
  if b.handles e then
    match e with
    | .HoverEnter => if b.hovered = true then [] else [.hoveredChanged p true]
    | .HoverLeave => if b.hovered = false then [] else [.hoveredChanged p false]
    | .ButtonPress _ m =>
      if (!(heldAfter b.pressedButtons m true).isEmpty) = b.isPressed then []
      else [.pressedChanged p (!(heldAfter b.pressedButtons m true).isEmpty)]
    | .ButtonRelease _ m =>
      (if (!(heldAfter b.pressedButtons m false).isEmpty) = b.isPressed then []
       else [.pressedChanged p (!(heldAfter b.pressedButtons m false).isEmpty)])
      ++ [.clicked p m]
      ++ (match clickRequest b.type m with
          | none => []
          | some r => [.clientRequest p r])
  else []

/-- The operations by which a state evolves: the construction of a button and of a
group (both constructors), a change of the settings lists and the slot a group has
connected to it, the public operations of a group, and the public setters and the
event handling of a button. -/
inductive Op where
  | newButton (type : DecorationButtonType)
  | createGroup
  | createGroupFor (type : DecorationButtonGroup.Position)
      (buttonCreator : DecorationButtonType → Option DecorationButton)
  | setDecorationButtons (left right : List DecorationButtonType)
  | decorationButtonsChanged (gid : Nat) (type : DecorationButtonGroup.Position)
      (buttonCreator : DecorationButtonType → Option DecorationButton)
  | setPos (gid : Nat) (pos : QPointF)
  | setSpacing (gid : Nat) (spacing : qreal)
  | addButton (gid : Nat) (button : Nat)
  | removeButton (gid : Nat) (type : DecorationButtonType)
  | removeButtonPtr (gid : Nat) (button : Nat)
  | paint (gid : Nat) (painter repaintRegion : Nat)
  | setGeometry (button : Nat) (geo : QRect)
  | setVisible (button : Nat) (visible : Bool)
  | setEnabled (button : Nat) (enabled : Bool)
  | setCheckable (button : Nat) (checkable : Bool)
  | setChecked (button : Nat) (checked : Bool)
  | setAcceptedButtons (button : Nat) (buttons : List MouseButton)
  | event (button : Nat) (e : ButtonEvent)

/-- Run one operation (slots get the fuel `fuel`). -/
def Op.run (fuel : Nat) : Op → World → Except Fault World
  | .newButton type, w => .ok (w.alloc (DecorationButton.create type)).1
  | .createGroup, w => .ok (DecorationButtonGroup.create w).1
  | .createGroupFor type buttonCreator, w =>
    match DecorationButtonGroup.createFor fuel type buttonCreator w with
    | .error e => .error e
    | .ok r => .ok r.1
  | .setDecorationButtons left right, w =>
    .ok { w with settings := { decorationButtonsLeft := left, decorationButtonsRight := right } }
  | .decorationButtonsChanged gid type buttonCreator, w =>
    DecorationButtonGroup.decorationButtonsChanged fuel gid type buttonCreator w
  | .setPos gid pos, w => DecorationButtonGroup.setPos fuel gid pos w
  | .setSpacing gid spacing, w => DecorationButtonGroup.setSpacing fuel gid spacing w
  | .addButton gid button, w => DecorationButtonGroup.addButton fuel gid button w
  | .removeButton gid type, w => DecorationButtonGroup.removeButton fuel gid type w
  | .removeButtonPtr gid button, w => DecorationButtonGroup.removeButtonPtr fuel gid button w
  | .paint gid painter repaintRegion, w => DecorationButtonGroup.paint gid painter repaintRegion w
  | .setGeometry button geo, w =>
    DecorationButton.setGeometry (DecorationButtonGroup.Private.updateLayout fuel) button geo w
  | .setVisible button visible, w =>
    DecorationButton.setVisible (DecorationButtonGroup.Private.updateLayout fuel) button visible w
  | .setEnabled button enabled, w => DecorationButton.setEnabled button enabled w
  | .setCheckable button checkable, w => DecorationButton.setCheckable button checkable w
  | .setChecked button checked, w => DecorationButton.setChecked button checked w
  | .setAcceptedButtons button buttons, w => DecorationButton.setAcceptedButtons button buttons w
  | .event button e, w =>
    match DecorationButton.event button e false w with
    | .error err => .error err
    | .ok r => .ok r.1

/-- Run a sequence of operations, stopping at the first fault. -/
def runAll (fuel : Nat) : List Op → World → Except Fault World
  | [], w => .ok w
  | op :: ops, w =>
    match op.run fuel w with
    | .error e => .error e
    | .ok w1 => runAll fuel ops w1

/-- A state in which every group's spacing satisfies `S`, every live button satisfies
`B`, and the flag `s_layoutRecursion` satisfies `G`. -/
def Inv (S : qreal → Prop) (B : DecorationButton → Prop) (G : Bool → Prop) (w : World) :
    Prop :=
  (∀ d ∈ w.groups, S d.spacing) ∧ (∀ q b, w.data q = some b → B b) ∧ G w.s_layoutRecursion

/-- What an operation must respect for `Inv S B` to be kept: a spacing that is set
satisfies `S`, and the buttons a factory makes satisfy `B`. -/
def Op.Respects (S : qreal → Prop) (B : DecorationButton → Prop) : Op → Prop
  | .setSpacing _ spacing => S spacing
  | .createGroupFor _ buttonCreator => ∀ t b, buttonCreator t = some b → B b
  | .decorationButtonsChanged _ _ buttonCreator => ∀ t b, buttonCreator t = some b → B b
  | _ => True

/-- The flags of a button that no operation of a group, no change of the geometry,
the visibility or the accepted pointer buttons of the button touches. -/
def DecorationButton.flags (b : DecorationButton) : Bool × Bool × Bool × Bool :=
  (b.enabled, b.checkable, b.checked, b.hovered)

/-- The conditions on a property `B` of button states under which every operation
keeps it: it depends on the flags `enabled`, `checkable`, `checked` and `hovered`
only, it holds of newly constructed buttons, and the setters of these flags and the
event handling keep it. -/
structure FlagProperty (B : DecorationButton → Prop) : Prop where
  flagsOnly : ∀ b b1 : DecorationButton, b1.flags = b.flags → B b → B b1
  create : ∀ t, B (DecorationButton.create t)
  setCheckable : ∀ (b : DecorationButton) (v : Bool), B b → B (b.afterSetCheckable v)
  setChecked : ∀ (b : DecorationButton) (v : Bool), B b → B (b.afterSetChecked v)
  setEnabled : ∀ (b : DecorationButton) (v : Bool), B b → B (b.afterSetEnabled v)
  event : ∀ (b : DecorationButton) (e : ButtonEvent), B b → B (b.afterEvent e)

/-- The state `w1` has the group spacings and the flag `s_layoutRecursion` of `w`, and
no live button with flags `enabled`, `checkable`, `checked`, `hovered` that `w` does
not have. -/
def Kept (w w1 : World) : Prop :=
  w1.groups.map (fun d => d.spacing) = w.groups.map (fun d => d.spacing) ∧
  w1.s_layoutRecursion = w.s_layoutRecursion ∧
  ∀ q b1, w1.data q = some b1 → ∃ b, w.data q = some b ∧ b1.flags = b.flags

/-- In `w1` the group `gid` is the layout, at origin `(x, y)` and with spacing `s`,
of the member list `l` as the buttons are in `w`, with sizes and positions given by
exact sums: its geometry has that origin and the size `layoutWidth` x `layoutHeight`,
its list is `l` and its spacing `s`; every button is as in `w` up to its origin,
buttons outside `l` are as in `w`, and (the entries of `l` being distinct) every
visible member is at the converted running position and every invisible one as in
`w`. -/
def LaidOut (w w1 : World) (gid : Nat) (x y s : qreal) (l : List Nat) : Prop :=
  DecorationButtonGroup.geometry gid w1
      = .ok { x := x, y := y, width := layoutWidth w s l, height := layoutHeight w l } ∧
    DecorationButtonGroup.buttons gid w1 = .ok l ∧
    DecorationButtonGroup.spacing gid w1 = .ok s ∧
    SameButtons w w1 ∧
    (∀ q, q ∉ l → w1.data q = w.data q) ∧
    (l.Nodup → ∀ p ∈ l, ∀ b, w.data p = some b →
      w1.data p = some (if b.visible then
        b.placed (qrealToInt (x + offsetBefore w s l p)) (qrealToInt y) else b))

/-- The state in which the spacing of group `gid` (whose data is `d`) has become `v`
and `spacingChanged(v)` has been emitted: the state in which `setSpacing` calls
`updateLayout` (lines 166-168). -/
def World.withSpacing (w : World) (gid : Nat) (d : DecorationButtonGroup.Private)
    (v : qreal) : World :=
  World.record { w with groups := w.groups.set gid { d with spacing := v } }
    (.spacingChanged gid v)

/-- The signals `spacingChanged`. -/
def Signal.isSpacingChanged : Signal → Bool
  | .spacingChanged _ _ => true
  | _ => false

/-- Record several emitted signals, in order. -/
def World.recordAll (w : World) (l : List Signal) : World :=
  { w with emitted := w.emitted ++ l }

/-- What C14 says of a call of `paint` leading from `w` to `w1`, for the member list
`l`: the only change is that paint calls with the given painter and region have been
recorded, and the buttons they were issued to are exactly the visible members, each
once, in list order. -/
def PaintsVisibleOnce (w w1 : World) (l : List Nat) (painter repaintRegion : Nat) : Prop :=
  ∃ calls : List Nat,
    w1 = w.recordAll (calls.map (fun p => Signal.paintCall p painter repaintRegion)) ∧
    calls.Nodup ∧ calls.Sublist l ∧ ∀ p, p ∈ calls ↔ (p ∈ l ∧ w.isVisible p = true)

/-- The connections of a button: the groups connected to its `visibilityChanged` and
to its `geometryChanged` signal. -/
def DecorationButton.connections (b : DecorationButton) : List Nat × List Nat :=
  (b.visibilityChangedSlots, b.geometryChangedSlots)

/-- The state after `removeButton` (by identity) of the button 1 in `threeButtons`. -/
def afterRemoval : World :=
  stateOr (DecorationButtonGroup.removeButtonPtr 2 0 1 threeButtons) threeButtons

/-- The button `b` with the two connections `addButton` of group `gid` makes. -/
def DecorationButton.connected (b : DecorationButton) (gid : Nat) : DecorationButton :=
  { b with visibilityChangedSlots := b.visibilityChangedSlots ++ [gid],
           geometryChangedSlots := b.geometryChangedSlots ++ [gid] }

/-- The ordered button list of the settings for a side. -/
def World.buttonTypes (w : World) (type : DecorationButtonGroup.Position) :
    List DecorationButtonType :=
  if type = .Left then w.settings.decorationButtonsLeft else w.settings.decorationButtonsRight

/-- In `w1` the members of the group `gid` are the buttons `created`, in order, as
newly allocated objects (the addresses from the allocation mark of `w` on), each
connected to the group and laid out (equal to the created button up to its origin). -/
def Populated (w w1 : World) (gid : Nat) (created : List DecorationButton) : Prop :=
  DecorationButtonGroup.buttons gid w1 = .ok (List.range' w.heap.length created.length) ∧
    w1.heap.length = w.heap.length + created.length ∧
    ∀ i b, created[i]? = some b →
      (w1.data (w.heap.length + i)).map (fun c => c.placed 0 0)
        = some ((b.connected gid).placed 0 0)

/-- A sample state: `threeButtons` with the settings listing `Close` and `Minimize`
for the left side. -/
def threeButtonsResettled : World :=
  { threeButtons with settings := { decorationButtonsLeft := [.Close, .Minimize] } }

/-- A run that drives a group's spacing below zero. -/
def negativeSpacingOps : List Op := [.createGroup, .setSpacing 0 (-1)]

/-- A run with non-negative spacings only. -/
def sampleOps : List Op :=
  [.createGroup, .setSpacing 0 3, .newButton .Close, .addButton 0 0, .setSpacing 0 0,
   .createGroupFor .Left tenByFive]

/-- A run over buttons: construction, the flag setters and events. -/
def sampleButtonOps : List Op :=
  [.newButton .KeepAbove, .setChecked 0 true, .newButton .Close, .setChecked 1 true,
   .setCheckable 0 false, .setCheckable 1 true, .setChecked 1 true, .setEnabled 1 false,
   .createGroup, .addButton 0 1, .setVisible 1 false]

/-- The request signals a click with the pointer button `m` on the button `p` of type
`type` records: the type-specific request to the client, if there is one. -/
def requestSignals (p : Nat) (type : DecorationButtonType) (m : MouseButton) : List Signal :=
  match clickRequest type m with
  | none => []
  | some r => [.clientRequest p r]

/-- What C21 says of the release of the pointer button `m` at `pos` on the button `p` in
state `w`: if the button is pressed the event is accepted, the button is not pressed
afterwards, and the signals recorded are `pressedChanged(false)`, one `clicked(m)` and
the request of the click; if it is not pressed the event stays unaccepted and the
state is returned as it was. -/
def ReleaseLaw (p : Nat) (pos : QPoint) (m : MouseButton) (w : World) : Prop :=
  ∀ b, w.data p = some b →
    (b.isPressed = true →
      ∃ w1, DecorationButton.event p (.ButtonRelease pos m) false w = .ok (w1, true) ∧
        (w1.data p).map DecorationButton.isPressed = some false ∧
        w1.emitted = w.emitted ++
          Signal.pressedChanged p false :: Signal.clicked p m :: requestSignals p b.type m) ∧
    (b.isPressed = false →
      DecorationButton.event p (.ButtonRelease pos m) false w = .ok (w, false))

/-- A sample state: an enabled `Maximize` button with geometry (0, 0, 10, 10) on which
the secondary and the middle pointer button are held, as after the two presses of
`testMaximize`. -/
def twoHeld : World :=
  { heap := [some { DecorationButton.create .Maximize with
                      geometry := { x := 0, y := 0, width := 10, height := 10 },
                      pressedButtons := [.RightButton, .MiddleButton] }] }

/-- What C20 says of the press of the pointer button `m` at `pos` on the button `p` in
state `w`: if the button is visible and enabled, the position lies within its
geometry and the pointer button is accepted, the event is accepted, the button is
pressed afterwards and the signal recorded is one `pressedChanged(true)`; in every
other case the event stays unaccepted, the button is not pressed afterwards and
nothing is recorded. -/
def PressLaw (p : Nat) (pos : QPoint) (m : MouseButton) (w : World) : Prop :=
  ∀ b, w.data p = some b →
    ((b.visible && b.enabled && b.geometry.contains pos
        && decide (m ∈ b.acceptedButtons)) = true →
      ∃ w1, DecorationButton.event p (.ButtonPress pos m) false w = .ok (w1, true) ∧
        (w1.data p).map DecorationButton.isPressed = some true ∧
        w1.emitted = w.emitted ++ [Signal.pressedChanged p true]) ∧
    ((b.visible && b.enabled && b.geometry.contains pos
        && decide (m ∈ b.acceptedButtons)) = false →
      ∃ w1, DecorationButton.event p (.ButtonPress pos m) false w = .ok (w1, false) ∧
        (w1.data p).map DecorationButton.isPressed = some false ∧
        w1.emitted = w.emitted)

/-- A sample state: an enabled `Maximize` button with geometry (0, 0, 10, 10) on which
the secondary pointer button is held, as after the first press of the second part of
`testMaximize`. -/
def rightHeld : World :=
  { heap := [some { DecorationButton.create .Maximize with
                      geometry := { x := 0, y := 0, width := 10, height := 10 },
                      pressedButtons := [.RightButton] }] }

/-- Deliver the events `es` to the button `p`, in order, each arriving unaccepted;
the result is the final state and the `accepted` flag of each event. -/
def DecorationButton.events (p : Nat) :
    List ButtonEvent → World → Except Fault (World × List Bool)
  | [], w => .ok (w, [])
  | e :: es, w =>
    match DecorationButton.event p e false w with
    | .error err => .error err
    | .ok r =>
      match DecorationButton.events p es r.1 with
      | .error err => .error err
      | .ok rs => .ok (rs.1, r.2 :: rs.2)

/-- The button state after the events `es`, in order. -/
def DecorationButton.afterEvents (b : DecorationButton) : List ButtonEvent → DecorationButton
  | [] => b
  | e :: es => (b.afterEvent e).afterEvents es

/-- The notifications and requests the events `es` cause on button `p` in state `b`. -/
def signalsEvents (p : Nat) (b : DecorationButton) : List ButtonEvent → List Signal
  | [] => []
  | e :: es => signalsEvent p b e ++ signalsEvents p (b.afterEvent e) es

/-- Which of the events `es` the button in state `b` accepts. -/
def DecorationButton.handlesAll (b : DecorationButton) : List ButtonEvent → List Bool
  | [] => []
  | e :: es => b.handles e :: (b.afterEvent e).handlesAll es

/-- A sample state: an enabled `Maximize` button with geometry (0, 0, 10, 10), not
pressed. -/
def maximizeButton : World :=
  { heap := [some { DecorationButton.create .Maximize with
                      geometry := { x := 0, y := 0, width := 10, height := 10 } }] }

/-- A run over a button with hover events and changes of `enabled`. -/
def sampleHoverOps : List Op :=
  [.newButton .Custom, .event 0 .HoverEnter, .setEnabled 0 false, .event 0 .HoverEnter,
   .setEnabled 0 true, .event 0 .HoverEnter, .event 0 .HoverLeave, .event 0 .HoverEnter,
   .newButton .Close, .setEnabled 1 false]

/-- The requests to the client that button `p` has sent, among recorded signals. -/
def requestsOf (p : Nat) : List Signal → List ClientRequest
  | [] => []
  | .clientRequest q r :: rest => if q = p then r :: requestsOf p rest else requestsOf p rest
  | _ :: rest => requestsOf p rest

/-- A click on the button `p` together with its effect on the client: the pointer
button `m` is pressed and released at `pos`, the client services the requests the
button has sent meanwhile, and the change notifications of the client are delivered
to the button. -/
def click (slot : Nat → World → Except Fault World) (p : Nat) (pos : QPoint) (m : MouseButton)
    (wc : World × Client) : Except Fault (World × Client) :=
  match DecorationButton.events p [.ButtonPress pos m, .ButtonRelease pos m] wc.1 with
  | .error e => .error e
  | .ok r =>
    match DecorationButton.clientChangedAll slot p
        (wc.2.changes ((requestsOf p (r.1.emitted.drop wc.1.emitted.length)).foldl
          Client.serve wc.2)) r.1 with
    | .error e => .error e
    | .ok w2 =>
      .ok (w2, (requestsOf p (r.1.emitted.drop wc.1.emitted.length)).foldl Client.serve wc.2)

/-- The conditions under which a click with the pointer button `m` at `pos` on a button
in state `b` takes place: the button is visible and enabled, the position lies within
its geometry, the pointer button is accepted, and no pointer button is held. -/
def DecorationButton.clickable (b : DecorationButton) (pos : QPoint) (m : MouseButton) : Prop :=
  b.visible = true ∧ b.enabled = true ∧ b.geometry.contains pos = true ∧
    m ∈ b.acceptedButtons ∧ b.pressedButtons = []

/-- The state of the client after it has serviced the request of a click with the
pointer button `m` on a button of type `type`. -/
def Client.afterClick (c : Client) (type : DecorationButtonType) (m : MouseButton) : Client :=
  match clickRequest type m with
  | none => c
  | some r => c.serve r

/-- The flag of the client that a click on a button of type `type` toggles, for the
toggling types `KeepAbove`, `KeepBelow` and `Shade`. -/
def Client.toggleFlag (c : Client) : DecorationButtonType → Option Bool
  | .KeepAbove => some c.keepAbove
  | .KeepBelow => some c.keepBelow
  | .Shade => some c.shaded
  | _ => none

/-- A sample state: an enabled `KeepAbove` button with geometry (0, 0, 10, 10), as in
`testKeepAbove`. -/
def keepAboveButton : World :=
  { heap := [some { DecorationButton.create .KeepAbove with
                      geometry := { x := 0, y := 0, width := 10, height := 10 } }] }

/-- The size of the geometry of a group. -/
def DecorationButtonGroup.Private.size (d : DecorationButtonGroup.Private) : qreal × qreal :=
  (d.geometry.width, d.geometry.height)

/-- Between `w` and `w1` no layout has been computed: every button has the geometry it
had, every group the size it had, and the flag `s_layoutRecursion` is as it was. -/
def NoLayout (w w1 : World) : Prop :=
  (∀ q b1, w1.data q = some b1 → ∃ b, w.data q = some b ∧ b1.geometry = b.geometry) ∧
    w1.groups.map DecorationButtonGroup.Private.size
      = w.groups.map DecorationButtonGroup.Private.size ∧
    w1.s_layoutRecursion = w.s_layoutRecursion

/-- A sample state: `threeButtonsAndSpare` while a layout pass (of some group) is in
progress. -/
def duringLayout : World :=
  { threeButtonsAndSpare with s_layoutRecursion := true }

/-- A sample state: one group with the x origin 3000000000, beyond the range of
`int`, and spacing 2, holding three visible 10x5 buttons, each connected to the
group. -/
def farOrigin : World :=
  { heap := [some { type := .Close, geometry := { x := 0, y := 0, width := 10, height := 5 },
                    visibilityChangedSlots := [0], geometryChangedSlots := [0] },
             some { type := .Maximize, geometry := { x := 0, y := 0, width := 10, height := 5 },
                    visibilityChangedSlots := [0], geometryChangedSlots := [0] },
             some { type := .Minimize, geometry := { x := 0, y := 0, width := 10, height := 5 },
                    visibilityChangedSlots := [0], geometryChangedSlots := [0] }],
    groups := [{ geometry := { x := 3000000000, y := 0, width := 0, height := 0 },
                 spacing := 2, buttons := [0, 1, 2] }] }

/-- The state `farOrigin` after a layout pass. -/
def farOriginLaidOut : World :=
  stateOr (DecorationButtonGroup.Private.updateLayout 2 0 farOrigin) farOrigin

/-- The state `farOriginLaidOut` after the middle button has been hidden. -/
def farOriginHidden : World :=
  stateOr (DecorationButton.setVisible (DecorationButtonGroup.Private.updateLayout 2) 1 false
    farOriginLaidOut) farOrigin

/-- The group of `roundedSpacing`: its x origin is the double nearest to 0.4, its
spacing the double nearest to 0.2. -/
def roundedSpacingGroup : DecorationButtonGroup.Private :=
  { geometry := { x := 3602879701896397 / 9007199254740992, y := 0, width := 0, height := 0 },
    spacing := 3602879701896397 / 18014398509481984, buttons := [0, 1, 2, 3] }

/-- A sample state: the group `roundedSpacingGroup` holding four visible 10x5
buttons. -/
def roundedSpacing : World :=
  { heap := [some { type := .Close, geometry := { x := 0, y := 0, width := 10, height := 5 } },
             some { type := .Maximize, geometry := { x := 0, y := 0, width := 10, height := 5 } },
             some { type := .Minimize, geometry := { x := 0, y := 0, width := 10, height := 5 } },
             some { type := .Shade, geometry := { x := 0, y := 0, width := 10, height := 5 } }],
    groups := [roundedSpacingGroup] }

/-- The state `roundedSpacing` after a layout pass. -/
def roundedSpacingLaidOut : World :=
  stateOr (DecorationButtonGroup.Private.updateLayout 2 0 roundedSpacing) roundedSpacing

/-- The state `duplicateEntry` after a layout pass. -/
def duplicateEntryLaidOut : World :=
  stateOr (DecorationButtonGroup.Private.updateLayout 2 0 duplicateEntry) duplicateEntry

/-- The containment C29 describes, for the member list `l` of a group whose geometry
is `G` in the state `w1`: the rectangle of every visible member lies inside `G`, and
its top edge is that of `G`. -/
def InsideGroup (w1 : World) (G : QRectF) (l : List Nat) : Prop :=
  ∀ p ∈ l, w1.isVisible p = true → ∀ g : QRect, (w1.data p).map (fun b => b.geometry) = some g →
    G.x ≤ (g.x : qreal) ∧ (g.x : qreal) + (g.width : qreal) ≤ G.x + G.width ∧
    (g.y : qreal) = G.y ∧ (g.height : qreal) ≤ G.height

/-- The order C29 describes, for the member list `l` and the spacing `s` in the state
`w1`: a visible member `a` that comes before a visible member `b` in the list (the
next one for `n = 0`) ends at least one spacing before `b` starts. -/
def InListOrder (w1 : World) (s : qreal) (l : List Nat) : Prop :=
  ∀ (k n a b : Nat), (l.filter w1.isVisible)[k]? = some a →
    (l.filter w1.isVisible)[k + 1 + n]? = some b →
    ∀ ga gb : QRect, (w1.data a).map (fun x => x.geometry) = some ga →
      (w1.data b).map (fun x => x.geometry) = some gb →
      (ga.x : qreal) + (ga.width : qreal) + s ≤ (gb.x : qreal)

/-- A sample state: one group at origin (0, 0) with spacing 2 whose member list names
a visible 10x5 button, a visible 20x8 button and the first button again. -/
def repeatedEntry : World :=
  { heap := [some { type := .Close, geometry := { x := 0, y := 0, width := 10, height := 5 },
                    visibilityChangedSlots := [0, 0], geometryChangedSlots := [0, 0] },
             some { type := .Maximize, geometry := { x := 0, y := 0, width := 20, height := 8 },
                    visibilityChangedSlots := [0], geometryChangedSlots := [0] }],
    groups := [{ spacing := 2, buttons := [0, 1, 0] }] }

/-- The placement C30 describes, for a pass leading from `w` to `w1` over the member
list `l` of a group at the origin `(x, y)` with spacing `s`: the `k`-th visible member
has x = the truncation of `x` plus the sum of `width + s` over the visible members
before it, y = the truncation of `y`, and the size it had in `w`. -/
def PlacedTruncated (w w1 : World) (l : List Nat) (x y s : qreal) : Prop :=
  ∀ (k p : Nat), (l.filter w.isVisible)[k]? = some p →
    (w1.data p).map (fun b => b.geometry)
      = some { x := truncate (x + (((l.filter w.isVisible).take k).map
                          (fun q => ((w.sizeOf q).width : qreal) + s)).sum),
               y := truncate y,
               width := (w.sizeOf p).width,
               height := (w.sizeOf p).height }

/-- The group of `halfSpacing`. -/
def halfSpacingGroup : DecorationButtonGroup.Private :=
  { spacing := 1 / 2, buttons := [0, 1, 2] }

/-! ## Lemmas -/

theorem twoPow_eq (k : Int) : twoPow k = (2 : ℚ) ^ k := by
  unfold twoPow
  split
  · rename_i h
    obtain ⟨n, rfl⟩ := Int.eq_ofNat_of_zero_le h
    simp
  · rename_i h
    have h1 : 0 ≤ -k := by omega
    obtain ⟨n, hn⟩ := Int.eq_ofNat_of_zero_le h1
    have hk : k = -(n : Int) := by omega
    subst hk
    simp

theorem roundHalfEven_intCast (z : Int) : roundHalfEven (z : ℚ) = z := by
  have h : Rat.floor (z : ℚ) = z := by simp [Rat.floor]
  unfold roundHalfEven
  rw [h]
  simp

theorem bitLog_le (fuel : Nat) : ∀ n : Nat, n ≠ 0 → 2 ^ bitLog fuel n ≤ n := by
  induction fuel with
  | zero => intro n hn; simp [bitLog]; omega
  | succ f ih =>
    intro n hn
    unfold bitLog
    split
    · simp; omega
    · rename_i h
      have h2 : n / 2 ≠ 0 := by omega
      have := ih (n / 2) h2
      rw [pow_succ]
      omega

theorem lt_bitLog (fuel : Nat) :
    ∀ (n k : Nat), k ≤ fuel → n < 2 ^ k → n < 2 ^ (bitLog fuel n + 1) := by
  induction fuel with
  | zero =>
    intro n k hk hn
    have : k = 0 := by omega
    subst this
    simp [bitLog] at hn ⊢
    omega
  | succ f ih =>
    intro n k hk hn
    unfold bitLog
    split
    · simp; omega
    · rename_i h
      cases k with
      | zero => simp at hn; omega
      | succ k =>
        have h2 : n / 2 < 2 ^ k := by
          rw [pow_succ] at hn
          omega
        have h3 := ih (n / 2) k (by omega) h2
        have e : 2 ^ (bitLog f (n / 2) + 1 + 1) = 2 ^ (bitLog f (n / 2) + 1) * 2 := pow_succ _ _
        rw [e]
        omega

theorem onGrid_iff (q : qreal) : OnGrid q ↔ ∃ m : Int, q = (m : ℚ) / 1048576 := by
  unfold OnGrid
  constructor
  · intro h
    refine ⟨(q * 1048576).num, ?_⟩
    rw [Rat.coe_int_num_of_den_eq_one h]
    field_simp
  · rintro ⟨m, rfl⟩
    have : (m : ℚ) / 1048576 * 1048576 = (m : ℚ) := by field_simp
    rw [this]
    exact Rat.den_intCast m

theorem onGrid_intCast (n : Int) : OnGrid (n : qreal) :=
  (onGrid_iff _).mpr ⟨n * 1048576, by push_cast; field_simp⟩

theorem onGrid_add {a b : qreal} (ha : OnGrid a) (hb : OnGrid b) : OnGrid (a + b) := by
  obtain ⟨m, rfl⟩ := (onGrid_iff a).mp ha
  obtain ⟨n, rfl⟩ := (onGrid_iff b).mp hb
  exact (onGrid_iff _).mpr ⟨m + n, by push_cast; ring⟩

theorem onGrid_zero : OnGrid 0 := by
  simpa using onGrid_intCast 0

theorem abs_eq_natAbs_div (q : ℚ) : |q| = (q.num.natAbs : ℚ) / (q.den : ℚ) := by
  rw [Rat.abs_def, Rat.divInt_eq_div]
  push_cast
  rw [Nat.cast_natAbs, Int.cast_abs]

theorem binaryExponent_le (q : ℚ) (h0 : q ≠ 0) (hg : OnGrid q) (hb : |q| ≤ 4294967296) :
    binaryExponent q ≤ 32 := by
  have hn0 : q.num.natAbs ≠ 0 := by
    simpa using (Rat.num_ne_zero.mpr h0)
  have hd0 : q.den ≠ 0 := q.den_nz
  have hd : q.den ≤ 1048576 := by
    obtain ⟨m, hm⟩ := (onGrid_iff q).mp hg
    have h1 : q = Rat.divInt m 1048576 := by
      rw [hm, Rat.divInt_eq_div]; norm_num
    have h2 : (q.den : Int) ∣ 1048576 := by
      rw [h1]; exact Rat.den_dvd m 1048576
    have h3 := Int.le_of_dvd (by norm_num) h2
    exact_mod_cast h3
  have hq : (q.num.natAbs : ℚ) ≤ 4294967296 * (q.den : ℚ) := by
    rw [abs_eq_natAbs_div] at hb
    have hdpos : (0 : ℚ) < q.den := by exact_mod_cast Nat.pos_of_ne_zero hd0
    exact (div_le_iff₀ hdpos).mp hb
  have hq1 : q.num.natAbs ≤ 4294967296 * q.den := by exact_mod_cast hq
  have hdl : q.den < 2 ^ (bitLog 2200 q.den + 1) :=
    lt_bitLog 2200 q.den 21 (by norm_num) (lt_of_le_of_lt hd (by norm_num))
  have hnl : 2 ^ bitLog 2200 q.num.natAbs ≤ q.num.natAbs := bitLog_le 2200 _ hn0
  have hlt : 2 ^ bitLog 2200 q.num.natAbs < 2 ^ (bitLog 2200 q.den + 33) := by
    calc 2 ^ bitLog 2200 q.num.natAbs ≤ q.num.natAbs := hnl
      _ ≤ 4294967296 * q.den := hq1
      _ < 4294967296 * 2 ^ (bitLog 2200 q.den + 1) :=
          Nat.mul_lt_mul_of_pos_left hdl (by norm_num)
      _ = 2 ^ (bitLog 2200 q.den + 33) := by
          have e : (2 : Nat) ^ (bitLog 2200 q.den + 33)
              = 2 ^ (bitLog 2200 q.den + 1) * 2 ^ 32 := pow_add 2 _ 32
          rw [e]
          norm_num
          ring
  have hlog : bitLog 2200 q.num.natAbs < bitLog 2200 q.den + 33 :=
    (Nat.pow_lt_pow_iff_right (by norm_num)).mp hlt
  unfold binaryExponent
  split <;> omega

/-- Rounding leaves a multiple of `2 ^ (-20)` of magnitude at most `2 ^ 32` as it is. -/
theorem roundToDouble_exact (q : ℚ) (hg : OnGrid q) (hb : |q| ≤ 4294967296) :
    roundToDouble q = q := by
  unfold roundToDouble
  by_cases h0 : q = 0
  · simp [h0]
  · rw [if_neg h0]
    have he := binaryExponent_le q h0 hg hb
    obtain ⟨m, hm⟩ := (onGrid_iff q).mp hg
    have hk : 0 ≤ 32 - max (binaryExponent q) (-1022) := by
      have : max (binaryExponent q) (-1022) ≤ 32 := max_le he (by norm_num)
      omega
    obtain ⟨j, hj⟩ := Int.eq_ofNat_of_zero_le hk
    have hexp : max (binaryExponent q) (-1022) - 52 = -(20 : Int) - (j : Int) := by omega
    rw [hexp, twoPow_eq]
    have h2 : (2 : ℚ) ^ (-(20 : Int) - (j : Int)) = 1 / (1048576 * 2 ^ j) := by
      rw [zpow_sub₀ (by norm_num), zpow_neg, zpow_natCast]
      norm_num
      field_simp
      ring
    rw [h2]
    have hint : q / (1 / (1048576 * 2 ^ j)) = ((m * 2 ^ j : Int) : ℚ) := by
      rw [hm]; push_cast; field_simp; ring
    rw [hint, roundHalfEven_intCast, hm]
    push_cast
    field_simp
    ring

theorem fadd_exact (a b : qreal) (ha : OnGrid a) (hb : OnGrid b) (h : |a + b| ≤ 4294967296) :
    fadd a b = a + b :=
  roundToDouble_exact _ (onGrid_add ha hb) h

theorem truncate_intCast (n : Int) : truncate (n : ℚ) = n := by
  simp [truncate]

theorem natAbs_truncate_le (q : ℚ) (B : Nat) (h : |q| ≤ (B : ℚ)) : (truncate q).natAbs ≤ B := by
  rw [abs_eq_natAbs_div] at h
  have hdpos : (0 : ℚ) < q.den := by exact_mod_cast Nat.pos_of_ne_zero q.den_nz
  have h1 : (q.num.natAbs : ℚ) ≤ (B : ℚ) * (q.den : ℚ) := (div_le_iff₀ hdpos).mp h
  have h2 : q.num.natAbs ≤ B * q.den := by exact_mod_cast h1
  unfold truncate
  rw [Int.natAbs_tdiv]
  show q.num.natAbs / (q.den : Int).natAbs ≤ B
  rw [Int.natAbs_ofNat]
  exact Nat.div_le_of_le_mul (by rw [Nat.mul_comm]; exact h2)

/-- In the range of `int` the conversion is the truncation. -/
theorem qrealToInt_eq_truncate (q : qreal) (h : |q| ≤ 2147483647) :
    qrealToInt q = truncate q := by
  have h1 := natAbs_truncate_le q 2147483647 (by exact_mod_cast h)
  unfold qrealToInt
  rw [if_pos]
  omega


theorem updateLayout_guarded (fuel gid : Nat) (w : World) (h : w.s_layoutRecursion = true) :
    Private.updateLayout (fuel + 1) gid w = .ok w := by
  simp [Private.updateLayout, h]

theorem emit_guarded (fuel : Nat) (gs : List Nat) (w : World) (h : w.s_layoutRecursion = true) :
    emit (Private.updateLayout (fuel + 1)) gs w = .ok w := by
  induction gs with
  | nil => rfl
  | cons g gs ih => simp [emit, updateLayout_guarded fuel g w h, ih]

theorem emit_skip (gs : List Nat) (w : World) :
    emit (fun _ v => .ok v) gs w = .ok w := by
  induction gs with
  | nil => rfl
  | cons g gs ih => simp [emit, ih]

theorem store_guard (w : World) (p : Nat) (b : DecorationButton) :
    (w.store p b).s_layoutRecursion = w.s_layoutRecursion := rfl

theorem record_guard (w : World) (s : Signal) :
    (w.record s).s_layoutRecursion = w.s_layoutRecursion := rfl

theorem button_setGeometry_guarded (fuel p : Nat) (geo : QRect) (w : World)
    (h : w.s_layoutRecursion = true) :
    DecorationButton.setGeometry (Private.updateLayout (fuel + 1)) p geo w
      = DecorationButton.setGeometry (fun _ v => .ok v) p geo w := by
  unfold DecorationButton.setGeometry
  cases hd : w.data p with
  | none => rfl
  | some b =>
    simp only
    split
    · rfl
    · rw [emit_guarded, emit_skip]
      simp [record_guard, store_guard, h]

theorem button_setGeometry_skip_guard (p : Nat) (geo : QRect) (w w1 : World)
    (h : DecorationButton.setGeometry (fun _ v => .ok v) p geo w = .ok w1) :
    w1.s_layoutRecursion = w.s_layoutRecursion := by
  unfold DecorationButton.setGeometry at h
  cases hd : w.data p with
  | none => simp [hd] at h
  | some b =>
    simp only [hd] at h
    split at h
    · cases h; rfl
    · rw [emit_skip] at h
      cases h; rfl

theorem positionLoop_guarded (fuel : Nat) (pos : QPointF) (spacing : qreal) (l : List Nat) :
    ∀ (position : qreal) (w : World), w.s_layoutRecursion = true →
      positionLoop (Private.updateLayout (fuel + 1)) pos spacing l position w
        = positionLoop (fun _ v => .ok v) pos spacing l position w := by
  induction l with
  | nil => intro position w _; rfl
  | cons p rest ih =>
    intro position w h
    unfold positionLoop
    cases hd : w.data p with
    | none => rfl
    | some b =>
      simp only
      split
      · exact ih position w h
      · rw [button_setGeometry_guarded fuel p _ w h]
        cases hs : DecorationButton.setGeometry (fun _ v => .ok v) p
            { x := qrealToInt position, y := qrealToInt pos.y,
              width := b.size.width, height := b.size.height } w with
        | error e => rfl
        | ok w1 =>
          simp only
          exact ih _ w1 (by rw [button_setGeometry_skip_guard p _ w w1 hs, h])

theorem group_setGeometry_guard (gid : Nat) (geo : QRectF) (w w1 : World)
    (h : Private.setGeometry gid geo w = .ok w1) :
    w1.s_layoutRecursion = w.s_layoutRecursion := by
  unfold Private.setGeometry at h
  split at h
  · cases h
  · split at h
    · cases h; rfl
    · cases h; rfl

theorem updateLayout_eq_singlePass (fuel gid : Nat) (w : World)
    (h : w.s_layoutRecursion = false) :
    Private.updateLayout (fuel + 2) gid w = singlePass gid w := by
  unfold Private.updateLayout singlePass
  simp only [h, Bool.false_eq_true, if_false]
  cases hg : w.groups[gid]? with
  | none => rfl
  | some d =>
    simp only
    cases hs : sizeLoop { w with s_layoutRecursion := true } d.spacing d.buttons (0, 0) with
    | error e => rfl
    | ok wh =>
      obtain ⟨width, height⟩ := wh
      simp only
      cases hg2 : Private.setGeometry gid
          { x := d.geometry.topLeft.x, y := d.geometry.topLeft.y, width := width, height := height }
          { w with s_layoutRecursion := true } with
      | error e => simp [QRectF.topLeft] at hg2 ⊢; simp [hg2]
      | ok w1 =>
        have hw1 : w1.s_layoutRecursion = true := by
          rw [group_setGeometry_guard gid _ _ w1 hg2]
        simp only [QRectF.topLeft] at hg2 ⊢
        simp only [hg2]
        rw [positionLoop_guarded fuel _ _ _ _ w1 hw1]

theorem data_lt (w : World) (p : Nat) (b : DecorationButton) (h : w.data p = some b) :
    p < w.heap.length := by
  unfold World.data at h
  by_contra hlt
  rw [List.getElem?_eq_none (by omega)] at h
  simp at h

theorem data_store_same (w : World) (p : Nat) (b b1 : DecorationButton)
    (h : w.data p = some b) : (w.store p b1).data p = some b1 := by
  have hlt := data_lt w p b h
  simp [World.data, World.store, List.getElem?_set, hlt]

theorem data_store_other (w : World) (p q : Nat) (b1 : DecorationButton) (h : q ≠ p) :
    (w.store p b1).data q = w.data q := by
  simp [World.data, World.store, List.getElem?_set, Ne.symm h]

theorem data_record (w : World) (s : Signal) (q : Nat) : (w.record s).data q = w.data q := rfl

theorem sameEnv_refl (w : World) : SameEnv w w := ⟨rfl, rfl, rfl, rfl⟩

theorem sameEnv_trans {w w1 w2 : World} (h1 : SameEnv w w1) (h2 : SameEnv w1 w2) :
    SameEnv w w2 :=
  ⟨h2.1.trans h1.1, h2.2.1.trans h1.2.1, h2.2.2.1.trans h1.2.2.1, h2.2.2.2.trans h1.2.2.2⟩

theorem sameButtons_refl (w : World) : SameButtons w w := fun _ => rfl

theorem sameButtons_trans {w w1 w2 : World} (h1 : SameButtons w w1) (h2 : SameButtons w1 w2) :
    SameButtons w w2 := fun q => (h2 q).trans (h1 q)

theorem placed_placed (b : DecorationButton) (x y x1 y1 : Int) :
    (b.placed x y).placed x1 y1 = b.placed x1 y1 := rfl

/-- What `DecorationButton::setGeometry` does to a live button when the connected
slots do nothing, for a rectangle of the button's own size. -/
theorem button_setGeometry_skip (p : Nat) (x y : Int) (w : World) (b : DecorationButton)
    (h : w.data p = some b) :
    ∃ w1, DecorationButton.setGeometry (fun _ v => .ok v) p
        { x := x, y := y, width := b.size.width, height := b.size.height } w = .ok w1 ∧
      SameEnv w w1 ∧ w1.data p = some (b.placed x y) ∧ ∀ q, q ≠ p → w1.data q = w.data q := by
  unfold DecorationButton.setGeometry
  simp only [h]
  split
  · rename_i heq
    refine ⟨w, rfl, sameEnv_refl w, ?_, fun _ _ => rfl⟩
    rw [h]
    congr 1
    cases b
    simp only [DecorationButton.placed] at heq ⊢
    simp only [← heq]
  · rw [emit_skip]
    refine ⟨_, rfl, ⟨rfl, rfl, rfl, ?_⟩, ?_, ?_⟩
    · simp [World.record, World.store]
    · rw [data_record, data_store_same w p b _ h]; rfl
    · intro q hq
      rw [data_record, data_store_other w p q _ hq]

theorem isVisible_of_data (w : World) (p : Nat) (b : DecorationButton) (h : w.data p = some b) :
    w.isVisible p = b.visible := by simp [World.isVisible, h]

theorem sizeOf_of_data (w : World) (p : Nat) (b : DecorationButton) (h : w.data p = some b) :
    w.sizeOf p = b.size := by simp [World.sizeOf, h]

theorem sameButtons_isVisible {w w1 : World} (h : SameButtons w w1) (q : Nat) :
    w1.isVisible q = w.isVisible q := by
  have hq := h q
  unfold World.isVisible
  cases h1 : w1.data q <;> cases h0 : w.data q <;> simp [h1, h0] at hq ⊢
  exact (congrArg DecorationButton.visible hq : _)

theorem sameButtons_sizeOf {w w1 : World} (h : SameButtons w w1) (q : Nat) :
    w1.sizeOf q = w.sizeOf q := by
  have hq := h q
  unfold World.sizeOf
  cases h1 : w1.data q <;> cases h0 : w.data q <;> simp [h1, h0] at hq ⊢
  exact (congrArg DecorationButton.size hq : _)

theorem sameButtons_isSome {w w1 : World} (h : SameButtons w w1) (q : Nat) :
    (w1.data q).isSome = (w.data q).isSome := by
  have hq := h q
  cases h1 : w1.data q <;> cases h0 : w.data q <;> simp [h1, h0] at hq ⊢

theorem sameButtons_type {w w1 : World} (h : SameButtons w w1) (q : Nat) :
    (w1.data q).map (fun b => b.type) = (w.data q).map (fun b => b.type) := by
  have hq := h q
  cases h1 : w1.data q <;> cases h0 : w.data q <;> simp [h1, h0] at hq ⊢
  exact (congrArg DecorationButton.type hq : _)

theorem offsetBefore_nil (w : World) (s : qreal) (p : Nat) : offsetBefore w s [] p = 0 := rfl

theorem offsetBefore_cons (w : World) (s : qreal) (q : Nat) (rest : List Nat) (p : Nat) :
    offsetBefore w s (q :: rest) p =
      if q = p then 0
      else (if w.isVisible q then ((w.sizeOf q).width : qreal) + s else 0)
        + offsetBefore w s rest p := by
  unfold offsetBefore
  by_cases hqp : q = p
  · simp [List.takeWhile_cons, hqp]
  · by_cases hv : w.isVisible q
    · simp [List.takeWhile_cons, hqp, List.filter_cons, hv]
    · simp [List.takeWhile_cons, hqp, List.filter_cons, hv]

theorem offsetBefore_congr (w w1 : World) (s : qreal) (p : Nat) (l : List Nat)
    (h : ∀ q ∈ l, w1.isVisible q = w.isVisible q ∧ w1.sizeOf q = w.sizeOf q) :
    offsetBefore w1 s l p = offsetBefore w s l p := by
  induction l with
  | nil => rfl
  | cons q rest ih =>
    rw [offsetBefore_cons, offsetBefore_cons,
      ih (fun r hr => h r (List.mem_cons_of_mem _ hr)),
      (h q (List.mem_cons_self _ _)).1, (h q (List.mem_cons_self _ _)).2]

/-- The positioning loop, run with slots that do nothing over live entries, succeeds
and only moves buttons. -/
theorem positionLoop_frame (pos : QPointF) (s : qreal) (l : List Nat) :
    ∀ (position : qreal) (w : World), (∀ p ∈ l, (w.data p).isSome = true) →
      ∃ w1, positionLoop (fun _ v => .ok v) pos s l position w = .ok w1 ∧
        SameEnv w w1 ∧ SameButtons w w1 ∧ (∀ q, q ∉ l → w1.data q = w.data q) := by
  induction l with
  | nil => intro position w _; exact ⟨w, rfl, sameEnv_refl w, sameButtons_refl w, fun _ _ => rfl⟩
  | cons p rest ih =>
    intro position w hl
    have hp := hl p (List.mem_cons_self _ _)
    obtain ⟨b, hb⟩ := Option.isSome_iff_exists.mp hp
    unfold positionLoop
    simp only [hb]
    split
    · obtain ⟨w1, h1, he1, hs1, ho1⟩ :=
        ih position w (fun q hq => hl q (List.mem_cons_of_mem _ hq))
      exact ⟨w1, h1, he1, hs1, fun q hq => ho1 q (fun h => hq (List.mem_cons_of_mem _ h))⟩
    · obtain ⟨w1, h1, he1, hp1, ho1⟩ :=
        button_setGeometry_skip p (qrealToInt position) (qrealToInt pos.y) w b hb
      rw [h1]
      simp only
      have hsb : SameButtons w w1 := by
        intro q
        by_cases hq : q = p
        · subst hq; rw [hp1, hb]; rfl
        · rw [ho1 q hq]
      have hl1 : ∀ q ∈ rest, (w1.data q).isSome = true := by
        intro q hq
        rw [sameButtons_isSome hsb q]
        exact hl q (List.mem_cons_of_mem _ hq)
      obtain ⟨w2, h2, he2, hs2, ho2⟩ := ih (fadd position (fadd (b.size.width : qreal) s)) w1 hl1
      refine ⟨w2, h2, sameEnv_trans he1 he2, sameButtons_trans hsb hs2, ?_⟩
      intro q hq
      rw [ho2 q (fun h => hq (List.mem_cons_of_mem _ h)),
        ho1 q (fun h => hq (h ▸ List.mem_cons_self _ _))]

theorem layoutBudget_cons (w : World) (s : qreal) (q : Nat) (rest : List Nat) :
    layoutBudget w s (q :: rest) =
      (if w.isVisible q then |((w.sizeOf q).width : qreal)| + |s| else 0)
        + layoutBudget w s rest := by
  unfold layoutBudget
  by_cases hv : w.isVisible q = true
  · simp [List.filter_cons, hv]
  · simp [List.filter_cons, hv]

theorem layoutBudget_nonneg (w : World) (s : qreal) (l : List Nat) :
    0 ≤ layoutBudget w s l := by
  induction l with
  | nil => simp [layoutBudget]
  | cons q rest ih =>
    rw [layoutBudget_cons]
    split
    · have h1 := abs_nonneg ((w.sizeOf q).width : qreal)
      have h2 := abs_nonneg s
      linarith
    · linarith

theorem layoutBudget_congr (w w1 : World) (s : qreal) (l : List Nat)
    (h : ∀ q ∈ l, w1.isVisible q = w.isVisible q ∧ w1.sizeOf q = w.sizeOf q) :
    layoutBudget w1 s l = layoutBudget w s l := by
  induction l with
  | nil => rfl
  | cons q rest ih =>
    rw [layoutBudget_cons, layoutBudget_cons,
      ih (fun r hr => h r (List.mem_cons_of_mem _ hr)),
      (h q (List.mem_cons_self _ _)).1, (h q (List.mem_cons_self _ _)).2]

/-- One step of the running position, for values in the exact range: no rounding. -/
theorem fadd_step (position s : qreal) (n : Int) (B : qreal) (hp : OnGrid position)
    (hs : OnGrid s) (hB : |position| + (|(n : qreal)| + |s|) + B ≤ 2147483647) (h0 : 0 ≤ B) :
    fadd position (fadd (n : qreal) s) = position + ((n : qreal) + s) ∧
      OnGrid (position + ((n : qreal) + s)) ∧
      |position + ((n : qreal) + s)| + B ≤ 2147483647 := by
  have a1 := abs_add (n : qreal) s
  have a2 := abs_add position ((n : qreal) + s)
  have a3 := abs_nonneg position
  have e1 : fadd (n : qreal) s = (n : qreal) + s :=
    fadd_exact _ _ (onGrid_intCast n) hs (by linarith)
  have g1 : OnGrid ((n : qreal) + s) := onGrid_add (onGrid_intCast n) hs
  refine ⟨?_, onGrid_add hp g1, by linarith⟩
  rw [e1]
  exact fadd_exact _ _ hp g1 (by linarith)

/-- The positioning loop over distinct live entries, for values in the exact range:
every visible entry ends at the truncated running position, everything else keeps
its geometry. -/
theorem positionLoop_spec (pos : QPointF) (s : qreal) (hs : OnGrid s) (l : List Nat) :
    ∀ (position : qreal) (w : World), l.Nodup → (∀ p ∈ l, (w.data p).isSome = true) →
      OnGrid position → |position| + layoutBudget w s l ≤ 2147483647 →
      ∃ w1, positionLoop (fun _ v => .ok v) pos s l position w = .ok w1 ∧
        (∀ q, q ∉ l → w1.data q = w.data q) ∧
        (∀ p ∈ l, ∀ b, w.data p = some b →
          w1.data p = some (if b.visible then
            b.placed (qrealToInt (position + offsetBefore w s l p)) (qrealToInt pos.y) else b)) := by
  induction l with
  | nil => intro position w _ _ _ _; exact ⟨w, rfl, fun _ _ => rfl, fun p hp => by simp at hp⟩
  | cons p rest ih =>
    intro position w hnd hl hgp hbd
    have hp := hl p (List.mem_cons_self _ _)
    obtain ⟨b, hb⟩ := Option.isSome_iff_exists.mp hp
    have hpr : p ∉ rest := (List.nodup_cons.mp hnd).1
    have hndr : rest.Nodup := (List.nodup_cons.mp hnd).2
    rw [layoutBudget_cons, isVisible_of_data w p b hb, sizeOf_of_data w p b hb] at hbd
    unfold positionLoop
    simp only [hb]
    split
    · rename_i hv
      have hvf : b.visible = false := by simpa using hv
      rw [hvf] at hbd
      obtain ⟨w1, h1, ho1, hm1⟩ := ih position w hndr
        (fun q hq => hl q (List.mem_cons_of_mem _ hq)) hgp (by simpa using hbd)
      refine ⟨w1, h1, fun q hq => ho1 q (fun hq1 => hq (List.mem_cons_of_mem _ hq1)), ?_⟩
      intro q hq bq hbq
      rcases List.mem_cons.mp hq with hqp | hqr
      · subst hqp
        rw [ho1 q hpr, hbq]
        rw [hb] at hbq
        cases hbq
        simp [hvf]
      · have hne : p ≠ q := fun h => hpr (h ▸ hqr)
        rw [hm1 q hqr bq hbq, offsetBefore_cons]
        have hvis : w.isVisible p = false := by
          rw [isVisible_of_data w p b hb]; exact hvf
        simp [hne, hvis]
    · rename_i hv
      have hvis : b.visible = true := by simpa using hv
      rw [hvis] at hbd
      obtain ⟨w1, h1, _, hp1, ho1⟩ :=
        button_setGeometry_skip p (qrealToInt position) (qrealToInt pos.y) w b hb
      rw [h1]
      simp only
      have hsb : SameButtons w w1 := by
        intro q
        by_cases hq : q = p
        · subst hq; rw [hp1, hb]; rfl
        · rw [ho1 q hq]
      have hl1 : ∀ q ∈ rest, (w1.data q).isSome = true := by
        intro q hq
        rw [sameButtons_isSome hsb q]
        exact hl q (List.mem_cons_of_mem _ hq)
      have hbud : layoutBudget w1 s rest = layoutBudget w s rest :=
        layoutBudget_congr w w1 s rest
          (fun r _ => ⟨sameButtons_isVisible hsb r, sameButtons_sizeOf hsb r⟩)
      obtain ⟨e1, g1, b1⟩ := fadd_step position s b.size.width (layoutBudget w s rest) hgp hs
        (by simpa [add_assoc] using hbd) (layoutBudget_nonneg w s rest)
      rw [e1]
      obtain ⟨w2, h2, ho2, hm2⟩ := ih (position + ((b.size.width : qreal) + s)) w1 hndr hl1 g1
        (by rw [hbud]; exact b1)
      refine ⟨w2, h2, ?_, ?_⟩
      · intro q hq
        have hqp : q ≠ p := fun h => hq (h ▸ List.mem_cons_self _ _)
        rw [ho2 q (fun hq1 => hq (List.mem_cons_of_mem _ hq1)), ho1 q hqp]
      · intro q hq bq hbq
        rcases List.mem_cons.mp hq with hqp | hqr
        · subst hqp
          rw [ho2 q hpr, hp1]
          rw [hb] at hbq
          cases hbq
          simp [hvis, offsetBefore_cons]
        · have hne : p ≠ q := fun h => hpr (h ▸ hqr)
          have hbq1 : w1.data q = some bq := by rw [ho1 q (Ne.symm hne), hbq]
          rw [hm2 q hqr bq hbq1, offsetBefore_cons,
            offsetBefore_congr w w1 s q rest
              (fun r _ => ⟨sameButtons_isVisible hsb r, sameButtons_sizeOf hsb r⟩)]
          have hvisw : w.isVisible p = true := by
            rw [isVisible_of_data w p b hb]; exact hvis
          simp only [hne, if_false, hvisw, if_true, sizeOf_of_data w p b hb]
          rw [add_assoc]

/-- The sizing loop over live entries returns. -/
theorem sizeLoop_total (w : World) (s : qreal) (l : List Nat) :
    ∀ (acc : qreal × qreal), (∀ p ∈ l, (w.data p).isSome = true) →
      ∃ r, sizeLoop w s l acc = .ok r := by
  induction l with
  | nil => intro acc _; exact ⟨acc, rfl⟩
  | cons p rest ih =>
    intro acc hl
    obtain ⟨width, height⟩ := acc
    obtain ⟨b, hb⟩ := Option.isSome_iff_exists.mp (hl p (List.mem_cons_self _ _))
    have hrest : ∀ q ∈ rest, (w.data q).isSome = true :=
      fun q hq => hl q (List.mem_cons_of_mem _ hq)
    unfold sizeLoop
    simp only [hb]
    split
    · exact ih _ hrest
    · exact ih _ hrest

/-- The sizing loop over live entries, for values in the exact range: the sums it
computes are the exact ones. -/
theorem sizeLoop_eq (w : World) (s : qreal) (hs : OnGrid s) (l : List Nat) :
    ∀ (width height : qreal), 0 ≤ height → (∀ p ∈ l, (w.data p).isSome = true) →
      OnGrid width → |width| + layoutBudget w s l ≤ 2147483647 →
      sizeLoop w s l (width, height)
        = .ok (width + layoutWidth w s l, max height (layoutHeight w l)) := by
  induction l with
  | nil => intro width height h0 _ _ _; simp [sizeLoop, layoutWidth, layoutHeight, h0]
  | cons p rest ih =>
    intro width height h0 hl hgw hbd
    obtain ⟨b, hb⟩ := Option.isSome_iff_exists.mp (hl p (List.mem_cons_self _ _))
    have hrest : ∀ q ∈ rest, (w.data q).isSome = true :=
      fun q hq => hl q (List.mem_cons_of_mem _ hq)
    rw [layoutBudget_cons, isVisible_of_data w p b hb, sizeOf_of_data w p b hb] at hbd
    unfold sizeLoop layoutWidth layoutHeight
    simp only [hb, isVisible_of_data w p b hb, sizeOf_of_data w p b hb]
    cases hv : b.visible with
    | false =>
      rw [hv] at hbd
      simpa using ih width height h0 hrest hgw (by simpa using hbd)
    | true =>
      rw [hv] at hbd
      simp only [Bool.not_true, Bool.false_eq_true, if_false, if_true] at hbd ⊢
      have hbn := layoutBudget_nonneg w s rest
      have a1 := abs_add width (b.size.width : qreal)
      have a2 := abs_add (width + (b.size.width : qreal)) s
      have a3 := abs_nonneg s
      have g1 : OnGrid (width + (b.size.width : qreal)) := onGrid_add hgw (onGrid_intCast _)
      have e1 : fadd width (b.size.width : qreal) = width + (b.size.width : qreal) :=
        fadd_exact _ _ hgw (onGrid_intCast _) (by linarith)
      have e2 : fadd (width + (b.size.width : qreal)) s = width + (b.size.width : qreal) + s :=
        fadd_exact _ _ g1 hs (by linarith)
      rw [e1, e2]
      by_cases hr : rest = []
      · simp only [ne_eq, hr, not_true_eq_false, if_false]
        rw [← hr, ih _ _ (le_max_of_le_left h0) hrest g1 (by linarith)]
        congr 2
        · ring
        · rw [max_assoc]
      · simp only [ne_eq, hr, not_false_eq_true, if_true]
        rw [ih _ _ (le_max_of_le_left h0) hrest (onGrid_add g1 hs) (by linarith)]
        congr 2
        · ring
        · rw [max_assoc]

theorem layoutBudget_le (w v : World) (s : qreal) (l : List Nat)
    (hv : ∀ q ∈ l, v.isVisible q = true → w.isVisible q = true)
    (hz : ∀ q ∈ l, v.sizeOf q = w.sizeOf q) :
    layoutBudget v s l ≤ layoutBudget w s l := by
  induction l with
  | nil => exact le_refl _
  | cons q rest ih =>
    have ih1 := ih (fun r hr => hv r (List.mem_cons_of_mem _ hr))
      (fun r hr => hz r (List.mem_cons_of_mem _ hr))
    have h1 := abs_nonneg ((w.sizeOf q).width : qreal)
    have h2 := abs_nonneg s
    rw [layoutBudget_cons, layoutBudget_cons, hz q (List.mem_cons_self _ _)]
    cases hvq : v.isVisible q with
    | false =>
      simp only [Bool.false_eq_true, if_false]
      split <;> linarith
    | true =>
      rw [hv q (List.mem_cons_self _ _) hvq]
      simp only [if_true]
      linarith

theorem abs_offsetBefore_le (w : World) (s : qreal) (l : List Nat) (p : Nat) :
    |offsetBefore w s l p| ≤ layoutBudget w s l := by
  induction l with
  | nil => simp [offsetBefore_nil, layoutBudget]
  | cons q rest ih =>
    have hbn := layoutBudget_nonneg w s rest
    have h1 := abs_nonneg ((w.sizeOf q).width : qreal)
    have h2 := abs_nonneg s
    rw [offsetBefore_cons, layoutBudget_cons]
    by_cases hqp : q = p
    · rw [if_pos hqp, abs_zero]
      split <;> linarith
    · rw [if_neg hqp]
      split
      · have a1 := abs_add (((w.sizeOf q).width : qreal) + s) (offsetBefore w s rest p)
        have a2 := abs_add ((w.sizeOf q).width : qreal) s
        linarith
      · rw [zero_add, zero_add]
        exact ih

/-- In the exact range every running position is in the range of `int`. -/
theorem exactLayout_position {w : World} {x s : qreal} {l : List Nat}
    (hE : ExactLayout w x s l) (p : Nat) : |x + offsetBefore w s l p| ≤ 2147483647 := by
  have a1 := abs_add x (offsetBefore w s l p)
  have a2 := abs_offsetBefore_le w s l p
  linarith [hE.rangeX]

theorem exactLayout_congr {w v : World} {x s : qreal} {l : List Nat}
    (hE : ExactLayout w x s l)
    (hv : ∀ q ∈ l, v.isVisible q = true → w.isVisible q = true)
    (hz : ∀ q ∈ l, v.sizeOf q = w.sizeOf q) : ExactLayout v x s l :=
  ⟨hE.gridX, hE.gridS, le_trans (add_le_add_left (layoutBudget_le w v s l hv hz) _) hE.rangeX⟩

theorem exactLayout_of_int (w : World) (X S : Int) (l : List Nat)
    (hr : |(X : qreal)| + layoutBudget w (S : qreal) l ≤ 2147483647) :
    ExactLayout w (X : qreal) (S : qreal) l :=
  ⟨onGrid_intCast X, onGrid_intCast S, hr⟩

theorem layoutWidth_congr (w w1 : World) (s : qreal) (l : List Nat)
    (h : ∀ q ∈ l, w1.isVisible q = w.isVisible q ∧ w1.sizeOf q = w.sizeOf q) :
    layoutWidth w1 s l = layoutWidth w s l := by
  induction l with
  | nil => rfl
  | cons q rest ih =>
    unfold layoutWidth
    rw [ih (fun r hr => h r (List.mem_cons_of_mem _ hr)),
      (h q (List.mem_cons_self _ _)).1, (h q (List.mem_cons_self _ _)).2]

theorem layoutHeight_congr (w w1 : World) (l : List Nat)
    (h : ∀ q ∈ l, w1.isVisible q = w.isVisible q ∧ w1.sizeOf q = w.sizeOf q) :
    layoutHeight w1 l = layoutHeight w l := by
  induction l with
  | nil => rfl
  | cons q rest ih =>
    unfold layoutHeight
    rw [ih (fun r hr => h r (List.mem_cons_of_mem _ hr)),
      (h q (List.mem_cons_self _ _)).1, (h q (List.mem_cons_self _ _)).2]

theorem set_self_of_getElem? {α : Type} (l : List α) (i : Nat) (d : α) (h : l[i]? = some d) :
    l.set i d = l := by
  apply List.ext_getElem?
  intro j
  rw [List.getElem?_set]
  split
  · rename_i hij
    subst hij
    split
    · exact h.symm
    · rename_i hlt
      rw [List.getElem?_eq_none (by omega)] at h
      cases h
  · rfl

/-- What `Private::setGeometry` does for an existing group. -/
theorem group_setGeometry_spec (gid : Nat) (geo : QRectF) (w : World)
    (d : DecorationButtonGroup.Private) (hg : w.groups[gid]? = some d) :
    ∃ w1, Private.setGeometry gid geo w = .ok w1 ∧
      w1.groups = w.groups.set gid { d with geometry := geo } ∧
      w1.heap = w.heap ∧ w1.settings = w.settings ∧
      w1.s_layoutRecursion = w.s_layoutRecursion := by
  unfold Private.setGeometry
  simp only [hg]
  split
  · rename_i heq
    refine ⟨w, rfl, ?_, rfl, rfl, rfl⟩
    have : ({ d with geometry := geo } : DecorationButtonGroup.Private) = d := by
      cases d; simp only at heq; simp [heq]
    rw [this, set_self_of_getElem? _ _ _ hg]
  · exact ⟨_, rfl, rfl, rfl, rfl, rfl⟩

theorem data_congr_heap (w w1 : World) (h : w1.heap = w.heap) (q : Nat) :
    w1.data q = w.data q := by
  unfold World.data; rw [h]

theorem layoutHeight_nonneg (w : World) (l : List Nat) : (0 : qreal) ≤ layoutHeight w l := by
  induction l with
  | nil => simp [layoutHeight]
  | cons q rest ih =>
    unfold layoutHeight
    split
    · exact le_max_of_le_right ih
    · exact ih

/-- A layout pass whose nested triggers do nothing, for an existing group whose
entries are all live: it succeeds, and it changes only the size of that group and
the origins of buttons. -/
theorem singlePass_frame (gid : Nat) (w : World) (d : DecorationButtonGroup.Private)
    (hg : w.groups[gid]? = some d) (hl : ∀ p ∈ d.buttons, (w.data p).isSome = true) :
    ∃ w1 geo, singlePass gid w = .ok w1 ∧
      w1.s_layoutRecursion = false ∧ w1.settings = w.settings ∧
      w1.heap.length = w.heap.length ∧
      w1.groups = w.groups.set gid { d with geometry := geo } ∧
      geo.x = d.geometry.x ∧ geo.y = d.geometry.y ∧
      SameButtons w w1 ∧
      (∀ q, q ∉ d.buttons → w1.data q = w.data q) := by
  unfold singlePass
  simp only [hg]
  have hl0 : ∀ p ∈ d.buttons,
      (({ w with s_layoutRecursion := true } : World).data p).isSome = true := hl
  obtain ⟨r, hr⟩ := sizeLoop_total { w with s_layoutRecursion := true } d.spacing d.buttons
    (0, 0) hl0
  obtain ⟨width, height⟩ := r
  rw [hr]
  simp only
  obtain ⟨w1, h1, hg1, hh1, hs1, hr1⟩ := group_setGeometry_spec gid
    { x := d.geometry.x, y := d.geometry.y, width := width, height := height }
    { w with s_layoutRecursion := true } d hg
  rw [h1]
  simp only
  have hd1 : ∀ q, w1.data q = w.data q := fun q => data_congr_heap _ w1 hh1 q
  have hl1 : ∀ p ∈ d.buttons, (w1.data p).isSome = true := by
    intro p hp; rw [hd1 p]; exact hl p hp
  obtain ⟨w2, h2, he2, hs2, ho2⟩ :=
    positionLoop_frame d.geometry.topLeft d.spacing d.buttons d.geometry.x w1 hl1
  rw [h2]
  refine ⟨_, { x := d.geometry.x, y := d.geometry.y, width := width, height := height },
    rfl, rfl, ?_, ?_, ?_, rfl, rfl, ?_, ?_⟩
  · exact hs1 ▸ he2.2.1
  · show w2.heap.length = w.heap.length
    rw [he2.2.2.2, hh1]
  · show w2.groups = _
    rw [he2.1, hg1]
  · intro q
    show (w2.data q).map _ = _
    rw [hs2 q, hd1 q]
  · intro q hq
    show w2.data q = _
    rw [ho2 q hq, hd1 q]

/-- The result of a layout pass whose nested triggers do nothing, for an existing
group whose entries are all live and whose values are in the exact range. -/
theorem singlePass_spec (gid : Nat) (w : World) (d : DecorationButtonGroup.Private)
    (hg : w.groups[gid]? = some d) (hl : ∀ p ∈ d.buttons, (w.data p).isSome = true)
    (hE : ExactLayout w d.geometry.x d.spacing d.buttons) :
    ∃ w1, singlePass gid w = .ok w1 ∧
      w1.s_layoutRecursion = false ∧ w1.settings = w.settings ∧
      w1.heap.length = w.heap.length ∧
      w1.groups = w.groups.set gid
        { d with geometry := { x := d.geometry.x, y := d.geometry.y,
                               width := layoutWidth w d.spacing d.buttons,
                               height := layoutHeight w d.buttons } } ∧
      SameButtons w w1 ∧
      (∀ q, q ∉ d.buttons → w1.data q = w.data q) ∧
      (d.buttons.Nodup → ∀ p ∈ d.buttons, ∀ b, w.data p = some b →
        w1.data p = some (if b.visible then
          b.placed (qrealToInt (d.geometry.x + offsetBefore w d.spacing d.buttons p))
            (qrealToInt d.geometry.y) else b)) := by
  unfold singlePass
  simp only [hg]
  have hl0 : ∀ p ∈ d.buttons,
      (({ w with s_layoutRecursion := true } : World).data p).isSome = true := hl
  have hbn := layoutBudget_nonneg w d.spacing d.buttons
  have hax := abs_nonneg d.geometry.x
  have hb0 : layoutBudget { w with s_layoutRecursion := true } d.spacing d.buttons
      = layoutBudget w d.spacing d.buttons :=
    layoutBudget_congr w _ _ _ (fun _ _ => ⟨rfl, rfl⟩)
  rw [sizeLoop_eq _ _ hE.gridS _ _ _ (le_refl 0) hl0 onGrid_zero
    (by rw [hb0, abs_zero]; linarith [hE.rangeX])]
  simp only
  obtain ⟨w1, h1, hg1, hh1, hs1, hr1⟩ := group_setGeometry_spec gid
    { x := d.geometry.x, y := d.geometry.y,
      width := 0 + layoutWidth { w with s_layoutRecursion := true } d.spacing d.buttons,
      height := max 0 (layoutHeight { w with s_layoutRecursion := true } d.buttons) }
    { w with s_layoutRecursion := true } d hg
  rw [h1]
  simp only
  have hd1 : ∀ q, w1.data q = w.data q := fun q => data_congr_heap _ w1 hh1 q
  have hl1 : ∀ p ∈ d.buttons, (w1.data p).isSome = true := by
    intro p hp; rw [hd1 p]; exact hl p hp
  obtain ⟨w2, h2, he2, hs2, ho2⟩ :=
    positionLoop_frame d.geometry.topLeft d.spacing d.buttons d.geometry.x w1 hl1
  rw [h2]
  refine ⟨_, rfl, rfl, ?_, ?_, ?_, ?_, ?_, ?_⟩
  · exact hs1 ▸ he2.2.1
  · show w2.heap.length = w.heap.length
    rw [he2.2.2.2, hh1]
  · show w2.groups = _
    rw [he2.1, hg1]
    have e1 : layoutWidth { w with s_layoutRecursion := true } d.spacing d.buttons
        = layoutWidth w d.spacing d.buttons :=
      layoutWidth_congr w _ _ _ (fun _ _ => ⟨rfl, rfl⟩)
    have e2 : layoutHeight { w with s_layoutRecursion := true } d.buttons
        = layoutHeight w d.buttons :=
      layoutHeight_congr w _ _ (fun _ _ => ⟨rfl, rfl⟩)
    rw [e1, e2, zero_add, max_eq_right (layoutHeight_nonneg _ _)]
  · intro q
    show (w2.data q).map _ = _
    rw [hs2 q, hd1 q]
  · intro q hq
    show w2.data q = _
    rw [ho2 q hq, hd1 q]
  · intro hnd p hp b hb
    have hb1 : layoutBudget w1 d.spacing d.buttons = layoutBudget w d.spacing d.buttons :=
      layoutBudget_congr w w1 _ _
        (fun r _ => by simp [World.isVisible, World.sizeOf, hd1 r])
    obtain ⟨w3, h3, _, hm3⟩ :=
      positionLoop_spec d.geometry.topLeft d.spacing hE.gridS d.buttons d.geometry.x w1 hnd hl1
        hE.gridX (by rw [hb1]; exact hE.rangeX)
    rw [h2] at h3
    cases h3
    show w2.data p = _
    rw [hm3 p hp b (by rw [hd1 p, hb]),
      offsetBefore_congr w w1 d.spacing p d.buttons
        (fun r _ => by simp [World.isVisible, World.sizeOf, hd1 r])]
    rfl

/-- A layout pass on an existing group with live entries succeeds, whatever the
guard, and changes only the geometry of that group and the origins of buttons. -/
theorem updateLayout_frame (fuel gid : Nat) (w : World) (d : DecorationButtonGroup.Private)
    (hg : w.groups[gid]? = some d) (hl : ∀ p ∈ d.buttons, (w.data p).isSome = true) :
    ∃ w1 geo, Private.updateLayout (fuel + 2) gid w = .ok w1 ∧
      w1.s_layoutRecursion = w.s_layoutRecursion ∧ w1.settings = w.settings ∧
      w1.heap.length = w.heap.length ∧
      w1.groups = w.groups.set gid { d with geometry := geo } ∧ SameButtons w w1 := by
  cases hgd : w.s_layoutRecursion with
  | true =>
    refine ⟨w, d.geometry, updateLayout_guarded _ gid w hgd, hgd, rfl, rfl, ?_, sameButtons_refl w⟩
    rw [set_self_of_getElem? _ _ _ hg]
  | false =>
    obtain ⟨w1, geo, h1, hr1, hs1, hh1, hg1, _, _, hb1, _⟩ := singlePass_frame gid w d hg hl
    exact ⟨w1, geo, (updateLayout_eq_singlePass fuel gid w hgd).trans h1, hr1, hs1, hh1, hg1, hb1⟩

theorem getElem?_set_self_of_some {α : Type} (l : List α) (i : Nat) (d e : α)
    (h : l[i]? = some d) : (l.set i e)[i]? = some e := by
  rw [List.getElem?_set]
  simp only [if_true]
  split
  · rfl
  · rename_i hlt
    rw [List.getElem?_eq_none (by omega)] at h
    cases h

theorem typeIs_of_data (w : World) (t : DecorationButtonType) (p : Nat) (b : DecorationButton)
    (h : w.data p = some b) : w.typeIs t p = decide (b.type = t) := by
  simp [World.typeIs, h]

theorem sameButtons_typeIs {w w1 : World} (h : SameButtons w w1) (t : DecorationButtonType)
    (q : Nat) : w1.typeIs t q = w.typeIs t q := by
  have hq := sameButtons_type h q
  unfold World.typeIs
  cases h1 : w1.data q <;> cases h0 : w.data q <;> simp [h1, h0] at hq ⊢
  rw [hq]

theorem hasButtonLoop_eq (w : World) (t : DecorationButtonType) (l : List Nat)
    (hl : ∀ p ∈ l, (w.data p).isSome = true) :
    hasButtonLoop w t l = .ok (l.any (w.typeIs t)) := by
  induction l with
  | nil => rfl
  | cons p rest ih =>
    obtain ⟨b, hb⟩ := Option.isSome_iff_exists.mp (hl p (List.mem_cons_self _ _))
    unfold hasButtonLoop
    simp only [hb, List.any_cons, typeIs_of_data w t p b hb]
    by_cases ht : b.type = t
    · simp [ht]
    · simp [ht, ih (fun q hq => hl q (List.mem_cons_of_mem _ hq))]

theorem removeTypeLoop_eq (w : World) (t : DecorationButtonType) (l : List Nat) :
    ∀ (kept : List Nat) (needUpdate : Bool), (∀ p ∈ l, (w.data p).isSome = true) →
      removeTypeLoop w t l kept needUpdate
        = .ok (kept ++ l.filter (fun p => !w.typeIs t p), needUpdate || l.any (w.typeIs t)) := by
  induction l with
  | nil => intro kept needUpdate _; simp [removeTypeLoop]
  | cons p rest ih =>
    intro kept needUpdate hl
    obtain ⟨b, hb⟩ := Option.isSome_iff_exists.mp (hl p (List.mem_cons_self _ _))
    have hrest : ∀ q ∈ rest, (w.data q).isSome = true :=
      fun q hq => hl q (List.mem_cons_of_mem _ hq)
    unfold removeTypeLoop
    simp only [hb, List.any_cons, List.filter_cons, typeIs_of_data w t p b hb]
    by_cases ht : b.type = t
    · simp [ht, ih kept true hrest]
    · simp [ht, ih (kept ++ [p]) needUpdate hrest]

theorem removePtrLoop_eq (w : World) (r : Nat) (l : List Nat) :
    ∀ (kept : List Nat) (needUpdate : Bool),
      removePtrLoop w r l kept needUpdate
        = (kept ++ l.filter (fun p => !w.ptrEq p r),
            needUpdate || l.any (fun p => w.ptrEq p r)) := by
  induction l with
  | nil => intro kept needUpdate; simp [removePtrLoop]
  | cons p rest ih =>
    intro kept needUpdate
    unfold removePtrLoop
    by_cases hp : w.ptrEq p r = true
    · simp [hp, ih kept true]
    · simp [hp, ih (kept ++ [p]) needUpdate]

theorem filter_eq_self_of_any_false (l : List Nat) (f : Nat → Bool) (h : l.any f = false) :
    l.filter (fun p => !f p) = l := by
  rw [List.filter_eq_self]
  intro a ha
  have := List.any_eq_false.mp h a ha
  simpa using this

theorem withButtons_get (w : World) (gid : Nat) (d : DecorationButtonGroup.Private)
    (l : List Nat) (hg : w.groups[gid]? = some d) :
    (w.withButtons gid d l).groups[gid]? = some { d with buttons := l } :=
  getElem?_set_self_of_some _ _ _ _ hg

theorem data_withButtons (w : World) (gid : Nat) (d : DecorationButtonGroup.Private)
    (l : List Nat) (q : Nat) : (w.withButtons gid d l).data q = w.data q := rfl

theorem isSome_data_store (w : World) (p q : Nat) (b1 : DecorationButton)
    (hp : (w.data p).isSome = true) :
    ((w.store p b1).data q).isSome = (w.data q).isSome := by
  obtain ⟨b, hb⟩ := Option.isSome_iff_exists.mp hp
  by_cases hq : q = p
  · subst hq; rw [data_store_same w q b b1 hb, hb]; rfl
  · rw [data_store_other w p q b1 hq]

theorem withButtons_self (w : World) (gid : Nat) (d : DecorationButtonGroup.Private)
    (hg : w.groups[gid]? = some d) : w.withButtons gid d d.buttons = w := by
  unfold World.withButtons
  rw [set_self_of_getElem? _ _ _ hg]

theorem any_congr_mem (l : List Nat) (f g : Nat → Bool) (h : ∀ p ∈ l, f p = g p) :
    l.any f = l.any g := by
  induction l with
  | nil => rfl
  | cons q rest ih =>
    simp only [List.any_cons]
    rw [h q (List.mem_cons_self _ _), ih (fun r hr => h r (List.mem_cons_of_mem _ hr))]

theorem buttons_of_groups (gid : Nat) (w : World) (d : DecorationButtonGroup.Private)
    (hg : w.groups[gid]? = some d) : DecorationButtonGroup.buttons gid w = .ok d.buttons := by
  simp [DecorationButtonGroup.buttons, World.group, hg]

theorem hasButton_of_groups (gid : Nat) (t : DecorationButtonType) (w : World)
    (d : DecorationButtonGroup.Private) (hg : w.groups[gid]? = some d) :
    DecorationButtonGroup.hasButton gid t w = hasButtonLoop w t d.buttons := by
  simp [DecorationButtonGroup.hasButton, World.group, hg]

/-- After a layout pass on the state in which group `gid` holds the live entries `l`,
the group still holds `l`, and every entry keeps its liveness and its type. -/
theorem updateLayout_withButtons (fuel gid : Nat) (w : World)
    (d : DecorationButtonGroup.Private) (l : List Nat) (hg : w.groups[gid]? = some d)
    (hl : ∀ p ∈ l, (w.data p).isSome = true) :
    ∃ w1, Private.updateLayout (fuel + 2) gid (w.withButtons gid d l) = .ok w1 ∧
      DecorationButtonGroup.buttons gid w1 = .ok l ∧
      (∀ t, DecorationButtonGroup.hasButton gid t w1 = .ok (l.any (w.typeIs t))) := by
  obtain ⟨w1, geo, h1, _, _, _, hg1, hb1⟩ := updateLayout_frame fuel gid (w.withButtons gid d l)
    { d with buttons := l } (withButtons_get w gid d l hg) hl
  have hg2 : w1.groups[gid]? = some { d with geometry := geo, buttons := l } := by
    rw [hg1]; exact getElem?_set_self_of_some _ _ _ _ (withButtons_get w gid d l hg)
  refine ⟨w1, h1, buttons_of_groups gid w1 _ hg2, ?_⟩
  intro t
  rw [hasButton_of_groups gid t w1 _ hg2, hasButtonLoop_eq w1 t l
    (fun p hp => by rw [sameButtons_isSome hb1 p]; exact hl p hp)]
  congr 1
  exact any_congr_mem l _ _ (fun q _ => sameButtons_typeIs hb1 t q)

theorem any_filter_not (l : List Nat) (f : Nat → Bool) :
    (l.filter (fun p => !f p)).any f = false := by
  rw [List.any_eq_false]
  intro a ha
  have := (List.mem_filter.mp ha).2
  simpa using this

theorem ptrEq_of_null (w : World) (p r : Nat) (hr : w.isNull r = true) :
    w.ptrEq p r = w.isNull p := by
  unfold World.isNull at hr ⊢
  unfold World.ptrEq
  cases hp : w.data p <;> cases hq : w.data r <;> simp [hq] at hr ⊢

theorem ptrEq_of_live (w : World) (p r : Nat) (hr : w.isNull r = false) :
    w.ptrEq p r = decide (p = r) := by
  unfold World.isNull at hr
  unfold World.ptrEq
  cases hq : w.data r with
  | none => simp [hq] at hr
  | some b =>
    cases hp : w.data p with
    | none =>
      have : p ≠ r := fun h => by rw [h, hq] at hp; cases hp
      simp [this]
    | some c => rfl

theorem qrealToInt_intCast (n : Int) (h : |(n : qreal)| ≤ 2147483647) :
    qrealToInt (n : qreal) = n := by
  rw [qrealToInt_eq_truncate _ h, truncate_intCast]

theorem geometry_of_groups (gid : Nat) (w : World) (d : DecorationButtonGroup.Private)
    (hg : w.groups[gid]? = some d) : DecorationButtonGroup.geometry gid w = .ok d.geometry := by
  simp [DecorationButtonGroup.geometry, World.group, hg]

theorem offsetBefore_filter_getElem (w : World) (s : qreal) (l : List Nat) :
    l.Nodup → ∀ (k p : Nat), (l.filter w.isVisible)[k]? = some p →
      offsetBefore w s l p
        = (((l.filter w.isVisible).take k).map
            (fun q => ((w.sizeOf q).width : qreal) + s)).sum := by
  induction l with
  | nil => intro _ k p h; simp at h
  | cons q rest ih =>
    intro hnd k p h
    have hq : q ∉ rest := (List.nodup_cons.mp hnd).1
    have hr : rest.Nodup := (List.nodup_cons.mp hnd).2
    rw [offsetBefore_cons]
    cases hv : w.isVisible q with
    | true =>
      rw [List.filter_cons_of_pos hv] at h ⊢
      cases k with
      | zero =>
        simp only [List.getElem?_cons_zero, Option.some.injEq] at h
        simp [h]
      | succ k =>
        simp only [List.getElem?_cons_succ] at h
        have hp : p ∈ rest := (List.mem_filter.mp (List.getElem?_mem h)).1
        have hne : q ≠ p := fun e => hq (e ▸ hp)
        simp only [hne, if_false, if_true, List.take_succ_cons, List.map_cons, List.sum_cons]
        rw [ih hr k p h]
    | false =>
      have hf : List.filter w.isVisible (q :: rest) = List.filter w.isVisible rest :=
        List.filter_cons_of_neg (by simp [hv])
      rw [hf] at h ⊢
      have hpv : w.isVisible p = true := (List.mem_filter.mp (List.getElem?_mem h)).2
      have hne : q ≠ p := fun e => by rw [e, hpv] at hv; cases hv
      simp only [hne, if_false, Bool.false_eq_true, zero_add]
      exact ih hr k p h

theorem sum_map_intCast (l : List Nat) (f : Nat → Int) (S : Int) :
    (l.map (fun q => ((f q : Int) : qreal) + (S : qreal))).sum
      = (((l.map (fun q => f q + S)).sum : Int) : qreal) := by
  induction l with
  | nil => simp
  | cons q rest ih =>
    simp only [List.map_cons, List.sum_cons, ih]
    push_cast
    rfl

/-- Hiding the entry `m` of `A ++ m :: B` (with `B` non-empty and `m` occurring once)
lowers the computed width by the width of `m` plus one spacing. -/
theorem layoutWidth_hide (w v : World) (s : qreal) (m : Nat) (B : List Nat)
    (hvis : ∀ q, q ≠ m → v.isVisible q = w.isVisible q)
    (hsz : ∀ q, v.sizeOf q = w.sizeOf q)
    (hm : w.isVisible m = true) (hm1 : v.isVisible m = false)
    (hB : B ≠ []) (hmB : m ∉ B) :
    ∀ (A : List Nat), m ∉ A →
      layoutWidth v s (A ++ m :: B)
        = layoutWidth w s (A ++ m :: B) - (((w.sizeOf m).width : qreal) + s) := by
  intro A
  induction A with
  | nil =>
    intro _
    simp only [List.nil_append, layoutWidth, hm, hm1, hB, ne_eq, not_false_eq_true, if_true,
      Bool.false_eq_true, if_false]
    rw [layoutWidth_congr w v s B (fun q hq =>
      ⟨hvis q (fun e => hmB (e ▸ hq)), hsz q⟩)]
    ring
  | cons a A ih =>
    intro hmA
    have ha : a ≠ m := fun e => hmA (e ▸ List.mem_cons_self _ _)
    have hA : m ∉ A := fun h => hmA (List.mem_cons_of_mem _ h)
    rw [List.cons_append]
    simp only [layoutWidth, hvis a ha, hsz a]
    rw [ih hA]
    split <;> ring

/-- Hiding `m` lowers the running offset of every entry after it by the same amount. -/
theorem offsetBefore_hide_later (w v : World) (s : qreal) (m p : Nat) (B : List Nat)
    (hvis : ∀ q, q ≠ m → v.isVisible q = w.isVisible q)
    (hsz : ∀ q, v.sizeOf q = w.sizeOf q)
    (hm : w.isVisible m = true) (hm1 : v.isVisible m = false)
    (hmB : m ∉ B) (hpm : p ≠ m) :
    ∀ (A : List Nat), m ∉ A → p ∉ A →
      offsetBefore v s (A ++ m :: B) p
        = offsetBefore w s (A ++ m :: B) p - (((w.sizeOf m).width : qreal) + s) := by
  intro A
  induction A with
  | nil =>
    intro _ _
    simp only [List.nil_append, offsetBefore_cons, Ne.symm hpm, if_false, hm, hm1, if_true,
      Bool.false_eq_true]
    rw [offsetBefore_congr w v s p B (fun q hq =>
      ⟨hvis q (fun e => hmB (e ▸ hq)), hsz q⟩)]
    ring
  | cons a A ih =>
    intro hmA hpA
    have ha : a ≠ m := fun e => hmA (e ▸ List.mem_cons_self _ _)
    have hap : a ≠ p := fun e => hpA (e ▸ List.mem_cons_self _ _)
    have hA : m ∉ A := fun h => hmA (List.mem_cons_of_mem _ h)
    have hpA1 : p ∉ A := fun h => hpA (List.mem_cons_of_mem _ h)
    rw [List.cons_append]
    simp only [offsetBefore_cons, hap, if_false, hvis a ha, hsz a]
    rw [ih hA hpA1]
    ring

/-- Hiding `m` does not change the running offset of the entries before it. -/
theorem offsetBefore_hide_earlier (w v : World) (s : qreal) (m p : Nat) (B : List Nat)
    (hvis : ∀ q, q ≠ m → v.isVisible q = w.isVisible q)
    (hsz : ∀ q, v.sizeOf q = w.sizeOf q) :
    ∀ (A : List Nat), m ∉ A → p ∈ A →
      offsetBefore v s (A ++ m :: B) p = offsetBefore w s (A ++ m :: B) p := by
  intro A
  induction A with
  | nil => intro _ hp; simp at hp
  | cons a A ih =>
    intro hmA hpA
    have ha : a ≠ m := fun e => hmA (e ▸ List.mem_cons_self _ _)
    have hA : m ∉ A := fun h => hmA (List.mem_cons_of_mem _ h)
    rw [List.cons_append]
    simp only [offsetBefore_cons]
    by_cases hap : a = p
    · simp [hap]
    · have hp1 : p ∈ A := by
        rcases List.mem_cons.mp hpA with h | h
        · exact absurd h.symm hap
        · exact h
      simp only [hap, if_false, hvis a ha, hsz a, ih hA hp1]

theorem offsetBefore_isInt (w : World) (S : Int) (p : Nat) (l : List Nat) :
    ∃ n : Int, offsetBefore w (S : qreal) l p = (n : qreal) := by
  induction l with
  | nil => exact ⟨0, by simp [offsetBefore_nil]⟩
  | cons q rest ih =>
    obtain ⟨n, hn⟩ := ih
    rw [offsetBefore_cons, hn]
    by_cases hqp : q = p
    · exact ⟨0, by simp [hqp]⟩
    · by_cases hv : w.isVisible q = true
      · exact ⟨((w.sizeOf q).width + S) + n, by simp [hqp, hv]⟩
      · exact ⟨n, by simp [hqp, hv]⟩

/-- What the reset of `pressed` does to a live button: nothing outside that button. -/
theorem resetPressed_spec (p : Nat) (w : World) (hp : (w.data p).isSome = true) :
    ∃ w1, DecorationButton.resetPressed p w = .ok w1 ∧ w1.groups = w.groups ∧
      w1.settings = w.settings ∧ w1.s_layoutRecursion = w.s_layoutRecursion ∧
      (∀ q, q ≠ p → w1.data q = w.data q) ∧
      (∀ b, w.data p = some b → w1.data p = some { b with pressedButtons := [] }) := by
  obtain ⟨b, hb⟩ := Option.isSome_iff_exists.mp hp
  unfold DecorationButton.resetPressed
  simp only [hb]
  split
  · rename_i he
    refine ⟨w, rfl, rfl, rfl, rfl, fun _ _ => rfl, ?_⟩
    intro b1 hb1
    cases hb1
    rw [hb]
    congr 1
    cases b
    simp only at he
    simp [he]
  · refine ⟨_, rfl, rfl, rfl, rfl, ?_, ?_⟩
    · intro q hq
      rw [data_record, data_store_other w p q _ hq]
    · intro b1 hb1
      cases hb1
      rw [data_record, data_store_same w p b _ hb]

/-- Hiding a visible button whose only connected slot is the layout of group `gid`
amounts to one layout pass of that group on the state with the flag cleared,
followed by the reset of `pressed`. -/
theorem setVisible_false_runs_layout (fuel gid m : Nat) (w1 : World) (b1 : DecorationButton)
    (h0 : w1.s_layoutRecursion = false) (hm : w1.data m = some b1)
    (hv : b1.visible = true) (hc : b1.visibilityChangedSlots = [gid]) :
    DecorationButton.setVisible (Private.updateLayout (fuel + 2)) m false w1
      = match singlePass gid ((w1.store m { b1 with visible := false }).record
          (.buttonVisibilityChanged m false)) with
        | .error e => .error e
        | .ok w2 => DecorationButton.resetPressed m w2 := by
  unfold DecorationButton.setVisible
  simp only [hm, hv, hc, Bool.true_eq_false, if_false, emit]
  rw [updateLayout_eq_singlePass fuel gid _ (by exact h0)]
  generalize singlePass gid _ = r
  cases r <;> simp

theorem nodup_middle {m : Nat} {A B : List Nat} (h : (A ++ m :: B).Nodup) :
    m ∉ A ∧ m ∉ B ∧ ∀ p ∈ B, p ∉ A := by
  rw [List.nodup_append] at h
  obtain ⟨_, hB, hdis⟩ := h
  refine ⟨fun hA => hdis hA (List.mem_cons_self _ _) , (List.nodup_cons.mp hB).1, ?_⟩
  intro p hp hA
  exact hdis hA (List.mem_cons_of_mem _ hp)

theorem updateLayout_guarded_of_ok (fuel g : Nat) (v v1 : World)
    (hv : v.s_layoutRecursion = true) (h : Private.updateLayout fuel g v = .ok v1) : v1 = v := by
  cases fuel with
  | zero => simp [Private.updateLayout] at h
  | succ n =>
    rw [updateLayout_guarded n g v hv] at h
    cases h; rfl

theorem emit_guarded_of_ok (fuel : Nat) (gs : List Nat) (v v1 : World)
    (hv : v.s_layoutRecursion = true) (h : emit (Private.updateLayout fuel) gs v = .ok v1) :
    v1 = v := by
  induction gs with
  | nil => simp [emit] at h; exact h.symm
  | cons g gs ih =>
    unfold emit at h
    cases hs : Private.updateLayout fuel g v with
    | error e => simp [hs] at h
    | ok v2 =>
      have := updateLayout_guarded_of_ok fuel g v v2 hv hs
      subst this
      simp only [hs] at h
      exact ih h

theorem button_setGeometry_guarded_of_ok (fuel p : Nat) (geo : QRect) (v v1 : World)
    (hv : v.s_layoutRecursion = true)
    (h : DecorationButton.setGeometry (Private.updateLayout fuel) p geo v = .ok v1) :
    v1.groups = v.groups ∧ v1.s_layoutRecursion = true := by
  unfold DecorationButton.setGeometry at h
  cases hd : v.data p with
  | none => simp [hd] at h
  | some b =>
    simp only [hd] at h
    split at h
    · cases h; exact ⟨rfl, hv⟩
    · have := emit_guarded_of_ok fuel _ _ v1 (by exact hv) h
      rw [this]
      exact ⟨rfl, hv⟩

theorem positionLoop_guarded_of_ok (fuel : Nat) (pos : QPointF) (s : qreal) (l : List Nat) :
    ∀ (position : qreal) (v v1 : World), v.s_layoutRecursion = true →
      positionLoop (Private.updateLayout fuel) pos s l position v = .ok v1 →
      v1.groups = v.groups := by
  induction l with
  | nil => intro position v v1 _ h; simp [positionLoop] at h; rw [← h]
  | cons p rest ih =>
    intro position v v1 hv h
    unfold positionLoop at h
    cases hd : v.data p with
    | none => simp [hd] at h
    | some b =>
      simp only [hd] at h
      split at h
      · exact ih position v v1 hv h
      · cases hs : DecorationButton.setGeometry (Private.updateLayout fuel) p
            { x := qrealToInt position, y := qrealToInt pos.y,
              width := b.size.width, height := b.size.height } v with
        | error e => simp [hs] at h
        | ok v2 =>
          simp only [hs] at h
          obtain ⟨hg2, hr2⟩ := button_setGeometry_guarded_of_ok fuel p _ v v2 hv hs
          rw [ih _ v2 v1 hr2 h, hg2]

/-- Whenever a layout pass returns, with whatever fuel and whatever the liveness of
the entries, it has changed the groups at most in the geometry of its own group. -/
theorem updateLayout_groups_of_ok (fuel gid : Nat) (w w1 : World)
    (d : DecorationButtonGroup.Private) (hg : w.groups[gid]? = some d)
    (h : Private.updateLayout fuel gid w = .ok w1) :
    ∃ geo, w1.groups = w.groups.set gid { d with geometry := geo } := by
  cases fuel with
  | zero => simp [Private.updateLayout] at h
  | succ n =>
    unfold Private.updateLayout at h
    split at h
    · cases h
      exact ⟨d.geometry, by rw [set_self_of_getElem? _ _ _ hg]⟩
    · simp only [hg] at h
      generalize sizeLoop _ d.spacing d.buttons _ = r at h
      cases r with
      | error e => simp at h
      | ok wh =>
        simp only at h
        obtain ⟨v, hv1, hv2, _, _, hv5⟩ := group_setGeometry_spec gid
          { x := d.geometry.topLeft.x, y := d.geometry.topLeft.y, width := wh.1, height := wh.2 }
          { w with s_layoutRecursion := true } d hg
        rw [hv1] at h
        simp only at h
        generalize hp : positionLoop (Private.updateLayout n) d.geometry.topLeft d.spacing
          d.buttons d.geometry.topLeft.x v = r2 at h
        cases r2 with
        | error e => simp at h
        | ok v2 =>
          simp only at h
          cases h
          exact ⟨_, (positionLoop_guarded_of_ok n _ _ _ _ v v2 (by rw [hv5]) hp).trans hv2⟩

theorem addButton_eq (fuel gid button : Nat) (w : World) (d : DecorationButtonGroup.Private)
    (b : DecorationButton) (hg : w.groups[gid]? = some d) (hb : w.data button = some b) :
    DecorationButtonGroup.addButton fuel gid button w
      = Private.updateLayout fuel gid
          ((w.store button
            { b with visibilityChangedSlots := b.visibilityChangedSlots ++ [gid],
                     geometryChangedSlots := b.geometryChangedSlots ++ [gid] }).withButtons gid d
            (d.buttons ++ [button])) := by
  simp [DecorationButtonGroup.addButton, World.group, hg, hb]

theorem buttons_after_layout (fuel gid : Nat) (w w1 : World)
    (d : DecorationButtonGroup.Private) (l : List Nat) (hg : w.groups[gid]? = some d)
    (h : Private.updateLayout fuel gid (w.withButtons gid d l) = .ok w1) :
    DecorationButtonGroup.buttons gid w1 = .ok l := by
  obtain ⟨geo, hgeo⟩ := updateLayout_groups_of_ok fuel gid _ w1 _
    (withButtons_get w gid d l hg) h
  rw [buttons_of_groups gid w1 { d with geometry := geo, buttons := l }
    (by rw [hgeo]; exact getElem?_set_self_of_some _ _ _ _ (withButtons_get w gid d l hg))]

theorem layoutOnly_refl (w : World) : LayoutOnly w w :=
  ⟨rfl, rfl, rfl, sameButtons_refl w, rfl, [], by simp, by simp⟩

theorem layoutOnly_trans {w w1 w2 : World} (h1 : LayoutOnly w w1) (h2 : LayoutOnly w1 w2) :
    LayoutOnly w w2 := by
  obtain ⟨a1, b1, c1, d1, e1, x1, f1, g1⟩ := h1
  obtain ⟨a2, b2, c2, d2, e2, x2, f2, g2⟩ := h2
  refine ⟨a2.trans a1, b2.trans b1, c2.trans c1, sameButtons_trans d1 d2, e2.trans e1,
    x1 ++ x2, by rw [f2, f1, List.append_assoc], ?_⟩
  intro s hs
  rcases List.mem_append.mp hs with h | h
  · exact g1 s h
  · exact g2 s h

/-- Moving a live button to a rectangle of its own size is a layout-only change. -/
theorem layoutOnly_move (w : World) (p : Nat) (b : DecorationButton) (x y : Int)
    (hb : w.data p = some b) :
    LayoutOnly w ((w.store p { b with geometry := { x := x, y := y, width := b.size.width,
                                                    height := b.size.height } }).record
      (.buttonGeometryChanged p { x := x, y := y, width := b.size.width,
                                  height := b.size.height })) := by
  refine ⟨rfl, rfl, ?_, ?_, rfl, [_], rfl, by simp [Signal.isLayoutSignal]⟩
  · simp [World.record, World.store]
  · intro q
    by_cases hq : q = p
    · subst hq; rw [data_record, data_store_same w q b _ hb, hb]; rfl
    · rw [data_record, data_store_other w p q _ hq]

theorem button_setGeometry_layoutOnly (fuel p : Nat) (x y : Int) (v v1 : World)
    (b : DecorationButton) (hb : v.data p = some b) (hv : v.s_layoutRecursion = true)
    (h : DecorationButton.setGeometry (Private.updateLayout fuel) p
      { x := x, y := y, width := b.size.width, height := b.size.height } v = .ok v1) :
    LayoutOnly v v1 := by
  unfold DecorationButton.setGeometry at h
  simp only [hb] at h
  split at h
  · cases h; exact layoutOnly_refl v
  · have := emit_guarded_of_ok fuel _ _ v1 (by exact hv) h
    rw [this]
    exact layoutOnly_move v p b x y hb

theorem positionLoop_layoutOnly (fuel : Nat) (pos : QPointF) (s : qreal) (l : List Nat) :
    ∀ (position : qreal) (v v1 : World), v.s_layoutRecursion = true →
      positionLoop (Private.updateLayout fuel) pos s l position v = .ok v1 →
      LayoutOnly v v1 := by
  induction l with
  | nil => intro position v v1 _ h; simp [positionLoop] at h; rw [← h]; exact layoutOnly_refl v
  | cons p rest ih =>
    intro position v v1 hv h
    unfold positionLoop at h
    cases hd : v.data p with
    | none => simp [hd] at h
    | some b =>
      simp only [hd] at h
      split at h
      · exact ih position v v1 hv h
      · generalize hs : DecorationButton.setGeometry (Private.updateLayout fuel) p
            { x := qrealToInt position, y := qrealToInt pos.y,
              width := b.size.width, height := b.size.height } v = r at h
        cases r with
        | error e => simp at h
        | ok v2 =>
          simp only at h
          have h2 := button_setGeometry_layoutOnly fuel p _ _ v v2 b hd hv hs
          exact layoutOnly_trans h2 (ih _ v2 v1 (h2.2.1.trans hv) h)

theorem map_frame_set (l : List DecorationButtonGroup.Private) (gid : Nat)
    (d : DecorationButtonGroup.Private) (width height : qreal) (hg : l[gid]? = some d) :
    (l.set gid { d with geometry := { x := d.geometry.x, y := d.geometry.y,
                                       width := width, height := height } }).map
        DecorationButtonGroup.Private.frame
      = l.map DecorationButtonGroup.Private.frame := by
  apply List.ext_getElem?
  intro j
  rw [List.getElem?_map, List.getElem?_map, List.getElem?_set]
  split
  · rename_i hj
    subst hj
    split
    · rw [hg]; rfl
    · rename_i hlt
      rw [List.getElem?_eq_none (by omega)] at hg
      cases hg
  · rfl

/-- What `Private::setGeometry` does when only the size changes. -/
theorem group_setGeometry_layoutOnly (gid : Nat) (w : World)
    (d : DecorationButtonGroup.Private) (width height : qreal) (hg : w.groups[gid]? = some d) :
    ∃ w1, Private.setGeometry gid
        { x := d.geometry.x, y := d.geometry.y, width := width, height := height } w = .ok w1 ∧
      LayoutOnly w w1 := by
  unfold Private.setGeometry
  simp only [hg]
  split
  · exact ⟨w, rfl, layoutOnly_refl w⟩
  · refine ⟨_, rfl, rfl, rfl, rfl, fun _ => rfl, ?_, [_], rfl, by simp [Signal.isLayoutSignal]⟩
    exact map_frame_set w.groups gid d width height hg

/-- Whenever a layout pass returns, whatever the fuel and the guard, it has made a
layout-only change. -/
theorem updateLayout_layoutOnly (fuel gid : Nat) (w w1 : World)
    (h : Private.updateLayout fuel gid w = .ok w1) : LayoutOnly w w1 := by
  cases fuel with
  | zero => simp [Private.updateLayout] at h
  | succ n =>
    unfold Private.updateLayout at h
    split at h
    · cases h; exact layoutOnly_refl w
    · rename_i hgd
      cases hg : w.groups[gid]? with
      | none => simp [hg] at h
      | some d =>
        simp only [hg] at h
        generalize sizeLoop _ d.spacing d.buttons _ = r at h
        cases r with
        | error e => simp at h
        | ok wh =>
          simp only at h
          obtain ⟨v, hv1, hv2⟩ := group_setGeometry_layoutOnly gid
            { w with s_layoutRecursion := true } d wh.1 wh.2 hg
          have hv1a : Private.setGeometry gid
              { x := d.geometry.topLeft.x, y := d.geometry.topLeft.y, width := wh.1,
                height := wh.2 } { w with s_layoutRecursion := true } = .ok v := hv1
          rw [hv1a] at h
          simp only at h
          generalize hp : positionLoop (Private.updateLayout n) d.geometry.topLeft d.spacing
            d.buttons d.geometry.topLeft.x v = r2 at h
          cases r2 with
          | error e => simp at h
          | ok v2 =>
            simp only at h
            cases h
            have hv3 := positionLoop_layoutOnly n _ _ _ _ v v2 hv2.2.1 hp
            obtain ⟨a, b, c, e, f, x, g1, g2⟩ := layoutOnly_trans hv2 hv3
            exact ⟨a, by simpa using hgd, c, e, f, x, g1, g2⟩

theorem emit_layoutOnly (fuel : Nat) (gs : List Nat) :
    ∀ (w w1 : World), emit (Private.updateLayout fuel) gs w = .ok w1 → LayoutOnly w w1 := by
  induction gs with
  | nil => intro w w1 h; simp [emit] at h; rw [← h]; exact layoutOnly_refl w
  | cons g gs ih =>
    intro w w1 h
    unfold emit at h
    generalize hs : Private.updateLayout fuel g w = r at h
    cases r with
    | error e => simp at h
    | ok w2 =>
      simp only at h
      exact layoutOnly_trans (updateLayout_layoutOnly fuel g w w2 hs) (ih w2 w1 h)

theorem layoutOnly_group {w w1 : World} (h : LayoutOnly w w1) (g : Nat)
    (d : DecorationButtonGroup.Private) (hg : w.groups[g]? = some d) :
    ∃ d1, w1.groups[g]? = some d1 ∧ d1.frame = d.frame := by
  have hm := congrArg (fun l => l[g]?) h.2.2.2.2.1
  simp only [List.getElem?_map, hg, Option.map_some'] at hm
  cases h1 : w1.groups[g]? with
  | none => simp [h1] at hm
  | some d1 =>
    simp only [h1, Option.map_some', Option.some.injEq] at hm
    exact ⟨d1, rfl, hm⟩

theorem frame_buttons {d d1 : DecorationButtonGroup.Private} (h : d1.frame = d.frame) :
    d1.buttons = d.buttons := by
  unfold DecorationButtonGroup.Private.frame at h
  exact (Prod.mk.inj (Prod.mk.inj (Prod.mk.inj h).2).2).2

theorem frame_spacing {d d1 : DecorationButtonGroup.Private} (h : d1.frame = d.frame) :
    d1.spacing = d.spacing := by
  unfold DecorationButtonGroup.Private.frame at h
  exact (Prod.mk.inj (Prod.mk.inj (Prod.mk.inj h).2).2).1

/-- Running the layout of groups that exist and whose members are live succeeds. -/
theorem emit_layout_total (fuel : Nat) (gs : List Nat) :
    ∀ (w : World),
      (∀ g ∈ gs, ∃ d, w.groups[g]? = some d ∧ ∀ p ∈ d.buttons, (w.data p).isSome = true) →
      ∃ w1, emit (Private.updateLayout (fuel + 2)) gs w = .ok w1 ∧ LayoutOnly w w1 := by
  induction gs with
  | nil => intro w _; exact ⟨w, rfl, layoutOnly_refl w⟩
  | cons g gs ih =>
    intro w hl
    obtain ⟨d, hg, hd⟩ := hl g (List.mem_cons_self _ _)
    obtain ⟨w2, _, h2, _⟩ := updateLayout_frame fuel g w d hg hd
    have hlo := updateLayout_layoutOnly _ g w w2 h2
    have hl2 : ∀ g1 ∈ gs, ∃ d1, w2.groups[g1]? = some d1 ∧
        ∀ p ∈ d1.buttons, (w2.data p).isSome = true := by
      intro g1 hg1
      obtain ⟨d0, hg0, hd0⟩ := hl g1 (List.mem_cons_of_mem _ hg1)
      obtain ⟨d1, hd1, hf1⟩ := layoutOnly_group hlo g1 d0 hg0
      refine ⟨d1, hd1, ?_⟩
      intro p hp
      rw [frame_buttons hf1] at hp
      rw [sameButtons_isSome hlo.2.2.2.1 p]
      exact hd0 p hp
    obtain ⟨w1, h1, hlo1⟩ := ih w2 hl2
    refine ⟨w1, ?_, layoutOnly_trans hlo hlo1⟩
    unfold emit
    rw [h2]
    exact h1

theorem emitted_record (w : World) (s : Signal) : (w.record s).emitted = w.emitted ++ [s] := rfl

theorem emitted_store (w : World) (p : Nat) (b : DecorationButton) :
    (w.store p b).emitted = w.emitted := rfl

theorem update_self (w : World) (p : Nat) (b : DecorationButton) (hb : w.data p = some b) :
    w.update p b [] = w := by
  have hlt := data_lt w p b hb
  have hh : w.heap[p]? = some (some b) := by
    unfold World.data at hb
    cases h : w.heap[p]? with
    | none => simp [h] at hb
    | some o =>
      cases o with
      | none => simp [h] at hb
      | some c => simp [h] at hb; rw [hb]
  unfold World.update
  rw [set_self_of_getElem? _ _ _ hh, List.append_nil]

theorem update_update (w : World) (p : Nat) (b1 b2 : DecorationButton) (e1 e2 : List Signal) :
    (w.update p b1 e1).update p b2 e2 = w.update p b2 (e1 ++ e2) := by
  simp [World.update, List.set_set, List.append_assoc]

theorem store_eq_update (w : World) (p : Nat) (b : DecorationButton) :
    w.store p b = w.update p b [] := by
  simp [World.store, World.update]

theorem store_record_eq_update (w : World) (p : Nat) (b : DecorationButton) (s : Signal) :
    (w.store p b).record s = w.update p b [s] := rfl

theorem update_record (w : World) (p : Nat) (b : DecorationButton) (e : List Signal)
    (s : Signal) : (w.update p b e).record s = w.update p b (e ++ [s]) := by
  simp [World.update, World.record, List.append_assoc]

theorem data_update_same (w : World) (p : Nat) (b b1 : DecorationButton) (e : List Signal)
    (hb : w.data p = some b) : (w.update p b1 e).data p = some b1 :=
  data_store_same w p b b1 hb

theorem data_update_other (w : World) (p q : Nat) (b1 : DecorationButton) (e : List Signal)
    (h : q ≠ p) : (w.update p b1 e).data q = w.data q :=
  data_store_other w p q b1 h

theorem setHovered_eq (p : Nat) (v : Bool) (w : World) (b : DecorationButton)
    (hb : w.data p = some b) :
    DecorationButton.setHovered p v w
      = .ok (w.update p { b with hovered := v }
          (if b.hovered = v then [] else [.hoveredChanged p v])) := by
  unfold DecorationButton.setHovered
  simp only [hb]
  split
  · rename_i h
    have : ({ b with hovered := v } : DecorationButton) = b := by cases b; simp_all
    rw [this, update_self w p b hb]
  · rfl

theorem resetPressed_eq (p : Nat) (w : World) (b : DecorationButton)
    (hb : w.data p = some b) :
    DecorationButton.resetPressed p w
      = .ok (w.update p { b with pressedButtons := [] }
          (if b.pressedButtons = [] then [] else [.pressedChanged p false])) := by
  unfold DecorationButton.resetPressed
  simp only [hb]
  split
  · rename_i h
    have : ({ b with pressedButtons := [] } : DecorationButton) = b := by cases b; simp_all
    rw [this, update_self w p b hb]
  · rfl

theorem setPressed_eq (p : Nat) (m : MouseButton) (v : Bool) (w : World) (b : DecorationButton)
    (hb : w.data p = some b) :
    DecorationButton.setPressed p m v w
      = .ok (w.update p { b with pressedButtons := heldAfter b.pressedButtons m v }
          (if (!(heldAfter b.pressedButtons m v).isEmpty) = b.isPressed then []
           else [.pressedChanged p (!(heldAfter b.pressedButtons m v).isEmpty)])) := by
  unfold DecorationButton.setPressed
  simp only [hb]
  by_cases hsame : heldAfter b.pressedButtons m v = b.pressedButtons
  · have hs1 := hsame
    unfold heldAfter at hs1
    rw [if_pos hs1, hsame]
    have : ({ b with pressedButtons := b.pressedButtons } : DecorationButton) = b := by cases b; rfl
    rw [this]
    simp only [DecorationButton.isPressed, if_true]
    rw [update_self w p b hb]
  · have hs1 := hsame
    unfold heldAfter at hs1
    rw [if_neg hs1]
    cases v with
    | true =>
      simp only [if_true]
      have hm : m ∉ b.pressedButtons := by
        intro hm
        apply hsame
        simp [heldAfter, hm]
      have hh : heldAfter b.pressedButtons m true = b.pressedButtons ++ [m] := by
        simp [heldAfter, hm]
      rw [hh]
      by_cases he : b.pressedButtons = []
      · rw [if_pos he, store_record_eq_update]
        simp [he, DecorationButton.isPressed]
      · rw [if_neg he, store_eq_update]
        have h1 : (b.pressedButtons ++ [m]).isEmpty = false := by
          cases hx : b.pressedButtons <;> rfl
        have h2 : b.pressedButtons.isEmpty = false := by
          cases hx : b.pressedButtons with
          | nil => exact absurd hx he
          | cons _ _ => rfl
        simp only [DecorationButton.isPressed, h1, h2, if_true]
    | false =>
      simp only [Bool.false_eq_true, if_false]
      have hne : b.pressedButtons ≠ [] := by
        intro he
        apply hsame
        simp [heldAfter, he]
      have hh : heldAfter b.pressedButtons m false
          = b.pressedButtons.filter (fun x => decide (x ≠ m)) := rfl
      rw [hh]
      by_cases hf : b.pressedButtons.filter (fun x => decide (x ≠ m)) = []
      · rw [if_pos hf, store_record_eq_update, hf]
        simp [DecorationButton.isPressed, hne]
      · rw [if_neg hf, store_eq_update]
        have h1 : (b.pressedButtons.filter (fun x => decide (x ≠ m))).isEmpty = false := by
          cases hx : b.pressedButtons.filter (fun x => decide (x ≠ m)) with
          | nil => exact absurd hx hf
          | cons _ _ => rfl
        have h2 : b.pressedButtons.isEmpty = false := by
          cases hx : b.pressedButtons with
          | nil => exact absurd hx hne
          | cons _ _ => rfl
        simp only [DecorationButton.isPressed, h1, h2, if_true]

theorem setEnabled_eq (p : Nat) (v : Bool) (w : World) (b : DecorationButton)
    (hb : w.data p = some b) :
    DecorationButton.setEnabled p v w
      = .ok (w.update p (b.afterSetEnabled v) (signalsSetEnabled p b v)) := by
  unfold DecorationButton.setEnabled DecorationButton.afterSetEnabled signalsSetEnabled
  simp only [hb]
  by_cases he : b.enabled = v
  · simp only [he, if_true]
    rw [update_self w p b hb]
  · simp only [he, if_false]
    cases v with
    | true => simp only [if_true]; rfl
    | false =>
      simp only [Bool.false_eq_true, if_false]
      rw [store_record_eq_update,
        setHovered_eq p false _ _ (data_update_same w p b _ _ hb), update_update]
      simp only
      rw [resetPressed_eq p _ _ (data_update_same w p b _ _ hb), update_update]

theorem setCheckable_eq (p : Nat) (v : Bool) (w : World) (b : DecorationButton)
    (hb : w.data p = some b) :
    DecorationButton.setCheckable p v w
      = .ok (w.update p (b.afterSetCheckable v) (signalsSetCheckable p b v)) := by
  unfold DecorationButton.setCheckable DecorationButton.afterSetCheckable signalsSetCheckable
  simp only [hb]
  by_cases he : b.checkable = v
  · simp only [he, if_true]
    rw [update_self w p b hb]
  · simp only [he, if_false]
    split
    · rw [store_record_eq_update, update_record]; rfl
    · rfl

theorem setChecked_eq (p : Nat) (v : Bool) (w : World) (b : DecorationButton)
    (hb : w.data p = some b) :
    DecorationButton.setChecked p v w
      = .ok (w.update p (b.afterSetChecked v) (signalsSetChecked p b v)) := by
  unfold DecorationButton.setChecked DecorationButton.afterSetChecked signalsSetChecked
  simp only [hb]
  split
  · rw [update_self w p b hb]
  · rfl

theorem setAcceptedButtons_eq (p : Nat) (l : List MouseButton) (w : World)
    (b : DecorationButton) (hb : w.data p = some b) :
    DecorationButton.setAcceptedButtons p l w
      = .ok (w.update p { b with acceptedButtons := l }
          (if b.acceptedButtons = l then [] else [.acceptedButtonsChanged p l])) := by
  unfold DecorationButton.setAcceptedButtons
  simp only [hb]
  split
  · rename_i h
    have : ({ b with acceptedButtons := l } : DecorationButton) = b := by cases b; simp_all
    rw [this, update_self w p b hb]
  · rfl

theorem event_eq (p : Nat) (e : ButtonEvent) (accepted : Bool) (w : World)
    (b : DecorationButton) (hb : w.data p = some b) :
    DecorationButton.event p e accepted w
      = .ok (w.update p (b.afterEvent e) (signalsEvent p b e), accepted || b.handles e) := by
  unfold DecorationButton.event DecorationButton.afterEvent signalsEvent
  simp only [hb]
  cases e with
  | HoverEnter =>
    simp only [DecorationButton.handles]
    by_cases he : b.enabled = true
    · simp [he, setHovered_eq p true w b hb]
    · simp [he, update_self w p b hb]
  | HoverLeave =>
    simp only [DecorationButton.handles]
    by_cases he : b.enabled = true
    · simp [he, setHovered_eq p false w b hb]
    · simp [he, update_self w p b hb]
  | ButtonPress pos m =>
    simp only [DecorationButton.handles]
    cases hh : (b.visible && b.enabled && b.geometry.contains pos
        && decide (m ∈ b.acceptedButtons)) with
    | false => simp [update_self w p b hb]
    | true => simp [setPressed_eq p m true w b hb]
  | ButtonRelease pos m =>
    simp only [DecorationButton.handles]
    cases hh : decide (m ∈ b.pressedButtons) with
    | false => simp [update_self w p b hb]
    | true =>
      simp only [Bool.not_true, Bool.false_eq_true, if_false, if_true,
        setPressed_eq p m false w b hb, Bool.or_true]
      cases clickRequest b.type m with
      | none => simp [update_record]
      | some r => simp [update_record]

theorem flagLaw_enabled (slot : Nat → World → Except Fault World) (m : MouseButton)
    (p : Nat) (w : World) : FlagSetterLaw slot m .enabled p w := by
  intro b hb
  simp only [setFlag, Flag.get, setEnabled_eq _ _ w b hb]
  refine ⟨?_, _, rfl, ?_, _, rfl, ?_⟩
  · simp [DecorationButton.afterSetEnabled, signalsSetEnabled, update_self w p b hb]
  · rw [data_update_same w p b _ _ hb]
    cases he : b.enabled <;> simp [DecorationButton.afterSetEnabled, he, Flag.get]
  · cases he : b.enabled <;> cases hh : b.hovered <;>
      by_cases hp : b.pressedButtons = [] <;>
      simp [signalsSetEnabled, he, hh, hp, Flag.isChanged, Flag.changed]

theorem flagLaw_checkable (slot : Nat → World → Except Fault World) (m : MouseButton)
    (p : Nat) (w : World) : FlagSetterLaw slot m .checkable p w := by
  intro b hb
  simp only [setFlag, Flag.get, setCheckable_eq _ _ w b hb]
  refine ⟨?_, _, rfl, ?_, _, rfl, ?_⟩
  · simp [DecorationButton.afterSetCheckable, signalsSetCheckable, update_self w p b hb]
  · rw [data_update_same w p b _ _ hb]
    cases he : b.checkable <;> cases hc : b.checked <;>
      simp [DecorationButton.afterSetCheckable, he, hc, Flag.get]
  · cases he : b.checkable <;> cases hc : b.checked <;>
      simp [signalsSetCheckable, he, hc, Flag.isChanged, Flag.changed]

theorem flagLaw_checked (slot : Nat → World → Except Fault World) (m : MouseButton)
    (p : Nat) (w : World) (hc : ∀ b, w.data p = some b → b.checkable = true) :
    FlagSetterLaw slot m .checked p w := by
  intro b hb
  have hcb := hc b hb
  simp only [setFlag, Flag.get, setChecked_eq _ _ w b hb]
  refine ⟨?_, _, rfl, ?_, _, rfl, ?_⟩
  · simp [DecorationButton.afterSetChecked, signalsSetChecked, update_self w p b hb]
  · rw [data_update_same w p b _ _ hb]
    cases he : b.checked <;> simp [DecorationButton.afterSetChecked, he, hcb, Flag.get]
  · cases he : b.checked <;>
      simp [signalsSetChecked, he, hcb, Flag.isChanged, Flag.changed]

theorem flagLaw_hovered (slot : Nat → World → Except Fault World) (m : MouseButton)
    (p : Nat) (w : World) : FlagSetterLaw slot m .hovered p w := by
  intro b hb
  simp only [setFlag, Flag.get, setHovered_eq _ _ w b hb]
  refine ⟨?_, _, rfl, ?_, _, rfl, ?_⟩
  · have : ({ b with hovered := b.hovered } : DecorationButton) = b := by cases b; rfl
    simp [this, update_self w p b hb]
  · rw [data_update_same w p b _ _ hb]; rfl
  · cases he : b.hovered <;> simp [Flag.isChanged, Flag.changed]

theorem flagLaw_pressed (slot : Nat → World → Except Fault World) (m : MouseButton)
    (p : Nat) (w : World) (hm : ∀ b, w.data p = some b → ∀ x ∈ b.pressedButtons, x = m) :
    FlagSetterLaw slot m .pressed p w := by
  intro b hb
  have hmb := hm b hb
  simp only [setFlag, Flag.get, setPressed_eq _ _ _ w b hb]
  have hfil : b.pressedButtons.filter (fun x => decide (x ≠ m)) = [] := by
    rw [List.filter_eq_nil_iff]
    intro x hx
    simp [hmb x hx]
  by_cases he : b.pressedButtons = []
  · have hp : b.isPressed = false := by simp [DecorationButton.isPressed, he]
    have h1 : heldAfter b.pressedButtons m false = b.pressedButtons := by
      simp [heldAfter, he]
    have h2 : heldAfter b.pressedButtons m true = [m] := by simp [heldAfter, he]
    have hself : ({ b with pressedButtons := b.pressedButtons } : DecorationButton) = b := by
      cases b; rfl
    rw [hp]
    refine ⟨?_, _, rfl, ?_, _, rfl, ?_⟩
    · rw [h1, hself]
      simp [DecorationButton.isPressed, he, update_self w p b hb]
    · rw [data_update_same w p b _ _ hb]
      simp [h2, DecorationButton.isPressed, Flag.get]
    · simp [h2, hp, Flag.isChanged, Flag.changed]
  · have hp : b.isPressed = true := by
      cases hx : b.pressedButtons with
      | nil => exact absurd hx he
      | cons _ _ => simp [DecorationButton.isPressed, hx]
    have hmem : m ∈ b.pressedButtons := by
      cases hx : b.pressedButtons with
      | nil => exact absurd hx he
      | cons a l => rw [hx] at hmb; rw [hmb a (List.mem_cons_self _ _)]; exact List.mem_cons_self _ _
    have h1 : heldAfter b.pressedButtons m true = b.pressedButtons := by
      simp [heldAfter, hmem]
    have h2 : heldAfter b.pressedButtons m false = [] := hfil
    have hself : ({ b with pressedButtons := b.pressedButtons } : DecorationButton) = b := by
      cases b; rfl
    rw [hp]
    refine ⟨?_, _, rfl, ?_, _, rfl, ?_⟩
    · rw [h1, hself]
      have : (!b.pressedButtons.isEmpty) = b.isPressed := rfl
      simp [this, hp, update_self w p b hb]
    · rw [data_update_same w p b _ _ hb]
      simp [h2, DecorationButton.isPressed, Flag.get]
    · simp [h2, hp, Flag.isChanged, Flag.changed]

theorem filter_isChanged_layout (f : Flag) (p : Nat) (ext : List Signal)
    (h : ∀ s ∈ ext, s.isLayoutSignal = true) : ext.filter (f.isChanged p) = [] := by
  rw [List.filter_eq_nil_iff]
  intro s hs hc
  have hl := h s hs
  unfold Flag.isChanged at hc
  rcases Bool.or_eq_true _ _ ▸ hc with h1 | h1
  · rw [of_decide_eq_true h1] at hl
    cases f <;> simp [Flag.changed, Signal.isLayoutSignal] at hl
  · rw [of_decide_eq_true h1] at hl
    cases f <;> simp [Flag.changed, Signal.isLayoutSignal] at hl

theorem sameButtons_visible {w w1 : World} (h : SameButtons w w1) (q : Nat)
    (b b1 : DecorationButton) (hb : w.data q = some b) (hb1 : w1.data q = some b1) :
    b1.visible = b.visible := by
  have h1 := sameButtons_isVisible h q
  rw [isVisible_of_data w q b hb, isVisible_of_data w1 q b1 hb1] at h1
  exact h1

theorem isSome_data_update (w : World) (p q : Nat) (b1 : DecorationButton) (e : List Signal)
    (hp : (w.data p).isSome = true) :
    ((w.update p b1 e).data q).isSome = (w.data q).isSome :=
  isSome_data_store w p q b1 hp

theorem flagLaw_visible (fuel : Nat) (m : MouseButton) (p : Nat) (w : World)
    (hl : ∀ b, w.data p = some b → ∀ g ∈ b.visibilityChangedSlots,
      ∃ d, w.groups[g]? = some d ∧ ∀ q ∈ d.buttons, (w.data q).isSome = true) :
    FlagSetterLaw (Private.updateLayout (fuel + 2)) m .visible p w := by
  intro b hb
  have hp : (w.data p).isSome = true := by rw [hb]; rfl
  refine ⟨by simp [setFlag, DecorationButton.setVisible, hb, Flag.get], ?_⟩
  simp only [setFlag, Flag.get, DecorationButton.setVisible, hb]
  have hne : ¬ b.visible = !b.visible := by cases b.visible <;> simp
  rw [if_neg hne, store_record_eq_update]
  obtain ⟨w1, h1, hlo⟩ := emit_layout_total fuel b.visibilityChangedSlots
    (w.update p { b with visible := !b.visible } [.buttonVisibilityChanged p (!b.visible)])
    (by
      intro g hg
      obtain ⟨d, hd, hq⟩ := hl b hb g hg
      exact ⟨d, hd, fun q hq1 => by rw [isSome_data_update w p q _ _ hp]; exact hq q hq1⟩)
  rw [h1]
  simp only
  obtain ⟨_, _, _, hsb, _, ext, hext, hlay⟩ := hlo
  have hd0 := data_update_same w p b { b with visible := !b.visible }
    [.buttonVisibilityChanged p (!b.visible)] hb
  have hs1 : (w1.data p).isSome = true := by rw [sameButtons_isSome hsb p, hd0]; rfl
  obtain ⟨b1, hb1⟩ := Option.isSome_iff_exists.mp hs1
  have hv1 : b1.visible = !b.visible := sameButtons_visible hsb p _ b1 hd0 hb1
  have hfl := filter_isChanged_layout .visible p ext hlay
  by_cases hvis : b.visible = true
  · have hnv : (!b.visible) = false := by rw [hvis]; rfl
    rw [hnv] at hv1
    simp only [hnv, Bool.false_eq_true, if_false]
    rw [resetPressed_eq p w1 b1 hb1]
    refine ⟨_, rfl, ?_, [.buttonVisibilityChanged p false] ++ ext ++
      (if b1.pressedButtons = [] then [] else [.pressedChanged p false]), ?_, ?_⟩
    · rw [data_update_same w1 p b1 _ _ hb1]
      simp [hv1, Flag.get]
    · simp [World.update, hext, hnv]
    · rw [List.filter_append, List.filter_append, hfl]
      by_cases hpb : b1.pressedButtons = [] <;> simp [hpb, Flag.isChanged, Flag.changed]
  · have hnv : (!b.visible) = true := by
      cases hx : b.visible with
      | true => exact absurd hx hvis
      | false => rfl
    rw [hnv] at hv1
    simp only [hnv, if_true]
    refine ⟨w1, rfl, ?_, [.buttonVisibilityChanged p true] ++ ext, ?_, ?_⟩
    · rw [hb1]; simp [hv1, Flag.get]
    · rw [hext]; simp [World.update, hnv]
    · rw [List.filter_append, hfl]
      simp [Flag.isChanged, Flag.changed]

theorem kept_refl (w : World) : Kept w w :=
  ⟨rfl, rfl, fun _ b hb => ⟨b, hb, rfl⟩⟩

theorem kept_trans {w w1 w2 : World} (h1 : Kept w w1) (h2 : Kept w1 w2) : Kept w w2 := by
  refine ⟨h2.1.trans h1.1, h2.2.1.trans h1.2.1, fun q b2 hb2 => ?_⟩
  obtain ⟨b1, hb1, e1⟩ := h2.2.2 q b2 hb2
  obtain ⟨b, hb, e⟩ := h1.2.2 q b1 hb1
  exact ⟨b, hb, e1.trans e⟩

theorem inv_of_kept {S : qreal → Prop} {B : DecorationButton → Prop} {G : Bool → Prop}
    (hB : FlagProperty B) {w w1 : World} (h : Kept w w1) (hI : Inv S B G w) :
    Inv S B G w1 := by
  refine ⟨fun d1 hd1 => ?_, fun q b1 hb1 => ?_, by rw [h.2.1]; exact hI.2.2⟩
  · have h1 : d1.spacing ∈ w1.groups.map (fun d => d.spacing) :=
      List.mem_map.mpr ⟨d1, hd1, rfl⟩
    rw [h.1] at h1
    obtain ⟨d, hd, e⟩ := List.mem_map.mp h1
    rw [← e]; exact hI.1 d hd
  · obtain ⟨b, hb, e⟩ := h.2.2 q b1 hb1
    exact hB.flagsOnly b b1 e (hI.2.1 q b hb)

theorem kept_of_layoutOnly {w w1 : World} (h : LayoutOnly w w1) : Kept w w1 := by
  obtain ⟨_, hgd, _, hsb, hfr, _⟩ := h
  refine ⟨?_, hgd, fun q b1 hb1 => ?_⟩
  · have := congrArg (List.map (fun f : qreal × qreal × qreal × List Nat => f.2.2.1)) hfr
    simpa [List.map_map, Function.comp_def, Private.frame] using this
  · have hq := hsb q
    rw [hb1] at hq
    cases hw : w.data q with
    | none => rw [hw] at hq; simp at hq
    | some b =>
      rw [hw] at hq
      simp only [Option.map_some', Option.some.injEq] at hq
      refine ⟨b, rfl, ?_⟩
      have := congrArg DecorationButton.flags hq
      simpa [DecorationButton.placed, DecorationButton.flags] using this

theorem data_update_cases (w : World) (p q : Nat) (b1 c : DecorationButton) (e : List Signal)
    (h : (w.update p b1 e).data q = some c) : (q = p ∧ c = b1) ∨ w.data q = some c := by
  by_cases hq : q = p
  · subst hq
    left
    refine ⟨rfl, ?_⟩
    unfold World.data World.update at h
    simp only [List.getElem?_set] at h
    by_cases hl : q < w.heap.length
    · simp [hl] at h; exact h.symm
    · simp [hl] at h
  · right
    rw [data_update_other w p q b1 e hq] at h
    exact h

theorem kept_update (w : World) (p : Nat) (b b1 : DecorationButton) (e : List Signal)
    (hb : w.data p = some b) (h1 : b1.flags = b.flags) :
    Kept w (w.update p b1 e) := by
  refine ⟨rfl, rfl, fun q c hc => ?_⟩
  rcases data_update_cases w p q b1 c e hc with ⟨rfl, rfl⟩ | h
  · exact ⟨b, hb, h1⟩
  · exact ⟨c, h, rfl⟩

theorem inv_update {S : qreal → Prop} {B : DecorationButton → Prop} {G : Bool → Prop}
    (w : World) (p : Nat) (b1 : DecorationButton) (e : List Signal) (hb1 : B b1)
    (hI : Inv S B G w) : Inv S B G (w.update p b1 e) := by
  refine ⟨hI.1, fun q c hc => ?_, hI.2.2⟩
  rcases data_update_cases w p q b1 c e hc with ⟨rfl, rfl⟩ | h
  · exact hb1
  · exact hI.2.1 q c h

theorem kept_set_group (w : World) (gid : Nat) (d d1 : DecorationButtonGroup.Private)
    (hg : w.groups[gid]? = some d) (hs : d1.spacing = d.spacing) (ext : List Signal) :
    Kept w { w with groups := w.groups.set gid d1, emitted := w.emitted ++ ext } := by
  refine ⟨?_, rfl, fun q b hb => ⟨b, hb, rfl⟩⟩
  simp only [List.map_set, hs]
  refine set_self_of_getElem? _ _ _ ?_
  rw [List.getElem?_map, hg]; rfl

theorem kept_withButtons (w : World) (gid : Nat) (d : DecorationButtonGroup.Private)
    (l : List Nat) (hg : w.groups[gid]? = some d) : Kept w (w.withButtons gid d l) := by
  have := kept_set_group w gid d { d with buttons := l } hg rfl []
  simpa [World.withButtons] using this

theorem kept_group_setGeometry (gid : Nat) (geo : QRectF) (w w1 : World)
    (h : Private.setGeometry gid geo w = .ok w1) : Kept w w1 := by
  unfold Private.setGeometry at h
  cases hg : w.groups[gid]? with
  | none => simp [hg] at h
  | some d =>
    simp only [hg] at h
    by_cases hgeo : d.geometry = geo
    · simp [hgeo] at h; subst h; exact kept_refl w
    · simp only [hgeo, if_false, Except.ok.injEq] at h
      subst h
      exact kept_set_group w gid d { d with geometry := geo } hg rfl [.geometryChanged gid geo]

theorem kept_record (w : World) (s : Signal) : Kept w (w.record s) :=
  ⟨rfl, rfl, fun _ b hb => ⟨b, hb, rfl⟩⟩

theorem kept_updateLayout (fuel gid : Nat) (w w1 : World)
    (h : Private.updateLayout fuel gid w = .ok w1) : Kept w w1 :=
  kept_of_layoutOnly (updateLayout_layoutOnly fuel gid w w1 h)

theorem kept_emit (fuel : Nat) (gs : List Nat) (w w1 : World)
    (h : emit (Private.updateLayout fuel) gs w = .ok w1) : Kept w w1 :=
  kept_of_layoutOnly (emit_layoutOnly fuel gs w w1 h)

theorem kept_delete (w : World) (p : Nat) : Kept w { w with heap := w.heap.set p none } := by
  refine ⟨rfl, rfl, fun q b hb => ⟨b, ?_, rfl⟩⟩
  unfold World.data at hb ⊢
  simp only [List.getElem?_set] at hb
  by_cases hq : p = q
  · subst hq
    by_cases hl : p < w.heap.length
    · simp [hl] at hb
    · simp [hl] at hb
  · simp only [hq, if_false] at hb
    exact hb

theorem kept_qDeleteAll (l : List Nat) : ∀ w : World, Kept w (qDeleteAll l w) := by
  induction l with
  | nil => intro w; exact kept_refl w
  | cons p rest ih =>
    intro w
    exact kept_trans (kept_delete w p) (ih _)

theorem kept_button_setGeometry (fuel p : Nat) (geo : QRect) (w w1 : World)
    (h : DecorationButton.setGeometry (Private.updateLayout fuel) p geo w = .ok w1) :
    Kept w w1 := by
  unfold DecorationButton.setGeometry at h
  cases hb : w.data p with
  | none => simp [hb] at h
  | some b =>
    simp only [hb] at h
    by_cases hgeo : b.geometry = geo
    · simp [hgeo] at h; subst h; exact kept_refl w
    · simp only [hgeo, if_false] at h
      rw [store_record_eq_update] at h
      refine kept_trans ?_ (kept_emit fuel _ _ _ h)
      exact kept_update w p b _ _ hb rfl

theorem kept_resetPressed (p : Nat) (w w1 : World)
    (h : DecorationButton.resetPressed p w = .ok w1) : Kept w w1 := by
  cases hb : w.data p with
  | none => simp [DecorationButton.resetPressed, hb] at h
  | some b =>
    rw [resetPressed_eq p w b hb] at h
    cases h
    exact kept_update w p b _ _ hb rfl

theorem kept_button_setVisible (fuel p : Nat) (v : Bool) (w w1 : World)
    (h : DecorationButton.setVisible (Private.updateLayout fuel) p v w = .ok w1) :
    Kept w w1 := by
  unfold DecorationButton.setVisible at h
  cases hb : w.data p with
  | none => simp [hb] at h
  | some b =>
    simp only [hb] at h
    by_cases hv : b.visible = v
    · simp [hv] at h; subst h; exact kept_refl w
    · simp only [hv, if_false] at h
      rw [store_record_eq_update] at h
      cases he : emit (Private.updateLayout fuel) b.visibilityChangedSlots
          (w.update p { b with visible := v } [.buttonVisibilityChanged p v]) with
      | error e => simp [he] at h
      | ok w2 =>
        simp only [he] at h
        have h12 : Kept w w2 := by
          refine kept_trans ?_ (kept_emit fuel _ _ _ he)
          exact kept_update w p b _ _ hb rfl
        cases v with
        | true => simp at h; subst h; exact h12
        | false =>
          simp at h
          exact kept_trans h12 (kept_resetPressed p w2 w1 h)

theorem kept_setPos (fuel gid : Nat) (pos : QPointF) (w w1 : World)
    (h : DecorationButtonGroup.setPos fuel gid pos w = .ok w1) : Kept w w1 := by
  unfold DecorationButtonGroup.setPos World.group at h
  cases hg : w.groups[gid]? with
  | none => simp [hg] at h
  | some d =>
    simp only [hg] at h
    by_cases hp : d.geometry.topLeft = pos
    · simp [hp] at h; subst h; exact kept_refl w
    · simp only [hp, if_false] at h
      cases hs : Private.setGeometry gid
          { x := pos.x, y := pos.y, width := d.geometry.width, height := d.geometry.height } w with
      | error e => simp [hs] at h
      | ok w2 =>
        simp only [hs] at h
        exact kept_trans (kept_group_setGeometry _ _ _ _ hs) (kept_updateLayout _ _ _ _ h)

theorem kept_addButton (fuel gid button : Nat) (w w1 : World)
    (h : DecorationButtonGroup.addButton fuel gid button w = .ok w1) : Kept w w1 := by
  unfold DecorationButtonGroup.addButton World.group at h
  cases hg : w.groups[gid]? with
  | none => simp [hg] at h
  | some d =>
    simp only [hg] at h
    cases hb : w.data button with
    | none => simp [hb] at h
    | some b =>
      simp only [hb] at h
      rw [store_eq_update] at h
      refine kept_trans (kept_trans ?_ (kept_withButtons _ gid d _ ?_))
        (kept_updateLayout _ _ _ _ h)
      · exact kept_update w button b _ [] hb rfl
      · simpa [World.update] using hg

theorem kept_removeButton (fuel gid : Nat) (t : DecorationButtonType) (w w1 : World)
    (h : DecorationButtonGroup.removeButton fuel gid t w = .ok w1) : Kept w w1 := by
  unfold DecorationButtonGroup.removeButton World.group at h
  cases hg : w.groups[gid]? with
  | none => simp [hg] at h
  | some d =>
    simp only [hg] at h
    cases hr : removeTypeLoop w t d.buttons [] false with
    | error e => simp [hr] at h
    | ok r =>
      obtain ⟨remaining, needUpdate⟩ := r
      simp only [hr] at h
      cases needUpdate with
      | true =>
        simp at h
        exact kept_trans (kept_withButtons w gid d _ hg) (kept_updateLayout _ _ _ _ h)
      | false =>
        simp at h; subst h
        exact kept_withButtons w gid d _ hg

theorem kept_removeButtonPtr (fuel gid button : Nat) (w w1 : World)
    (h : DecorationButtonGroup.removeButtonPtr fuel gid button w = .ok w1) : Kept w w1 := by
  unfold DecorationButtonGroup.removeButtonPtr World.group at h
  cases hg : w.groups[gid]? with
  | none => simp [hg] at h
  | some d =>
    simp only [hg] at h
    generalize removePtrLoop w button d.buttons [] false = r at h
    obtain ⟨remaining, needUpdate⟩ := r
    cases needUpdate with
    | true =>
      simp at h
      exact kept_trans (kept_withButtons w gid d _ hg) (kept_updateLayout _ _ _ _ h)
    | false =>
      simp at h; subst h
      exact kept_withButtons w gid d _ hg

theorem kept_paintLoop (painter region : Nat) (l : List Nat) :
    ∀ (w w1 : World), paintLoop painter region l w = .ok w1 → Kept w w1 := by
  induction l with
  | nil => intro w w1 h; simp [paintLoop] at h; subst h; exact kept_refl w
  | cons p rest ih =>
    intro w w1 h
    unfold paintLoop at h
    cases hb : w.data p with
    | none => simp [hb] at h
    | some b =>
      simp only [hb] at h
      cases hv : b.visible with
      | false => simp [hv] at h; exact ih _ _ h
      | true => simp [hv] at h; exact kept_trans (kept_record w _) (ih _ _ h)

theorem kept_paint (gid painter region : Nat) (w w1 : World)
    (h : DecorationButtonGroup.paint gid painter region w = .ok w1) : Kept w w1 := by
  unfold DecorationButtonGroup.paint World.group at h
  cases hg : w.groups[gid]? with
  | none => simp [hg] at h
  | some d =>
    simp only [hg] at h
    exact kept_paintLoop _ _ _ _ _ h

theorem inv_setEnabled {S : qreal → Prop} {B : DecorationButton → Prop} {G : Bool → Prop}
    (hB : FlagProperty B) (p : Nat) (v : Bool) (w w1 : World) (hI : Inv S B G w)
    (h : DecorationButton.setEnabled p v w = .ok w1) : Inv S B G w1 := by
  cases hb : w.data p with
  | none => simp [DecorationButton.setEnabled, hb] at h
  | some b =>
    rw [setEnabled_eq p v w b hb] at h
    cases h
    exact inv_update w p _ _ (hB.setEnabled b v (hI.2.1 p b hb)) hI

theorem kept_setAcceptedButtons (p : Nat) (l : List MouseButton) (w w1 : World)
    (h : DecorationButton.setAcceptedButtons p l w = .ok w1) : Kept w w1 := by
  cases hb : w.data p with
  | none => simp [DecorationButton.setAcceptedButtons, hb] at h
  | some b =>
    rw [setAcceptedButtons_eq p l w b hb] at h
    cases h
    exact kept_update w p b _ _ hb rfl

theorem inv_event {S : qreal → Prop} {B : DecorationButton → Prop} {G : Bool → Prop}
    (hB : FlagProperty B) (p : Nat) (e : ButtonEvent) (a : Bool) (w : World)
    (r : World × Bool) (hI : Inv S B G w)
    (h : DecorationButton.event p e a w = .ok r) : Inv S B G r.1 := by
  cases hb : w.data p with
  | none =>
    unfold DecorationButton.event at h
    simp [hb] at h
  | some b =>
    rw [event_eq p e a w b hb] at h
    cases h
    exact inv_update w p _ _ (hB.event b e (hI.2.1 p b hb)) hI

theorem inv_setCheckable {S : qreal → Prop} {B : DecorationButton → Prop} {G : Bool → Prop}
    (hB : FlagProperty B) (p : Nat) (v : Bool) (w w1 : World) (hI : Inv S B G w)
    (h : DecorationButton.setCheckable p v w = .ok w1) : Inv S B G w1 := by
  cases hb : w.data p with
  | none => simp [DecorationButton.setCheckable, hb] at h
  | some b =>
    rw [setCheckable_eq p v w b hb] at h
    cases h
    exact inv_update w p _ _ (hB.setCheckable b v (hI.2.1 p b hb)) hI

theorem inv_setChecked {S : qreal → Prop} {B : DecorationButton → Prop} {G : Bool → Prop}
    (hB : FlagProperty B) (p : Nat) (v : Bool) (w w1 : World) (hI : Inv S B G w)
    (h : DecorationButton.setChecked p v w = .ok w1) : Inv S B G w1 := by
  cases hb : w.data p with
  | none => simp [DecorationButton.setChecked, hb] at h
  | some b =>
    rw [setChecked_eq p v w b hb] at h
    cases h
    exact inv_update w p _ _ (hB.setChecked b v (hI.2.1 p b hb)) hI

theorem data_alloc (w : World) (b c : DecorationButton) (q : Nat)
    (h : (w.alloc b).1.data q = some c) : (q = w.heap.length ∧ c = b) ∨ w.data q = some c := by
  unfold World.data World.alloc at h
  simp only at h
  by_cases hq : q < w.heap.length
  · right
    rw [List.getElem?_append_left hq] at h
    exact h
  · left
    rw [List.getElem?_append_right (by omega)] at h
    by_cases hq2 : q - w.heap.length = 0
    · rw [hq2] at h
      simp at h
      exact ⟨by omega, h.symm⟩
    · obtain ⟨k, hk⟩ := Nat.exists_eq_succ_of_ne_zero hq2
      rw [hk] at h
      simp at h

theorem inv_alloc {S : qreal → Prop} {B : DecorationButton → Prop} {G : Bool → Prop}
    (w : World) (b : DecorationButton) (hb : B b) (hI : Inv S B G w) :
    Inv S B G (w.alloc b).1 := by
  refine ⟨hI.1, fun q c hc => ?_, hI.2.2⟩
  rcases data_alloc w b c q hc with ⟨_, rfl⟩ | h
  · exact hb
  · exact hI.2.1 q c h

theorem inv_create {S : qreal → Prop} {B : DecorationButton → Prop} {G : Bool → Prop}
    (w : World) (hS : S 0) (hI : Inv S B G w) :
    Inv S B G (DecorationButtonGroup.create w).1 := by
  refine ⟨fun d hd => ?_, hI.2⟩
  simp only [DecorationButtonGroup.create, List.mem_append, List.mem_singleton] at hd
  rcases hd with hd | rfl
  · exact hI.1 d hd
  · exact hS

theorem inv_setSpacing {S : qreal → Prop} {B : DecorationButton → Prop} {G : Bool → Prop}
    (hB : FlagProperty B) (fuel gid : Nat) (v : qreal) (w w1 : World) (hv : S v)
    (hI : Inv S B G w)
    (h : DecorationButtonGroup.setSpacing fuel gid v w = .ok w1) : Inv S B G w1 := by
  unfold DecorationButtonGroup.setSpacing World.group at h
  cases hg : w.groups[gid]? with
  | none => simp [hg] at h
  | some d =>
    simp only [hg] at h
    by_cases hs : d.spacing = v
    · simp [hs] at h; subst h; exact hI
    · simp only [hs, if_false] at h
      refine inv_of_kept hB (kept_updateLayout _ _ _ _ h) ⟨fun c hc => ?_, hI.2⟩
      rcases List.mem_or_eq_of_mem_set hc with hc | rfl
      · exact hI.1 c hc
      · exact hv

theorem inv_createButtonsLoop {S : qreal → Prop} {B : DecorationButton → Prop}
    {G : Bool → Prop} (hB : FlagProperty B) (fuel gid : Nat)
    (buttonCreator : DecorationButtonType → Option DecorationButton)
    (hc : ∀ t b, buttonCreator t = some b → B b) (types : List DecorationButtonType) :
    ∀ (w w1 : World), Inv S B G w →
      createButtonsLoop fuel gid buttonCreator types w = .ok w1 → Inv S B G w1 := by
  induction types with
  | nil => intro w w1 hI h; simp [createButtonsLoop] at h; subst h; exact hI
  | cons t rest ih =>
    intro w w1 hI h
    unfold createButtonsLoop at h
    cases hb : buttonCreator t with
    | none => simp only [hb] at h; exact ih _ _ hI h
    | some b =>
      simp only [hb] at h
      cases ha : DecorationButtonGroup.addButton fuel gid (w.alloc b).2 (w.alloc b).1 with
      | error e => simp [ha] at h
      | ok w2 =>
        simp only [ha] at h
        exact ih _ _ (inv_of_kept hB (kept_addButton _ _ _ _ _ ha)
          (inv_alloc w b (hc t b hb) hI)) h

theorem inv_createButtons {S : qreal → Prop} {B : DecorationButton → Prop}
    {G : Bool → Prop} (hB : FlagProperty B) (fuel gid : Nat)
    (type : DecorationButtonGroup.Position)
    (buttonCreator : DecorationButtonType → Option DecorationButton)
    (hc : ∀ t b, buttonCreator t = some b → B b) (w w1 : World) (hI : Inv S B G w)
    (h : createButtons fuel gid type buttonCreator w = .ok w1) : Inv S B G w1 :=
  inv_createButtonsLoop hB fuel gid buttonCreator hc _ w w1 hI h

/-- Every operation keeps `Inv S B G`, when it respects `S` and `B`. -/
theorem run_inv {S : qreal → Prop} {B : DecorationButton → Prop} {G : Bool → Prop}
    (hB : FlagProperty B) (hS : S 0) (fuel : Nat) (op : Op) (w w1 : World)
    (hr : op.Respects S B) (hI : Inv S B G w) (h : op.run fuel w = .ok w1) :
    Inv S B G w1 := by
  cases op with
  | newButton t =>
    simp only [Op.run, Except.ok.injEq] at h
    subst h
    exact inv_alloc w _ (hB.create t) hI
  | createGroup =>
    simp only [Op.run, Except.ok.injEq] at h
    subst h
    exact inv_create w hS hI
  | createGroupFor type c =>
    simp only [Op.run, DecorationButtonGroup.createFor] at h
    cases hc : createButtons fuel (DecorationButtonGroup.create w).2 type c
        (DecorationButtonGroup.create w).1 with
    | error e => simp [hc] at h
    | ok w2 =>
      simp [hc] at h
      subst h
      exact inv_createButtons hB _ _ _ _ hr _ _ (inv_create w hS hI) hc
  | setDecorationButtons l r =>
    simp only [Op.run, Except.ok.injEq] at h
    subst h
    exact hI
  | decorationButtonsChanged gid type c =>
    simp only [Op.run, DecorationButtonGroup.decorationButtonsChanged, World.group] at h
    cases hg : w.groups[gid]? with
    | none => simp [hg] at h
    | some d =>
      simp only [hg] at h
      refine inv_createButtons hB _ _ _ _ hr _ _ ?_ h
      refine inv_of_kept hB (kept_trans (kept_qDeleteAll d.buttons w)
        (kept_withButtons _ gid d [] ?_)) hI
      have : ∀ (l : List Nat) (v : World), (qDeleteAll l v).groups = v.groups := by
        intro l
        induction l with
        | nil => intro v; rfl
        | cons p rest ih => intro v; simp only [qDeleteAll]; rw [ih]
      rw [this]; exact hg
  | setPos gid pos => exact inv_of_kept hB (kept_setPos _ _ _ _ _ h) hI
  | setSpacing gid v => exact inv_setSpacing hB _ _ _ _ _ hr hI h
  | addButton gid b => exact inv_of_kept hB (kept_addButton _ _ _ _ _ h) hI
  | removeButton gid t => exact inv_of_kept hB (kept_removeButton _ _ _ _ _ h) hI
  | removeButtonPtr gid b => exact inv_of_kept hB (kept_removeButtonPtr _ _ _ _ _ h) hI
  | paint gid a r => exact inv_of_kept hB (kept_paint _ _ _ _ _ h) hI
  | setGeometry b geo => exact inv_of_kept hB (kept_button_setGeometry _ _ _ _ _ h) hI
  | setVisible b v => exact inv_of_kept hB (kept_button_setVisible _ _ _ _ _ h) hI
  | setEnabled b v => exact inv_setEnabled hB _ _ _ _ hI h
  | setCheckable b v => exact inv_setCheckable hB _ _ _ _ hI h
  | setChecked b v => exact inv_setChecked hB _ _ _ _ hI h
  | setAcceptedButtons b l => exact inv_of_kept hB (kept_setAcceptedButtons _ _ _ _ h) hI
  | event b e =>
    simp only [Op.run] at h
    cases he : DecorationButton.event b e false w with
    | error err => simp [he] at h
    | ok r =>
      simp [he] at h
      subst h
      exact inv_event hB _ _ _ _ _ hI he

/-- Every sequence of operations keeps `Inv S B G`, when each respects `S` and `B`. -/
theorem runAll_inv {S : qreal → Prop} {B : DecorationButton → Prop} {G : Bool → Prop}
    (hB : FlagProperty B) (hS : S 0) (fuel : Nat) (ops : List Op) :
    ∀ (w w1 : World), (∀ op ∈ ops, op.Respects S B) → Inv S B G w →
      runAll fuel ops w = .ok w1 → Inv S B G w1 := by
  induction ops with
  | nil => intro w w1 _ hI h; simp [runAll] at h; subst h; exact hI
  | cons op rest ih =>
    intro w w1 hr hI h
    unfold runAll at h
    cases ho : op.run fuel w with
    | error e => simp [ho] at h
    | ok w2 =>
      simp only [ho] at h
      exact ih w2 w1 (fun o ho2 => hr o (List.mem_cons_of_mem _ ho2))
        (run_inv hB hS fuel op w w2 (hr op (List.mem_cons_self _ _)) hI ho) h

theorem spacing_ok_iff (gid : Nat) (w : World) (v : qreal) :
    DecorationButtonGroup.spacing gid w = .ok v ↔ ∃ d, w.groups[gid]? = some d ∧ d.spacing = v := by
  unfold DecorationButtonGroup.spacing World.group
  cases hg : w.groups[gid]? with
  | none => simp
  | some d => simp

theorem spacings_createButtonsLoop (fuel gid : Nat)
    (buttonCreator : DecorationButtonType → Option DecorationButton)
    (types : List DecorationButtonType) :
    ∀ (w w1 : World), createButtonsLoop fuel gid buttonCreator types w = .ok w1 →
      w1.groups.map (fun d => d.spacing) = w.groups.map (fun d => d.spacing) := by
  induction types with
  | nil => intro w w1 h; simp [createButtonsLoop] at h; subst h; rfl
  | cons t rest ih =>
    intro w w1 h
    unfold createButtonsLoop at h
    cases hb : buttonCreator t with
    | none => simp only [hb] at h; exact ih _ _ h
    | some b =>
      simp only [hb] at h
      cases ha : DecorationButtonGroup.addButton fuel gid (w.alloc b).2 (w.alloc b).1 with
      | error e => simp [ha] at h
      | ok w2 =>
        simp only [ha] at h
        exact (ih _ _ h).trans (kept_addButton _ _ _ _ _ ha).1

theorem createFor_spacing (fuel : Nat) (type : DecorationButtonGroup.Position)
    (buttonCreator : DecorationButtonType → Option DecorationButton) (w : World)
    (r : World × Nat) (h : DecorationButtonGroup.createFor fuel type buttonCreator w = .ok r) :
    DecorationButtonGroup.spacing r.2 r.1 = .ok 0 := by
  unfold DecorationButtonGroup.createFor at h
  cases hc : createButtons fuel (DecorationButtonGroup.create w).2 type buttonCreator
      (DecorationButtonGroup.create w).1 with
  | error e => simp [hc] at h
  | ok w2 =>
    simp only [hc, Except.ok.injEq] at h
    subst h
    have hs := spacings_createButtonsLoop _ _ _ _ _ _ hc
    have hget := congrArg (fun l : List qreal => l[w.groups.length]?) hs
    simp only [DecorationButtonGroup.create, List.getElem?_map, List.map_append, List.map_cons,
      List.map_nil] at hget
    rw [List.getElem?_append_right (by simp)] at hget
    simp only [List.length_map, Nat.sub_self, List.getElem?_cons_zero] at hget
    rw [spacing_ok_iff]
    simp only [DecorationButtonGroup.create]
    cases hg : w2.groups[w.groups.length]? with
    | none => rw [hg] at hget; simp at hget
    | some d =>
      rw [hg] at hget
      simp only [Option.map_some', Option.some.injEq] at hget
      exact ⟨d, rfl, hget⟩

theorem updateLayout_laidOut (fuel gid : Nat) (w : World) (d : DecorationButtonGroup.Private)
    (h0 : w.s_layoutRecursion = false) (hg : w.groups[gid]? = some d)
    (hl : ∀ p ∈ d.buttons, (w.data p).isSome = true)
    (hE : ExactLayout w d.geometry.x d.spacing d.buttons) :
    ∃ w1, Private.updateLayout (fuel + 2) gid w = .ok w1 ∧
      LaidOut w w1 gid d.geometry.x d.geometry.y d.spacing d.buttons ∧
      w1.s_layoutRecursion = false ∧
      ∃ ext, w1.emitted = w.emitted ++ ext ∧ ∀ s ∈ ext, s.isLayoutSignal = true := by
  obtain ⟨w1, h1, hr, _, _, hgr, hsb, hout, hpos⟩ := singlePass_spec gid w d hg hl hE
  rw [← updateLayout_eq_singlePass fuel gid w h0] at h1
  obtain ⟨_, _, _, _, _, hext⟩ := updateLayout_layoutOnly _ gid w w1 h1
  have hg1 : w1.groups[gid]? = some
      { d with geometry := { x := d.geometry.x, y := d.geometry.y,
                             width := layoutWidth w d.spacing d.buttons,
                             height := layoutHeight w d.buttons } } := by
    rw [hgr]; exact getElem?_set_self_of_some _ _ _ _ hg
  refine ⟨w1, h1, ⟨?_, ?_, ?_, hsb, hout, hpos⟩, hr, hext⟩
  · rw [geometry_of_groups gid w1 _ hg1]
  · rw [buttons_of_groups gid w1 _ hg1]
  · exact (spacing_ok_iff gid w1 d.spacing).mpr ⟨_, hg1, rfl⟩

theorem laidOut_congr {w v w1 : World} {gid : Nat} {x y s : qreal} {l : List Nat}
    (hd : ∀ q, v.data q = w.data q) (h : LaidOut v w1 gid x y s l) :
    LaidOut w w1 gid x y s l := by
  have hvs : ∀ q ∈ l, v.isVisible q = w.isVisible q ∧ v.sizeOf q = w.sizeOf q := by
    intro q _
    simp [World.isVisible, World.sizeOf, hd q]
  obtain ⟨h1, h2, h3, h4, h5, h6⟩ := h
  rw [layoutWidth_congr w v s l hvs, layoutHeight_congr w v l hvs] at h1
  refine ⟨h1, h2, h3, fun q => by rw [h4 q, hd q], fun q hq => by rw [h5 q hq, hd q], ?_⟩
  intro hn p hp b hb
  rw [← hd p] at hb
  rw [h6 hn p hp b hb, offsetBefore_congr w v s p l hvs]

theorem pos_of_geometry (gid : Nat) (w : World) (g : QRectF)
    (h : DecorationButtonGroup.geometry gid w = .ok g) :
    DecorationButtonGroup.pos gid w = .ok g.topLeft := by
  unfold DecorationButtonGroup.geometry at h
  unfold DecorationButtonGroup.pos
  cases hg : w.group gid with
  | error e => simp [hg] at h
  | ok d => simp only [hg, Except.ok.injEq] at h ⊢; rw [h]

theorem recordAll_nil (w : World) : w.recordAll [] = w := by
  simp [World.recordAll]

theorem paintLoop_eq (painter region : Nat) (l : List Nat) :
    ∀ (w : World) (acc : List Signal), (∀ p ∈ l, (w.data p).isSome = true) →
      paintLoop painter region l (w.recordAll acc)
        = .ok (w.recordAll (acc ++ (l.filter w.isVisible).map
            (fun p => Signal.paintCall p painter region))) := by
  induction l with
  | nil => intro w acc _; simp [paintLoop]
  | cons p rest ih =>
    intro w acc hl
    obtain ⟨b, hb⟩ := Option.isSome_iff_exists.mp (hl p (List.mem_cons_self _ _))
    have hb1 : (w.recordAll acc).data p = some b := hb
    have hrest : ∀ q ∈ rest, (w.data q).isSome = true :=
      fun q hq => hl q (List.mem_cons_of_mem _ hq)
    unfold paintLoop
    simp only [hb1]
    cases hv : b.visible with
    | false =>
      have hvis : w.isVisible p = false := by rw [isVisible_of_data w p b hb, hv]
      simp only [Bool.not_false, if_true, List.filter_cons, hvis, Bool.false_eq_true, if_false]
      exact ih w acc hrest
    | true =>
      have hvis : w.isVisible p = true := by rw [isVisible_of_data w p b hb, hv]
      simp only [Bool.not_true, Bool.false_eq_true, if_false, List.filter_cons, hvis, if_true,
        List.map_cons]
      have : (w.recordAll acc).record (.paintCall p painter region)
          = w.recordAll (acc ++ [.paintCall p painter region]) := by
        simp [World.recordAll, World.record]
      rw [this, ih w _ hrest, List.append_assoc]
      rfl

theorem connections_of_sameButtons {w w1 : World} (h : SameButtons w w1) (q : Nat) :
    (w1.data q).map DecorationButton.connections = (w.data q).map DecorationButton.connections := by
  have := congrArg (Option.map DecorationButton.connections) (h q)
  simpa [Option.map_map, Function.comp_def, DecorationButton.connections,
    DecorationButton.placed] using this

theorem connections_updateLayout (fuel gid : Nat) (w w1 : World)
    (h : Private.updateLayout fuel gid w = .ok w1) (q : Nat) :
    (w1.data q).map DecorationButton.connections = (w.data q).map DecorationButton.connections :=
  connections_of_sameButtons (updateLayout_layoutOnly fuel gid w w1 h).2.2.2.1 q

theorem connections_removeButton (fuel gid : Nat) (t : DecorationButtonType) (w w1 : World)
    (h : DecorationButtonGroup.removeButton fuel gid t w = .ok w1) (q : Nat) :
    (w1.data q).map DecorationButton.connections = (w.data q).map DecorationButton.connections := by
  unfold DecorationButtonGroup.removeButton World.group at h
  cases hg : w.groups[gid]? with
  | none => simp [hg] at h
  | some d =>
    simp only [hg] at h
    cases hr : removeTypeLoop w t d.buttons [] false with
    | error e => simp [hr] at h
    | ok r =>
      obtain ⟨remaining, needUpdate⟩ := r
      simp only [hr] at h
      cases needUpdate with
      | true =>
        simp at h
        exact connections_updateLayout _ _ _ _ h q
      | false =>
        simp at h; subst h; rfl

theorem connections_removeButtonPtr (fuel gid r : Nat) (w w1 : World)
    (h : DecorationButtonGroup.removeButtonPtr fuel gid r w = .ok w1) (q : Nat) :
    (w1.data q).map DecorationButton.connections = (w.data q).map DecorationButton.connections := by
  unfold DecorationButtonGroup.removeButtonPtr World.group at h
  cases hg : w.groups[gid]? with
  | none => simp [hg] at h
  | some d =>
    simp only [hg] at h
    generalize removePtrLoop w r d.buttons [] false = res at h
    obtain ⟨remaining, needUpdate⟩ := res
    cases needUpdate with
    | true =>
      simp at h
      exact connections_updateLayout _ _ _ _ h q
    | false =>
      simp at h; subst h; rfl

theorem removeButton_total (fuel gid : Nat) (t : DecorationButtonType) (w : World)
    (d : DecorationButtonGroup.Private) (hg : w.groups[gid]? = some d)
    (hl : ∀ p ∈ d.buttons, (w.data p).isSome = true) :
    ∃ w1, DecorationButtonGroup.removeButton (fuel + 2) gid t w = .ok w1 := by
  unfold DecorationButtonGroup.removeButton World.group
  simp only [hg]
  rw [removeTypeLoop_eq w t d.buttons [] false hl]
  simp only [List.nil_append, Bool.false_or]
  cases hany : d.buttons.any (w.typeIs t) with
  | true =>
    obtain ⟨w1, h1, _⟩ := updateLayout_withButtons fuel gid w d
      (d.buttons.filter (fun p => !w.typeIs t p)) hg
      (fun p hp => hl p (List.mem_filter.mp hp).1)
    exact ⟨w1, by simpa using h1⟩
  | false => exact ⟨_, by simp; rfl⟩

theorem removeButtonPtr_total (fuel gid r : Nat) (w : World)
    (d : DecorationButtonGroup.Private) (hg : w.groups[gid]? = some d)
    (hl : ∀ p ∈ d.buttons, (w.data p).isSome = true) :
    ∃ w1, DecorationButtonGroup.removeButtonPtr (fuel + 2) gid r w = .ok w1 := by
  unfold DecorationButtonGroup.removeButtonPtr World.group
  simp only [hg]
  rw [removePtrLoop_eq w r d.buttons [] false]
  simp only [List.nil_append, Bool.false_or]
  cases hany : d.buttons.any (fun p => w.ptrEq p r) with
  | true =>
    obtain ⟨w1, h1, _⟩ := updateLayout_withButtons fuel gid w d
      (d.buttons.filter (fun p => !w.ptrEq p r)) hg
      (fun p hp => hl p (List.mem_filter.mp hp).1)
    exact ⟨w1, by simpa using h1⟩
  | false => exact ⟨_, by simp; rfl⟩

theorem data_alloc_old (w : World) (b : DecorationButton) (q : Nat) (hq : q < w.heap.length) :
    (w.alloc b).1.data q = w.data q := by
  unfold World.data World.alloc
  simp only
  rw [List.getElem?_append_left hq]

theorem data_alloc_new (w : World) (b : DecorationButton) :
    (w.alloc b).1.data w.heap.length = some b := by
  unfold World.data World.alloc
  simp

theorem updateLayout_total (fuel gid : Nat) (w : World) (d : DecorationButtonGroup.Private)
    (hg : w.groups[gid]? = some d) (hl : ∀ p ∈ d.buttons, (w.data p).isSome = true) :
    ∃ w1, Private.updateLayout (fuel + 2) gid w = .ok w1 ∧ LayoutOnly w w1 := by
  obtain ⟨w1, h1, hlo⟩ := emit_layout_total fuel [gid] w
    (fun g hgm => by rw [List.mem_singleton.mp hgm]; exact ⟨d, hg, hl⟩)
  unfold emit at h1
  cases hu : Private.updateLayout (fuel + 2) gid w with
  | error e => simp [hu] at h1
  | ok w2 =>
    simp only [hu, emit, Except.ok.injEq] at h1
    subst h1
    exact ⟨w2, rfl, hlo⟩

theorem createButtonsLoop_spec (fuel gid : Nat)
    (f : DecorationButtonType → Option DecorationButton) (types : List DecorationButtonType) :
    ∀ (w : World) (d : DecorationButtonGroup.Private), w.groups[gid]? = some d →
      (∀ p ∈ d.buttons, (w.data p).isSome = true) →
      ∃ w1 d1, createButtonsLoop (fuel + 2) gid f types w = .ok w1 ∧
        w1.groups[gid]? = some d1 ∧
        d1.buttons = d.buttons ++ List.range' w.heap.length (types.filterMap f).length ∧
        w1.heap.length = w.heap.length + (types.filterMap f).length ∧
        (∀ q, q < w.heap.length →
          (w1.data q).map (fun c => c.placed 0 0) = (w.data q).map (fun c => c.placed 0 0)) ∧
        (∀ i b, (types.filterMap f)[i]? = some b →
          (w1.data (w.heap.length + i)).map (fun c => c.placed 0 0)
            = some ((b.connected gid).placed 0 0)) := by
  induction types with
  | nil =>
    intro w d hg _
    exact ⟨w, d, rfl, hg, by simp, by simp, fun _ _ => rfl, fun i b h => by simp at h⟩
  | cons t rest ih =>
    intro w d hg hl
    unfold createButtonsLoop
    cases hf : f t with
    | none =>
      simp only [List.filterMap_cons, hf]
      exact ih w d hg hl
    | some b =>
      simp only [List.filterMap_cons, hf, List.length_cons]
      have hlt : ∀ p ∈ d.buttons, p < w.heap.length := by
        intro p hp
        obtain ⟨c, hc⟩ := Option.isSome_iff_exists.mp (hl p hp)
        exact data_lt w p c hc
      simp only [show (w.alloc b).2 = w.heap.length from rfl]
      have ha : (w.alloc b).1.data w.heap.length = some b := data_alloc_new w b
      have hg0 : (w.alloc b).1.groups[gid]? = some d := hg
      rw [addButton_eq (fuel + 2) gid w.heap.length (w.alloc b).1 d b hg0 ha]
      have hsome : ((w.alloc b).1.data w.heap.length).isSome = true := by rw [ha]; rfl
      have hold : ∀ q, q < w.heap.length →
          (((w.alloc b).1.store w.heap.length (b.connected gid)).withButtons gid d
            (d.buttons ++ [w.heap.length])).data q = w.data q := by
        intro q hq
        rw [data_withButtons, data_store_other _ _ _ _ (Nat.ne_of_lt hq), data_alloc_old w b q hq]
      have hnew : (((w.alloc b).1.store w.heap.length (b.connected gid)).withButtons gid d
            (d.buttons ++ [w.heap.length])).data w.heap.length = some (b.connected gid) := by
        rw [data_withButtons]
        exact data_store_same _ _ b _ ha
      obtain ⟨w2, h2, hlo⟩ := updateLayout_total fuel gid
        (((w.alloc b).1.store w.heap.length (b.connected gid)).withButtons gid d
          (d.buttons ++ [w.heap.length]))
        { d with buttons := d.buttons ++ [w.heap.length] }
        (withButtons_get _ gid d _ hg0)
        (by
          intro p hp
          rcases List.mem_append.mp hp with h | h
          · rw [hold p (hlt p h)]; exact hl p h
          · rw [List.mem_singleton.mp h]
            rw [hnew]; rfl)
      have h2' : Private.updateLayout (fuel + 2) gid
          (((w.alloc b).1.store w.heap.length
            { b with visibilityChangedSlots := b.visibilityChangedSlots ++ [gid],
                     geometryChangedSlots := b.geometryChangedSlots ++ [gid] }).withButtons gid d
            (d.buttons ++ [w.heap.length])) = .ok w2 := h2
      simp only [h2']
      obtain ⟨d2, hg2, hfr⟩ := layoutOnly_group hlo gid _ (withButtons_get _ gid d _ hg0)
      have hb2 : d2.buttons = d.buttons ++ [w.heap.length] := frame_buttons hfr
      obtain ⟨_, _, hlen2, hsb2, _, _⟩ := hlo
      have hlen2' : w2.heap.length = w.heap.length + 1 := by
        rw [hlen2]
        simp [World.withButtons, World.store, World.alloc]
      have hl2 : ∀ p ∈ d2.buttons, (w2.data p).isSome = true := by
        intro p hp
        rw [sameButtons_isSome hsb2 p]
        rw [hb2] at hp
        rcases List.mem_append.mp hp with h | h
        · rw [hold p (hlt p h)]; exact hl p h
        · rw [List.mem_singleton.mp h, hnew]; rfl
      obtain ⟨w1, d1, h1, hg1, hb1, hlen1, hold1, hnew1⟩ := ih w2 d2 hg2 hl2
      refine ⟨w1, d1, h1, hg1, ?_, ?_, ?_, ?_⟩
      · rw [hb1, hb2, hlen2', List.append_assoc]
        congr 1
      · rw [hlen1, hlen2']; omega
      · intro q hq
        rw [hold1 q (by omega), hsb2 q, hold q hq]
      · intro i c hc
        cases i with
        | zero =>
          simp only [List.getElem?_cons_zero, Option.some.injEq] at hc
          subst hc
          rw [Nat.add_zero, hold1 _ (by omega), hsb2 _, hnew]
          rfl
        | succ k =>
          simp only [List.getElem?_cons_succ] at hc
          have := hnew1 k c hc
          rw [hlen2'] at this
          rw [← this]
          congr 2
          omega

theorem qDeleteAll_frame (l : List Nat) :
    ∀ w : World, (qDeleteAll l w).groups = w.groups ∧ (qDeleteAll l w).settings = w.settings ∧
      (qDeleteAll l w).heap.length = w.heap.length := by
  induction l with
  | nil => intro w; exact ⟨rfl, rfl, rfl⟩
  | cons p rest ih =>
    intro w
    obtain ⟨h1, h2, h3⟩ := ih { w with heap := w.heap.set p none }
    exact ⟨h1, h2, by rw [qDeleteAll, h3]; simp⟩

theorem data_delete_same (w : World) (p : Nat) : World.data { w with heap := w.heap.set p none } p = none := by
  unfold World.data
  simp only [List.getElem?_set]
  by_cases hl : p < w.heap.length
  · simp [hl]
  · simp [hl, List.getElem?_eq_none (Nat.le_of_not_lt hl)]

theorem data_delete_none (w : World) (p q : Nat) (h : w.data q = none) :
    World.data { w with heap := w.heap.set p none } q = none := by
  by_cases hq : q = p
  · rw [hq]; exact data_delete_same w p
  · unfold World.data at h ⊢
    simp only [List.getElem?_set]
    rw [if_neg (fun e => hq e.symm)]
    exact h

theorem qDeleteAll_none (l : List Nat) :
    ∀ (w : World) (q : Nat), (q ∈ l ∨ w.data q = none) → (qDeleteAll l w).data q = none := by
  induction l with
  | nil =>
    intro w q h
    rcases h with h | h
    · cases h
    · exact h
  | cons p rest ih =>
    intro w q h
    rw [qDeleteAll]
    apply ih
    rcases h with h | h
    · rcases List.mem_cons.mp h with rfl | h
      · right; exact data_delete_same w q
      · left; exact h
    · right; exact data_delete_none w p q h

theorem events_eq (p : Nat) (es : List ButtonEvent) :
    ∀ (w : World) (b : DecorationButton), w.data p = some b →
      DecorationButton.events p es w
        = .ok (w.update p (b.afterEvents es) (signalsEvents p b es), b.handlesAll es) := by
  induction es with
  | nil =>
    intro w b hb
    simp [DecorationButton.events, DecorationButton.afterEvents, signalsEvents,
      DecorationButton.handlesAll, update_self w p b hb]
  | cons e es ih =>
    intro w b hb
    unfold DecorationButton.events
    rw [event_eq p e false w b hb]
    simp only [Bool.false_or]
    rw [ih _ (b.afterEvent e) (data_update_same w p b _ _ hb)]
    simp only [update_update, DecorationButton.afterEvents, signalsEvents,
      DecorationButton.handlesAll]

theorem flagProperty_hovered :
    FlagProperty (fun b => b.hovered = true → b.enabled = true) := by
  refine ⟨fun b b1 e h => ?_, fun t => by simp [DecorationButton.create],
    fun b v h => ?_, fun b v h => ?_, fun b v h => ?_, fun b e h => ?_⟩
  · simp only [DecorationButton.flags, Prod.mk.injEq] at e
    rw [e.1, e.2.2.2]; exact h
  · unfold DecorationButton.afterSetCheckable
    split
    · exact h
    · split <;> exact h
  · unfold DecorationButton.afterSetChecked
    split <;> exact h
  · unfold DecorationButton.afterSetEnabled
    split
    · exact h
    · split
      · intro _; rfl
      · intro hh; simp at hh
  · unfold DecorationButton.afterEvent
    cases hh : b.handles e with
    | false => simp only [Bool.false_eq_true, if_false]; exact h
    | true =>
      simp only [if_true]
      cases e with
      | HoverEnter => intro _; simpa [DecorationButton.handles] using hh
      | HoverLeave => intro hf; simp at hf
      | ButtonPress pos m => exact h
      | ButtonRelease pos m => exact h

theorem events_click (p : Nat) (pos : QPoint) (m : MouseButton) (w : World)
    (b : DecorationButton) (hb : w.data p = some b) (hcl : b.clickable pos m) :
    DecorationButton.events p [.ButtonPress pos m, .ButtonRelease pos m] w
      = .ok (w.update p b (Signal.pressedChanged p true :: Signal.pressedChanged p false ::
          Signal.clicked p m :: requestSignals p b.type m), [true, true]) := by
  obtain ⟨hv, he, hc, ha, h0⟩ := hcl
  have hp1 : b.handles (.ButtonPress pos m) = true := by
    simp [DecorationButton.handles, hv, he, hc, ha]
  have ha1 : b.afterEvent (.ButtonPress pos m) = { b with pressedButtons := [m] } := by
    simp [DecorationButton.afterEvent, hp1, heldAfter, h0]
  have hp2 : DecorationButton.handles { b with pressedButtons := [m] } (.ButtonRelease pos m)
      = true := by
    simp [DecorationButton.handles]
  have ha2 : DecorationButton.afterEvent { b with pressedButtons := [m] } (.ButtonRelease pos m)
      = b := by
    have hf : [m].filter (fun x => decide (x ≠ m)) = [] := by simp
    simp only [DecorationButton.afterEvent, hp2, if_true, heldAfter, Bool.false_eq_true,
      if_false, hf]
    cases b
    simp only at h0
    subst h0
    rfl
  rw [events_eq p _ w b hb]
  simp only [DecorationButton.afterEvents, DecorationButton.handlesAll, ha1, ha2, hp1, hp2,
    signalsEvents, signalsEvent, if_true, heldAfter, h0, DecorationButton.isPressed,
    requestSignals]
  simp

theorem requestsOf_requestSignals (p : Nat) (type : DecorationButtonType) (m : MouseButton) :
    requestsOf p (Signal.pressedChanged p true :: Signal.pressedChanged p false ::
      Signal.clicked p m :: requestSignals p type m) = (clickRequest type m).toList := by
  unfold requestSignals
  cases clickRequest type m with
  | none => simp [requestsOf]
  | some r => simp [requestsOf]

theorem click_eq (slot : Nat → World → Except Fault World) (p : Nat) (pos : QPoint)
    (m : MouseButton) (w : World) (c : Client) (b : DecorationButton)
    (hb : w.data p = some b) (hcl : b.clickable pos m) :
    click slot p pos m (w, c)
      = match DecorationButton.clientChangedAll slot p (c.changes (c.afterClick b.type m))
          (w.update p b (Signal.pressedChanged p true :: Signal.pressedChanged p false ::
            Signal.clicked p m :: requestSignals p b.type m)) with
        | .error e => .error e
        | .ok w2 => .ok (w2, c.afterClick b.type m) := by
  unfold click
  simp only [events_click p pos m w b hb hcl]
  have hd : (w.update p b (Signal.pressedChanged p true :: Signal.pressedChanged p false ::
      Signal.clicked p m :: requestSignals p b.type m)).emitted.drop w.emitted.length
      = Signal.pressedChanged p true :: Signal.pressedChanged p false ::
        Signal.clicked p m :: requestSignals p b.type m := by
    simp [World.update]
  rw [hd, requestsOf_requestSignals]
  have hc : (clickRequest b.type m).toList.foldl Client.serve c = c.afterClick b.type m := by
    unfold Client.afterClick
    cases clickRequest b.type m <;> rfl
  rw [hc]

theorem clientChanged_maximize (slot : Nat → World → Except Fault World) (p : Nat)
    (c : Client) (r : ClientRequest)
    (hr : r = .toggleMaximize ∨ r = .toggleMaximizeHorizontal ∨ r = .toggleMaximizeVertical)
    (v : World) (b : DecorationButton) (hb : v.data p = some b) (ht : b.type = .Maximize)
    (hk : b.checkable = true) (hs : b.checked = c.isMaximized) :
    DecorationButton.clientChangedAll slot p (c.changes (c.serve r)) v
      = .ok (v.update p { b with checked := (c.serve r).isMaximized }
          (if (c.serve r).isMaximized = c.isMaximized then []
           else [Signal.checkedChanged p (c.serve r).isMaximized])) := by
  obtain ⟨c1, c2, c3, c4, c5, h, vv, c8, c9, c10⟩ := c
  obtain ⟨t, vis, geo, vs, gs, en, ck, chk, hov, pr, acc⟩ := b
  simp only [Client.isMaximized] at hs
  simp only at ht hk
  subst ht
  subst hk
  subst hs
  have hu := update_self v p _ hb
  rcases hr with rfl | rfl | rfl <;> cases h <;> cases vv <;>
    simp [Client.changes, Client.serve, Client.isMaximized, DecorationButton.clientChangedAll,
      DecorationButton.clientChanged, hb, setChecked_eq p _ v _ hb,
      DecorationButton.afterSetChecked, signalsSetChecked] <;>
    simpa using hu.symm

theorem click_maximize (slot : Nat → World → Except Fault World) (p : Nat) (pos : QPoint)
    (m : MouseButton) (r : ClientRequest) (w : World) (c : Client) (b : DecorationButton)
    (hb : w.data p = some b) (ht : b.type = .Maximize) (hk : b.checkable = true)
    (hs : b.checked = c.isMaximized) (hcl : b.clickable pos m)
    (hm : clickRequest .Maximize m = some r) :
    ∃ w1, click slot p pos m (w, c) = .ok (w1, c.serve r) ∧
      w1.data p = some { b with checked := (c.serve r).isMaximized } := by
  have hr : r = .toggleMaximize ∨ r = .toggleMaximizeHorizontal ∨ r = .toggleMaximizeVertical := by
    cases m <;> simp [clickRequest] at hm <;> simp [← hm]
  have ha : c.afterClick b.type m = c.serve r := by
    simp [Client.afterClick, ht, hm]
  rw [click_eq slot p pos m w c b hb hcl, ha,
    clientChanged_maximize slot p c r hr _ b (data_update_same w p b _ _ hb) ht hk hs]
  exact ⟨_, rfl, data_update_same _ p b _ _ (data_update_same w p b _ _ hb)⟩

theorem clientChanged_toggle (slot : Nat → World → Except Fault World) (p : Nat)
    (m : MouseButton) (c : Client) (f : Bool) (v : World) (b : DecorationButton)
    (hb : v.data p = some b) (hf : c.toggleFlag b.type = some f)
    (hk : b.checkable = true) (hs : b.checked = f) :
    (c.afterClick b.type m).toggleFlag b.type = some (!f) ∧
    (c.afterClick b.type m).afterClick b.type m = c ∧
    DecorationButton.clientChangedAll slot p (c.changes (c.afterClick b.type m)) v
      = .ok (v.update p { b with checked := !f } [Signal.checkedChanged p (!f)]) := by
  obtain ⟨c1, c2, c3, c4, c5, c6, c7, c8, c9, c10⟩ := c
  obtain ⟨t, vis, geo, vs, gs, en, ck, chk, hov, pr, acc⟩ := b
  simp only at hk hs hf
  subst hk
  subst hs
  cases t <;> simp [Client.toggleFlag] at hf <;> subst hf <;>
    refine ⟨by simp [Client.afterClick, clickRequest, Client.serve, Client.toggleFlag],
      by simp [Client.afterClick, clickRequest, Client.serve], ?_⟩ <;>
    cases c8 <;> cases c9 <;> cases c10 <;>
    simp [Client.afterClick, clickRequest, Client.changes, Client.serve, Client.isMaximized,
      DecorationButton.clientChangedAll, DecorationButton.clientChanged, hb,
      setChecked_eq p _ v _ hb, DecorationButton.afterSetChecked, signalsSetChecked]

theorem noLayout_set_group (w : World) (gid : Nat) (d d1 : DecorationButtonGroup.Private)
    (hg : w.groups[gid]? = some d) (hs : d1.size = d.size) (ext : List Signal) :
    NoLayout w { w with groups := w.groups.set gid d1, emitted := w.emitted ++ ext } := by
  refine ⟨fun q b hb => ⟨b, hb, rfl⟩, ?_, rfl⟩
  simp only [List.map_set, hs]
  refine set_self_of_getElem? _ _ _ ?_
  rw [List.getElem?_map, hg]; rfl

theorem noLayout_refl (w : World) : NoLayout w w :=
  ⟨fun _ b hb => ⟨b, hb, rfl⟩, rfl, rfl⟩

theorem noLayout_setPos (fuel gid : Nat) (pos : QPointF) (w w1 : World)
    (hgd : w.s_layoutRecursion = true)
    (h : DecorationButtonGroup.setPos (fuel + 1) gid pos w = .ok w1) : NoLayout w w1 := by
  unfold DecorationButtonGroup.setPos World.group at h
  cases hg : w.groups[gid]? with
  | none => simp [hg] at h
  | some d =>
    simp only [hg] at h
    by_cases hp : d.geometry.topLeft = pos
    · simp [hp] at h; subst h; exact noLayout_refl w
    · simp only [hp, if_false] at h
      cases hs : Private.setGeometry gid
          { x := pos.x, y := pos.y, width := d.geometry.width, height := d.geometry.height } w with
      | error e => simp [hs] at h
      | ok w2 =>
        simp only [hs] at h
        have hg2 : w2.s_layoutRecursion = true :=
          (group_setGeometry_guard _ _ _ _ hs).trans hgd
        rw [updateLayout_guarded fuel gid w2 hg2] at h
        cases h
        unfold Private.setGeometry at hs
        simp only [hg] at hs
        split at hs
        · cases hs; exact noLayout_refl w
        · cases hs
          exact noLayout_set_group w gid d
            { d with geometry := { x := pos.x, y := pos.y, width := d.geometry.width,
                                   height := d.geometry.height } } hg rfl
            [.geometryChanged gid { x := pos.x, y := pos.y, width := d.geometry.width,
                                    height := d.geometry.height }]

theorem noLayout_setSpacing (fuel gid : Nat) (v : qreal) (w w1 : World)
    (hgd : w.s_layoutRecursion = true)
    (h : DecorationButtonGroup.setSpacing (fuel + 1) gid v w = .ok w1) : NoLayout w w1 := by
  unfold DecorationButtonGroup.setSpacing World.group at h
  cases hg : w.groups[gid]? with
  | none => simp [hg] at h
  | some d =>
    simp only [hg] at h
    by_cases hs : d.spacing = v
    · simp [hs] at h; subst h; exact noLayout_refl w
    · simp only [hs, if_false] at h
      rw [updateLayout_guarded fuel gid _ (by exact hgd)] at h
      cases h
      exact noLayout_set_group w gid d { d with spacing := v } hg rfl [.spacingChanged gid v]

theorem noLayout_withButtons (w : World) (gid : Nat) (d : DecorationButtonGroup.Private)
    (l : List Nat) (hg : w.groups[gid]? = some d) : NoLayout w (w.withButtons gid d l) := by
  have := noLayout_set_group w gid d { d with buttons := l } hg rfl []
  simpa [World.withButtons] using this

theorem noLayout_addButton (fuel gid button : Nat) (w w1 : World)
    (hgd : w.s_layoutRecursion = true)
    (h : DecorationButtonGroup.addButton (fuel + 1) gid button w = .ok w1) : NoLayout w w1 := by
  unfold DecorationButtonGroup.addButton World.group at h
  cases hg : w.groups[gid]? with
  | none => simp [hg] at h
  | some d =>
    simp only [hg] at h
    cases hb : w.data button with
    | none => simp [hb] at h
    | some b =>
      simp only [hb] at h
      rw [updateLayout_guarded fuel gid _ (by exact hgd)] at h
      cases h
      rw [store_eq_update]
      obtain ⟨_, h2, h3⟩ := noLayout_withButtons (w.update button
        { b with visibilityChangedSlots := b.visibilityChangedSlots ++ [gid],
                 geometryChangedSlots := b.geometryChangedSlots ++ [gid] } []) gid d
        (d.buttons ++ [button]) (by simpa [World.update] using hg)
      refine ⟨fun q c hc => ?_, h2, h3⟩
      rw [data_withButtons] at hc
      rcases data_update_cases w button q _ c [] hc with ⟨rfl, rfl⟩ | hq
      · exact ⟨b, hb, rfl⟩
      · exact ⟨c, hq, rfl⟩

theorem noLayout_removeButton (fuel gid : Nat) (t : DecorationButtonType) (w w1 : World)
    (hgd : w.s_layoutRecursion = true)
    (h : DecorationButtonGroup.removeButton (fuel + 1) gid t w = .ok w1) : NoLayout w w1 := by
  unfold DecorationButtonGroup.removeButton World.group at h
  cases hg : w.groups[gid]? with
  | none => simp [hg] at h
  | some d =>
    simp only [hg] at h
    cases hr : removeTypeLoop w t d.buttons [] false with
    | error e => simp [hr] at h
    | ok r =>
      obtain ⟨remaining, needUpdate⟩ := r
      simp only [hr] at h
      cases needUpdate with
      | true =>
        simp only [if_true] at h
        rw [updateLayout_guarded fuel gid _ (by exact hgd)] at h
        cases h
        exact noLayout_withButtons w gid d _ hg
      | false =>
        simp at h; subst h
        exact noLayout_withButtons w gid d _ hg

theorem noLayout_removeButtonPtr (fuel gid button : Nat) (w w1 : World)
    (hgd : w.s_layoutRecursion = true)
    (h : DecorationButtonGroup.removeButtonPtr (fuel + 1) gid button w = .ok w1) :
    NoLayout w w1 := by
  unfold DecorationButtonGroup.removeButtonPtr World.group at h
  cases hg : w.groups[gid]? with
  | none => simp [hg] at h
  | some d =>
    simp only [hg] at h
    generalize removePtrLoop w button d.buttons [] false = r at h
    obtain ⟨remaining, needUpdate⟩ := r
    cases needUpdate with
    | true =>
      simp only [if_true] at h
      rw [updateLayout_guarded fuel gid _ (by exact hgd)] at h
      cases h
      exact noLayout_withButtons w gid d _ hg
    | false =>
      simp at h; subst h
      exact noLayout_withButtons w gid d _ hg

theorem guarded_setPos_total (fuel gid : Nat) (pos : QPointF) (w : World)
    (d : DecorationButtonGroup.Private) (hgd : w.s_layoutRecursion = true)
    (hg : w.groups[gid]? = some d) :
    ∃ w1, DecorationButtonGroup.setPos (fuel + 1) gid pos w = .ok w1 := by
  unfold DecorationButtonGroup.setPos World.group
  simp only [hg]
  by_cases hp : d.geometry.topLeft = pos
  · exact ⟨w, by simp [hp]⟩
  · obtain ⟨w2, h2, _, _, _, hr⟩ := group_setGeometry_spec gid
      { x := pos.x, y := pos.y, width := d.geometry.width, height := d.geometry.height } w d hg
    refine ⟨w2, ?_⟩
    simp only [hp, if_false, h2]
    exact updateLayout_guarded fuel gid w2 (hr.trans hgd)

theorem guarded_setSpacing_total (fuel gid : Nat) (v : qreal) (w : World)
    (d : DecorationButtonGroup.Private) (hgd : w.s_layoutRecursion = true)
    (hg : w.groups[gid]? = some d) :
    ∃ w1, DecorationButtonGroup.setSpacing (fuel + 1) gid v w = .ok w1 := by
  unfold DecorationButtonGroup.setSpacing World.group
  simp only [hg]
  by_cases hs : d.spacing = v
  · exact ⟨w, by simp [hs]⟩
  · simp only [hs, if_false]
    exact ⟨_, updateLayout_guarded fuel gid _ (by exact hgd)⟩

theorem guarded_addButton_total (fuel gid button : Nat) (w : World)
    (d : DecorationButtonGroup.Private) (hgd : w.s_layoutRecursion = true)
    (hg : w.groups[gid]? = some d) (hb : (w.data button).isSome = true) :
    ∃ w1, DecorationButtonGroup.addButton (fuel + 1) gid button w = .ok w1 := by
  obtain ⟨b, hb⟩ := Option.isSome_iff_exists.mp hb
  unfold DecorationButtonGroup.addButton World.group
  simp only [hg, hb]
  exact ⟨_, updateLayout_guarded fuel gid _ (by exact hgd)⟩

theorem guarded_removeButton_total (fuel gid : Nat) (t : DecorationButtonType) (w : World)
    (d : DecorationButtonGroup.Private) (hgd : w.s_layoutRecursion = true)
    (hg : w.groups[gid]? = some d) (hl : ∀ p ∈ d.buttons, (w.data p).isSome = true) :
    ∃ w1, DecorationButtonGroup.removeButton (fuel + 1) gid t w = .ok w1 := by
  unfold DecorationButtonGroup.removeButton World.group
  simp only [hg, removeTypeLoop_eq w t d.buttons [] false hl]
  split
  · exact ⟨_, updateLayout_guarded fuel gid _ (by exact hgd)⟩
  · exact ⟨_, rfl⟩

theorem guarded_removeButtonPtr_total (fuel gid button : Nat) (w : World)
    (d : DecorationButtonGroup.Private) (hgd : w.s_layoutRecursion = true)
    (hg : w.groups[gid]? = some d) :
    ∃ w1, DecorationButtonGroup.removeButtonPtr (fuel + 1) gid button w = .ok w1 := by
  unfold DecorationButtonGroup.removeButtonPtr World.group
  simp only [hg, removePtrLoop_eq w button d.buttons [] false]
  split
  · exact ⟨_, updateLayout_guarded fuel gid _ (by exact hgd)⟩
  · exact ⟨_, rfl⟩

theorem respects_true (op : Op) : op.Respects (fun _ => True) (fun _ => True) := by
  cases op <;> first | trivial | (intro _ _ _; trivial)

theorem flagProperty_true : FlagProperty (fun _ => True) :=
  ⟨fun _ _ _ _ => trivial, fun _ => trivial, fun _ _ _ => trivial, fun _ _ _ => trivial,
    fun _ _ _ => trivial, fun _ _ _ => trivial⟩

theorem layoutWidth_nonneg (w : World) (s : qreal) (hs : 0 ≤ s) (l : List Nat)
    (hw : ∀ q ∈ l, w.isVisible q = true → 0 ≤ (w.sizeOf q).width) :
    0 ≤ layoutWidth w s l := by
  induction l with
  | nil => simp [layoutWidth]
  | cons q rest ih =>
    have ih1 := ih (fun r hr => hw r (List.mem_cons_of_mem _ hr))
    unfold layoutWidth
    split
    · rename_i hv
      have h1 : (0 : qreal) ≤ ((w.sizeOf q).width : qreal) :=
        Int.cast_nonneg.mpr (hw q (List.mem_cons_self _ _) hv)
      have h2 : (0 : qreal) ≤ (if rest ≠ [] then s else 0) := by
        split
        · exact hs
        · exact le_refl 0
      linarith
    · exact ih1

theorem offsetBefore_nonneg (w : World) (s : qreal) (hs : 0 ≤ s) (p : Nat) (l : List Nat)
    (hw : ∀ q ∈ l, w.isVisible q = true → 0 ≤ (w.sizeOf q).width) :
    0 ≤ offsetBefore w s l p := by
  induction l with
  | nil => simp [offsetBefore_nil]
  | cons q rest ih =>
    have ih1 := ih (fun r hr => hw r (List.mem_cons_of_mem _ hr))
    rw [offsetBefore_cons]
    split
    · exact le_refl 0
    · split
      · rename_i hv
        have h1 : (0 : qreal) ≤ ((w.sizeOf q).width : qreal) :=
          Int.cast_nonneg.mpr (hw q (List.mem_cons_self _ _) hv)
        linarith
      · linarith

theorem offsetBefore_add_width_le (w : World) (s : qreal) (hs : 0 ≤ s) (p : Nat) (l : List Nat)
    (hw : ∀ q ∈ l, w.isVisible q = true → 0 ≤ (w.sizeOf q).width)
    (hp : p ∈ l) (hv : w.isVisible p = true) :
    offsetBefore w s l p + ((w.sizeOf p).width : qreal) ≤ layoutWidth w s l := by
  induction l with
  | nil => simp at hp
  | cons q rest ih =>
    have hwr : ∀ r ∈ rest, w.isVisible r = true → 0 ≤ (w.sizeOf r).width :=
      fun r hr => hw r (List.mem_cons_of_mem _ hr)
    rw [offsetBefore_cons]
    unfold layoutWidth
    by_cases hqp : q = p
    · subst hqp
      have h1 := layoutWidth_nonneg w s hs rest hwr
      have h2 : (0 : qreal) ≤ (if rest ≠ [] then s else 0) := by
        split
        · exact hs
        · exact le_refl 0
      simp only [if_pos rfl, hv, if_true]
      linarith
    · have hpr : p ∈ rest := by
        rcases List.mem_cons.mp hp with h | h
        · exact absurd h.symm hqp
        · exact h
      have hne : rest ≠ [] := List.ne_nil_of_mem hpr
      have ih1 := ih hwr hpr
      simp only [if_neg hqp, if_pos hne]
      split
      · linarith
      · linarith

theorem height_le_layoutHeight (w : World) (p : Nat) (l : List Nat)
    (hp : p ∈ l) (hv : w.isVisible p = true) :
    ((w.sizeOf p).height : qreal) ≤ layoutHeight w l := by
  induction l with
  | nil => simp at hp
  | cons q rest ih =>
    unfold layoutHeight
    rcases List.mem_cons.mp hp with h | h
    · subst h
      simp only [hv, if_true]
      exact le_max_left _ _
    · split
      · exact le_trans (ih h) (le_max_right _ _)
      · exact ih h

theorem sum_take_succ_add_le (f : Nat → qreal) (l : List Nat) (hf : ∀ q ∈ l, 0 ≤ f q) :
    ∀ (k n a : Nat), l[k]? = some a →
      ((l.take k).map f).sum + f a ≤ ((l.take (k + 1 + n)).map f).sum := by
  induction l with
  | nil => intro k n a h; simp at h
  | cons q rest ih =>
    intro k n a h
    have hfr : ∀ r ∈ rest, 0 ≤ f r := fun r hr => hf r (List.mem_cons_of_mem _ hr)
    cases k with
    | zero =>
      simp only [List.getElem?_cons_zero, Option.some.injEq] at h
      subst h
      have h0 : 0 ≤ ((rest.take n).map f).sum := by
        apply List.sum_nonneg
        intro x hx
        obtain ⟨r, hr, rfl⟩ := List.mem_map.mp hx
        exact hfr r (List.mem_of_mem_take hr)
      have e : 0 + 1 + n = n + 1 := by omega
      rw [e]
      simp only [List.take_zero, List.map_nil, List.sum_nil, zero_add, List.take_succ_cons,
        List.map_cons, List.sum_cons]
      linarith
    | succ k =>
      simp only [List.getElem?_cons_succ] at h
      have ih1 := ih hfr k n a h
      have e : k + 1 + 1 + n = (k + 1 + n) + 1 := by omega
      rw [e]
      simp only [List.take_succ_cons, List.map_cons, List.sum_cons]
      linarith

theorem placed_x_cast (w : World) (X S : Int) (l : List Nat) (p : Nat)
    (h : |(X : qreal) + offsetBefore w (S : qreal) l p| ≤ 2147483647) :
    ((qrealToInt ((X : qreal) + offsetBefore w (S : qreal) l p) : Int) : qreal)
      = (X : qreal) + offsetBefore w (S : qreal) l p := by
  obtain ⟨n, hn⟩ := offsetBefore_isInt w S p l
  rw [hn, ← Int.cast_add] at h ⊢
  rw [qrealToInt_intCast _ h]

theorem laidOut_geometry {w w1 : World} {gid : Nat} {x y s : qreal} {l : List Nat}
    (h : LaidOut w w1 gid x y s l) (hnd : l.Nodup)
    (hl : ∀ p ∈ l, (w.data p).isSome = true) (p : Nat) (hp : p ∈ l)
    (hv : w.isVisible p = true) :
    (w1.data p).map (fun b => b.geometry)
      = some { x := qrealToInt (x + offsetBefore w s l p), y := qrealToInt y,
               width := (w.sizeOf p).width, height := (w.sizeOf p).height } := by
  obtain ⟨b, hb⟩ := Option.isSome_iff_exists.mp (hl p hp)
  have hvis : b.visible = true := by rw [← isVisible_of_data w p b hb]; exact hv
  rw [h.2.2.2.2.2 hnd p hp b hb, sizeOf_of_data w p b hb]
  simp [hvis, DecorationButton.placed]

/-! ## The claims -/

/-- C1, the code at a failing input.  For the member list "visible 10x5, invisible
20x8" with spacing 2 the specification prescribes width 10 and height 5; the layout
pass yields width 12: the visible button is not the last entry of the list, so the
sizing loop adds the spacing after it. -/
theorem C1_trailing_invisible_member_adds_spacing (fuel : Nat) :
    (Private.updateLayout (fuel + 2) 0 trailingInvisible).bind (DecorationButtonGroup.geometry 0)
        = .ok { x := 0, y := 0, width := 12, height := 5 } ∧
      specWidth trailingInvisible 2 [0, 1] = 10 ∧ specHeight trailingInvisible [0, 1] = 5 := by
  rw [updateLayout_eq_singlePass fuel 0 trailingInvisible rfl]
  decide!

/-- C2 (amended). For a group whose member entries are distinct live buttons, with
integer-valued origin `(X, Y)` and integer-valued spacing `S`, all in the range of
`int` (`|X|` plus the sum of `|width| + |S|` over the visible members, and `|Y|`, are
at most 2147483647): the layout pass succeeds and afterwards the `k`-th visible
member has x = `X` plus the sum over the visible members before it of `width + S`,
y = `Y`, and the size it reported before the pass. -/
theorem C2_members_placed_in_order (fuel gid : Nat) (w : World)
    (d : DecorationButtonGroup.Private) (X Y S : Int)
    (h0 : w.s_layoutRecursion = false) (hg : w.groups[gid]? = some d)
    (hx : d.geometry.x = (X : qreal)) (hy : d.geometry.y = (Y : qreal))
    (hs : d.spacing = (S : qreal))
    (hl : ∀ p ∈ d.buttons, (w.data p).isSome = true) (hnd : d.buttons.Nodup)
    (hr : |(X : qreal)| + layoutBudget w (S : qreal) d.buttons ≤ 2147483647)
    (hry : |(Y : qreal)| ≤ 2147483647) :
    ∃ w1, Private.updateLayout (fuel + 2) gid w = .ok w1 ∧
      PlacedInOrder w w1 d.buttons X Y S := by
  have hE : ExactLayout w d.geometry.x d.spacing d.buttons := by
    rw [hx, hs]; exact exactLayout_of_int w X S d.buttons hr
  obtain ⟨w1, h1, _, _, _, _, _, _, hpos⟩ := singlePass_spec gid w d hg hl hE
  refine ⟨w1, (updateLayout_eq_singlePass fuel gid w h0).trans h1, ?_⟩
  intro k p hk
  have hmem := List.mem_filter.mp (List.getElem?_mem hk)
  obtain ⟨b, hb⟩ := Option.isSome_iff_exists.mp (hl p hmem.1)
  have hvis : b.visible = true := by rw [← isVisible_of_data w p b hb]; exact hmem.2
  have hpb := exactLayout_position hE p
  rw [offsetBefore_filter_getElem w d.spacing d.buttons hnd k p hk, hx, hs,
    sum_map_intCast _ (fun q => (w.sizeOf q).width) S, ← Int.cast_add] at hpb
  rw [hpos hnd p hmem.1 b hb, offsetBefore_filter_getElem w d.spacing d.buttons hnd k p hk,
    hx, hy, hs, sum_map_intCast _ (fun q => (w.sizeOf q).width) S, ← Int.cast_add,
    qrealToInt_intCast _ hpb, qrealToInt_intCast _ hry, sizeOf_of_data w p b hb]
  simp [hvis, DecorationButton.placed]

/-- C2 (amended) at the sample state `threeButtons`. -/
theorem C2_members_placed_in_order_witness :
    ∃ w1, Private.updateLayout (0 + 2) 0 threeButtons = .ok w1 ∧
      PlacedInOrder threeButtons w1 threeButtonsGroup.buttons 0 0 2 :=
  C2_members_placed_in_order 0 0 threeButtons threeButtonsGroup 0 0 2 (by decide) (by decide)
    (by decide!) (by decide!) (by decide!) (by decide) (by decide) (by decide!) (by decide!)

/-- C2 as stated fails when the same button has been added twice: for the member
list `[b, b]` (b visible, 10x5, spacing 2, origin (0, 0)) the first visible member
should sit at x = 0, but the pass leaves the button at x = 12.  It also fails beyond
the range of `int`: with the x origin 3000000000 (state `farOrigin`) the first
visible member should sit at x = 3000000000, which no `int` can hold. -/
theorem C2_duplicate_entry_counterexample :
    (¬ ∃ w1, Private.updateLayout 2 0 duplicateEntry = .ok w1 ∧
      PlacedInOrder duplicateEntry w1 [0, 0] 0 0 2) ∧
    (¬ ∃ w1, Private.updateLayout 2 0 farOrigin = .ok w1 ∧
      PlacedInOrder farOrigin w1 [0, 1, 2] 3000000000 0 2) := by
  constructor
  · rintro ⟨w1, h1, hp⟩
    have hw : Private.updateLayout 2 0 duplicateEntry
        = .ok (stateOr (Private.updateLayout 2 0 duplicateEntry) duplicateEntry) := by decide!
    rw [hw] at h1
    cases h1
    have h := hp 0 0 (by decide)
    revert h
    decide!
  · rintro ⟨w1, h1, hp⟩
    have hw : Private.updateLayout 2 0 farOrigin = .ok farOriginLaidOut := by decide!
    rw [hw] at h1
    cases h1
    have h := hp 0 0 (by decide)
    revert h
    decide!

/-- C3. A group at origin (0, 0) with spacing 2 that holds three distinct visible
buttons of sizes 10x5, 20x8 and 15x6, in this order: the layout pass succeeds, the
group geometry becomes (0, 0, 49, 8), and the buttons get the geometries
(0, 0, 10, 5), (12, 0, 20, 8) and (34, 0, 15, 6). -/
theorem C3_three_button_layout (fuel gid a b c : Nat) (w : World)
    (d : DecorationButtonGroup.Private) (ba bb bc : DecorationButton)
    (h0 : w.s_layoutRecursion = false) (hg : w.groups[gid]? = some d)
    (hx : d.geometry.x = 0) (hy : d.geometry.y = 0) (hs : d.spacing = 2)
    (hl : d.buttons = [a, b, c]) (hab : a ≠ b) (hac : a ≠ c) (hbc : b ≠ c)
    (ha : w.data a = some ba) (hb : w.data b = some bb) (hc : w.data c = some bc)
    (hva : ba.visible = true) (hvb : bb.visible = true) (hvc : bc.visible = true)
    (hsa : ba.size = { width := 10, height := 5 })
    (hsb : bb.size = { width := 20, height := 8 })
    (hsc : bc.size = { width := 15, height := 6 }) :
    ∃ w1, Private.updateLayout (fuel + 2) gid w = .ok w1 ∧
      DecorationButtonGroup.geometry gid w1 = .ok { x := 0, y := 0, width := 49, height := 8 } ∧
      (w1.data a).map (fun x => x.geometry) = some { x := 0, y := 0, width := 10, height := 5 } ∧
      (w1.data b).map (fun x => x.geometry) = some { x := 12, y := 0, width := 20, height := 8 } ∧
      (w1.data c).map (fun x => x.geometry) = some { x := 34, y := 0, width := 15, height := 6 } := by
  have hlive : ∀ p ∈ d.buttons, (w.data p).isSome = true := by
    intro p hp
    rw [hl] at hp
    simp only [List.mem_cons, List.mem_singleton, List.not_mem_nil, or_false] at hp
    rcases hp with h | h | h <;> subst h <;> simp [ha, hb, hc]
  have hnd : d.buttons.Nodup := by
    rw [hl]; simp [hab, hac, hbc]
  have va := isVisible_of_data w a ba ha
  have vb := isVisible_of_data w b bb hb
  have vc := isVisible_of_data w c bc hc
  have sa := sizeOf_of_data w a ba ha
  have sb := sizeOf_of_data w b bb hb
  have sc := sizeOf_of_data w c bc hc
  have hE : ExactLayout w d.geometry.x d.spacing d.buttons := by
    refine ⟨by rw [hx]; exact onGrid_zero, by rw [hs]; decide!, ?_⟩
    rw [hx, hs, hl]
    simp only [layoutBudget_cons, va, vb, vc, sa, sb, sc, hva, hvb, hvc, hsa, hsb, hsc, if_true]
    norm_num [layoutBudget]
  obtain ⟨w1, h1, _, _, _, hg1, _, _, hpos⟩ := singlePass_spec gid w d hg hlive hE
  have hPa := hpos hnd a (by rw [hl]; simp) ba ha
  have hPb := hpos hnd b (by rw [hl]; simp) bb hb
  have hPc := hpos hnd c (by rw [hl]; simp) bc hc
  refine ⟨w1, (updateLayout_eq_singlePass fuel gid w h0).trans h1, ?_, ?_, ?_, ?_⟩
  · rw [geometry_of_groups gid w1 _ (by rw [hg1]; exact getElem?_set_self_of_some _ _ _ _ hg)]
    simp only [hl, hx, hy, hs, layoutWidth, layoutHeight, va, vb, vc, sa, sb, sc, hva, hvb, hvc,
      hsa, hsb, hsc, if_true]
    simp
    norm_num
  · rw [hPa]
    simp only [hva, if_true, hl, hx, hy, hs, offsetBefore_cons, offsetBefore_nil]
    simp only [Option.map_some', DecorationButton.placed, hsa]
    norm_num [qrealToInt, truncate]
  · rw [hPb]
    simp only [hvb, hva, va, sa, hsa, hab, if_true, if_false, hl, hx, hy, hs, offsetBefore_cons,
      offsetBefore_nil]
    simp only [Option.map_some', DecorationButton.placed, hsb]
    norm_num [qrealToInt, truncate]
  · rw [hPc]
    simp only [hvc, hva, hvb, va, vb, sa, sb, hsa, hsb, hac, hbc, if_true, if_false, hl, hx, hy,
      hs, offsetBefore_cons, offsetBefore_nil]
    simp only [Option.map_some', DecorationButton.placed, hsc]
    norm_num [qrealToInt, truncate]

/-- C3 at the sample state `threeButtons`. -/
theorem C3_three_button_layout_witness :
    ∃ w1, Private.updateLayout (0 + 2) 0 threeButtons = .ok w1 ∧
      DecorationButtonGroup.geometry 0 w1 = .ok { x := 0, y := 0, width := 49, height := 8 } ∧
      (w1.data 0).map (fun x => x.geometry) = some { x := 0, y := 0, width := 10, height := 5 } ∧
      (w1.data 1).map (fun x => x.geometry) = some { x := 12, y := 0, width := 20, height := 8 } ∧
      (w1.data 2).map (fun x => x.geometry) = some { x := 34, y := 0, width := 15, height := 6 } :=
  C3_three_button_layout 0 0 0 1 2 threeButtons threeButtonsGroup
    { type := .Close, geometry := { x := 0, y := 0, width := 10, height := 5 },
      visibilityChangedSlots := [0], geometryChangedSlots := [0] }
    { type := .Maximize, geometry := { x := 0, y := 0, width := 20, height := 8 },
      visibilityChangedSlots := [0], geometryChangedSlots := [0] }
    { type := .Minimize, geometry := { x := 0, y := 0, width := 15, height := 6 },
      visibilityChangedSlots := [0], geometryChangedSlots := [0] }
    (by decide) (by decide) (by decide!) (by decide!) (by decide!) (by decide) (by decide)
    (by decide) (by decide) (by decide) (by decide) (by decide) (by decide) (by decide)
    (by decide) (by decide) (by decide) (by decide)

/-- C4 (amended). Take a group whose member entries are distinct live buttons, with
integer-valued x origin `X` and integer-valued spacing `S` in the range of `int`
(`|X|` plus the sum of `|width| + |S|` over the visible members is at most
2147483647), and a visible member `m` that has a visible member before it and one
after it and is connected to this group only.  After a layout pass, hiding `m`
(`setVisible(false)`, which triggers the layout) lowers the group width by the width
of `m` plus one spacing, lowers the x origin of every later visible member by the
same amount, and leaves the origins of the earlier members unchanged. -/
theorem C4_hiding_a_middle_member (fuel gid m : Nat) (w0 : World)
    (d : DecorationButtonGroup.Private) (X S : Int) (A B : List Nat) (bm : DecorationButton)
    (h0 : w0.s_layoutRecursion = false) (hg : w0.groups[gid]? = some d)
    (hx : d.geometry.x = (X : qreal)) (hs : d.spacing = (S : qreal))
    (hl : ∀ p ∈ d.buttons, (w0.data p).isSome = true) (hnd : d.buttons.Nodup)
    (hL : d.buttons = A ++ m :: B)
    (hm : w0.data m = some bm) (hmv : bm.visible = true)
    (hmc : bm.visibilityChangedSlots = [gid])
    (_hA : ∃ a ∈ A, w0.isVisible a = true) (hB : ∃ b ∈ B, w0.isVisible b = true)
    (hr : |(X : qreal)| + layoutBudget w0 (S : qreal) d.buttons ≤ 2147483647) :
    ∃ w1 w2, Private.updateLayout (fuel + 2) gid w0 = .ok w1 ∧
      DecorationButton.setVisible (Private.updateLayout (fuel + 2)) m false w1 = .ok w2 ∧
      ShiftedByHiding w1 w2 gid A B (((bm.size.width : Int) : qreal) + d.spacing) := by
  have hE0 : ExactLayout w0 d.geometry.x d.spacing d.buttons := by
    rw [hx, hs]; exact exactLayout_of_int w0 X S d.buttons hr
  -- the first pass
  obtain ⟨w1, h1, hr1, _, _, hg1, hsb1, _, hpos1⟩ := singlePass_spec gid w0 d hg hl hE0
  have hg1a : w1.groups[gid]? = some
      { d with geometry := { x := d.geometry.x, y := d.geometry.y,
                             width := layoutWidth w0 d.spacing d.buttons,
                             height := layoutHeight w0 d.buttons } } := by
    rw [hg1]; exact getElem?_set_self_of_some _ _ _ _ hg
  have hmL : m ∈ d.buttons := by rw [hL]; simp
  have hm1 := hpos1 hnd m hmL bm hm
  rw [if_pos hmv] at hm1
  obtain ⟨hmA, hmB, hBA⟩ := nodup_middle (hL ▸ hnd)
  -- the state after the flag has been cleared, before the triggered pass
  have hv_m := data_store_same w1 m _
    { (bm.placed (qrealToInt (d.geometry.x + offsetBefore w0 d.spacing d.buttons m))
        (qrealToInt d.geometry.y)) with visible := false } hm1
  have hv_o : ∀ q, q ≠ m →
      ((w1.store m { (bm.placed (qrealToInt (d.geometry.x + offsetBefore w0 d.spacing d.buttons m))
        (qrealToInt d.geometry.y)) with visible := false }).record
          (.buttonVisibilityChanged m false)).data q = w1.data q :=
    fun q hq => data_store_other w1 m q _ hq
  generalize hvdef : ((w1.store m
      { (bm.placed (qrealToInt (d.geometry.x + offsetBefore w0 d.spacing d.buttons m))
        (qrealToInt d.geometry.y)) with visible := false }).record
          (.buttonVisibilityChanged m false)) = v at hv_o
  have hv_m1 : v.data m = some
      { (bm.placed (qrealToInt (d.geometry.x + offsetBefore w0 d.spacing d.buttons m))
        (qrealToInt d.geometry.y)) with visible := false } := by
    rw [← hvdef]; exact hv_m
  have hvg : v.groups[gid]? = some
      { d with geometry := { x := d.geometry.x, y := d.geometry.y,
                             width := layoutWidth w0 d.spacing d.buttons,
                             height := layoutHeight w0 d.buttons } } := by
    rw [← hvdef]; exact hg1a
  have hvis : ∀ q, q ≠ m → v.isVisible q = w0.isVisible q := by
    intro q hq
    rw [← sameButtons_isVisible hsb1 q]
    unfold World.isVisible
    rw [hv_o q hq]
  have hsz : ∀ q, v.sizeOf q = w0.sizeOf q := by
    intro q
    by_cases hq : q = m
    · subst hq
      rw [sizeOf_of_data v q _ hv_m1, sizeOf_of_data w0 q bm hm]; rfl
    · rw [← sameButtons_sizeOf hsb1 q]
      unfold World.sizeOf
      rw [hv_o q hq]
  have hvm0 : w0.isVisible m = true := by rw [isVisible_of_data w0 m bm hm]; exact hmv
  have hvm1 : v.isVisible m = false := by rw [isVisible_of_data v m _ hv_m1]
  have hvl : ∀ p ∈ d.buttons, (v.data p).isSome = true := by
    intro p hp
    by_cases hq : p = m
    · rw [hq, hv_m1]; rfl
    · rw [hv_o p hq, sameButtons_isSome hsb1 p]; exact hl p hp
  have hEv : ExactLayout v d.geometry.x d.spacing d.buttons :=
    exactLayout_congr hE0
      (fun q _ hq => by
        by_cases hqm : q = m
        · rw [hqm, hvm1] at hq; cases hq
        · rw [← hvis q hqm]; exact hq)
      (fun q _ => hsz q)
  -- the triggered pass
  obtain ⟨w2a, h2, _, _, _, hg2a, hsb2, _, hpos2a⟩ := singlePass_spec gid v _ hvg hvl hEv
  -- the reset of `pressed` that follows
  obtain ⟨w2, h3, hg3, _, _, ho3, _⟩ := resetPressed_spec m w2a
    (by rw [sameButtons_isSome hsb2 m, hv_m1]; rfl)
  have hg2 : w2.groups = _ := hg3.trans hg2a
  have hpos2 : d.buttons.Nodup → ∀ p ∈ d.buttons, p ≠ m → ∀ (b : DecorationButton),
      v.data p = some b →
        w2.data p = some (if b.visible = true then
          b.placed (qrealToInt (d.geometry.x + offsetBefore v d.spacing d.buttons p))
            (qrealToInt d.geometry.y) else b) := by
    intro hn p hp hpm b hb
    rw [ho3 p hpm]
    exact hpos2a hn p hp b hb
  have hset : DecorationButton.setVisible (Private.updateLayout (fuel + 2)) m false w1
      = .ok w2 := by
    rw [setVisible_false_runs_layout fuel gid m w1 _ hr1 hm1 hmv hmc, hvdef, h2]
    exact h3
  refine ⟨w1, w2, (updateLayout_eq_singlePass fuel gid w0 h0).trans h1, hset, ?_, ?_, ?_⟩
  · -- the width
    refine ⟨_, _, geometry_of_groups gid w1 _ hg1a,
      geometry_of_groups gid w2 _
        (by rw [hg2]; exact getElem?_set_self_of_some _ _ _ _ hvg), ?_⟩
    show layoutWidth v d.spacing d.buttons = layoutWidth w0 d.spacing d.buttons - _
    obtain ⟨b, hb, _⟩ := hB
    rw [hL, layoutWidth_hide w0 v d.spacing m B hvis hsz hvm0 hvm1
      (List.ne_nil_of_mem hb) hmB A hmA, sizeOf_of_data w0 m bm hm]
  · -- the later members
    intro p hp hpv
    have hpL : p ∈ d.buttons := by rw [hL]; simp [hp]
    have hpm : p ≠ m := fun e => hmB (e ▸ hp)
    obtain ⟨bp, hbp⟩ := Option.isSome_iff_exists.mp (hl p hpL)
    have hbv : bp.visible = true := by
      rw [← isVisible_of_data w0 p bp hbp, ← sameButtons_isVisible hsb1 p]; exact hpv
    have hp1 := hpos1 hnd p hpL bp hbp
    rw [if_pos hbv] at hp1
    have hp2 := hpos2 hnd p hpL hpm _ ((hv_o p hpm).trans hp1)
    rw [if_pos (by exact hbv)] at hp2
    obtain ⟨n, hn⟩ := offsetBefore_isInt w0 S p d.buttons
    have hoff : offsetBefore v d.spacing d.buttons p
        = offsetBefore w0 d.spacing d.buttons p - (((w0.sizeOf m).width : qreal) + d.spacing) := by
      rw [hL]
      exact offsetBefore_hide_later w0 v d.spacing m p B hvis hsz hvm0 hvm1 hmB hpm A hmA
        (hBA p hp)
    have e : (X : qreal) + ((n : qreal) - (((bm.size.width : Int) : qreal) + (S : qreal)))
        = ((X + n - (bm.size.width + S) : Int) : qreal) := by push_cast; ring
    have hb1 := exactLayout_position hE0 p
    rw [hx, hs, hn, ← Int.cast_add] at hb1
    have hb2 := exactLayout_position hEv p
    rw [hoff, sizeOf_of_data w0 m bm hm, hx, hs, hn, e] at hb2
    refine ⟨X + n, X + n - (bm.size.width + S), ?_, ?_, ?_⟩
    · rw [hp1, hx, hs, hn, ← Int.cast_add, qrealToInt_intCast _ hb1]; rfl
    · rw [hp2]
      show some (qrealToInt (d.geometry.x + offsetBefore v d.spacing d.buttons p)) = _
      rw [hoff, sizeOf_of_data w0 m bm hm, hx, hs, hn]
      rw [e, qrealToInt_intCast _ hb2]
    · rw [hs]; push_cast; ring
  · -- the earlier members
    intro p hp
    have hpL : p ∈ d.buttons := by rw [hL]; simp [hp]
    have hpm : p ≠ m := fun e => hmA (e ▸ hp)
    obtain ⟨bp, hbp⟩ := Option.isSome_iff_exists.mp (hl p hpL)
    have hp1 := hpos1 hnd p hpL bp hbp
    have hp2 := hpos2 hnd p hpL hpm _ ((hv_o p hpm).trans hp1)
    have hoff : offsetBefore v d.spacing d.buttons p = offsetBefore w0 d.spacing d.buttons p := by
      rw [hL]
      exact offsetBefore_hide_earlier w0 v d.spacing m p B hvis hsz A hmA hp
    rw [hp2, hp1]
    show Option.map _ (some (if _ then DecorationButton.placed _
        (qrealToInt (d.geometry.x + offsetBefore v d.spacing d.buttons p)) _ else _)) = _
    rw [hoff]
    by_cases hbv : bp.visible = true
    · simp [hbv, DecorationButton.placed]
    · simp [hbv]

/-- C4 (amended) at the sample state `threeButtons`, hiding the middle button. -/
theorem C4_hiding_a_middle_member_witness :
    ∃ w1 w2, Private.updateLayout (0 + 2) 0 threeButtons = .ok w1 ∧
      DecorationButton.setVisible (Private.updateLayout (0 + 2)) 1 false w1 = .ok w2 ∧
      ShiftedByHiding w1 w2 0 [0] [2] (((20 : Int) : qreal) + threeButtonsGroup.spacing) :=
  C4_hiding_a_middle_member 0 0 1 threeButtons threeButtonsGroup 0 2 [0] [2]
    { type := .Maximize, geometry := { x := 0, y := 0, width := 20, height := 8 },
      visibilityChangedSlots := [0], geometryChangedSlots := [0] }
    (by decide) (by decide) (by decide!) (by decide!) (by decide) (by decide)
    (by decide) (by decide) (by decide) (by decide) (by decide) (by decide) (by decide!)

/-- C4 as stated fails for a non-integer spacing.  With spacing 1/2 and three visible
10x5 buttons at origin (0, 0) the pass places the third button at x = 21; after the
middle button is hidden the width has dropped by 10 + 1/2, but the third button sits
at x = 10, which is 11 less.  It also fails beyond the range of `int`: with the x
origin 3000000000 and spacing 2 (state `farOrigin`) the conversion to `int` leaves the
third button at x = -2147483648 before and after the middle button is hidden, while
the width drops by 12. -/
theorem C4_half_spacing_counterexample :
    (¬ ∃ w1 w2, Private.updateLayout 2 0 halfSpacing = .ok w1 ∧
      DecorationButton.setVisible (Private.updateLayout 2) 1 false w1 = .ok w2 ∧
      ShiftedByHiding w1 w2 0 [0] [2] ((10 : qreal) + 1 / 2)) ∧
    (¬ ∃ w1 w2, Private.updateLayout 2 0 farOrigin = .ok w1 ∧
      DecorationButton.setVisible (Private.updateLayout 2) 1 false w1 = .ok w2 ∧
      ShiftedByHiding w1 w2 0 [0] [2] ((10 : qreal) + 2)) := by
  constructor
  · rintro ⟨w1, w2, h1, h2, _, hlater, _⟩
    have hw1 : Private.updateLayout 2 0 halfSpacing = .ok halfSpacingLaidOut := by decide!
    rw [hw1] at h1
    cases h1
    have hw2 : DecorationButton.setVisible (Private.updateLayout 2) 1 false halfSpacingLaidOut
        = .ok halfSpacingHidden := by decide!
    rw [hw2] at h2
    cases h2
    obtain ⟨x1, x2, e1, e2, e3⟩ := hlater 2 (by simp) (by decide!)
    have f1 : (halfSpacingLaidOut.data 2).map (fun b => b.geometry.x) = some 21 := by decide!
    have f2 : (halfSpacingHidden.data 2).map (fun b => b.geometry.x) = some 10 := by decide!
    rw [f1] at e1
    rw [f2] at e2
    cases e1
    cases e2
    norm_num at e3
  · rintro ⟨w1, w2, h1, h2, _, hlater, _⟩
    have hw1 : Private.updateLayout 2 0 farOrigin = .ok farOriginLaidOut := by decide!
    rw [hw1] at h1
    cases h1
    have hw2 : DecorationButton.setVisible (Private.updateLayout 2) 1 false farOriginLaidOut
        = .ok farOriginHidden := by decide!
    rw [hw2] at h2
    cases h2
    obtain ⟨x1, x2, e1, e2, e3⟩ := hlater 2 (by simp) (by decide!)
    have f1 : (farOriginLaidOut.data 2).map (fun b => b.geometry.x) = some (-2147483648) := by
      decide!
    have f2 : (farOriginHidden.data 2).map (fun b => b.geometry.x) = some (-2147483648) := by
      decide!
    rw [f1] at e1
    rw [f2] at e2
    cases e1
    cases e2
    norm_num at e3

/-- C5, the code at a failing input.  A left-side group is built from the settings
list `[Close]` (its size becomes 10x5); then the list changes to the empty list and
the slot deletes and clears the members.  No layout pass runs: the group has no
members, its geometry still has size 10x5, while the layout computation for the
current (empty) member list yields 0x0. -/
theorem C5_repopulation_with_empty_list_keeps_size :
    repopulatedWithEmptyList.bind (DecorationButtonGroup.buttons 0) = .ok [] ∧
      repopulatedWithEmptyList.bind (DecorationButtonGroup.geometry 0)
        = .ok { x := 0, y := 0, width := 10, height := 5 } ∧
      repopulatedWithEmptyList.bind (fun w => sizeLoop w 0 [] (0, 0)) = .ok (0, 0) ∧
      repopulatedWithEmptyList.bind (DecorationButtonGroup.spacing 0) = .ok 0 := by
  decide!

/-- C6. Layout reentrancy: on any state in which the guard is set, a call of
`updateLayout` on any group returns that very state (no geometry changes, nothing
emitted), and so a member's `setGeometry` issued by the pass behaves as if no slot
were connected.  Hence a top-level pass on an existing group with live members
needs no more than one level of nested slot invocation: it equals the single sizing
traversal followed by the single positioning traversal, it succeeds, and it returns
with the guard cleared. -/
theorem C6_layout_reentrancy (fuel gid : Nat) (w : World) (d : DecorationButtonGroup.Private)
    (h0 : w.s_layoutRecursion = false) (hg : w.groups[gid]? = some d)
    (hl : ∀ p ∈ d.buttons, (w.data p).isSome = true) :
    (∀ (v : World) (g : Nat), v.s_layoutRecursion = true →
        Private.updateLayout (fuel + 1) g v = .ok v) ∧
    (∀ (v : World) (p : Nat) (geo : QRect), v.s_layoutRecursion = true →
        DecorationButton.setGeometry (Private.updateLayout (fuel + 1)) p geo v
          = DecorationButton.setGeometry (fun _ u => .ok u) p geo v) ∧
    Private.updateLayout (fuel + 2) gid w = singlePass gid w ∧
    ∃ w1, Private.updateLayout (fuel + 2) gid w = .ok w1 ∧ w1.s_layoutRecursion = false := by
  refine ⟨fun v g hv => updateLayout_guarded fuel g v hv,
    fun v p geo hv => button_setGeometry_guarded fuel p geo v hv,
    updateLayout_eq_singlePass fuel gid w h0, ?_⟩
  obtain ⟨w1, _, h1, hr1, _⟩ := updateLayout_frame fuel gid w d hg hl
  exact ⟨w1, h1, hr1.trans h0⟩

/-- C6 at the sample state `threeButtons`, with the least fuel. -/
theorem C6_layout_reentrancy_witness :
    (∀ (v : World) (g : Nat), v.s_layoutRecursion = true →
        Private.updateLayout (0 + 1) g v = .ok v) ∧
    (∀ (v : World) (p : Nat) (geo : QRect), v.s_layoutRecursion = true →
        DecorationButton.setGeometry (Private.updateLayout (0 + 1)) p geo v
          = DecorationButton.setGeometry (fun _ u => .ok u) p geo v) ∧
    Private.updateLayout (0 + 2) 0 threeButtons = singlePass 0 threeButtons ∧
    ∃ w1, Private.updateLayout (0 + 2) 0 threeButtons = .ok w1 ∧
      w1.s_layoutRecursion = false :=
  C6_layout_reentrancy 0 0 threeButtons threeButtonsGroup (by decide) (by decide) (by decide)

/-- C7. For a group with member list `L` and a non-null button `b`: whenever
`addButton(b)` returns, `buttons()` is exactly `L` followed by `b`; and the call does
return (with any fuel of at least 2) when the members of the group are live. -/
theorem C7_addButton_appends (fuel gid button : Nat) (w : World)
    (d : DecorationButtonGroup.Private) (hg : w.groups[gid]? = some d)
    (hb : w.isNull button = false) :
    (∀ (f : Nat) (w1 : World), DecorationButtonGroup.addButton f gid button w = .ok w1 →
      DecorationButtonGroup.buttons gid w1 = .ok (d.buttons ++ [button])) ∧
    ((∀ p ∈ d.buttons, (w.data p).isSome = true) →
      ∃ w1, DecorationButtonGroup.addButton (fuel + 2) gid button w = .ok w1 ∧
        DecorationButtonGroup.buttons gid w1 = .ok (d.buttons ++ [button])) := by
  have hb1 : (w.data button).isSome = true := by
    unfold World.isNull at hb
    cases h : w.data button <;> simp [h] at hb ⊢
  obtain ⟨b, hbd⟩ := Option.isSome_iff_exists.mp hb1
  have hpart : ∀ (f : Nat) (w1 : World),
      DecorationButtonGroup.addButton f gid button w = .ok w1 →
      DecorationButtonGroup.buttons gid w1 = .ok (d.buttons ++ [button]) := by
    intro f w1 h
    rw [addButton_eq f gid button w d b hg hbd] at h
    exact buttons_after_layout f gid (w.store button _) w1 d _ hg h
  refine ⟨hpart, ?_⟩
  intro hl
  obtain ⟨w1, _, h1, _⟩ := updateLayout_frame fuel gid _ _
    (withButtons_get (w.store button
        { b with visibilityChangedSlots := b.visibilityChangedSlots ++ [gid],
                 geometryChangedSlots := b.geometryChangedSlots ++ [gid] })
      gid d (d.buttons ++ [button]) hg)
    (by
      intro p hp
      rw [data_withButtons, isSome_data_store w button p _ hb1]
      rcases List.mem_append.mp hp with h | h
      · exact hl p h
      · rw [List.mem_singleton.mp h]; exact hb1)
  rw [← addButton_eq (fuel + 2) gid button w d b hg hbd] at h1
  exact ⟨w1, h1, hpart _ w1 h1⟩

/-- C7 at the sample state `threeButtonsAndSpare`: the spare button 3 is appended. -/
theorem C7_addButton_appends_witness :
    (∀ (f : Nat) (w1 : World),
      DecorationButtonGroup.addButton f 0 3 threeButtonsAndSpare = .ok w1 →
      DecorationButtonGroup.buttons 0 w1 = .ok ([0, 1, 2] ++ [3])) ∧
    ((∀ p ∈ threeButtonsGroup.buttons, (threeButtonsAndSpare.data p).isSome = true) →
      ∃ w1, DecorationButtonGroup.addButton (0 + 2) 0 3 threeButtonsAndSpare = .ok w1 ∧
        DecorationButtonGroup.buttons 0 w1 = .ok ([0, 1, 2] ++ [3])) :=
  C7_addButton_appends 0 0 3 threeButtonsAndSpare threeButtonsGroup (by decide) (by decide)

/-- C8. For a group with live members `L` and a type `t`, `removeButton(t)` succeeds,
the member list becomes `L` with the members of type `t` filtered out (order kept),
and `hasButton(t)` is false afterwards.  If some member has type `t` the call is the
list update followed by a layout pass; if none has, the call returns the state it
was given (no list change, no geometry change, nothing emitted). -/
theorem C8_removeButton_by_type (fuel gid : Nat) (t : DecorationButtonType) (w : World)
    (d : DecorationButtonGroup.Private) (hg : w.groups[gid]? = some d)
    (hl : ∀ p ∈ d.buttons, (w.data p).isSome = true) :
    (∃ w1, DecorationButtonGroup.removeButton (fuel + 2) gid t w = .ok w1 ∧
      DecorationButtonGroup.buttons gid w1
        = .ok (d.buttons.filter (fun p => !w.typeIs t p)) ∧
      DecorationButtonGroup.hasButton gid t w1 = .ok false) ∧
    (d.buttons.any (w.typeIs t) = true →
      DecorationButtonGroup.removeButton (fuel + 2) gid t w
        = Private.updateLayout (fuel + 2) gid
            (w.withButtons gid d (d.buttons.filter (fun p => !w.typeIs t p)))) ∧
    (d.buttons.any (w.typeIs t) = false →
      DecorationButtonGroup.removeButton (fuel + 2) gid t w = .ok w) := by
  have hrun : d.buttons.any (w.typeIs t) = true →
      DecorationButtonGroup.removeButton (fuel + 2) gid t w
        = Private.updateLayout (fuel + 2) gid
            (w.withButtons gid d (d.buttons.filter (fun p => !w.typeIs t p))) := by
    intro hany
    unfold DecorationButtonGroup.removeButton World.group
    simp only [hg]
    rw [removeTypeLoop_eq w t d.buttons [] false hl]
    simp [hany]
  have hskip : d.buttons.any (w.typeIs t) = false →
      DecorationButtonGroup.removeButton (fuel + 2) gid t w = .ok w := by
    intro hany
    unfold DecorationButtonGroup.removeButton World.group
    simp only [hg]
    rw [removeTypeLoop_eq w t d.buttons [] false hl]
    simp only [hany, List.nil_append, Bool.or_false, Bool.false_eq_true, if_false]
    rw [filter_eq_self_of_any_false _ _ hany, withButtons_self w gid d hg]
  refine ⟨?_, hrun, hskip⟩
  cases hany : d.buttons.any (w.typeIs t) with
  | true =>
    obtain ⟨w1, h1, hb1, hh1⟩ := updateLayout_withButtons fuel gid w d
      (d.buttons.filter (fun p => !w.typeIs t p)) hg
      (fun p hp => hl p (List.mem_filter.mp hp).1)
    exact ⟨w1, (hrun hany).trans h1, hb1, by rw [hh1 t, any_filter_not]⟩
  | false =>
    refine ⟨w, hskip hany, ?_, ?_⟩
    · rw [buttons_of_groups gid w d hg, filter_eq_self_of_any_false _ _ hany]
    · rw [hasButton_of_groups gid t w d hg, hasButtonLoop_eq w t d.buttons hl, hany]

/-- C8 at the sample state `threeButtons`, removing the `Maximize` button. -/
theorem C8_removeButton_by_type_witness :
    (∃ w1, DecorationButtonGroup.removeButton (0 + 2) 0 .Maximize threeButtons = .ok w1 ∧
      DecorationButtonGroup.buttons 0 w1
        = .ok (threeButtonsGroup.buttons.filter (fun p => !threeButtons.typeIs .Maximize p)) ∧
      DecorationButtonGroup.hasButton 0 .Maximize w1 = .ok false) ∧
    (threeButtonsGroup.buttons.any (threeButtons.typeIs .Maximize) = true →
      DecorationButtonGroup.removeButton (0 + 2) 0 .Maximize threeButtons
        = Private.updateLayout (0 + 2) 0
            (threeButtons.withButtons 0 threeButtonsGroup
              (threeButtonsGroup.buttons.filter (fun p => !threeButtons.typeIs .Maximize p)))) ∧
    (threeButtonsGroup.buttons.any (threeButtons.typeIs .Maximize) = false →
      DecorationButtonGroup.removeButton (0 + 2) 0 .Maximize threeButtons = .ok threeButtons) :=
  C8_removeButton_by_type 0 0 .Maximize threeButtons threeButtonsGroup (by decide) (by decide)

/-- C9. `removeButton(r)` by pointer: if some entry equals `r` (as `QPointer`s: the
same live button, or both null) the call is the removal of all such entries, the
others kept in order, followed by a layout pass, and otherwise it returns the state
it was given.  Whenever the call returns, the list is `L` without the entries equal
to `r`, and it does return when the remaining entries are live.  For a live `r` the removed entries are
exactly the occurrences of `r`; for a null `r` (a destroyed button) the call always
succeeds and the list afterwards consists of all live entries of `L`, in order. -/
theorem C9_removeButton_by_pointer (fuel gid r : Nat) (w : World)
    (d : DecorationButtonGroup.Private) (hg : w.groups[gid]? = some d) :
    (d.buttons.any (fun p => w.ptrEq p r) = true →
      DecorationButtonGroup.removeButtonPtr fuel gid r w
        = Private.updateLayout fuel gid
            (w.withButtons gid d (d.buttons.filter (fun p => !w.ptrEq p r)))) ∧
    (d.buttons.any (fun p => w.ptrEq p r) = false →
      DecorationButtonGroup.removeButtonPtr fuel gid r w = .ok w) ∧
    (∀ w1, DecorationButtonGroup.removeButtonPtr fuel gid r w = .ok w1 →
      DecorationButtonGroup.buttons gid w1 = .ok (d.buttons.filter (fun p => !w.ptrEq p r))) ∧
    ((∀ p ∈ d.buttons.filter (fun p => !w.ptrEq p r), (w.data p).isSome = true) →
      ∃ w1, DecorationButtonGroup.removeButtonPtr (fuel + 2) gid r w = .ok w1 ∧
        DecorationButtonGroup.buttons gid w1
          = .ok (d.buttons.filter (fun p => !w.ptrEq p r))) ∧
    (w.isNull r = false →
      d.buttons.filter (fun p => !w.ptrEq p r) = d.buttons.filter (fun p => decide (p ≠ r))) ∧
    (w.isNull r = true →
      ∃ w1, DecorationButtonGroup.removeButtonPtr (fuel + 2) gid r w = .ok w1 ∧
        DecorationButtonGroup.buttons gid w1
          = .ok (d.buttons.filter (fun p => !w.isNull p))) := by
  have hrun : ∀ f, d.buttons.any (fun p => w.ptrEq p r) = true →
      DecorationButtonGroup.removeButtonPtr f gid r w
        = Private.updateLayout f gid
            (w.withButtons gid d (d.buttons.filter (fun p => !w.ptrEq p r))) := by
    intro f hany
    unfold DecorationButtonGroup.removeButtonPtr World.group
    simp only [hg]
    rw [removePtrLoop_eq w r d.buttons [] false]
    simp [hany]
  have hskip : ∀ f, d.buttons.any (fun p => w.ptrEq p r) = false →
      DecorationButtonGroup.removeButtonPtr f gid r w = .ok w := by
    intro f hany
    unfold DecorationButtonGroup.removeButtonPtr World.group
    simp only [hg]
    rw [removePtrLoop_eq w r d.buttons [] false]
    simp only [hany, List.nil_append, Bool.or_false, Bool.false_eq_true, if_false]
    rw [filter_eq_self_of_any_false _ (fun p => w.ptrEq p r) hany, withButtons_self w gid d hg]
  have hok : (∀ p ∈ d.buttons.filter (fun p => !w.ptrEq p r), (w.data p).isSome = true) →
      ∃ w1, DecorationButtonGroup.removeButtonPtr (fuel + 2) gid r w = .ok w1 ∧
        DecorationButtonGroup.buttons gid w1
          = .ok (d.buttons.filter (fun p => !w.ptrEq p r)) := by
    intro hlive
    cases hany : d.buttons.any (fun p => w.ptrEq p r) with
    | true =>
      obtain ⟨w1, h1, hb1, _⟩ := updateLayout_withButtons fuel gid w d _ hg hlive
      exact ⟨w1, (hrun _ hany).trans h1, hb1⟩
    | false =>
      refine ⟨w, hskip _ hany, ?_⟩
      rw [buttons_of_groups gid w d hg,
        filter_eq_self_of_any_false _ (fun p => w.ptrEq p r) hany]
  have hpart : ∀ w1, DecorationButtonGroup.removeButtonPtr fuel gid r w = .ok w1 →
      DecorationButtonGroup.buttons gid w1
        = .ok (d.buttons.filter (fun p => !w.ptrEq p r)) := by
    intro w1 h
    cases hany : d.buttons.any (fun p => w.ptrEq p r) with
    | true =>
      rw [hrun fuel hany] at h
      exact buttons_after_layout fuel gid w w1 d _ hg h
    | false =>
      rw [hskip fuel hany] at h
      cases h
      rw [buttons_of_groups gid w d hg,
        filter_eq_self_of_any_false _ (fun p => w.ptrEq p r) hany]
  refine ⟨hrun fuel, hskip fuel, hpart, hok, ?_, ?_⟩
  · intro hr
    apply List.filter_congr
    intro p _
    rw [ptrEq_of_live w p r hr]
    simp
  · intro hr
    have hf : d.buttons.filter (fun p => !w.ptrEq p r)
        = d.buttons.filter (fun p => !w.isNull p) := by
      apply List.filter_congr
      intro p _
      rw [ptrEq_of_null w p r hr]
    rw [← hf]
    apply hok
    intro p hp
    have := (List.mem_filter.mp hp).2
    rw [ptrEq_of_null w p r hr] at this
    unfold World.isNull at this
    cases h : w.data p <;> simp [h] at this ⊢

/-- C9 at the sample state `danglingEntry`, with `r` the destroyed button 1. -/
theorem C9_removeButton_by_pointer_witness :
    ([0, 1, 2].any (fun p => danglingEntry.ptrEq p 1) = true →
      DecorationButtonGroup.removeButtonPtr 2 0 1 danglingEntry
        = Private.updateLayout 2 0
            (danglingEntry.withButtons 0 threeButtonsGroup
              ([0, 1, 2].filter (fun p => !danglingEntry.ptrEq p 1)))) ∧
    ([0, 1, 2].any (fun p => danglingEntry.ptrEq p 1) = false →
      DecorationButtonGroup.removeButtonPtr 2 0 1 danglingEntry = .ok danglingEntry) ∧
    (∀ w1, DecorationButtonGroup.removeButtonPtr 2 0 1 danglingEntry = .ok w1 →
      DecorationButtonGroup.buttons 0 w1
        = .ok ([0, 1, 2].filter (fun p => !danglingEntry.ptrEq p 1))) ∧
    ((∀ p ∈ [0, 1, 2].filter (fun p => !danglingEntry.ptrEq p 1),
        (danglingEntry.data p).isSome = true) →
      ∃ w1, DecorationButtonGroup.removeButtonPtr (2 + 2) 0 1 danglingEntry = .ok w1 ∧
        DecorationButtonGroup.buttons 0 w1
          = .ok ([0, 1, 2].filter (fun p => !danglingEntry.ptrEq p 1))) ∧
    (danglingEntry.isNull 1 = false →
      [0, 1, 2].filter (fun p => !danglingEntry.ptrEq p 1)
        = [0, 1, 2].filter (fun p => decide (p ≠ 1))) ∧
    (danglingEntry.isNull 1 = true →
      ∃ w1, DecorationButtonGroup.removeButtonPtr (2 + 2) 0 1 danglingEntry = .ok w1 ∧
        DecorationButtonGroup.buttons 0 w1
          = .ok ([0, 1, 2].filter (fun p => !danglingEntry.isNull p))) :=
  C9_removeButton_by_pointer 2 0 1 danglingEntry threeButtonsGroup (by decide)

/-- C10. For a group with live members, `hasButton(t)` returns a value, and that value
is true exactly when some member has type `t`; it is false for a group without
members; and after `addButton(b)` it is true for the type of `b`.  (`hasButton`
returns no state: it cannot modify the group.) -/
theorem C10_hasButton (fuel gid : Nat) (t : DecorationButtonType) (w : World)
    (d : DecorationButtonGroup.Private) (hg : w.groups[gid]? = some d)
    (hl : ∀ p ∈ d.buttons, (w.data p).isSome = true) :
    (∃ r, DecorationButtonGroup.hasButton gid t w = .ok r ∧
      (r = true ↔ ∃ p ∈ d.buttons, ∃ b, w.data p = some b ∧ b.type = t)) ∧
    (d.buttons = [] → DecorationButtonGroup.hasButton gid t w = .ok false) ∧
    (∀ button b, w.data button = some b →
      ∃ w1, DecorationButtonGroup.addButton (fuel + 2) gid button w = .ok w1 ∧
        DecorationButtonGroup.hasButton gid b.type w1 = .ok true) := by
  have hh : DecorationButtonGroup.hasButton gid t w = .ok (d.buttons.any (w.typeIs t)) := by
    rw [hasButton_of_groups gid t w d hg, hasButtonLoop_eq w t d.buttons hl]
  refine ⟨⟨_, hh, ?_⟩, ?_, ?_⟩
  · rw [List.any_eq_true]
    constructor
    · rintro ⟨p, hp, hpt⟩
      unfold World.typeIs at hpt
      cases hd : w.data p with
      | none => simp [hd] at hpt
      | some b => exact ⟨p, hp, b, hd, by simpa [hd] using hpt⟩
    · rintro ⟨p, hp, b, hb, hbt⟩
      exact ⟨p, hp, by simp [World.typeIs, hb, hbt]⟩
  · intro he
    rw [hh, he]; rfl
  · intro button b hb
    have hb1 : (w.data button).isSome = true := by rw [hb]; rfl
    unfold DecorationButtonGroup.addButton World.group
    simp only [hg, hb]
    obtain ⟨w1, h1, _, hh1⟩ := updateLayout_withButtons fuel gid
      (w.store button
        { b with visibilityChangedSlots := b.visibilityChangedSlots ++ [gid],
                 geometryChangedSlots := b.geometryChangedSlots ++ [gid] })
      d (d.buttons ++ [button]) hg
      (by
        intro p hp
        rw [isSome_data_store w button p _ hb1]
        rcases List.mem_append.mp hp with h | h
        · exact hl p h
        · rw [List.mem_singleton.mp h]; exact hb1)
    refine ⟨w1, h1, ?_⟩
    rw [hh1 b.type, List.any_append]
    have : (w.store button
        { b with visibilityChangedSlots := b.visibilityChangedSlots ++ [gid],
                 geometryChangedSlots := b.geometryChangedSlots ++ [gid] }).typeIs b.type button
        = true := by
      unfold World.typeIs
      rw [data_store_same w button b _ hb]
      simp
    simp [this]

/-- C10 at the sample state `threeButtonsAndSpare`, asking for a `Shade` button. -/
theorem C10_hasButton_witness :
    (∃ r, DecorationButtonGroup.hasButton 0 .Shade threeButtonsAndSpare = .ok r ∧
      (r = true ↔ ∃ p ∈ threeButtonsGroup.buttons, ∃ b,
        threeButtonsAndSpare.data p = some b ∧ b.type = .Shade)) ∧
    (threeButtonsGroup.buttons = [] →
      DecorationButtonGroup.hasButton 0 .Shade threeButtonsAndSpare = .ok false) ∧
    (∀ button b, threeButtonsAndSpare.data button = some b →
      ∃ w1, DecorationButtonGroup.addButton (0 + 2) 0 button threeButtonsAndSpare = .ok w1 ∧
        DecorationButtonGroup.hasButton 0 b.type w1 = .ok true) :=
  C10_hasButton 0 0 .Shade threeButtonsAndSpare threeButtonsGroup (by decide) (by decide)

/-- C11 (amended). For every group outside a layout pass whose members are live, and
every point `p` of finite coordinates: if `p` is the current origin, `setPos(p)` returns the state it was
given (no geometry changes, nothing emitted); otherwise it succeeds, and it is
`Private::setGeometry` with the rectangle of origin `p` and the previous size,
followed by a layout pass: afterwards `pos()` is `p`, every button is as before up
to its origin, and the notifications emitted are `geometryChanged` with that
rectangle, followed by layout notifications only.  For values in the exact range
(`p.x` and the spacing multiples of `2 ^ (-20)`, positions in the range of `int`) the
group is laid out at `p`: its size is the computed size of its members, and the
visible members are placed from `p` on. -/
theorem C11_setPos (fuel gid : Nat) (p : QPointF) (w : World)
    (d : DecorationButtonGroup.Private) (h0 : w.s_layoutRecursion = false)
    (hg : w.groups[gid]? = some d) (hl : ∀ q ∈ d.buttons, (w.data q).isSome = true) :
    (d.geometry.topLeft = p → DecorationButtonGroup.setPos (fuel + 2) gid p w = .ok w) ∧
    (d.geometry.topLeft ≠ p →
      ∃ w0 w1, Private.setGeometry gid
          { x := p.x, y := p.y, width := d.geometry.width, height := d.geometry.height } w
          = .ok w0 ∧
        Private.updateLayout (fuel + 2) gid w0 = .ok w1 ∧
        DecorationButtonGroup.setPos (fuel + 2) gid p w = .ok w1 ∧
        DecorationButtonGroup.pos gid w1 = .ok p ∧
        SameButtons w w1 ∧
        (ExactLayout w p.x d.spacing d.buttons →
          LaidOut w w1 gid p.x p.y d.spacing d.buttons) ∧
        ∃ ext, w1.emitted = w.emitted ++
            Signal.geometryChanged gid
              { x := p.x, y := p.y, width := d.geometry.width, height := d.geometry.height }
              :: ext ∧
          ∀ s ∈ ext, s.isLayoutSignal = true) := by
  constructor
  · intro hp
    simp [DecorationButtonGroup.setPos, World.group, hg, hp]
  · intro hp
    have hne : ¬ d.geometry = { x := p.x, y := p.y, width := d.geometry.width,
                                height := d.geometry.height } := by
      intro h
      apply hp
      rw [h]
      rfl
    let geo : QRectF :=
      { x := p.x, y := p.y, width := d.geometry.width, height := d.geometry.height }
    let d1 : DecorationButtonGroup.Private := { d with geometry := geo }
    let w0 : World := World.record { w with groups := w.groups.set gid d1 }
      (.geometryChanged gid geo)
    have hg0 : w0.groups[gid]? = some d1 := getElem?_set_self_of_some _ _ _ _ hg
    have hd0 : ∀ q, w0.data q = w.data q := fun _ => rfl
    obtain ⟨w1, h1, hlo⟩ := updateLayout_total fuel gid w0 d1 hg0 hl
    obtain ⟨d2, hg2, hf2⟩ := layoutOnly_group hlo gid d1 hg0
    obtain ⟨_, _, _, hsb, _, ext, hext, hlay⟩ := hlo
    have hset : Private.setGeometry gid geo w = .ok w0 := by
      simp only [Private.setGeometry, hg, hne, if_false]
    refine ⟨w0, w1, hset, h1, ?_, ?_, ?_, ?_, ext, ?_, hlay⟩
    · simp only [DecorationButtonGroup.setPos, World.group, hg, hp, if_false]
      rw [hset]
      exact h1
    · unfold DecorationButtonGroup.pos World.group
      simp only [hg2]
      unfold DecorationButtonGroup.Private.frame at hf2
      have hx := (Prod.mk.inj hf2).1
      have hy := (Prod.mk.inj (Prod.mk.inj hf2).2).1
      cases p
      simp only [QRectF.topLeft, hx, hy]
    · intro q
      rw [hsb q, hd0 q]
    · intro hE
      obtain ⟨w2, h2, hlo2, _⟩ := updateLayout_laidOut fuel gid w0 d1 h0 hg0 hl
        (exactLayout_congr hE (fun _ _ h => h) (fun _ _ => rfl))
      rw [h1] at h2
      cases h2
      exact laidOut_congr hd0 hlo2
    · rw [hext]
      simp [w0, World.record]

/-- C11 (amended) at the sample state `threeButtons`, for the new origin (5, 3). -/
theorem C11_setPos_witness :
    (threeButtonsGroup.geometry.topLeft = { x := 5, y := 3 } →
      DecorationButtonGroup.setPos (0 + 2) 0 { x := 5, y := 3 } threeButtons = .ok threeButtons) ∧
    (threeButtonsGroup.geometry.topLeft ≠ { x := 5, y := 3 } →
      ∃ w0 w1, Private.setGeometry 0
          { x := 5, y := 3, width := threeButtonsGroup.geometry.width,
            height := threeButtonsGroup.geometry.height } threeButtons = .ok w0 ∧
        Private.updateLayout (0 + 2) 0 w0 = .ok w1 ∧
        DecorationButtonGroup.setPos (0 + 2) 0 { x := 5, y := 3 } threeButtons = .ok w1 ∧
        DecorationButtonGroup.pos 0 w1 = .ok { x := 5, y := 3 } ∧
        SameButtons threeButtons w1 ∧
        (ExactLayout threeButtons 5 threeButtonsGroup.spacing threeButtonsGroup.buttons →
          LaidOut threeButtons w1 0 5 3 threeButtonsGroup.spacing threeButtonsGroup.buttons) ∧
        ∃ ext, w1.emitted = threeButtons.emitted ++
            Signal.geometryChanged 0
              { x := 5, y := 3, width := threeButtonsGroup.geometry.width,
                height := threeButtonsGroup.geometry.height } :: ext ∧
          ∀ s ∈ ext, s.isLayoutSignal = true) :=
  C11_setPos 0 0 { x := 5, y := 3 } threeButtons threeButtonsGroup (by decide) (by decide)
    (by decide)

/-- C11 as stated fails while a layout pass is in progress: in the state
`duringLayout` (the guard set, group 0 at (0, 0) with size 0x0 and three visible
members at x = 0) `setPos((5, 3))` moves the origin, but the guarded layout does
nothing, so the size stays 0x0 instead of the computed 49x8 and no member is
re-positioned. -/
theorem C11_guard_set_counterexample :
    ¬ ∃ w1, DecorationButtonGroup.setPos 2 0 { x := 5, y := 3 } duringLayout = .ok w1 ∧
      LaidOut duringLayout w1 0 5 3 2 [0, 1, 2] := by
  rintro ⟨w1, h1, hlo⟩
  have hw : DecorationButtonGroup.setPos 2 0 { x := 5, y := 3 } duringLayout
      = .ok (stateOr (DecorationButtonGroup.setPos 2 0 { x := 5, y := 3 } duringLayout)
          duringLayout) := by decide!
  rw [hw] at h1
  cases h1
  have h := hlo.1
  revert h
  decide!

/-- C12 (amended). For every group outside a layout pass whose members are live, and
every finite value `v`: if `v` is the current spacing, `setSpacing(v)` returns the state it
was given (nothing changes, nothing is emitted); otherwise it succeeds, and it is the
assignment of the spacing with its `spacingChanged(v)`, followed by a layout pass:
afterwards `spacing()` is `v`, every button is as before up to its origin, and the
notifications emitted are one `spacingChanged(v)` followed by layout notifications
only.  For values in the exact range (the x origin and `v` multiples of `2 ^ (-20)`,
positions in the range of `int`) the group is laid out with spacing `v`: size and
member positions are the ones computed with `v`. -/
theorem C12_setSpacing (fuel gid : Nat) (v : qreal) (w : World)
    (d : DecorationButtonGroup.Private) (h0 : w.s_layoutRecursion = false)
    (hg : w.groups[gid]? = some d) (hl : ∀ q ∈ d.buttons, (w.data q).isSome = true) :
    (d.spacing = v → DecorationButtonGroup.setSpacing (fuel + 2) gid v w = .ok w) ∧
    (d.spacing ≠ v →
      ∃ w1, Private.updateLayout (fuel + 2) gid (w.withSpacing gid d v) = .ok w1 ∧
        DecorationButtonGroup.setSpacing (fuel + 2) gid v w = .ok w1 ∧
        DecorationButtonGroup.spacing gid w1 = .ok v ∧
        SameButtons w w1 ∧
        (ExactLayout w d.geometry.x v d.buttons →
          LaidOut w w1 gid d.geometry.x d.geometry.y v d.buttons) ∧
        ∃ ext, w1.emitted = w.emitted ++ Signal.spacingChanged gid v :: ext ∧
          (∀ s ∈ ext, s.isLayoutSignal = true) ∧
          (Signal.spacingChanged gid v :: ext).filter Signal.isSpacingChanged
            = [Signal.spacingChanged gid v]) := by
  constructor
  · intro hs
    simp [DecorationButtonGroup.setSpacing, World.group, hg, hs]
  · intro hs
    let d1 : DecorationButtonGroup.Private := { d with spacing := v }
    have hg0 : (w.withSpacing gid d v).groups[gid]? = some d1 :=
      getElem?_set_self_of_some _ _ _ _ hg
    have hd0 : ∀ q, (w.withSpacing gid d v).data q = w.data q := fun _ => rfl
    obtain ⟨w1, h1, hlo⟩ := updateLayout_total fuel gid (w.withSpacing gid d v) d1 hg0 hl
    obtain ⟨d2, hg2, hf2⟩ := layoutOnly_group hlo gid d1 hg0
    obtain ⟨_, _, _, hsb, _, ext, hext, hlay⟩ := hlo
    refine ⟨w1, h1, ?_, ?_, ?_, ?_, ext, ?_, hlay, ?_⟩
    · simp only [DecorationButtonGroup.setSpacing, World.group, hg, hs, if_false]
      exact h1
    · exact (spacing_ok_iff gid w1 v).mpr ⟨d2, hg2, frame_spacing hf2⟩
    · intro q
      rw [hsb q, hd0 q]
    · intro hE
      obtain ⟨w2, h2, hlo2, _⟩ := updateLayout_laidOut fuel gid (w.withSpacing gid d v) d1
        h0 hg0 hl (exactLayout_congr hE (fun _ _ h => h) (fun _ _ => rfl))
      rw [h1] at h2
      cases h2
      exact laidOut_congr hd0 hlo2
    · rw [hext]
      simp [World.withSpacing, World.record]
    · rw [List.filter_cons_of_pos (by rfl)]
      congr 1
      rw [List.filter_eq_nil_iff]
      intro s hs1 hs2
      have := hlay s hs1
      cases s <;> simp_all [Signal.isLayoutSignal, Signal.isSpacingChanged]

/-- C12 (amended) at the sample state `threeButtons` (spacing 2), for the new
spacing 4. -/
theorem C12_setSpacing_witness :
    (threeButtonsGroup.spacing = 4 →
      DecorationButtonGroup.setSpacing (0 + 2) 0 4 threeButtons = .ok threeButtons) ∧
    (threeButtonsGroup.spacing ≠ 4 →
      ∃ w1, Private.updateLayout (0 + 2) 0 (threeButtons.withSpacing 0 threeButtonsGroup 4)
          = .ok w1 ∧
        DecorationButtonGroup.setSpacing (0 + 2) 0 4 threeButtons = .ok w1 ∧
        DecorationButtonGroup.spacing 0 w1 = .ok 4 ∧
        SameButtons threeButtons w1 ∧
        (ExactLayout threeButtons threeButtonsGroup.geometry.x 4 threeButtonsGroup.buttons →
          LaidOut threeButtons w1 0 threeButtonsGroup.geometry.x threeButtonsGroup.geometry.y 4
            threeButtonsGroup.buttons) ∧
        ∃ ext, w1.emitted = threeButtons.emitted ++ Signal.spacingChanged 0 4 :: ext ∧
          (∀ s ∈ ext, s.isLayoutSignal = true) ∧
          (Signal.spacingChanged 0 4 :: ext).filter Signal.isSpacingChanged
            = [Signal.spacingChanged 0 4]) :=
  C12_setSpacing 0 0 4 threeButtons threeButtonsGroup (by decide) (by decide) (by decide)

/-- C12 as stated fails while a layout pass is in progress: in the state
`duringLayout` (the guard set, group 0 with spacing 2 and size 0x0) `setSpacing(4)`
stores the spacing and emits `spacingChanged(4)`, but the guarded layout does
nothing, so the size stays 0x0 instead of the 53x8 computed with the new spacing. -/
theorem C12_guard_set_counterexample :
    ¬ ∃ w1, DecorationButtonGroup.setSpacing 2 0 4 duringLayout = .ok w1 ∧
      LaidOut duringLayout w1 0 0 0 4 [0, 1, 2] := by
  rintro ⟨w1, h1, hlo⟩
  have hw : DecorationButtonGroup.setSpacing 2 0 4 duringLayout
      = .ok (stateOr (DecorationButtonGroup.setSpacing 2 0 4 duringLayout) duringLayout) := by
    decide!
  rw [hw] at h1
  cases h1
  have h := hlo.1
  revert h
  decide!

/-- C13 (amended): the spacing of a group is 0 after construction (by either
constructor), and it is non-negative in every state reached from a state with
non-negative spacings by operations in which every `setSpacing` argument is
non-negative. -/
theorem C13_spacing_nonnegative (fuel : Nat) (ops : List Op) (w w1 : World)
    (h0 : ∀ gid v, DecorationButtonGroup.spacing gid w = .ok v → 0 ≤ v)
    (hops : ∀ gid v, Op.setSpacing gid v ∈ ops → 0 ≤ v)
    (hrun : runAll fuel ops w = .ok w1) :
    (∀ gid v, DecorationButtonGroup.spacing gid w1 = .ok v → 0 ≤ v) ∧
    DecorationButtonGroup.spacing (DecorationButtonGroup.create w1).2
      (DecorationButtonGroup.create w1).1 = .ok 0 ∧
    ∀ type buttonCreator r,
      DecorationButtonGroup.createFor fuel type buttonCreator w1 = .ok r →
      DecorationButtonGroup.spacing r.2 r.1 = .ok 0 := by
  have hB : FlagProperty (fun _ => True) :=
    ⟨fun _ _ _ _ => trivial, fun _ => trivial, fun _ _ _ => trivial, fun _ _ _ => trivial,
      fun _ _ _ => trivial, fun _ _ _ => trivial⟩
  have hI : Inv (fun v => 0 ≤ v) (fun _ => True) (fun _ => True) w := by
    refine ⟨fun d hd => ?_, fun _ _ _ => trivial, trivial⟩
    obtain ⟨gid, hg⟩ := List.getElem?_of_mem hd
    exact h0 gid d.spacing ((spacing_ok_iff gid w d.spacing).mpr ⟨d, hg, rfl⟩)
  have hr : ∀ op ∈ ops, op.Respects (fun v => 0 ≤ v) (fun _ => True) := by
    intro op hop
    cases op with
    | setSpacing gid v => exact hops gid v hop
    | createGroupFor type c => intro _ _ _; trivial
    | decorationButtonsChanged gid type c => intro _ _ _; trivial
    | _ => trivial
  have hI1 := runAll_inv hB (le_refl (0 : qreal)) fuel ops w w1 hr hI hrun
  refine ⟨fun gid v hv => ?_, ?_, fun type c r h => createFor_spacing fuel type c w1 r h⟩
  · obtain ⟨d, hg, rfl⟩ := (spacing_ok_iff gid w1 v).mp hv
    exact hI1.1 d (List.getElem?_mem hg)
  · rw [spacing_ok_iff]
    exact ⟨{ geometry := { x := 0, y := 0, width := 0, height := 0 }, spacing := 0,
             buttons := [] }, by simp [DecorationButtonGroup.create], rfl⟩

/-- C13 (amended) for the run `sampleOps` from the empty state. -/
theorem C13_spacing_nonnegative_witness :
    (∀ gid v, DecorationButtonGroup.spacing gid (stateOr (runAll 2 sampleOps {}) {}) = .ok v →
      0 ≤ v) ∧
    DecorationButtonGroup.spacing
      (DecorationButtonGroup.create (stateOr (runAll 2 sampleOps {}) {})).2
      (DecorationButtonGroup.create (stateOr (runAll 2 sampleOps {}) {})).1 = .ok 0 ∧
    ∀ type buttonCreator r,
      DecorationButtonGroup.createFor 2 type buttonCreator
        (stateOr (runAll 2 sampleOps {}) {}) = .ok r →
      DecorationButtonGroup.spacing r.2 r.1 = .ok 0 :=
  C13_spacing_nonnegative 2 sampleOps {} (stateOr (runAll 2 sampleOps {}) {})
    (by intro gid v h; simp [DecorationButtonGroup.spacing, World.group] at h)
    (by
      intro gid v h
      simp only [sampleOps, List.mem_cons, Op.setSpacing.injEq, List.mem_nil_iff, or_false,
        reduceCtorEq, false_or] at h
      rcases h with ⟨_, rfl⟩ | ⟨_, rfl⟩ <;> norm_num)
    (by decide!)

/-- C13, as stated, fails: after constructing a group and calling `setSpacing(-1)` on
it, `spacing()` is `-1`. -/
theorem C13_negative_spacing_counterexample :
    ¬ (∀ (ops : List Op) (w1 : World), runAll 2 ops {} = .ok w1 →
        ∀ gid v, DecorationButtonGroup.spacing gid w1 = .ok v → 0 ≤ v) := by
  intro h
  have h1 := h negativeSpacingOps (stateOr (runAll 2 negativeSpacingOps {}) {}) (by decide!) 0
    (-1) (by decide!)
  norm_num at h1

/-- C14 (amended). For every group whose member entries are distinct live buttons,
`paint(painter, region)` succeeds and issues paint calls to exactly the visible
members, once each, in list order, each with the given painter and region; nothing
else changes (in particular neither the member list nor any geometry). -/
theorem C14_paint (gid painter repaintRegion : Nat) (w : World)
    (d : DecorationButtonGroup.Private) (hg : w.groups[gid]? = some d)
    (hl : ∀ p ∈ d.buttons, (w.data p).isSome = true) (hn : d.buttons.Nodup) :
    ∃ w1, DecorationButtonGroup.paint gid painter repaintRegion w = .ok w1 ∧
      PaintsVisibleOnce w w1 d.buttons painter repaintRegion ∧
      w1.emitted = w.emitted ++ (d.buttons.filter w.isVisible).map
        (fun p => Signal.paintCall p painter repaintRegion) ∧
      w1.groups = w.groups ∧ w1.heap = w.heap := by
  refine ⟨w.recordAll ((d.buttons.filter w.isVisible).map
      (fun p => Signal.paintCall p painter repaintRegion)), ?_, ?_, rfl, rfl, rfl⟩
  · unfold DecorationButtonGroup.paint World.group
    simp only [hg]
    have := paintLoop_eq painter repaintRegion d.buttons w [] hl
    rw [recordAll_nil, List.nil_append] at this
    exact this
  · exact ⟨d.buttons.filter w.isVisible, rfl, hn.filter _, List.filter_sublist _,
      fun p => List.mem_filter⟩

/-- C14 at the sample state `threeButtons`. -/
theorem C14_paint_witness :
    ∃ w1, DecorationButtonGroup.paint 0 7 9 threeButtons = .ok w1 ∧
      PaintsVisibleOnce threeButtons w1 threeButtonsGroup.buttons 7 9 ∧
      w1.emitted = threeButtons.emitted ++ (threeButtonsGroup.buttons.filter
        threeButtons.isVisible).map (fun p => Signal.paintCall p 7 9) ∧
      w1.groups = threeButtons.groups ∧ w1.heap = threeButtons.heap :=
  C14_paint 0 7 9 threeButtons threeButtonsGroup (by decide) (by decide) (by decide)

/-- C14, as stated, fails for a member list with a repeated entry: in the state
`duplicateEntry` (the list is `[0, 0]`, as after adding the button 0 twice) `paint`
issues two paint calls to the button 0. -/
theorem C14_duplicate_entry_counterexample :
    DecorationButtonGroup.paint 0 7 9 duplicateEntry
      = .ok (duplicateEntry.recordAll [.paintCall 0 7 9, .paintCall 0 7 9]) ∧
    ¬ ∃ w1, DecorationButtonGroup.paint 0 7 9 duplicateEntry = .ok w1 ∧
      PaintsVisibleOnce duplicateEntry w1 [0, 0] 7 9 := by
  have hw : DecorationButtonGroup.paint 0 7 9 duplicateEntry
      = .ok (duplicateEntry.recordAll [.paintCall 0 7 9, .paintCall 0 7 9]) := by decide
  refine ⟨hw, ?_⟩
  rintro ⟨w1, h1, calls, hc, hnd, _, _⟩
  rw [hw] at h1
  cases h1
  have he := congrArg World.emitted hc
  simp only [World.recordAll, duplicateEntry, List.nil_append] at he
  match calls, he, hnd with
  | [], he, _ => simp at he
  | [_], he, _ => simp at he
  | [a, b], he, hnd =>
    simp only [List.map_cons, List.map_nil, List.cons.injEq, Signal.paintCall.injEq, and_true,
      true_and] at he
    obtain ⟨rfl, rfl⟩ := he
    simp at hnd
  | _ :: _ :: _ :: _, he, _ => simp at he

/-- C15. For the side-bound constructor with a factory `f`: it succeeds, and the
members of the new group are, in order, the non-null results of `f` over the
settings' list for the side (left list for `Position::Left`, right list otherwise),
as newly allocated buttons, each connected to the group.  When the list has changed
and the connected slot runs (in a state `v`, for a group `gid`): it succeeds, the
member list becomes, in order, the non-null results of `f` over the list now in the
settings, again as newly allocated buttons; every previous member that was live is
destroyed, and no previous entry is in the new list. -/
theorem C15_factory_population (fuel gid : Nat) (type : DecorationButtonGroup.Position)
    (f : DecorationButtonType → Option DecorationButton) (w v : World)
    (d : DecorationButtonGroup.Private) (hg : v.groups[gid]? = some d) :
    (∃ r, DecorationButtonGroup.createFor (fuel + 2) type f w = .ok r ∧
      r.2 = w.groups.length ∧
      Populated w r.1 r.2 ((w.buttonTypes type).filterMap f)) ∧
    (∃ v1, DecorationButtonGroup.decorationButtonsChanged (fuel + 2) gid type f v = .ok v1 ∧
      Populated v v1 gid ((v.buttonTypes type).filterMap f) ∧
      (∀ p ∈ d.buttons, (v.data p).isSome = true → v1.data p = none) ∧
      (∀ p ∈ d.buttons, p < v.heap.length →
        p ∉ List.range' v.heap.length ((v.buttonTypes type).filterMap f).length)) := by
  constructor
  · obtain ⟨w1, d1, h1, hg1, hb1, hlen1, _, hnew1⟩ := createButtonsLoop_spec fuel
      w.groups.length f (w.buttonTypes type) (DecorationButtonGroup.create w).1
      { geometry := { x := 0, y := 0, width := 0, height := 0 }, spacing := 0, buttons := [] }
      (by simp [DecorationButtonGroup.create]) (by intro p hp; cases hp)
    refine ⟨(w1, w.groups.length), ?_, rfl, ?_, hlen1, hnew1⟩
    · unfold DecorationButtonGroup.createFor createButtons
      have h1' : createButtonsLoop (fuel + 2) (DecorationButtonGroup.create w).2 f
          (if type = .Left then (DecorationButtonGroup.create w).1.settings.decorationButtonsLeft
           else (DecorationButtonGroup.create w).1.settings.decorationButtonsRight)
          (DecorationButtonGroup.create w).1 = .ok w1 := h1
      simp only [h1']
      rfl
    · rw [buttons_of_groups _ w1 d1 hg1, hb1]
      rfl
  · obtain ⟨hq1, hq2, hq3⟩ := qDeleteAll_frame d.buttons v
    have hg0 : ((qDeleteAll d.buttons v).withButtons gid d []).groups[gid]?
        = some { d with buttons := [] } :=
      withButtons_get _ gid d [] (by rw [hq1]; exact hg)
    obtain ⟨v1, d1, h1, hg1, hb1, hlen1, hold1, hnew1⟩ := createButtonsLoop_spec fuel
      gid f (v.buttonTypes type) ((qDeleteAll d.buttons v).withButtons gid d [])
      { d with buttons := [] } hg0 (by intro p hp; cases hp)
    have hlen0 : ((qDeleteAll d.buttons v).withButtons gid d []).heap.length = v.heap.length :=
      hq3
    rw [hlen0] at hb1 hlen1 hold1 hnew1
    refine ⟨v1, ?_, ⟨?_, hlen1, hnew1⟩, ?_, ?_⟩
    · unfold DecorationButtonGroup.decorationButtonsChanged World.group createButtons
      simp only [hg]
      have h1' : createButtonsLoop (fuel + 2) gid f
          (if type = .Left then
              ((qDeleteAll d.buttons v).withButtons gid d []).settings.decorationButtonsLeft
           else ((qDeleteAll d.buttons v).withButtons gid d []).settings.decorationButtonsRight)
          ((qDeleteAll d.buttons v).withButtons gid d []) = .ok v1 := by
        have hs : ((qDeleteAll d.buttons v).withButtons gid d []).settings = v.settings := hq2
        rw [hs]
        exact h1
      exact h1'
    · rw [buttons_of_groups _ v1 d1 hg1, hb1]
      rfl
    · intro p hp hlive
      obtain ⟨c, hc⟩ := Option.isSome_iff_exists.mp hlive
      have h := hold1 p (data_lt v p c hc)
      rw [data_withButtons, qDeleteAll_none d.buttons v p (Or.inl hp)] at h
      cases hv : v1.data p with
      | none => rfl
      | some c1 => rw [hv] at h; simp at h
    · intro p _ hlt hmem
      have := (List.mem_range'_1.mp hmem).1
      omega

/-- C15 for the construction of a left-side group from `leftCloseOnly`, and for the
re-population of the group of `threeButtonsResettled`. -/
theorem C15_factory_population_witness :
    (∃ r, DecorationButtonGroup.createFor (0 + 2) .Left tenByFive leftCloseOnly = .ok r ∧
      r.2 = leftCloseOnly.groups.length ∧
      Populated leftCloseOnly r.1 r.2 ((leftCloseOnly.buttonTypes .Left).filterMap tenByFive)) ∧
    (∃ v1, DecorationButtonGroup.decorationButtonsChanged (0 + 2) 0 .Left tenByFive
        threeButtonsResettled = .ok v1 ∧
      Populated threeButtonsResettled v1 0
        ((threeButtonsResettled.buttonTypes .Left).filterMap tenByFive) ∧
      (∀ p ∈ threeButtonsGroup.buttons, (threeButtonsResettled.data p).isSome = true →
        v1.data p = none) ∧
      (∀ p ∈ threeButtonsGroup.buttons, p < threeButtonsResettled.heap.length →
        p ∉ List.range' threeButtonsResettled.heap.length
          ((threeButtonsResettled.buttonTypes .Left).filterMap tenByFive).length)) :=
  C15_factory_population 0 0 .Left tenByFive leftCloseOnly threeButtonsResettled
    threeButtonsGroup (by decide)

/-- C16 (amended). `removeButton` (by type or by identity) disconnects nothing: for a
group with live members the call succeeds, and whenever it returns, the connections
of every button (the groups whose layout pass its `visibilityChanged` and
`geometryChanged` signals run) are what they were before the call; so a group stays
subscribed to a member it has removed. -/
theorem C16_removeButton_keeps_connections (fuel gid r : Nat) (t : DecorationButtonType)
    (w : World) (d : DecorationButtonGroup.Private) (hg : w.groups[gid]? = some d)
    (hl : ∀ p ∈ d.buttons, (w.data p).isSome = true) :
    (∃ w1, DecorationButtonGroup.removeButton (fuel + 2) gid t w = .ok w1) ∧
    (∃ w1, DecorationButtonGroup.removeButtonPtr (fuel + 2) gid r w = .ok w1) ∧
    (∀ f w1, DecorationButtonGroup.removeButton f gid t w = .ok w1 →
      ∀ q, (w1.data q).map DecorationButton.connections
        = (w.data q).map DecorationButton.connections) ∧
    (∀ f w1, DecorationButtonGroup.removeButtonPtr f gid r w = .ok w1 →
      ∀ q, (w1.data q).map DecorationButton.connections
        = (w.data q).map DecorationButton.connections) :=
  ⟨removeButton_total fuel gid t w d hg hl, removeButtonPtr_total fuel gid r w d hg hl,
    fun f w1 h q => connections_removeButton f gid t w w1 h q,
    fun f w1 h q => connections_removeButtonPtr f gid r w w1 h q⟩

/-- C16 at the sample state `threeButtons`, removing the button 1 (of type
`Maximize`). -/
theorem C16_removeButton_keeps_connections_witness :
    (∃ w1, DecorationButtonGroup.removeButton (0 + 2) 0 .Maximize threeButtons = .ok w1) ∧
    (∃ w1, DecorationButtonGroup.removeButtonPtr (0 + 2) 0 1 threeButtons = .ok w1) ∧
    (∀ f w1, DecorationButtonGroup.removeButton f 0 .Maximize threeButtons = .ok w1 →
      ∀ q, (w1.data q).map DecorationButton.connections
        = (threeButtons.data q).map DecorationButton.connections) ∧
    (∀ f w1, DecorationButtonGroup.removeButtonPtr f 0 1 threeButtons = .ok w1 →
      ∀ q, (w1.data q).map DecorationButton.connections
        = (threeButtons.data q).map DecorationButton.connections) :=
  C16_removeButton_keeps_connections 0 0 1 .Maximize threeButtons threeButtonsGroup
    (by decide) (by decide)

/-- C16, as stated, fails: after `removeButton` of the button 1 of `threeButtons` (by
identity; by type it is the same) the list of group 0 is `[0, 2]`, but group 0 is
still connected to both signals of the button 1, and a later change of the button's
visibility or geometry calls the group's layout pass (shown by giving the slots no
fuel: the change then cannot complete). -/
theorem C16_still_subscribed_counterexample :
    DecorationButtonGroup.removeButtonPtr 2 0 1 threeButtons = .ok afterRemoval ∧
    DecorationButtonGroup.removeButton 2 0 .Maximize threeButtons = .ok afterRemoval ∧
    DecorationButtonGroup.buttons 0 afterRemoval = .ok [0, 2] ∧
    (afterRemoval.data 1).map DecorationButton.connections = some ([0], [0]) ∧
    DecorationButton.setVisible (Private.updateLayout 0) 1 false afterRemoval
      = .error .outOfFuel ∧
    DecorationButton.setGeometry (Private.updateLayout 0) 1
      { x := 0, y := 0, width := 21, height := 8 } afterRemoval = .error .outOfFuel := by
  decide!

/-- C17 (amended). For every flag among `enabled`, `checkable`, `visible` and
`hovered` of every live button: setting the flag to its current value returns the
state as it was (nothing emitted), and setting it to the negation changes it and
emits exactly one change notification of that flag, carrying the new value.  The
same holds for `checked` when the button is checkable, and for `pressed`, set for
the pointer button `m`, when no other pointer button is held on the button.  (For
`visible` the groups the button has been added to must exist and have live members,
so that the layout passes the change triggers return.) -/
theorem C17_flag_setters (fuel : Nat) (m : MouseButton) (f : Flag) (p : Nat) (w : World)
    (hc : f = .checked → ∀ b, w.data p = some b → b.checkable = true)
    (hm : f = .pressed → ∀ b, w.data p = some b → ∀ x ∈ b.pressedButtons, x = m)
    (hl : f = .visible → ∀ b, w.data p = some b → ∀ g ∈ b.visibilityChangedSlots,
      ∃ d, w.groups[g]? = some d ∧ ∀ q ∈ d.buttons, (w.data q).isSome = true) :
    FlagSetterLaw (Private.updateLayout (fuel + 2)) m f p w := by
  cases f with
  | enabled => exact flagLaw_enabled _ m p w
  | checkable => exact flagLaw_checkable _ m p w
  | checked => exact flagLaw_checked _ m p w (hc rfl)
  | visible => exact flagLaw_visible fuel m p w (hl rfl)
  | hovered => exact flagLaw_hovered _ m p w
  | pressed => exact flagLaw_pressed _ m p w (hm rfl)

/-- C17 (amended) at the sample state `threeButtons`, for the flag `visible` of the
middle button, which is a member of group 0. -/
theorem C17_flag_setters_witness :
    FlagSetterLaw (Private.updateLayout (0 + 2)) .LeftButton .visible 1 threeButtons :=
  C17_flag_setters 0 .LeftButton .visible 1 threeButtons (by decide) (by decide) (by decide)

/-- C17 as stated fails for `checked`: on the `Custom` button of `customButton`, which
is not checkable and not checked, `setChecked(true)` neither changes the flag nor
emits a notification. -/
theorem C17_setChecked_counterexample :
    ¬ FlagSetterLaw (Private.updateLayout 2) .LeftButton .checked 0 customButton := by
  intro h
  obtain ⟨_, w1, h1, h2, _⟩ := h _ (by decide :
    customButton.data 0 = some { DecorationButton.create .Custom with
      geometry := { x := 0, y := 0, width := 10, height := 10 } })
  have hw : setFlag (Private.updateLayout 2) .LeftButton .checked 0
      (!Flag.checked.get { DecorationButton.create .Custom with
        geometry := { x := 0, y := 0, width := 10, height := 10 } }) customButton
      = .ok customButton := by decide
  rw [hw] at h1
  cases h1
  revert h2
  decide

/-- C18: in every state reached by operations from a state in which `checked` implies
`checkable` (the buttons a factory hands over being in such a state), `checked`
implies `checkable`; there `setChecked(true)` on a button that is not checkable
changes nothing and emits nothing, `checked` staying false, and on a checkable
button that is not checked it makes `checked` true with exactly one notification,
`checkedChanged(true)`. -/
theorem C18_checked_implies_checkable (fuel : Nat) (ops : List Op) (w w1 : World)
    (h0 : ∀ p b, w.data p = some b → b.checked = true → b.checkable = true)
    (hops : ∀ op ∈ ops,
      op.Respects (fun _ => True) (fun b => b.checked = true → b.checkable = true))
    (hrun : runAll fuel ops w = .ok w1) :
    (∀ p b, w1.data p = some b → b.checked = true → b.checkable = true) ∧
    (∀ p b, w1.data p = some b → b.checkable = false →
      b.checked = false ∧ DecorationButton.setChecked p true w1 = .ok w1) ∧
    (∀ p b, w1.data p = some b → b.checkable = true → b.checked = false →
      ∃ w2, DecorationButton.setChecked p true w1 = .ok w2 ∧
        w2.data p = some { b with checked := true } ∧
        w2.emitted = w1.emitted ++ [.checkedChanged p true]) := by
  have hB : FlagProperty (fun b => b.checked = true → b.checkable = true) := by
    refine ⟨fun b b1 e h => ?_, fun t => by simp [DecorationButton.create],
      fun b v h => ?_, fun b v h => ?_, fun b v h => ?_, fun b e h => ?_⟩
    · simp only [DecorationButton.flags, Prod.mk.injEq] at e
      rw [e.2.1, e.2.2.1]; exact h
    · unfold DecorationButton.afterSetCheckable
      cases hc : b.checkable <;> cases hk : b.checked <;> cases v <;> simp_all
    · unfold DecorationButton.afterSetChecked
      cases hc : b.checkable <;> cases hk : b.checked <;> cases v <;> simp_all
    · unfold DecorationButton.afterSetEnabled
      split
      · exact h
      · split <;> exact h
    · unfold DecorationButton.afterEvent
      split
      · cases e <;> exact h
      · exact h
  have hI1 := @runAll_inv (fun _ => True) _ (fun _ => True) hB trivial fuel ops w w1 hops
    ⟨fun _ _ => trivial, h0, trivial⟩ hrun
  refine ⟨hI1.2.1, fun p b hb hc => ?_, fun p b hb hc hk => ?_⟩
  · have hk : b.checked = false := by
      cases hk : b.checked with
      | false => rfl
      | true => have := hI1.2.1 p b hb hk; rw [hc] at this; cases this
    refine ⟨hk, ?_⟩
    rw [setChecked_eq p true w1 b hb]
    have h1 : b.afterSetChecked true = b := by simp [DecorationButton.afterSetChecked, hc]
    have h2 : signalsSetChecked p b true = [] := by simp [signalsSetChecked, hc]
    rw [h1, h2, update_self w1 p b hb]
  · refine ⟨_, setChecked_eq p true w1 b hb, ?_, ?_⟩
    · rw [data_update_same w1 p b _ _ hb]
      simp [DecorationButton.afterSetChecked, hc, hk]
    · simp [World.update, signalsSetChecked, hc, hk]

/-- C18 for the run `sampleButtonOps` from the empty state. -/
theorem C18_checked_implies_checkable_witness :
    (∀ p b, (stateOr (runAll 2 sampleButtonOps {}) {}).data p = some b →
      b.checked = true → b.checkable = true) ∧
    (∀ p b, (stateOr (runAll 2 sampleButtonOps {}) {}).data p = some b → b.checkable = false →
      b.checked = false ∧
        DecorationButton.setChecked p true (stateOr (runAll 2 sampleButtonOps {}) {})
          = .ok (stateOr (runAll 2 sampleButtonOps {}) {})) ∧
    (∀ p b, (stateOr (runAll 2 sampleButtonOps {}) {}).data p = some b → b.checkable = true →
      b.checked = false →
      ∃ w2, DecorationButton.setChecked p true (stateOr (runAll 2 sampleButtonOps {}) {})
          = .ok w2 ∧
        w2.data p = some { b with checked := true } ∧
        w2.emitted = (stateOr (runAll 2 sampleButtonOps {}) {}).emitted
          ++ [.checkedChanged p true]) :=
  C18_checked_implies_checkable 2 sampleButtonOps {} (stateOr (runAll 2 sampleButtonOps {}) {})
    (by intro p b h; simp [World.data] at h)
    (by
      intro op hop
      simp only [sampleButtonOps, List.mem_cons, List.mem_nil_iff, or_false] at hop
      rcases hop with h | h | h | h | h | h | h | h | h | h | h <;> subst h <;> trivial)
    (by decide!)

/-- C19. For a checkable button, `setCheckable(false)` results in `checkable == false`
and `checked == false` (nothing else in the button changes); if the button was
checked it emits exactly `checkableChanged(false)` followed by `checkedChanged(false)`,
and if it was not checked it emits `checkableChanged(false)` only. -/
theorem C19_setCheckable_false (p : Nat) (w : World) (b : DecorationButton)
    (hb : w.data p = some b) (hc : b.checkable = true) :
    ∃ w1, DecorationButton.setCheckable p false w = .ok w1 ∧
      w1.data p = some { b with checkable := false, checked := false } ∧
      w1.emitted = w.emitted ++
        (if b.checked = true then [Signal.checkableChanged p false, Signal.checkedChanged p false]
         else [Signal.checkableChanged p false]) := by
  unfold DecorationButton.setCheckable
  simp only [hb, hc, Bool.true_eq_false, if_false, Bool.not_false, Bool.true_and]
  cases hk : b.checked with
  | true =>
    refine ⟨_, rfl, ?_, ?_⟩
    · rw [data_record, data_record, data_store_same w p b _ hb]
    · simp [World.record, World.store]
  | false =>
    refine ⟨_, rfl, ?_, ?_⟩
    · rw [data_record, data_store_same w p b _ hb, ← hk]
    · simp [World.record, World.store]

/-- C19 at the sample state `checkedButton`. -/
theorem C19_setCheckable_false_witness :
    ∃ w1, DecorationButton.setCheckable 0 false checkedButton = .ok w1 ∧
      w1.data 0 = some { ({ DecorationButton.create .KeepAbove with
                              geometry := { x := 0, y := 0, width := 10, height := 10 },
                              checked := true } : DecorationButton) with
                          checkable := false, checked := false } ∧
      w1.emitted = checkedButton.emitted ++
        (if ({ DecorationButton.create .KeepAbove with
                 geometry := { x := 0, y := 0, width := 10, height := 10 },
                 checked := true } : DecorationButton).checked = true
         then [Signal.checkableChanged 0 false, Signal.checkedChanged 0 false]
         else [Signal.checkableChanged 0 false]) :=
  C19_setCheckable_false 0 checkedButton _ (by decide) (by decide)

/-- C20 (amended). For every button and every press event (position, pointer button)
that arrives unaccepted: if the button is visible and enabled, the position lies
within its geometry and the pointer button is among the accepted ones, the event is
accepted and the button is pressed afterwards, with exactly one `pressedChanged(true)`
if it was not pressed before and no notification if a pointer button was held on it
already; in every other case the event stays unaccepted and the state is returned as
it was (nothing is emitted, and `pressed` keeps its value).  In particular a press
outside the geometry is never accepted.  While no pointer button is held on the
button, this is the claim as stated (`PressLaw`). -/
theorem C20_press_event (p : Nat) (pos : QPoint) (button : MouseButton) (w : World)
    (b : DecorationButton) (hb : w.data p = some b) :
    (b.pressedButtons = [] → PressLaw p pos button w) ∧
    ((b.visible && b.enabled && b.geometry.contains pos
        && decide (button ∈ b.acceptedButtons)) = true →
      ∃ w1, DecorationButton.event p (.ButtonPress pos button) false w = .ok (w1, true) ∧
        (w1.data p).map DecorationButton.isPressed = some true ∧
        (b.isPressed = false → w1.emitted = w.emitted ++ [Signal.pressedChanged p true]) ∧
        (b.isPressed = true → w1.emitted = w.emitted)) ∧
    ((b.visible && b.enabled && b.geometry.contains pos
        && decide (button ∈ b.acceptedButtons)) = false →
      DecorationButton.event p (.ButtonPress pos button) false w = .ok (w, false)) ∧
    (b.geometry.contains pos = false →
      DecorationButton.event p (.ButtonPress pos button) false w = .ok (w, false)) := by
  have hno : (b.visible && b.enabled && b.geometry.contains pos
        && decide (button ∈ b.acceptedButtons)) = false →
      DecorationButton.event p (.ButtonPress pos button) false w = .ok (w, false) := by
    intro h
    unfold DecorationButton.event
    simp only [hb, h]
    rfl
  have hyes : (b.visible && b.enabled && b.geometry.contains pos
        && decide (button ∈ b.acceptedButtons)) = true →
      ∃ w1, DecorationButton.event p (.ButtonPress pos button) false w = .ok (w1, true) ∧
        (w1.data p).map DecorationButton.isPressed = some true ∧
        (b.isPressed = false → w1.emitted = w.emitted ++ [Signal.pressedChanged p true]) ∧
        (b.isPressed = true → w1.emitted = w.emitted) := by
    intro h
    unfold DecorationButton.event DecorationButton.setPressed
    simp only [hb, h, Bool.not_true, Bool.false_eq_true, if_false, if_true]
    by_cases hm : button ∈ b.pressedButtons
    · have hne : b.pressedButtons ≠ [] := List.ne_nil_of_mem hm
      simp only [hm, if_true]
      refine ⟨w, rfl, ?_, ?_, fun _ => rfl⟩
      · rw [hb]; simp [DecorationButton.isPressed, hne]
      · intro hp
        simp [DecorationButton.isPressed, hne] at hp
    · have hne : b.pressedButtons ++ [button] ≠ b.pressedButtons := by
        intro e
        have := congrArg List.length e
        simp at this
      simp only [hm, if_false, hne]
      by_cases he : b.pressedButtons = []
      · simp only [he, if_true]
        refine ⟨_, rfl, ?_, fun _ => rfl, ?_⟩
        · rw [data_record, data_store_same w p b _ hb]; rfl
        · intro hp
          simp [DecorationButton.isPressed, he] at hp
      · simp only [he, if_false]
        refine ⟨_, rfl, ?_, ?_, fun _ => rfl⟩
        · rw [data_store_same w p b _ hb]
          simp [DecorationButton.isPressed]
        · intro hp
          simp [DecorationButton.isPressed, he] at hp
  refine ⟨?_, hyes, hno, fun h => hno (by simp [h])⟩
  intro h0 c hc
  rw [hb] at hc
  cases hc
  have hnp : b.isPressed = false := by simp [DecorationButton.isPressed, h0]
  constructor
  · intro h
    obtain ⟨w1, h1, h2, h3, _⟩ := hyes h
    exact ⟨w1, h1, h2, h3 hnp⟩
  · intro h
    refine ⟨w, hno h, ?_, rfl⟩
    rw [hb]
    simp [hnp]

/-- C20 (amended) at the sample state `customButton`: a primary-button press at
(5, 5), inside the geometry, is accepted, and one at (15, 5), outside it, is not. -/
theorem C20_press_event_witness :
    (∃ w1, DecorationButton.event 0 (.ButtonPress (QPoint.mk 5 5) .LeftButton) false customButton
        = .ok (w1, true) ∧
      (w1.data 0).map DecorationButton.isPressed = some true ∧
      (false = false → w1.emitted = customButton.emitted ++ [Signal.pressedChanged 0 true]) ∧
      (false = true → w1.emitted = customButton.emitted)) ∧
    DecorationButton.event 0 (.ButtonPress (QPoint.mk 15 5) .LeftButton) false customButton
      = .ok (customButton, false) ∧
    PressLaw 0 (QPoint.mk 15 5) .LeftButton customButton :=
  ⟨(C20_press_event 0 (QPoint.mk 5 5) .LeftButton customButton
      { DecorationButton.create .Custom with
          geometry := { x := 0, y := 0, width := 10, height := 10 } } (by decide)).2.1
      (by decide),
    (C20_press_event 0 (QPoint.mk 15 5) .LeftButton customButton
      { DecorationButton.create .Custom with
          geometry := { x := 0, y := 0, width := 10, height := 10 } } (by decide)).2.2.2
      (by decide),
    (C20_press_event 0 (QPoint.mk 15 5) .LeftButton customButton
      { DecorationButton.create .Custom with
          geometry := { x := 0, y := 0, width := 10, height := 10 } } (by decide)).1
      (by decide)⟩

/-- C20 as stated fails while a pointer button is held on the button.  On the
`Maximize` button of `rightHeld` (the secondary pointer button held, as after the
first press of `testMaximize`) a middle-button press at (5, 5) is accepted, but the
button was pressed already and no `pressedChanged(true)` is emitted; and a
middle-button press at (15, 5), outside the geometry, stays unaccepted, but `pressed`
is true, not false. -/
theorem C20_button_held_counterexample :
    ¬ PressLaw 0 (QPoint.mk 5 5) .MiddleButton rightHeld ∧
    ¬ PressLaw 0 (QPoint.mk 15 5) .MiddleButton rightHeld := by
  constructor
  · intro h
    obtain ⟨h1, _⟩ := h _ (by decide : rightHeld.data 0 = some
      { DecorationButton.create .Maximize with
          geometry := { x := 0, y := 0, width := 10, height := 10 },
          pressedButtons := [.RightButton] })
    obtain ⟨w1, he, _, hp⟩ := h1 (by decide)
    have hw : DecorationButton.event 0 (.ButtonPress (QPoint.mk 5 5) .MiddleButton) false
        rightHeld
        = .ok ((stateOr ((DecorationButton.events 0
            [.ButtonPress (QPoint.mk 5 5) .MiddleButton] rightHeld).map Prod.fst) rightHeld),
          true) := by decide
    rw [hw] at he
    cases he
    revert hp
    decide
  · intro h
    obtain ⟨_, h2⟩ := h _ (by decide : rightHeld.data 0 = some
      { DecorationButton.create .Maximize with
          geometry := { x := 0, y := 0, width := 10, height := 10 },
          pressedButtons := [.RightButton] })
    obtain ⟨w1, he, hp, _⟩ := h2 (by decide)
    have hw : DecorationButton.event 0 (.ButtonPress (QPoint.mk 15 5) .MiddleButton) false
        rightHeld = .ok (rightHeld, false) := by decide
    rw [hw] at he
    cases he
    revert hp
    decide

/-- C21 (amended). For every button and every release event of the pointer button
`m`: if no other pointer button is held on the button, the claim holds as stated (a
pressed button accepts the event, stops being pressed with `pressedChanged(false)`,
and emits exactly one `clicked(m)`, followed by the request of the click; a button
that is not pressed leaves the event unaccepted and changes nothing).  In general,
if `m` is held on the button the event is accepted, `m` stops being held, and the
signals are `pressedChanged(false)` (only if no pointer button remains held), one
`clicked(m)` and the request; if `m` is not held the event stays unaccepted and the
state is returned as it was. -/
theorem C21_release_event (p : Nat) (pos : QPoint) (m : MouseButton) (w : World)
    (b : DecorationButton) (hb : w.data p = some b) :
    ((∀ x ∈ b.pressedButtons, x = m) → ReleaseLaw p pos m w) ∧
    (m ∈ b.pressedButtons →
      ∃ w1, DecorationButton.event p (.ButtonRelease pos m) false w = .ok (w1, true) ∧
        w1.data p = some { b with pressedButtons := heldAfter b.pressedButtons m false } ∧
        w1.emitted = w.emitted ++
          ((if b.pressedButtons.filter (fun x => decide (x ≠ m)) = []
            then [Signal.pressedChanged p false] else [])
            ++ Signal.clicked p m :: requestSignals p b.type m)) ∧
    (m ∉ b.pressedButtons →
      DecorationButton.event p (.ButtonRelease pos m) false w = .ok (w, false)) := by
  have hno : m ∉ b.pressedButtons →
      DecorationButton.event p (.ButtonRelease pos m) false w = .ok (w, false) := by
    intro hm
    rw [event_eq p _ false w b hb]
    simp [DecorationButton.afterEvent, signalsEvent, DecorationButton.handles, hm,
      update_self w p b hb]
  have hyes : m ∈ b.pressedButtons →
      ∃ w1, DecorationButton.event p (.ButtonRelease pos m) false w = .ok (w1, true) ∧
        w1.data p = some { b with pressedButtons := heldAfter b.pressedButtons m false } ∧
        w1.emitted = w.emitted ++
          ((if b.pressedButtons.filter (fun x => decide (x ≠ m)) = []
            then [Signal.pressedChanged p false] else [])
            ++ Signal.clicked p m :: requestSignals p b.type m) := by
    intro hm
    have hne : b.pressedButtons ≠ [] := List.ne_nil_of_mem hm
    refine ⟨w.update p (b.afterEvent (.ButtonRelease pos m))
      (signalsEvent p b (.ButtonRelease pos m)), ?_, ?_, ?_⟩
    · rw [event_eq p _ false w b hb]
      simp [DecorationButton.handles, hm]
    · rw [data_update_same w p b _ _ hb]
      simp [DecorationButton.afterEvent, DecorationButton.handles, hm, heldAfter]
    · have hh : b.handles (.ButtonRelease pos m) = true := by
        simp [DecorationButton.handles, hm]
      have hiE : b.pressedButtons.isEmpty = false := by
        cases hl : b.pressedButtons with
        | nil => exact absurd hl hne
        | cons _ _ => rfl
      simp only [World.update, signalsEvent, hh, if_true, heldAfter, Bool.false_eq_true,
        if_false, requestSignals, DecorationButton.isPressed, hiE, Bool.not_false]
      by_cases hf : b.pressedButtons.filter (fun x => decide (x ≠ m)) = []
      · rw [hf, if_pos rfl]
        simp
      · have hfE : (b.pressedButtons.filter (fun x => decide (x ≠ m))).isEmpty = false := by
          cases hl : b.pressedButtons.filter (fun x => decide (x ≠ m)) with
          | nil => exact absurd hl hf
          | cons _ _ => rfl
        rw [if_neg hf, hfE]
        simp
  refine ⟨?_, hyes, hno⟩
  intro hall c hc
  have hcb : c = b := by rw [hb] at hc; exact (Option.some.inj hc).symm
  subst hcb
  constructor
  · intro hp
    have hne : c.pressedButtons ≠ [] := by
      intro e; simp [DecorationButton.isPressed, e] at hp
    obtain ⟨x, hx⟩ := List.exists_mem_of_ne_nil _ hne
    have hm : m ∈ c.pressedButtons := by rw [← hall x hx]; exact hx
    have hf : c.pressedButtons.filter (fun x => decide (x ≠ m)) = [] := by
      rw [List.filter_eq_nil_iff]
      intro y hy
      simp [hall y hy]
    obtain ⟨w1, h1, h2, h3⟩ := hyes hm
    refine ⟨w1, h1, ?_, ?_⟩
    · rw [h2]
      simp only [heldAfter, Bool.false_eq_true, if_false, hf, Option.map_some',
        DecorationButton.isPressed, List.isEmpty_nil, Bool.not_true]
    · rw [h3, hf]; rfl
  · intro hp
    apply hno
    intro hm
    have hne : c.pressedButtons ≠ [] := List.ne_nil_of_mem hm
    simp [DecorationButton.isPressed, hne] at hp

/-- C21 (amended) at the sample state `twoHeld`, for the release of the middle
pointer button. -/
theorem C21_release_event_witness :
    ((∀ x ∈ [MouseButton.RightButton, MouseButton.MiddleButton], x = .MiddleButton) →
      ReleaseLaw 0 (QPoint.mk 5 5) .MiddleButton twoHeld) ∧
    (MouseButton.MiddleButton ∈ [MouseButton.RightButton, MouseButton.MiddleButton] →
      ∃ w1, DecorationButton.event 0 (.ButtonRelease (QPoint.mk 5 5) .MiddleButton) false twoHeld
          = .ok (w1, true) ∧
        w1.data 0 = some { DecorationButton.create .Maximize with
          geometry := { x := 0, y := 0, width := 10, height := 10 },
          pressedButtons :=
            heldAfter [MouseButton.RightButton, MouseButton.MiddleButton] .MiddleButton false } ∧
        w1.emitted = twoHeld.emitted ++
          ((if [MouseButton.RightButton, MouseButton.MiddleButton].filter
              (fun x => decide (x ≠ .MiddleButton)) = []
            then [Signal.pressedChanged 0 false] else [])
            ++ Signal.clicked 0 .MiddleButton ::
              requestSignals 0 DecorationButtonType.Maximize .MiddleButton)) ∧
    (MouseButton.MiddleButton ∉ [MouseButton.RightButton, MouseButton.MiddleButton] →
      DecorationButton.event 0 (.ButtonRelease (QPoint.mk 5 5) .MiddleButton) false twoHeld
        = .ok (twoHeld, false)) :=
  C21_release_event 0 (QPoint.mk 5 5) .MiddleButton twoHeld
    { DecorationButton.create .Maximize with
        geometry := { x := 0, y := 0, width := 10, height := 10 },
        pressedButtons := [.RightButton, .MiddleButton] } (by decide)

/-- C21, as stated, fails when two pointer buttons are held: on the pressed `Maximize`
button of `twoHeld` the release of the middle pointer button is accepted, but the
button stays pressed (the secondary pointer button is still held), as `testMaximize`
requires. -/
theorem C21_two_held_counterexample :
    ¬ ReleaseLaw 0 (QPoint.mk 5 5) .MiddleButton twoHeld := by
  intro h
  obtain ⟨h1, _⟩ := h _ (by decide : twoHeld.data 0 = some
    { DecorationButton.create .Maximize with
        geometry := { x := 0, y := 0, width := 10, height := 10 },
        pressedButtons := [.RightButton, .MiddleButton] })
  obtain ⟨w1, he, hp, _⟩ := h1 (by decide)
  have hw : DecorationButton.event 0 (.ButtonRelease (QPoint.mk 5 5) .MiddleButton) false twoHeld
      = .ok ((stateOr ((DecorationButton.events 0
          [.ButtonRelease (QPoint.mk 5 5) .MiddleButton] twoHeld).map Prod.fst) twoHeld),
        true) := by decide
  rw [hw] at he
  cases he
  revert hp
  decide

/-- C22. In every state reached by operations from a state in which no disabled button
is hovered (the buttons a factory hands over being in such a state), no disabled
button is hovered.  There, for every button: if it is enabled, a hover-enter
(hover-leave) event is accepted and `hovered` is true (false) afterwards, with one
`hoveredChanged` notification carrying the new value when the value changes (none
when it is that value already); if it is disabled, both events stay unaccepted and
the state is returned as it was; and `setEnabled(false)` on a hovered button makes
it disabled and not hovered, emitting `enabledChanged(false)` and then
`hoveredChanged(false)`. -/
theorem C22_hover (fuel : Nat) (ops : List Op) (w w1 : World)
    (h0 : ∀ p b, w.data p = some b → b.hovered = true → b.enabled = true)
    (hops : ∀ op ∈ ops,
      op.Respects (fun _ => True) (fun b => b.hovered = true → b.enabled = true))
    (hrun : runAll fuel ops w = .ok w1) :
    (∀ p b, w1.data p = some b → b.hovered = true → b.enabled = true) ∧
    (∀ p b, w1.data p = some b → b.enabled = true →
      (∃ w2, DecorationButton.event p .HoverEnter false w1 = .ok (w2, true) ∧
        w2.data p = some { b with hovered := true } ∧
        w2.emitted = w1.emitted ++
          (if b.hovered = true then [] else [Signal.hoveredChanged p true])) ∧
      (∃ w2, DecorationButton.event p .HoverLeave false w1 = .ok (w2, true) ∧
        w2.data p = some { b with hovered := false } ∧
        w2.emitted = w1.emitted ++
          (if b.hovered = false then [] else [Signal.hoveredChanged p false]))) ∧
    (∀ p b, w1.data p = some b → b.enabled = false →
      DecorationButton.event p .HoverEnter false w1 = .ok (w1, false) ∧
      DecorationButton.event p .HoverLeave false w1 = .ok (w1, false)) ∧
    (∀ p b, w1.data p = some b → b.hovered = true →
      ∃ w2, DecorationButton.setEnabled p false w1 = .ok w2 ∧
        (w2.data p).map DecorationButton.hovered = some false ∧
        (w2.data p).map DecorationButton.enabled = some false ∧
        ∃ ext, w2.emitted = w1.emitted ++
          Signal.enabledChanged p false :: Signal.hoveredChanged p false :: ext) := by
  have hI1 := @runAll_inv (fun _ => True) _ (fun _ => True) flagProperty_hovered trivial
    fuel ops w w1 hops ⟨fun _ _ => trivial, h0, trivial⟩ hrun
  refine ⟨hI1.2.1, fun p b hb he => ⟨?_, ?_⟩, fun p b hb he => ⟨?_, ?_⟩, fun p b hb hh => ?_⟩
  · rw [event_eq p _ false w1 b hb]
    simp only [DecorationButton.handles, he, Bool.or_true]
    refine ⟨_, rfl, ?_, ?_⟩
    · rw [data_update_same w1 p b _ _ hb]
      simp [DecorationButton.afterEvent, DecorationButton.handles, he]
    · simp [World.update, signalsEvent, DecorationButton.handles, he]
  · rw [event_eq p _ false w1 b hb]
    simp only [DecorationButton.handles, he, Bool.or_true]
    refine ⟨_, rfl, ?_, ?_⟩
    · rw [data_update_same w1 p b _ _ hb]
      simp [DecorationButton.afterEvent, DecorationButton.handles, he]
    · simp [World.update, signalsEvent, DecorationButton.handles, he]
  · rw [event_eq p _ false w1 b hb]
    simp [DecorationButton.afterEvent, signalsEvent, DecorationButton.handles, he,
      update_self w1 p b hb]
  · rw [event_eq p _ false w1 b hb]
    simp [DecorationButton.afterEvent, signalsEvent, DecorationButton.handles, he,
      update_self w1 p b hb]
  · have he : b.enabled = true := hI1.2.1 p b hb hh
    rw [setEnabled_eq p false w1 b hb]
    refine ⟨_, rfl, ?_, ?_, ?_⟩
    · rw [data_update_same w1 p b _ _ hb]
      simp [DecorationButton.afterSetEnabled, he]
    · rw [data_update_same w1 p b _ _ hb]
      simp [DecorationButton.afterSetEnabled, he]
    · refine ⟨if b.pressedButtons = [] then [] else [.pressedChanged p false], ?_⟩
      simp [World.update, signalsSetEnabled, he, hh]

/-- C22 for the run `sampleHoverOps` from the empty state. -/
theorem C22_hover_witness :
    (∀ p b, (stateOr (runAll 2 sampleHoverOps {}) {}).data p = some b →
      b.hovered = true → b.enabled = true) ∧
    (∀ p b, (stateOr (runAll 2 sampleHoverOps {}) {}).data p = some b → b.enabled = true →
      (∃ w2, DecorationButton.event p .HoverEnter false (stateOr (runAll 2 sampleHoverOps {}) {})
          = .ok (w2, true) ∧
        w2.data p = some { b with hovered := true } ∧
        w2.emitted = (stateOr (runAll 2 sampleHoverOps {}) {}).emitted ++
          (if b.hovered = true then [] else [Signal.hoveredChanged p true])) ∧
      (∃ w2, DecorationButton.event p .HoverLeave false (stateOr (runAll 2 sampleHoverOps {}) {})
          = .ok (w2, true) ∧
        w2.data p = some { b with hovered := false } ∧
        w2.emitted = (stateOr (runAll 2 sampleHoverOps {}) {}).emitted ++
          (if b.hovered = false then [] else [Signal.hoveredChanged p false]))) ∧
    (∀ p b, (stateOr (runAll 2 sampleHoverOps {}) {}).data p = some b → b.enabled = false →
      DecorationButton.event p .HoverEnter false (stateOr (runAll 2 sampleHoverOps {}) {})
        = .ok (stateOr (runAll 2 sampleHoverOps {}) {}, false) ∧
      DecorationButton.event p .HoverLeave false (stateOr (runAll 2 sampleHoverOps {}) {})
        = .ok (stateOr (runAll 2 sampleHoverOps {}) {}, false)) ∧
    (∀ p b, (stateOr (runAll 2 sampleHoverOps {}) {}).data p = some b → b.hovered = true →
      ∃ w2, DecorationButton.setEnabled p false (stateOr (runAll 2 sampleHoverOps {}) {})
          = .ok w2 ∧
        (w2.data p).map DecorationButton.hovered = some false ∧
        (w2.data p).map DecorationButton.enabled = some false ∧
        ∃ ext, w2.emitted = (stateOr (runAll 2 sampleHoverOps {}) {}).emitted ++
          Signal.enabledChanged p false :: Signal.hoveredChanged p false :: ext) :=
  C22_hover 2 sampleHoverOps {} (stateOr (runAll 2 sampleHoverOps {}) {})
    (by intro p b h; simp [World.data] at h)
    (by
      intro op hop
      simp only [sampleHoverOps, List.mem_cons, List.mem_nil_iff, or_false] at hop
      rcases hop with h | h | h | h | h | h | h | h | h | h <;> subst h <;> trivial)
    (by decide!)

/-- C23. For a `Maximize` button on which a click can take place (visible, enabled,
the position inside its geometry, the three pointer buttons accepted, none held),
that is checkable and whose `checked` flag agrees with the client (`checked` is "the
client is maximized horizontally and vertically"), and for every state of the
client: a click with the primary pointer button restores the client if it is fully
maximized and fully maximizes it otherwise; a click with the middle pointer button
toggles the horizontal state only, a click with the secondary one the vertical state
only; and after the notifications of the client have been delivered, `checked` is
again "maximized horizontally and vertically".  On a client that is not maximized at
all, a middle click leaves `checked` false, and a secondary click after it yields a
fully maximized client and `checked` true. -/
theorem C23_maximize_clicks (slot : Nat → World → Except Fault World) (p : Nat) (pos : QPoint)
    (w : World) (c : Client) (b : DecorationButton) (hb : w.data p = some b)
    (ht : b.type = .Maximize) (hk : b.checkable = true) (hs : b.checked = c.isMaximized)
    (hcl : ∀ m ∈ [MouseButton.LeftButton, MouseButton.MiddleButton, MouseButton.RightButton],
      b.clickable pos m) :
    (∃ w1 c1, click slot p pos .LeftButton (w, c) = .ok (w1, c1) ∧
      c1.maximizedHorizontally = !c.isMaximized ∧ c1.maximizedVertically = !c.isMaximized ∧
      (w1.data p).map DecorationButton.checked = some c1.isMaximized) ∧
    (∃ w1 c1, click slot p pos .MiddleButton (w, c) = .ok (w1, c1) ∧
      c1.maximizedHorizontally = !c.maximizedHorizontally ∧
      c1.maximizedVertically = c.maximizedVertically ∧
      (w1.data p).map DecorationButton.checked = some c1.isMaximized) ∧
    (∃ w1 c1, click slot p pos .RightButton (w, c) = .ok (w1, c1) ∧
      c1.maximizedHorizontally = c.maximizedHorizontally ∧
      c1.maximizedVertically = !c.maximizedVertically ∧
      (w1.data p).map DecorationButton.checked = some c1.isMaximized) ∧
    (c.maximizedHorizontally = false → c.maximizedVertically = false →
      ∃ w1 c1 w2 c2, click slot p pos .MiddleButton (w, c) = .ok (w1, c1) ∧
        (w1.data p).map DecorationButton.checked = some false ∧
        click slot p pos .RightButton (w1, c1) = .ok (w2, c2) ∧
        c2.maximizedHorizontally = true ∧ c2.maximizedVertically = true ∧
        (w2.data p).map DecorationButton.checked = some true) := by
  have hL := click_maximize slot p pos .LeftButton .toggleMaximize w c b hb ht hk hs
    (hcl _ (by simp)) rfl
  have hM := click_maximize slot p pos .MiddleButton .toggleMaximizeHorizontal w c b hb ht hk hs
    (hcl _ (by simp)) rfl
  have hR := click_maximize slot p pos .RightButton .toggleMaximizeVertical w c b hb ht hk hs
    (hcl _ (by simp)) rfl
  refine ⟨?_, ?_, ?_, ?_⟩
  · obtain ⟨w1, h1, h2⟩ := hL
    refine ⟨w1, _, h1, ?_, ?_, by rw [h2]; rfl⟩
    · cases hm : c.isMaximized <;> simp [Client.serve, hm]
    · cases hm : c.isMaximized <;> simp [Client.serve, hm]
  · obtain ⟨w1, h1, h2⟩ := hM
    exact ⟨w1, _, h1, rfl, rfl, by rw [h2]; rfl⟩
  · obtain ⟨w1, h1, h2⟩ := hR
    exact ⟨w1, _, h1, rfl, rfl, by rw [h2]; rfl⟩
  · intro hh hv
    obtain ⟨w1, h1, h2⟩ := hM
    obtain ⟨w2, h3, h4⟩ := click_maximize slot p pos .RightButton .toggleMaximizeVertical w1
      (c.serve .toggleMaximizeHorizontal)
      { b with checked := (c.serve .toggleMaximizeHorizontal).isMaximized } h2 ht hk rfl
      (hcl _ (by simp)) rfl
    refine ⟨w1, _, w2, _, h1, ?_, h3, ?_, ?_, ?_⟩
    · rw [h2]; simp [Client.serve, Client.isMaximized, hv]
    · simp [Client.serve, hh]
    · simp [Client.serve, hv]
    · rw [h4]; simp [Client.serve, Client.isMaximized, hh, hv]

/-- C23 at the sample state `maximizeButton`, with a client that is not maximized. -/
theorem C23_maximize_clicks_witness :
    (∃ w1 c1, click (Private.updateLayout 2) 0 (QPoint.mk 5 5) .LeftButton
        (maximizeButton, ({} : Client)) = .ok (w1, c1) ∧
      c1.maximizedHorizontally = !({} : Client).isMaximized ∧
      c1.maximizedVertically = !({} : Client).isMaximized ∧
      (w1.data 0).map DecorationButton.checked = some c1.isMaximized) ∧
    (∃ w1 c1, click (Private.updateLayout 2) 0 (QPoint.mk 5 5) .MiddleButton
        (maximizeButton, ({} : Client)) = .ok (w1, c1) ∧
      c1.maximizedHorizontally = !({} : Client).maximizedHorizontally ∧
      c1.maximizedVertically = ({} : Client).maximizedVertically ∧
      (w1.data 0).map DecorationButton.checked = some c1.isMaximized) ∧
    (∃ w1 c1, click (Private.updateLayout 2) 0 (QPoint.mk 5 5) .RightButton
        (maximizeButton, ({} : Client)) = .ok (w1, c1) ∧
      c1.maximizedHorizontally = ({} : Client).maximizedHorizontally ∧
      c1.maximizedVertically = !({} : Client).maximizedVertically ∧
      (w1.data 0).map DecorationButton.checked = some c1.isMaximized) ∧
    (({} : Client).maximizedHorizontally = false → ({} : Client).maximizedVertically = false →
      ∃ w1 c1 w2 c2, click (Private.updateLayout 2) 0 (QPoint.mk 5 5) .MiddleButton
          (maximizeButton, ({} : Client)) = .ok (w1, c1) ∧
        (w1.data 0).map DecorationButton.checked = some false ∧
        click (Private.updateLayout 2) 0 (QPoint.mk 5 5) .RightButton (w1, c1) = .ok (w2, c2) ∧
        c2.maximizedHorizontally = true ∧ c2.maximizedVertically = true ∧
        (w2.data 0).map DecorationButton.checked = some true) :=
  C23_maximize_clicks (Private.updateLayout 2) 0 (QPoint.mk 5 5) maximizeButton {}
    { DecorationButton.create .Maximize with
        geometry := { x := 0, y := 0, width := 10, height := 10 } }
    (by decide) (by decide) (by decide) (by decide)
    (by
      intro m hm
      simp only [List.mem_cons, List.mem_nil_iff, or_false] at hm
      rcases hm with rfl | rfl | rfl <;>
        exact ⟨by decide, by decide, by decide, by decide, by decide⟩)

/-- C24. For every visible, enabled button of type `Close`, `Minimize`, `QuickHelp`,
`KeepAbove`, `KeepBelow` or `Shade` that is not pressed, and every accepted pointer
button `m` and position inside the geometry: the press alone is accepted and records
`pressedChanged(true)` only (no request); press and release record, in this order,
`pressedChanged(true)`, `pressedChanged(false)`, `clicked(m)` and exactly one request
to the client, the one of the type (close, minimize, context help, toggle
keep-above, toggle keep-below, toggle shade).  For the toggling types, on a checkable
button whose `checked` flag agrees with the client's flag, a click toggles the
client's flag and `checked`, and a second click returns the client and the button to
their initial states. -/
theorem C24_typed_click (slot : Nat → World → Except Fault World) (p : Nat) (pos : QPoint)
    (m : MouseButton) (w : World) (c : Client) (b : DecorationButton)
    (hb : w.data p = some b) (hcl : b.clickable pos m)
    (ht : b.type ∈ [DecorationButtonType.Close, DecorationButtonType.Minimize,
      DecorationButtonType.QuickHelp, DecorationButtonType.KeepAbove,
      DecorationButtonType.KeepBelow, DecorationButtonType.Shade]) :
    (∃ w1, DecorationButton.event p (.ButtonPress pos m) false w = .ok (w1, true) ∧
      w1.emitted = w.emitted ++ [Signal.pressedChanged p true]) ∧
    (∃ r w2, clickRequest b.type m = some r ∧
      DecorationButton.events p [.ButtonPress pos m, .ButtonRelease pos m] w
        = .ok (w2, [true, true]) ∧
      w2.data p = some b ∧
      w2.emitted = w.emitted ++ [Signal.pressedChanged p true, Signal.pressedChanged p false,
        Signal.clicked p m, Signal.clientRequest p r] ∧
      (b.type = .Close → r = .close) ∧ (b.type = .Minimize → r = .minimize) ∧
      (b.type = .QuickHelp → r = .contextHelp) ∧ (b.type = .KeepAbove → r = .toggleKeepAbove) ∧
      (b.type = .KeepBelow → r = .toggleKeepBelow) ∧ (b.type = .Shade → r = .toggleShade)) ∧
    (∀ f, c.toggleFlag b.type = some f → b.checkable = true → b.checked = f →
      ∃ w1 c1 w2, click slot p pos m (w, c) = .ok (w1, c1) ∧
        c1.toggleFlag b.type = some (!f) ∧
        (w1.data p).map DecorationButton.checked = some (!f) ∧
        click slot p pos m (w1, c1) = .ok (w2, c) ∧ w2.data p = some b) := by
  refine ⟨?_, ?_, ?_⟩
  · obtain ⟨hv, he, hc, ha, h0⟩ := hcl
    rw [event_eq p _ false w b hb]
    have hp1 : b.handles (.ButtonPress pos m) = true := by
      simp [DecorationButton.handles, hv, he, hc, ha]
    refine ⟨_, by rw [hp1]; rfl, ?_⟩
    simp [World.update, signalsEvent, hp1, heldAfter, h0, DecorationButton.isPressed]
  · have hev := events_click p pos m w b hb hcl
    have hr : ∃ r, clickRequest b.type m = some r ∧
        (b.type = .Close → r = .close) ∧ (b.type = .Minimize → r = .minimize) ∧
        (b.type = .QuickHelp → r = .contextHelp) ∧
        (b.type = .KeepAbove → r = .toggleKeepAbove) ∧
        (b.type = .KeepBelow → r = .toggleKeepBelow) ∧ (b.type = .Shade → r = .toggleShade) := by
      simp only [List.mem_cons, List.mem_nil_iff, or_false] at ht
      rcases ht with h | h | h | h | h | h <;> rw [h] <;> simp [clickRequest]
    obtain ⟨r, hr1, hr2⟩ := hr
    refine ⟨r, _, hr1, hev, data_update_same w p b _ _ hb, ?_, hr2⟩
    simp [World.update, requestSignals, hr1]
  · intro f hf hk hs
    obtain ⟨h1, h2, h3⟩ := clientChanged_toggle slot p m c f _ b
      (data_update_same w p b _ _ hb) hf hk hs
    have hb1 : ((w.update p b (Signal.pressedChanged p true :: Signal.pressedChanged p false ::
          Signal.clicked p m :: requestSignals p b.type m)).update p { b with checked := !f }
          [Signal.checkedChanged p (!f)]).data p = some { b with checked := !f } :=
      data_update_same _ p b _ _ (data_update_same w p b _ _ hb)
    obtain ⟨h4, h5, h6⟩ := clientChanged_toggle slot p m (c.afterClick b.type m) (!f) _
      { b with checked := !f } (data_update_same _ p _ _ _ hb1) h1 hk rfl
    have hcl1 : DecorationButton.clickable { b with checked := !f } pos m := hcl
    refine ⟨(w.update p b (Signal.pressedChanged p true :: Signal.pressedChanged p false ::
          Signal.clicked p m :: requestSignals p b.type m)).update p { b with checked := !f }
          [Signal.checkedChanged p (!f)], c.afterClick b.type m,
      ((((w.update p b (Signal.pressedChanged p true :: Signal.pressedChanged p false ::
          Signal.clicked p m :: requestSignals p b.type m)).update p { b with checked := !f }
          [Signal.checkedChanged p (!f)]).update p { b with checked := !f }
          (Signal.pressedChanged p true :: Signal.pressedChanged p false ::
            Signal.clicked p m :: requestSignals p b.type m)).update p
          { b with checked := f } [Signal.checkedChanged p f]), ?_, h1, ?_, ?_, ?_⟩
    · rw [click_eq slot p pos m w c b hb hcl, h3]
    · rw [hb1]; rfl
    · rw [click_eq slot p pos m _ _ _ hb1 hcl1]
      dsimp only at h6 ⊢
      simp only [Bool.not_not] at h6
      rw [h6, h2]
    · rw [data_update_same _ p _ _ _ (data_update_same _ p _ _ _ hb1)]
      subst hs
      simp

/-- C24 at the sample state `keepAboveButton`, for a primary-button click at (5, 5) and a
client whose keep-above flag is not set, as in `testKeepAbove`. -/
theorem C24_typed_click_witness :
    (∃ w1, DecorationButton.event 0 (.ButtonPress (QPoint.mk 5 5) .LeftButton) false
        keepAboveButton = .ok (w1, true) ∧
      w1.emitted = keepAboveButton.emitted ++ [Signal.pressedChanged 0 true]) ∧
    (∃ r w2, clickRequest DecorationButtonType.KeepAbove .LeftButton = some r ∧
      DecorationButton.events 0
        [.ButtonPress (QPoint.mk 5 5) .LeftButton, .ButtonRelease (QPoint.mk 5 5) .LeftButton]
        keepAboveButton = .ok (w2, [true, true]) ∧
      w2.data 0 = some { DecorationButton.create .KeepAbove with
        geometry := { x := 0, y := 0, width := 10, height := 10 } } ∧
      w2.emitted = keepAboveButton.emitted ++
        [Signal.pressedChanged 0 true, Signal.pressedChanged 0 false,
          Signal.clicked 0 .LeftButton, Signal.clientRequest 0 r] ∧
      (DecorationButtonType.KeepAbove = .Close → r = .close) ∧
      (DecorationButtonType.KeepAbove = .Minimize → r = .minimize) ∧
      (DecorationButtonType.KeepAbove = .QuickHelp → r = .contextHelp) ∧
      (DecorationButtonType.KeepAbove = .KeepAbove → r = .toggleKeepAbove) ∧
      (DecorationButtonType.KeepAbove = .KeepBelow → r = .toggleKeepBelow) ∧
      (DecorationButtonType.KeepAbove = .Shade → r = .toggleShade)) ∧
    (∀ f, ({} : Client).toggleFlag DecorationButtonType.KeepAbove = some f →
      true = true → false = f →
      ∃ w1 c1 w2, click (Private.updateLayout 2) 0 (QPoint.mk 5 5) .LeftButton
          (keepAboveButton, ({} : Client)) = .ok (w1, c1) ∧
        c1.toggleFlag DecorationButtonType.KeepAbove = some (!f) ∧
        (w1.data 0).map DecorationButton.checked = some (!f) ∧
        click (Private.updateLayout 2) 0 (QPoint.mk 5 5) .LeftButton (w1, c1)
          = .ok (w2, ({} : Client)) ∧
        w2.data 0 = some { DecorationButton.create .KeepAbove with
          geometry := { x := 0, y := 0, width := 10, height := 10 } }) :=
  C24_typed_click (Private.updateLayout 2) 0 (QPoint.mk 5 5) .LeftButton keepAboveButton {}
    { DecorationButton.create .KeepAbove with
        geometry := { x := 0, y := 0, width := 10, height := 10 } }
    (by decide) ⟨by decide, by decide, by decide, by decide, by decide⟩ (by decide)

/-- C26: the code dereferences a dangling entry.  In the state `danglingEntry` (member
list `[0, 1, 2]`, the button 1 destroyed, the buttons 0 and 2 of types `Close` and
`Minimize`), `hasButton(Minimize)` and `removeButton(Minimize)` reach the null entry
and dereference it; only a search that stops before the entry (`hasButton(Close)`)
returns. -/
theorem C26_dangling_entry_is_dereferenced :
    DecorationButtonGroup.hasButton 0 .Minimize danglingEntry = .error .nullDeref ∧
    DecorationButtonGroup.hasButton 0 .Maximize danglingEntry = .error .nullDeref ∧
    (∀ fuel, DecorationButtonGroup.removeButton fuel 0 .Minimize danglingEntry
      = .error .nullDeref) ∧
    (∀ fuel, DecorationButtonGroup.removeButton fuel 0 .Close danglingEntry
      = .error .nullDeref) ∧
    DecorationButtonGroup.hasButton 0 .Close danglingEntry = .ok true := by
  refine ⟨by decide, by decide, fun fuel => ?_, fun fuel => ?_, by decide⟩
  · unfold DecorationButtonGroup.removeButton
    simp [World.group, danglingEntry]
    simp [removeTypeLoop, World.data]
  · unfold DecorationButtonGroup.removeButton
    simp [World.group, danglingEntry]
    simp [removeTypeLoop, World.data]

/-- C27. The reentrancy guard is the one flag `s_layoutRecursion` of the state, shared
by all groups.  While it is set (a layout pass of some group is in progress), for
every group: `updateLayout` and the slots run by a member notification return the
state as it was, and `setPos`, `setSpacing`, `addButton` (of a live button) and both
`removeButton` (the one by type on a list of live entries) return and leave the
geometry of every button and the size of every group as they were.  And the flag is
false after every sequence of operations that starts with the flag false: it is set
only while a layout pass executes. -/
theorem C27_shared_guard (fuel : Nat) (w : World) (hgd : w.s_layoutRecursion = true) :
    (∀ gid, Private.updateLayout (fuel + 1) gid w = .ok w) ∧
    (∀ gs, emit (Private.updateLayout (fuel + 1)) gs w = .ok w) ∧
    (∀ gid d, w.groups[gid]? = some d →
      (∀ pos, ∃ w1, DecorationButtonGroup.setPos (fuel + 1) gid pos w = .ok w1 ∧
        NoLayout w w1) ∧
      (∀ v, ∃ w1, DecorationButtonGroup.setSpacing (fuel + 1) gid v w = .ok w1 ∧
        NoLayout w w1) ∧
      (∀ button, (w.data button).isSome = true →
        ∃ w1, DecorationButtonGroup.addButton (fuel + 1) gid button w = .ok w1 ∧
          NoLayout w w1) ∧
      (∀ t, (∀ p ∈ d.buttons, (w.data p).isSome = true) →
        ∃ w1, DecorationButtonGroup.removeButton (fuel + 1) gid t w = .ok w1 ∧
          NoLayout w w1) ∧
      (∀ button, ∃ w1, DecorationButtonGroup.removeButtonPtr (fuel + 1) gid button w = .ok w1 ∧
        NoLayout w w1)) ∧
    (∀ (f : Nat) (ops : List Op) (v v1 : World), v.s_layoutRecursion = false →
      runAll f ops v = .ok v1 → v1.s_layoutRecursion = false) := by
  refine ⟨fun gid => updateLayout_guarded fuel gid w hgd,
    fun gs => emit_guarded fuel gs w hgd, fun gid d hg => ⟨?_, ?_, ?_, ?_, ?_⟩, ?_⟩
  · intro pos
    obtain ⟨w1, h⟩ := guarded_setPos_total fuel gid pos w d hgd hg
    exact ⟨w1, h, noLayout_setPos fuel gid pos w w1 hgd h⟩
  · intro v
    obtain ⟨w1, h⟩ := guarded_setSpacing_total fuel gid v w d hgd hg
    exact ⟨w1, h, noLayout_setSpacing fuel gid v w w1 hgd h⟩
  · intro button hb
    obtain ⟨w1, h⟩ := guarded_addButton_total fuel gid button w d hgd hg hb
    exact ⟨w1, h, noLayout_addButton fuel gid button w w1 hgd h⟩
  · intro t hl
    obtain ⟨w1, h⟩ := guarded_removeButton_total fuel gid t w d hgd hg hl
    exact ⟨w1, h, noLayout_removeButton fuel gid t w w1 hgd h⟩
  · intro button
    obtain ⟨w1, h⟩ := guarded_removeButtonPtr_total fuel gid button w d hgd hg
    exact ⟨w1, h, noLayout_removeButtonPtr fuel gid button w w1 hgd h⟩
  · intro f ops v v1 hv hrun
    exact (@runAll_inv (fun _ => True) (fun _ => True) (fun g => g = false) flagProperty_true
      trivial f ops v v1 (fun op _ => respects_true op)
      ⟨fun _ _ => trivial, fun _ _ _ => trivial, hv⟩ hrun).2.2

/-- C27 at the sample state `duringLayout`. -/
theorem C27_shared_guard_witness :
    (∀ gid, Private.updateLayout (0 + 1) gid duringLayout = .ok duringLayout) ∧
    (∀ gs, emit (Private.updateLayout (0 + 1)) gs duringLayout = .ok duringLayout) ∧
    (∀ gid d, duringLayout.groups[gid]? = some d →
      (∀ pos, ∃ w1, DecorationButtonGroup.setPos (0 + 1) gid pos duringLayout = .ok w1 ∧
        NoLayout duringLayout w1) ∧
      (∀ v, ∃ w1, DecorationButtonGroup.setSpacing (0 + 1) gid v duringLayout = .ok w1 ∧
        NoLayout duringLayout w1) ∧
      (∀ button, (duringLayout.data button).isSome = true →
        ∃ w1, DecorationButtonGroup.addButton (0 + 1) gid button duringLayout = .ok w1 ∧
          NoLayout duringLayout w1) ∧
      (∀ t, (∀ p ∈ d.buttons, (duringLayout.data p).isSome = true) →
        ∃ w1, DecorationButtonGroup.removeButton (0 + 1) gid t duringLayout = .ok w1 ∧
          NoLayout duringLayout w1) ∧
      (∀ button,
        ∃ w1, DecorationButtonGroup.removeButtonPtr (0 + 1) gid button duringLayout = .ok w1 ∧
          NoLayout duringLayout w1)) ∧
    (∀ (f : Nat) (ops : List Op) (v v1 : World), v.s_layoutRecursion = false →
      runAll f ops v = .ok v1 → v1.s_layoutRecursion = false) :=
  C27_shared_guard 0 duringLayout (by decide)

/-- C29 (amended). For a group whose member entries are distinct live buttons, with
integer-valued origin `(X, Y)`, non-negative integer spacing `S` and members of
non-negative width and height, all in the range of `int` (`|X|` plus the sum of
`|width| + |S|` over the visible members, and `|Y|`, are at most 2147483647): the
layout pass succeeds, the group keeps its origin, every visible member's rectangle
lies inside the group rectangle with its top edge on the group's, and a visible
member that comes before another one in the list ends at least one spacing before
the other one starts. -/
theorem C29_members_inside_and_ordered (fuel gid : Nat) (w : World)
    (d : DecorationButtonGroup.Private) (X Y S : Int)
    (h0 : w.s_layoutRecursion = false) (hg : w.groups[gid]? = some d)
    (hx : d.geometry.x = (X : qreal)) (hy : d.geometry.y = (Y : qreal))
    (hs : d.spacing = (S : qreal)) (hS : 0 ≤ S)
    (hl : ∀ p ∈ d.buttons, (w.data p).isSome = true) (hnd : d.buttons.Nodup)
    (hsz : ∀ p ∈ d.buttons, 0 ≤ (w.sizeOf p).width ∧ 0 ≤ (w.sizeOf p).height)
    (hr : |(X : qreal)| + layoutBudget w (S : qreal) d.buttons ≤ 2147483647)
    (hry : |(Y : qreal)| ≤ 2147483647) :
    ∃ w1 G, Private.updateLayout (fuel + 2) gid w = .ok w1 ∧
      DecorationButtonGroup.geometry gid w1 = .ok G ∧ G.x = (X : qreal) ∧ G.y = (Y : qreal) ∧
      InsideGroup w1 G d.buttons ∧ InListOrder w1 (S : qreal) d.buttons := by
  have hE : ExactLayout w (X : qreal) (S : qreal) d.buttons :=
    exactLayout_of_int w X S d.buttons hr
  obtain ⟨w1, h1, hL, _, _⟩ := updateLayout_laidOut fuel gid w d h0 hg hl
    (by rw [hx, hs]; exact hE)
  rw [hx, hy, hs] at hL
  have hsb : SameButtons w w1 := hL.2.2.2.1
  have hS1 : (0 : qreal) ≤ (S : qreal) := Int.cast_nonneg.mpr hS
  have hw : ∀ q ∈ d.buttons, w.isVisible q = true → 0 ≤ (w.sizeOf q).width :=
    fun q hq _ => (hsz q hq).1
  have hcast : ∀ q, ((qrealToInt ((X : qreal) + offsetBefore w (S : qreal) d.buttons q)
      : Int) : qreal) = (X : qreal) + offsetBefore w (S : qreal) d.buttons q :=
    fun q => placed_x_cast w X S d.buttons q (exactLayout_position hE q)
  refine ⟨w1, _, h1, hL.1, rfl, rfl, ?_, ?_⟩
  · intro p hp hv1 g hgm
    have hv : w.isVisible p = true := by rw [← sameButtons_isVisible hsb p]; exact hv1
    rw [laidOut_geometry hL hnd hl p hp hv] at hgm
    cases hgm
    refine ⟨?_, ?_, ?_, ?_⟩
    · show (X : qreal) ≤ ((qrealToInt ((X : qreal) + offsetBefore w (S : qreal) d.buttons p)
        : Int) : qreal)
      rw [hcast]
      linarith [offsetBefore_nonneg w (S : qreal) hS1 p d.buttons hw]
    · show ((qrealToInt ((X : qreal) + offsetBefore w (S : qreal) d.buttons p) : Int) : qreal)
        + ((w.sizeOf p).width : qreal) ≤ (X : qreal) + layoutWidth w (S : qreal) d.buttons
      rw [hcast]
      linarith [offsetBefore_add_width_le w (S : qreal) hS1 p d.buttons hw hp hv]
    · show ((qrealToInt (Y : qreal) : Int) : qreal) = (Y : qreal)
      rw [qrealToInt_intCast _ hry]
    · exact height_le_layoutHeight w p d.buttons hp hv
  · intro k n a b hka hkb ga gb hga hgb
    have hfil : d.buttons.filter w1.isVisible = d.buttons.filter w.isVisible :=
      List.filter_congr (fun q _ => sameButtons_isVisible hsb q)
    rw [hfil] at hka hkb
    have hma := List.mem_filter.mp (List.getElem?_mem hka)
    have hmb := List.mem_filter.mp (List.getElem?_mem hkb)
    rw [laidOut_geometry hL hnd hl a hma.1 hma.2] at hga
    rw [laidOut_geometry hL hnd hl b hmb.1 hmb.2] at hgb
    cases hga
    cases hgb
    have hle := sum_take_succ_add_le (fun q => ((w.sizeOf q).width : qreal) + (S : qreal))
      (d.buttons.filter w.isVisible)
      (fun q hq => by
        have hm := List.mem_filter.mp hq
        have h1 : (0 : qreal) ≤ ((w.sizeOf q).width : qreal) :=
          Int.cast_nonneg.mpr (hw q hm.1 hm.2)
        show (0 : qreal) ≤ ((w.sizeOf q).width : qreal) + (S : qreal)
        linarith)
      k n a hka
    rw [← offsetBefore_filter_getElem w (S : qreal) d.buttons hnd k a hka,
      ← offsetBefore_filter_getElem w (S : qreal) d.buttons hnd (k + 1 + n) b hkb] at hle
    show ((qrealToInt ((X : qreal) + offsetBefore w (S : qreal) d.buttons a) : Int) : qreal)
        + ((w.sizeOf a).width : qreal) + (S : qreal)
      ≤ ((qrealToInt ((X : qreal) + offsetBefore w (S : qreal) d.buttons b) : Int) : qreal)
    rw [hcast, hcast]
    simp only at hle
    linarith

/-- C29 (amended) at the sample state `threeButtons`. -/
theorem C29_members_inside_and_ordered_witness :
    ∃ w1 G, Private.updateLayout (0 + 2) 0 threeButtons = .ok w1 ∧
      DecorationButtonGroup.geometry 0 w1 = .ok G ∧ G.x = ((0 : Int) : qreal) ∧
      G.y = ((0 : Int) : qreal) ∧
      InsideGroup w1 G threeButtonsGroup.buttons ∧
      InListOrder w1 ((2 : Int) : qreal) threeButtonsGroup.buttons :=
  C29_members_inside_and_ordered 0 0 threeButtons threeButtonsGroup 0 0 2 (by decide)
    (by decide) (by decide!) (by decide!) (by decide!) (by decide) (by decide) (by decide)
    (by decide) (by decide!) (by decide!)

/-- C29 as stated fails when a button occurs twice in the member list: for the list
`[a, b, a]` (a 10x5, b 20x8, both visible, spacing 2, origin (0, 0)) the pass leaves
`a` at x = 34 and `b` at x = 12, so the first visible entry does not end before the
second one starts.  It also fails beyond the range of `int`: with the x origin
3000000000 (state `farOrigin`) no member can sit at or right of the origin, the
conversion to `int` leaves the first one at x = -2147483648. -/
theorem C29_repeated_entry_counterexample :
    (¬ ∃ w1, Private.updateLayout 2 0 repeatedEntry = .ok w1 ∧
      InListOrder w1 2 [0, 1, 0]) ∧
    (¬ ∃ w1 G, Private.updateLayout 2 0 farOrigin = .ok w1 ∧
      DecorationButtonGroup.geometry 0 w1 = .ok G ∧ InsideGroup w1 G [0, 1, 2]) := by
  constructor
  · rintro ⟨w1, h1, hp⟩
    have hw : Private.updateLayout 2 0 repeatedEntry
        = .ok (stateOr (Private.updateLayout 2 0 repeatedEntry) repeatedEntry) := by decide!
    rw [hw] at h1
    cases h1
    have h := hp 0 0 0 1 (by decide!) (by decide!)
      { x := 34, y := 0, width := 10, height := 5 } { x := 12, y := 0, width := 20, height := 8 }
      (by decide!) (by decide!)
    revert h
    norm_num
  · rintro ⟨w1, G, h1, hG, hin⟩
    have hw : Private.updateLayout 2 0 farOrigin = .ok farOriginLaidOut := by decide!
    rw [hw] at h1
    cases h1
    have hG1 : DecorationButtonGroup.geometry 0 farOriginLaidOut
        = .ok { x := 3000000000, y := 0, width := 34, height := 5 } := by decide!
    rw [hG1] at hG
    cases hG
    have h := (hin 0 (by simp) (by decide!)
      { x := -2147483648, y := 0, width := 10, height := 5 } (by decide!)).1
    revert h
    norm_num

/-- C30 (amended). For a group whose member entries are distinct live buttons, with
origin `(x0, y0)` and spacing in the exact range (`x0` and the spacing multiples of
`2 ^ (-20)`; `|x0|` plus the sum of `|width| + |spacing|` over the visible members,
and `|y0|`, at most 2147483647): the layout pass succeeds and afterwards the `k`-th
visible member has x = trunc(x0 + sum over the visible members before it of
(width + spacing)) and y = trunc(y0), with the size it reported before the pass,
while the group keeps its origin and gets the untruncated width computed by the
sizing loop. -/
theorem C30_positions_truncated (fuel gid : Nat) (w : World)
    (d : DecorationButtonGroup.Private)
    (h0 : w.s_layoutRecursion = false) (hg : w.groups[gid]? = some d)
    (hl : ∀ p ∈ d.buttons, (w.data p).isSome = true) (hnd : d.buttons.Nodup)
    (hE : ExactLayout w d.geometry.x d.spacing d.buttons)
    (hry : |d.geometry.y| ≤ 2147483647) :
    ∃ w1 G, Private.updateLayout (fuel + 2) gid w = .ok w1 ∧
      PlacedTruncated w w1 d.buttons d.geometry.x d.geometry.y d.spacing ∧
      DecorationButtonGroup.geometry gid w1 = .ok G ∧
      G.x = d.geometry.x ∧ G.y = d.geometry.y ∧
      G.width = layoutWidth w d.spacing d.buttons := by
  obtain ⟨w1, h1, hL, _, _⟩ := updateLayout_laidOut fuel gid w d h0 hg hl hE
  refine ⟨w1, _, h1, ?_, hL.1, rfl, rfl, rfl⟩
  intro k p hk
  have hmem := List.mem_filter.mp (List.getElem?_mem hk)
  rw [laidOut_geometry hL hnd hl p hmem.1 hmem.2,
    qrealToInt_eq_truncate _ (exactLayout_position hE p), qrealToInt_eq_truncate _ hry,
    offsetBefore_filter_getElem w d.spacing d.buttons hnd k p hk]

/-- C30 (amended) at the sample state `halfSpacing`: spacing 1/2 and three visible
members of width 10 at origin (0, 0); the pass places them at x = 0, 10 and 21, and
the group width is 31. -/
theorem C30_positions_truncated_witness :
    (∃ w1 G, Private.updateLayout (0 + 2) 0 halfSpacing = .ok w1 ∧
      PlacedTruncated halfSpacing w1 halfSpacingGroup.buttons halfSpacingGroup.geometry.x
        halfSpacingGroup.geometry.y halfSpacingGroup.spacing ∧
      DecorationButtonGroup.geometry 0 w1 = .ok G ∧
      G.x = halfSpacingGroup.geometry.x ∧ G.y = halfSpacingGroup.geometry.y ∧
      G.width = layoutWidth halfSpacing halfSpacingGroup.spacing halfSpacingGroup.buttons) ∧
    Private.updateLayout (0 + 2) 0 halfSpacing = .ok halfSpacingLaidOut ∧
    (halfSpacingLaidOut.data 0).map (fun b => b.geometry.x) = some 0 ∧
    (halfSpacingLaidOut.data 1).map (fun b => b.geometry.x) = some 10 ∧
    (halfSpacingLaidOut.data 2).map (fun b => b.geometry.x) = some 21 ∧
    layoutWidth halfSpacing halfSpacingGroup.spacing halfSpacingGroup.buttons = 31 :=
  ⟨C30_positions_truncated 0 0 halfSpacing halfSpacingGroup (by decide) (by decide!)
    (by decide) (by decide) ⟨by decide!, by decide!, by decide!⟩ (by decide!),
    by decide!, by decide!, by decide!, by decide!, by decide!⟩

/-- C30 as stated fails for values off the exact range, because every addition of the
running position is rounded to a double.  In the state `roundedSpacing` (origin x the
double 0.4, spacing the double 0.2, four visible 10x5 buttons) the exact running
position of the fourth member is a little above 31, but the additions round it to
30.999999999999996, so the member is placed at x = 30, not at x = 31; and the group
width is 40.599999999999994, below the exact sum.  It also fails when the same button
has been added twice: for the member list `[b, b]` (spacing 2, origin (0, 0)) the
first visible member should end up at x = trunc(0) = 0, but the pass leaves the
button at x = 12. -/
theorem C30_rounding_counterexample :
    (¬ ∃ w1, Private.updateLayout 2 0 roundedSpacing = .ok w1 ∧
      PlacedTruncated roundedSpacing w1 [0, 1, 2, 3] roundedSpacingGroup.geometry.x 0
        roundedSpacingGroup.spacing) ∧
    Private.updateLayout 2 0 roundedSpacing = .ok roundedSpacingLaidOut ∧
    (roundedSpacingLaidOut.data 3).map (fun b => b.geometry.x) = some 30 ∧
    truncate (roundedSpacingGroup.geometry.x + 3 * (10 + roundedSpacingGroup.spacing)) = 31 ∧
    roundedSpacingLaidOut.groups.map (fun g => g.geometry.width)
      = [1428485506806579 / 35184372088832] ∧
    (1428485506806579 / 35184372088832 : qreal)
      < layoutWidth roundedSpacing roundedSpacingGroup.spacing [0, 1, 2, 3] ∧
    (¬ ∃ w1, Private.updateLayout 2 0 duplicateEntry = .ok w1 ∧
      PlacedTruncated duplicateEntry w1 [0, 0] 0 0 2) := by
  refine ⟨?_, by decide!, by decide!, by decide!, by decide!, by decide!, ?_⟩
  · rintro ⟨w1, h1, hp⟩
    have hw : Private.updateLayout 2 0 roundedSpacing = .ok roundedSpacingLaidOut := by decide!
    rw [hw] at h1
    cases h1
    have h := hp 3 3 (by decide!)
    revert h
    decide!
  · rintro ⟨w1, h1, hp⟩
    have hw : Private.updateLayout 2 0 duplicateEntry = .ok duplicateEntryLaidOut := by decide!
    rw [hw] at h1
    cases h1
    have h := hp 0 0 (by decide)
    have f : (duplicateEntryLaidOut.data 0).map (fun b => b.geometry)
        = some { x := 12, y := 0, width := 10, height := 5 } := by decide!
    rw [f] at h
    revert h
    decide!

end KDecoration2
